import Mathlib

/-!
Yash: job specifications, the line editor and the trap table.

A shallow embedding of parts of `builtin.c`, `lineedit/editing.c` and `sig.c`.

Conventions of the embedding.

* A C string (`char *` or `wchar_t *`) is the list of its characters before the
  terminating NUL; a null pointer is `none`.
* `int` is 32 bits wide, `long` and `size_t` are 64 bits wide; a conversion or
  an arithmetic step that can leave the range is written out with `to_int` or
  `% SIZE_MOD`.
* Library calls the program makes (`strtol`, `strncmp`) are modelled after the
  C standard.
-/

namespace Yash

/-! ## builtin.c: parse_jobspec -/

/-- Conversion of a `long` to `int`: the value is reduced modulo 2^32 into the
range of a 32-bit two's complement integer. -/
def to_int (v : Int) : Int := (v + 2147483648) % 4294967296 - 2147483648

/-- Largest value of `long`. -/
def LONG_MAX : Int := 9223372036854775807

/-- Smallest value of `long`. -/
def LONG_MIN : Int := -9223372036854775808

/-- The C locale's `isspace`. -/
def isspace (c : Char) : Bool :=
  c = ' ' || c = '\t' || c = '\n' || c = '\x0b' || c = '\x0c' || c = '\r'

/-- The C locale's `isdigit`. -/
def isdigit (c : Char) : Bool := decide ('0' ≤ c) && decide (c ≤ '9')

/-- Value of a run of decimal digits, most significant digit first. -/
def decimal_value (ds : List Char) : Nat :=
  ds.foldl (fun acc c => 10 * acc + (c.toNat - '0'.toNat)) 0

/-- What `strtol(str, &strend, 10)` leaves behind: the returned value, the
string `strend` points at, and whether `errno` was set (to `ERANGE`). -/
structure StrtolResult where
  value : Int
  strend : List Char
  erange : Bool
deriving DecidableEq, Repr

/-- The library function `strtol` in base 10: optional white space, an optional
sign, then decimal digits.  Without a digit nothing is converted: the value is 0
and `strend` is `str` itself.  A value outside `long` is clamped and reported
through `errno`. -/
def strtol (str : List Char) : StrtolResult :=
  let s1 := str.dropWhile isspace
  let neg := s1.head? = some '-'
  let s2 := if s1.head? = some '-' ∨ s1.head? = some '+' then s1.tail else s1
  let ds := s2.takeWhile isdigit
  let rest := s2.dropWhile isdigit
  if ds = [] then ⟨0, str, false⟩
  else
    let v : Int := if neg then -(decimal_value ds : Int) else (decimal_value ds : Int)
    if v > LONG_MAX then ⟨LONG_MAX, rest, true⟩
    else if v < LONG_MIN then ⟨LONG_MIN, rest, true⟩
    else ⟨v, rest, false⟩

/-- The library function `strncmp`: compares at most `n` characters, the end
of a string counting as the NUL character.  The C standard fixes only the sign
of the result, which is what is returned here. -/
def strncmp : List Char → List Char → Nat → Int
  | _, _, 0 => 0
  | [], [], _ + 1 => 0
  | [], _ :: _, _ + 1 => -1
  | _ :: _, [], _ + 1 => 1
  | a :: as, b :: bs, n + 1 =>
    if a = b then strncmp as bs n else if a < b then -1 else 1

/-- The values of the field `j_status` of `JOB` that `builtin.c` names. -/
inductive JobStatus where
  | JS_RUNNING | JS_STOPPED | JS_DONE
deriving DecidableEq, Repr

/-- The fields of `JOB` that job specifications look at, the processes of the
job, and the status and the flag bits `builtin_disown` looks at. -/
structure JOB where
  j_pgid : Nat
  j_pids : List Nat
  j_name : List Char
  j_status : JobStatus := JobStatus.JS_RUNNING
  j_flags : Nat := 0
deriving DecidableEq, Repr

/-- The job table: `joblist` holds one slot per job number below
`joblist.length`, an empty slot being a null pointer, and `currentjobnumber`
is the number of the current job.  Job numbers are `int` in `parse_jobspec`,
so the table has fewer than 2^31 slots. -/
structure JobTable where
  joblist : List (Option JOB)
  currentjobnumber : Nat
  length_lt : joblist.length < 2147483648

/-- Modelled from the spec: `get_job` is declared in `exec.h` and defined
outside the given sources.  The spec indexes jobs by 1-based job number and
`get(index)` yields the job or nothing, so number 0 and numbers at or beyond
`joblist.length` name no job. -/
def get_job (jt : JobTable) (n : Nat) : Option JOB :=
  if n = 0 then none else (jt.joblist.getD n none)

/-- Modelled from the spec: `get_by_pid(pid)`, the number of the job that
contains process `pid`.  The given sources never define or call it. -/
def get_by_pid (jt : JobTable) (pid : Nat) : Option Nat :=
  (List.range jt.joblist.length).find? fun i =>
    match get_job jt i with
    | some job => decide (pid ∈ job.j_pids)
    | none => false

/-- The loop at the end of `parse_jobspec` over the job numbers still to be
visited, `jobnumber` being the match found so far (0 for none). -/
def parse_jobspec_loop (jt : JobTable) (str : List Char) : List Nat → Int → Int
  | [], jobnumber => if jobnumber = 0 then -2 else jobnumber
  | i :: rest, jobnumber =>
    match get_job jt i with
    | some job =>
      if strncmp str job.j_name str.length = 0 then
        if jobnumber = 0 then parse_jobspec_loop jt str rest (i : Int)
        else -3
      else parse_jobspec_loop jt str rest jobnumber
    | none => parse_jobspec_loop jt str rest jobnumber

/-- The job numbers `1 .. joblist.length - 1` the loop visits, in order. -/
def job_indices (jt : JobTable) : List Nat := (List.range jt.joblist.length).tail

/-- The part of `parse_jobspec` after a leading percent sign has been dropped. -/
def parse_jobspec_body (jt : JobTable) (str : List Char) : Int :=
  if str = [] then -1
  else
    let r := strtol str
    let jobnumber := to_int r.value
    if r.erange then -2
    else if str ≠ r.strend ∧ r.strend = [] ∧ 0 < jobnumber then
      if (get_job jt jobnumber.toNat).isSome then jobnumber else -2
    else parse_jobspec_loop jt str (job_indices jt) 0

/-- Embedding of `parse_jobspec`: the job number `str` names, or -1 (invalid
syntax), -2 (no such job), -3 (ambiguous). -/
def parse_jobspec (jt : JobTable) (str : List Char) (forcePercent : Bool) : Int :=
  if str.head? = some '%' then
    if str.tail = [] then
      if (get_job jt jt.currentjobnumber).isSome then to_int jt.currentjobnumber
      else -2
    else parse_jobspec_body jt str.tail
  else if forcePercent then -1
  else parse_jobspec_body jt str

/-- The job numbers whose job name has `name` as a prefix, in increasing
order: the specification's "match as prefix against job names". -/
def name_matches (jt : JobTable) (name : List Char) : List Nat :=
  (job_indices jt).filter fun i =>
    match get_job jt i with
    | some job => name.isPrefixOf job.j_name
    | none => false

/-- Outcome of a lookup by name prefix: no match is -2, one match is that job
number, more matches are -3. -/
def match_outcome (matches_ : List Nat) : Int :=
  match matches_ with
  | [] => -2
  | [i] => (i : Int)
  | _ :: _ :: _ => -3

/-- Whether `strtol` reads the whole of `name` as a number whose `int` value
is positive, which is when `parse_jobspec` takes `name` for a job number. -/
def reads_as_jobnumber (name : List Char) : Bool :=
  decide (name ≠ (strtol name).strend) && decide ((strtol name).strend = [])
    && decide (0 < to_int (strtol name).value)

/-- A small job table for examples: job 1 is `sleep 30` with process 4242,
job 2 is named ` 1 foo`, and job 1 is the current job. -/
def sample_jobs : JobTable :=
  { joblist := [none,
      some { j_pgid := 4242, j_pids := [4242], j_name := "sleep 30".toList },
      some { j_pgid := 4250, j_pids := [4250, 4251], j_name := " 1 foo".toList }]
    currentjobnumber := 1
    length_lt := by decide }

/-- A job table whose only job is named `99999999999999999999x`. -/
def overflow_jobs : JobTable :=
  { joblist := [none,
      some { j_pgid := 7, j_pids := [7], j_name := "99999999999999999999x".toList }]
    currentjobnumber := 1
    length_lt := by decide }

/-! ## lineedit/editing.c: the editor state -/

/-- Number of values of `size_t`. -/
def SIZE_MOD : Nat := 18446744073709551616

/-- The constant `SIZE_MAX`. -/
def SIZE_MAX : Nat := 18446744073709551615

/-- Subtraction of `size_t` values, wrapping around below zero. -/
def size_sub (a b : Nat) : Nat := (a + SIZE_MOD - b % SIZE_MOD) % SIZE_MOD

/-- The constant `COUNT_ABS_MAX`. -/
def COUNT_ABS_MAX : Nat := 999999999

/-- The constant `KILL_RING_SIZE`. -/
def KILL_RING_SIZE : Nat := 32

/-- The NUL wide character. -/
def NUL : Char := Char.ofNat 0

/-- The functions a `le_command_func_T` pointer can point at, as far as the
editor compares or stores such pointers. -/
inductive Cmd where
  | cmd_noop | cmd_alert | cmd_self_insert | cmd_digit_argument | cmd_bol_or_digit
  | cmd_setmode_viinsert | cmd_setmode_vicommand | cmd_expect_char
  | cmd_forward_char | cmd_backward_char | cmd_beginning_of_line | cmd_end_of_line
  | cmd_delete_char | cmd_backward_delete_char | cmd_delete_line
  | cmd_forward_delete_line | cmd_backward_delete_line
  | cmd_kill_char | cmd_backward_kill_char | cmd_backward_kill_line
  | cmd_put_before | cmd_put | cmd_put_left | cmd_put_pop
  | cmd_undo | cmd_undo_all | cmd_cancel_undo | cmd_cancel_undo_all | cmd_redo
  | cmd_vi_column | cmd_vi_refind | cmd_vi_refind_rev
  | cmd_vi_yank | cmd_vi_delete | cmd_vi_change | cmd_vi_yank_and_change
  | vi_find | vi_find_rev | vi_till | vi_till_rev | vi_replace_char | vi_exec_alias
deriving DecidableEq, Repr

/-- The editing modes `le_current_mode` can point at. -/
inductive LeMode where
  | LE_MODE_VI_INSERT | LE_MODE_VI_COMMAND | LE_MODE_VI_EXPECT | LE_MODE_VI_SEARCH
  | LE_MODE_EMACS
deriving DecidableEq, Repr

/-- The type `enum motion_expect_command`. -/
inductive MEC where
  | MEC_NONE | MEC_COPY | MEC_KILL | MEC_CHANGE | MEC_COPYCHANGE
deriving DecidableEq, Repr

/-- The member `count` of `struct state`: `sign` is 0 while no count is set and
1 or -1 otherwise. -/
structure Count where
  sign : Int
  abs : Nat
  multiplier : Int
deriving DecidableEq, Repr

/-- The type `struct state`, the keymap state. -/
structure KeymapState where
  count : Count
  pending_command_motion : MEC
  pending_command_char : Option Cmd
deriving DecidableEq, Repr

/-- The type `struct command`; a null `func` is `none`. -/
structure Command where
  func : Option Cmd
  arg : Char
deriving DecidableEq, Repr

/-- The type `struct undo_history`: a saved cursor index and line. -/
structure UndoEntry where
  index : Nat
  contents : List Char
deriving DecidableEq, Repr

/-- The variables of `editing.c` (and `le_current_mode` of `keymap.c`).  History
entries are known by number, `Histlist` being 0.  `alerts` counts the calls of
`le_alert`, and `assert_failed` records that the condition of an `assert` was
false (execution then goes on as in a build without assertions).
`last_success` is the static variable of `cmd_put_pop`. -/
structure EditState where
  le_main_buffer : List Char
  le_main_index : Nat
  main_history_entry : Nat
  main_history_value : List Char
  last_command : Command
  current_command : Command
  state : KeymapState
  last_edit_command : Command × KeymapState
  last_find_command : Command
  overwrite : Bool
  undo_history : List UndoEntry
  undo_index : Nat
  undo_history_entry : Nat
  undo_save_index : Nat
  kill_ring : Nat → Option (List Char)
  next_kill_index : Nat
  last_put_elem : Nat
  last_put_range_start : Nat
  last_put_range_length : Nat
  le_current_mode : LeMode
  alerts : Nat
  assert_failed : Bool
  last_success : Bool

/-- The sentinel `Histlist`. -/
def Histlist : Nat := 0

/-- The macro `assert`. -/
def c_assert (cond : Bool) (s : EditState) : EditState :=
  if cond then s else { s with assert_failed := true }

/-- Modelled from the spec: `wb_remove(buf, i, n)` of `strbuf.c` removes `n`
characters at position `i` of the buffer, or all from `i` on when fewer
remain. -/
def wb_remove (buf : List Char) (i n : Nat) : List Char := buf.take i ++ buf.drop (i + n)

/-- Modelled from the spec: `wb_insert(buf, i, s)` of `strbuf.c` inserts the
string `s` before position `i` of the buffer. -/
def wb_insert (buf : List Char) (i : Nat) (s : List Char) : List Char :=
  buf.take i ++ s ++ buf.drop i

/-- Modelled from the spec: `le_set_mode(id)` of `keymap.c` makes
`le_current_mode` point at mode `id`. -/
def le_set_mode (m : LeMode) (s : EditState) : EditState := { s with le_current_mode := m }

/-- The keymap state `reset_state` installs. -/
def initial_keymap_state : KeymapState :=
  { count := { sign := 0, abs := 0, multiplier := 1 }
    pending_command_motion := MEC.MEC_NONE
    pending_command_char := none }

/-- Embedding of `reset_state`. -/
def reset_state (s : EditState) : EditState := { s with state := initial_keymap_state }

/-- Embedding of `get_count` on the count of a keymap state.  The product is
formed in `long long`, which it cannot leave for an `unsigned abs`, a sign in
-1..1 and an `int` multiplier. -/
def count_value (c : Count) (default_value : Int) : Int :=
  let result : Int :=
    if c.sign = 0 then default_value * c.multiplier
    else if c.sign < 0 ∧ c.abs = 0 then -c.multiplier
    else (c.abs : Int) * c.sign * c.multiplier
  if result < -(COUNT_ABS_MAX : Int) then -(COUNT_ABS_MAX : Int)
  else if result > (COUNT_ABS_MAX : Int) then (COUNT_ABS_MAX : Int)
  else result

/-- Embedding of `get_count`. -/
def get_count (s : EditState) (default_value : Int) : Int :=
  count_value s.state.count default_value

/-- Embedding of `cmd_alert`. -/
def cmd_alert (s : EditState) : EditState := reset_state { s with alerts := s.alerts + 1 }

/-- Embedding of `save_current_edit_command`. -/
def save_current_edit_command (s : EditState) : EditState :=
  if s.current_command.func ≠ some Cmd.cmd_redo ∧ s.le_current_mode ≠ LeMode.LE_MODE_VI_INSERT
  then { s with last_edit_command := (s.current_command, s.state) }
  else s

/-- Embedding of `save_undo_history`: the snapshots from `undo_index` on are
dropped and the current line is appended. -/
def save_undo_history (s : EditState) : EditState :=
  let h := s.undo_history.take s.undo_index ++ [⟨s.le_main_index, s.le_main_buffer⟩]
  c_assert (decide (s.undo_index = h.length - 1))
    { s with undo_history := h, undo_history_entry := s.main_history_entry }

/-- Embedding of `maybe_save_undo_history`. -/
def maybe_save_undo_history (s : EditState) : EditState :=
  let s := c_assert (decide (s.undo_index ≤ s.undo_history.length)) s
  let save_undo_save_index := s.undo_save_index
  let s := { s with undo_save_index := s.le_main_index }
  if s.undo_history_entry = s.main_history_entry then
    if s.undo_index < s.undo_history.length then
      let h := s.undo_history.getD s.undo_index ⟨0, []⟩
      if s.le_main_buffer = h.contents then
        { s with undo_history := s.undo_history.set s.undo_index ⟨s.le_main_index, h.contents⟩ }
      else save_undo_history { s with undo_index := s.undo_index + 1 }
    else save_undo_history s
  else
    if s.le_main_buffer = s.main_history_value then s
    else
      let s := c_assert (decide (save_undo_save_index ≤ s.main_history_value.length)) s
      save_undo_history
        { s with undo_history := [⟨save_undo_save_index, s.main_history_value⟩], undo_index := 1 }

/-- Embedding of `add_to_kill_ring(s, n)`, `str` being the string `s` points
at: its first `n` characters are stored unless `n` is 0 or `str` is empty. -/
def add_to_kill_ring (str : List Char) (n : Nat) (s : EditState) : EditState :=
  if 0 < n ∧ str ≠ [] then
    { s with
      kill_ring := Function.update s.kill_ring s.next_kill_index (some (str.take n))
      next_kill_index := (s.next_kill_index + 1) % KILL_RING_SIZE }
  else s

/-- Embedding of `exec_motion_command`. -/
def exec_motion_command (index : Nat) (inclusive : Bool) (s : EditState) : EditState :=
  let s := c_assert (decide (index ≤ s.le_main_buffer.length)) s
  let s := maybe_save_undo_history s
  let start_index := if s.le_main_index ≤ index then s.le_main_index else index
  let end_index0 := if s.le_main_index ≤ index then index else s.le_main_index
  let end_index :=
    if inclusive ∧ end_index0 < s.le_main_buffer.length then end_index0 + 1 else end_index0
  let s :=
    match s.state.pending_command_motion with
    | MEC.MEC_NONE => { s with le_main_index := index }
    | MEC.MEC_COPY =>
      add_to_kill_ring (s.le_main_buffer.drop start_index) (end_index - start_index) s
    | MEC.MEC_KILL =>
      let s := save_current_edit_command s
      let s := add_to_kill_ring (s.le_main_buffer.drop start_index) (end_index - start_index) s
      { s with
        le_main_buffer := wb_remove s.le_main_buffer start_index (end_index - start_index)
        le_main_index := start_index }
    | MEC.MEC_COPYCHANGE =>
      let s := add_to_kill_ring (s.le_main_buffer.drop start_index) (end_index - start_index) s
      let s := save_current_edit_command s
      let s := { s with
        le_main_buffer := wb_remove s.le_main_buffer start_index (end_index - start_index)
        le_main_index := start_index }
      { le_set_mode LeMode.LE_MODE_VI_INSERT s with overwrite := false }
    | MEC.MEC_CHANGE =>
      let s := save_current_edit_command s
      let s := { s with
        le_main_buffer := wb_remove s.le_main_buffer start_index (end_index - start_index)
        le_main_index := start_index }
      { le_set_mode LeMode.LE_MODE_VI_INSERT s with overwrite := false }
  reset_state s

/-- The macro `ALERT_AND_RETURN_IF_PENDING` followed by the rest `body` of the
command. -/
def alert_and_return_if_pending (body : EditState → EditState) (s : EditState) : EditState :=
  if s.state.pending_command_motion ≠ MEC.MEC_NONE then cmd_alert s else body s

/-- One round of the loop of `cmd_self_insert`: the character is written over
the one under the cursor or inserted before it, and the cursor advances; the
increment `le_main_index++` of a `size_t` wraps around at `SIZE_MAX`. -/
def self_insert_step (c : Char) (s : EditState) : EditState :=
  if s.overwrite ∧ s.le_main_index < s.le_main_buffer.length then
    { s with
      le_main_buffer := s.le_main_buffer.set s.le_main_index c
      le_main_index := (s.le_main_index + 1) % SIZE_MOD }
  else
    { s with
      le_main_buffer := wb_insert s.le_main_buffer s.le_main_index [c]
      le_main_index := (s.le_main_index + 1) % SIZE_MOD }

/-- Embedding of `cmd_self_insert`. -/
def cmd_self_insert (c : Char) (s : EditState) : EditState :=
  alert_and_return_if_pending (fun s =>
    if c ≠ NUL then
      reset_state (Nat.iterate (self_insert_step c) (get_count s 1).toNat s)
    else cmd_alert s) s

/-- Embedding of `cmd_digit_argument`. -/
def cmd_digit_argument (c : Char) (s : EditState) : EditState :=
  if '0' ≤ c ∧ c ≤ '9' then
    if s.state.count.abs > COUNT_ABS_MAX / 10 then cmd_alert s
    else
      { s with state := { s.state with count := { s.state.count with
          sign := if s.state.count.sign = 0 then 1 else s.state.count.sign
          abs := s.state.count.abs * 10 + (c.toNat - '0'.toNat) } } }
  else if c = '-' then
    { s with state := { s.state with count := { s.state.count with
        sign := if s.state.count.sign = 0 then -1 else -s.state.count.sign } } }
  else s

/-- Embedding of `insert_killed_string`; `clear` only steers the display. -/
def insert_killed_string (after_cursor cursor_on_last_char : Bool) (index : Nat)
    (_clear : Bool) (s : EditState) : EditState :=
  match s.kill_ring index with
  | none => s
  | some str =>
    let s := { s with last_put_elem := index }
    let s :=
      if after_cursor ∧ s.le_main_index < s.le_main_buffer.length then
        { s with le_main_index := s.le_main_index + 1 }
      else s
    let offset := size_sub s.le_main_buffer.length s.le_main_index
    let s := { s with
      le_main_buffer :=
        Nat.iterate (fun b => wb_insert b s.le_main_index str) (get_count s 1).toNat
          s.le_main_buffer }
    let s := c_assert (decide (s.le_main_buffer.length ≥ (offset + 1) % SIZE_MOD)) s
    let s := { s with last_put_range_start := s.le_main_index }
    let s := { s with le_main_index := size_sub s.le_main_buffer.length offset }
    let s := { s with last_put_range_length := size_sub s.le_main_index s.last_put_range_start }
    let s := if cursor_on_last_char then { s with le_main_index := size_sub s.le_main_index 1 }
      else s
    reset_state s

/-- Embedding of `put_killed_string`. -/
def put_killed_string (after_cursor cursor_on_last_char : Bool) (s : EditState) : EditState :=
  alert_and_return_if_pending (fun s =>
    let s := save_current_edit_command s
    let s := maybe_save_undo_history s
    let index := size_sub s.next_kill_index 1 % KILL_RING_SIZE
    if s.kill_ring index = none then cmd_alert s
    else insert_killed_string after_cursor cursor_on_last_char index false s) s

/-- Embedding of `cmd_backward_kill_line`. -/
def cmd_backward_kill_line (_c : Char) (s : EditState) : EditState :=
  if s.current_command.func ≠ some Cmd.cmd_redo ∧
      s.state.pending_command_motion ≠ MEC.MEC_NONE then cmd_alert s
  else
    exec_motion_command 0 false
      { s with state := { s.state with pending_command_motion := MEC.MEC_KILL } }

/-- Embedding of `cmd_put_before`. -/
def cmd_put_before (_c : Char) (s : EditState) : EditState := put_killed_string false true s

/-- Embedding of `cmd_put`. -/
def cmd_put (_c : Char) (s : EditState) : EditState := put_killed_string true true s

/-- Embedding of `cmd_put_left`. -/
def cmd_put_left (_c : Char) (s : EditState) : EditState := put_killed_string false false s

/-- The end of `cancel_undo`: snapshot `undo_index` becomes the edit line. -/
def restore_undo_entry (undo_index : Nat) (s : EditState) : EditState :=
  let s := { s with undo_index := undo_index }
  let entry := s.undo_history.getD s.undo_index ⟨0, []⟩
  let s := { s with le_main_buffer := entry.contents }
  let s := c_assert (decide (entry.index ≤ s.le_main_buffer.length)) s
  reset_state { s with le_main_index := entry.index }

/-- Embedding of `cancel_undo`. -/
def cancel_undo (offset : Int) (s : EditState) : EditState :=
  let s := maybe_save_undo_history s
  if offset < 0 then
    if s.undo_index = 0 then cmd_alert s
    else if (-offset).toNat > s.undo_index then restore_undo_entry 0 s
    else restore_undo_entry (s.undo_index - (-offset).toNat) s
  else
    if s.undo_index + 1 ≥ s.undo_history.length then cmd_alert s
    else if offset.toNat ≥ s.undo_history.length - s.undo_index then
      restore_undo_entry (s.undo_history.length - 1) s
    else restore_undo_entry (s.undo_index + offset.toNat) s

/-- Embedding of `cmd_undo`. -/
def cmd_undo (_c : Char) (s : EditState) : EditState := cancel_undo (-get_count s 1) s

/-- Embedding of `cmd_cancel_undo`. -/
def cmd_cancel_undo (_c : Char) (s : EditState) : EditState := cancel_undo (get_count s 1) s

/-- The editor variables as the program starts: static storage is zeroed, and
the initialisers of `overwrite`, `next_kill_index` and `last_put_elem` say the
same. -/
def startup_state : EditState :=
  { le_main_buffer := [], le_main_index := 0, main_history_entry := Histlist
    main_history_value := [], last_command := ⟨none, NUL⟩, current_command := ⟨none, NUL⟩
    state := ⟨⟨0, 0, 0⟩, MEC.MEC_NONE, none⟩
    last_edit_command := (⟨none, NUL⟩, ⟨⟨0, 0, 0⟩, MEC.MEC_NONE, none⟩)
    last_find_command := ⟨none, NUL⟩, overwrite := false, undo_history := [], undo_index := 0
    undo_history_entry := Histlist, undo_save_index := 0, kill_ring := fun _ => none
    next_kill_index := 0, last_put_elem := 0, last_put_range_start := 0
    last_put_range_length := 0, le_current_mode := LeMode.LE_MODE_VI_INSERT, alerts := 0
    assert_failed := false, last_success := false }

/-- Embedding of `le_editing_init`; `vi` tells whether `shopt_lineedit` is
`shopt_vi` rather than `shopt_emacs`. -/
def le_editing_init (vi : Bool) (s : EditState) : EditState :=
  let s := { s with
    le_main_buffer := [], le_main_index := 0, main_history_entry := Histlist
    main_history_value := [] }
  let s := le_set_mode (if vi then LeMode.LE_MODE_VI_INSERT else LeMode.LE_MODE_EMACS) s
  let s := { s with last_command := ⟨none, NUL⟩ }
  let s := { s with
    undo_history := [], undo_index := 0, undo_save_index := s.le_main_index
    undo_history_entry := Histlist }
  let s := save_undo_history s
  { reset_state s with overwrite := false }

/-- Embedding of `le_invoke_command(cmd, arg)`: the function pointer `cmd` is
given by its name `func` and the function `cmd` itself. -/
def le_invoke_command (func : Cmd) (cmd : Char → EditState → EditState) (arg : Char)
    (s : EditState) : EditState :=
  let s := { s with current_command := ⟨some func, arg⟩ }
  let s := cmd arg s
  let s := { s with last_command := s.current_command }
  if s.le_current_mode = LeMode.LE_MODE_VI_COMMAND ∧ s.le_main_index > 0 ∧
      s.le_main_index = s.le_main_buffer.length then
    { s with le_main_index := s.le_main_index - 1 }
  else s

/-- The invariant stated next to `le_main_index`:
`0 <= le_main_index <= le_main_buffer.length`. -/
def cursor_in_range (s : EditState) : Prop := s.le_main_index ≤ s.le_main_buffer.length

instance (s : EditState) : Decidable (cursor_in_range s) := by
  unfold cursor_in_range; infer_instance

/-- The count prefix as `cmd_digit_argument` leaves it once digits of value
`abs` have been typed: `sign` and `abs` are set, the multiplier stays. -/
def set_count (sign : Int) (abs : Nat) (s : EditState) : EditState :=
  { s with state := { s.state with count := { s.state.count with sign := sign, abs := abs } } }

/-- An emacs-mode editor after `le_editing_init` in which `a` has been typed. -/
def typed_a_state : EditState :=
  le_invoke_command Cmd.cmd_self_insert cmd_self_insert 'a' (le_editing_init false startup_state)

/-- The state `typed_a_state` after the undo command. -/
def undone_state : EditState := le_invoke_command Cmd.cmd_undo cmd_undo NUL typed_a_state

/-- An editor in which `x` has been typed and killed with
`cmd_backward_kill_line`, and the count prefix `0` has been typed. -/
def killed_x_count_zero_state : EditState :=
  le_invoke_command Cmd.cmd_digit_argument cmd_digit_argument '0'
    (le_invoke_command Cmd.cmd_backward_kill_line cmd_backward_kill_line NUL
      (le_invoke_command Cmd.cmd_self_insert cmd_self_insert 'x'
        (le_editing_init false startup_state)))

/-- An editor holding `hello` with the cursor on `e` and a kill operator
pending. -/
def kill_pending_state : EditState :=
  { le_editing_init true startup_state with
    le_main_buffer := "hello".toList
    le_main_index := 1
    le_current_mode := LeMode.LE_MODE_VI_COMMAND
    state := { initial_keymap_state with pending_command_motion := MEC.MEC_KILL } }

/-! ## sig.c: the trap table -/

/-- The values a signal's `sa_handler` takes in `sig.c`. -/
inductive Handler where
  | SIG_DFL | SIG_IGN | sig_handler
deriving DecidableEq, Repr

/-- What `sig.c` takes from the platform and from `siglist.h` and `signum.h`,
which are outside the given sources: the signal numbers it names, the bounds of
the real-time signals and whether they are defined (`has_rt`), the array size
`RTSIZE`, the function `sigindex`, the table `signals` (number and name), the
compile-time choice `FIXED_SIGNAL_AS_ERROR`, and whether the `SIGWINCH` cases
are compiled in (`has_sigwinch`). -/
structure SigConfig where
  SIGKILL : Nat
  SIGSTOP : Nat
  SIGCHLD : Nat
  SIGINT : Nat
  SIGWINCH : Nat
  SIGTSTP : Nat
  SIGTERM : Nat
  SIGQUIT : Nat
  has_rt : Bool
  SIGRTMIN : Nat
  SIGRTMAX : Nat
  RTSIZE : Nat
  sigindex : Nat → Nat
  signals : List (Nat × List Char)
  FIXED_SIGNAL_AS_ERROR : Bool
  has_sigwinch : Bool

/-- A signal set (`sigset_t`), by membership. -/
abbrev SigSet := Nat → Bool

/-- The library call `sigaddset` for a valid signal number. -/
def sigaddset (set : SigSet) (signum : Nat) : SigSet :=
  fun x => if x = signum then true else set x

/-- The library call `sigdelset` for a valid signal number. -/
def sigdelset (set : SigSet) (signum : Nat) : SigSet :=
  fun x => if x = signum then false else set x

/-- The library call `sigemptyset`. -/
def sigemptyset : SigSet := fun _ => false

/-- The variables of `sig.c`, and the two tables the kernel keeps for the
process: the blocked signals (`sigprocmask`) and the signal actions
(`sigaction`).  `assert_failed` records that the condition of an `assert` was
false. -/
structure SigState where
  any_trap_set : Bool
  any_signal_received : Bool
  handled_signal : Int
  exit_handled : Bool
  signal_received : Nat → Bool
  trap_command : Nat → Option (List Char)
  rtsignal_received : Nat → Bool
  rttrap_command : Nat → Option (List Char)
  original_sigmask : SigSet
  ignored_signals : SigSet
  trapped_signals : SigSet
  accept_sigmask : SigSet
  sigchld_received : Bool
  sigint_received : Bool
  sigwinch_received : Bool
  main_handler_set : Bool
  job_handler_set : Bool
  interactive_handlers_set : Bool
  blocked : SigSet
  disposition : Nat → Handler
  assert_failed : Bool

/-- What a call into `sig.c` finds around it: the shell flags of the other
modules and, for each signal number, whether `sigaction` succeeds on it. -/
structure SigEnv where
  is_interactive : Bool
  is_interactive_now : Bool
  doing_job_control_now : Bool
  sigaction_ok : Nat → Bool

/-- The variables of `sig.c` as the program starts: static storage is zeroed
but for `handled_signal`, and the process has inherited the blocked signals
`blocked` and the signal actions `disposition`. -/
def sig_startup_state (blocked : SigSet) (disposition : Nat → Handler) : SigState :=
  { any_trap_set := false, any_signal_received := false, handled_signal := -1
    exit_handled := false, signal_received := fun _ => false, trap_command := fun _ => none
    rtsignal_received := fun _ => false, rttrap_command := fun _ => none
    original_sigmask := sigemptyset, ignored_signals := sigemptyset
    trapped_signals := sigemptyset, accept_sigmask := sigemptyset
    sigchld_received := false, sigint_received := false, sigwinch_received := false
    main_handler_set := false, job_handler_set := false, interactive_handlers_set := false
    blocked := blocked, disposition := disposition, assert_failed := false }

/-- Embedding of `init_signal`. -/
def init_signal (st : SigState) : SigState :=
  { st with
    original_sigmask := st.blocked
    ignored_signals := sigemptyset
    trapped_signals := sigemptyset
    accept_sigmask := st.blocked }

/-- Embedding of `is_ignored`, with the state after its assertion. -/
def is_ignored (cfg : SigConfig) (env : SigEnv) (signum : Nat) (st : SigState) :
    Bool × SigState :=
  let st := if env.is_interactive_now then { st with assert_failed := true } else st
  if env.doing_job_control_now ∧ signum = cfg.SIGTSTP then (st.ignored_signals signum, st)
  else (env.sigaction_ok signum && decide (st.disposition signum = Handler.SIG_IGN), st)

/-- Whether `set_trap` takes `signum` for a real-time signal. -/
def in_rt_range (cfg : SigConfig) (signum : Nat) : Bool :=
  cfg.has_rt && decide (cfg.SIGRTMIN ≤ signum) && decide (signum ≤ cfg.SIGRTMAX)

/-- The array slot `commandp` and `receivedp` point at in `set_trap`: a slot
of `trap_command` and `signal_received`, or one of `rttrap_command` and
`rtsignal_received`. -/
inductive TrapSlot where
  | plain (index : Nat)
  | rt (index : Nat)
deriving DecidableEq, Repr

/-- The value `*commandp`. -/
def slot_command (st : SigState) : TrapSlot → Option (List Char)
  | TrapSlot.plain i => st.trap_command i
  | TrapSlot.rt i => st.rttrap_command i

/-- The assignment `*commandp = command`. -/
def set_slot_command (slot : TrapSlot) (command : Option (List Char)) (st : SigState) :
    SigState :=
  match slot with
  | TrapSlot.plain i => { st with trap_command := Function.update st.trap_command i command }
  | TrapSlot.rt i => { st with rttrap_command := Function.update st.rttrap_command i command }

/-- The assignment `*receivedp = received`. -/
def set_slot_received (slot : TrapSlot) (received : Bool) (st : SigState) : SigState :=
  match slot with
  | TrapSlot.plain i =>
    { st with signal_received := Function.update st.signal_received i received }
  | TrapSlot.rt i =>
    { st with rtsignal_received := Function.update st.rtsignal_received i received }

/-- The handler `set_trap` chooses for `command`: the default for a null
pointer, ignoring for the empty string, the shell's handler otherwise. -/
def trap_handler : Option (List Char) → Handler
  | none => Handler.SIG_DFL
  | some [] => Handler.SIG_IGN
  | some (_ :: _) => Handler.sig_handler

/-- The part of `set_trap` that updates the four signal sets. -/
def set_trap_masks (signum : Nat) (handler : Handler) (st : SigState) : SigState :=
  let st :=
    if handler = Handler.SIG_IGN then
      { st with ignored_signals := sigaddset st.ignored_signals signum }
    else { st with ignored_signals := sigdelset st.ignored_signals signum }
  if handler = Handler.sig_handler then
    { st with
      original_sigmask := sigdelset st.original_sigmask signum
      trapped_signals := sigaddset st.trapped_signals signum
      accept_sigmask := sigdelset st.accept_sigmask signum }
  else { st with trapped_signals := sigdelset st.trapped_signals signum }

/-- The end of `set_trap`: the signals in `trapped_signals` are blocked when
the shell's handler is installed, and `sigaction` installs `handler`. -/
def set_trap_sigaction (env : SigEnv) (signum : Nat) (handler : Handler) (st : SigState) :
    Bool × SigState :=
  let st :=
    if handler = Handler.sig_handler then
      { st with blocked := fun x => st.blocked x || st.trapped_signals x }
    else st
  if env.sigaction_ok signum then
    (true, { st with disposition := Function.update st.disposition signum handler })
  else (false, st)

/-- The `switch` of `set_trap` and what follows it. -/
def set_trap_install (cfg : SigConfig) (env : SigEnv) (signum : Nat) (handler : Handler)
    (st : SigState) : Bool × SigState :=
  let default_ignore (h : Handler) : Handler :=
    if h = Handler.SIG_DFL then Handler.SIG_IGN else h
  if signum = cfg.SIGCHLD then (true, st)
  else if signum = cfg.SIGINT ∨ (cfg.has_sigwinch ∧ signum = cfg.SIGWINCH) then
    if st.interactive_handlers_set then (true, st)
    else set_trap_sigaction env signum handler st
  else if signum = cfg.SIGTSTP then
    if st.job_handler_set then set_trap_sigaction env signum (default_ignore handler) st
    else set_trap_sigaction env signum handler st
  else if signum = cfg.SIGTERM ∨ signum = cfg.SIGQUIT then
    if st.interactive_handlers_set then
      set_trap_sigaction env signum (default_ignore handler) st
    else set_trap_sigaction env signum handler st
  else set_trap_sigaction env signum handler st

/-- The part of `set_trap` after `commandp` and `receivedp` have been chosen. -/
def set_trap_slot (cfg : SigConfig) (env : SigEnv) (signum : Nat)
    (command : Option (List Char)) (slot : TrapSlot) (st : SigState) : Bool × SigState :=
  if env.is_interactive = false ∧ slot_command st slot = none ∧
      (is_ignored cfg env signum st).1 = true then
    (!cfg.FIXED_SIGNAL_AS_ERROR, (is_ignored cfg env signum st).2)
  else
    let st :=
      if env.is_interactive = false ∧ slot_command st slot = none then
        (is_ignored cfg env signum st).2
      else st
    let st :=
      match command with
      | some c => if c ≠ [] then { st with any_trap_set := true } else st
      | none => st
    let st := set_slot_command slot command st
    let st := set_slot_received slot false st
    if signum = 0 then (true, st)
    else set_trap_install cfg env signum (trap_handler command)
      (set_trap_masks signum (trap_handler command) st)

/-- Embedding of `set_trap`: the result and the state it leaves. -/
def set_trap (cfg : SigConfig) (env : SigEnv) (signum : Nat) (command : Option (List Char))
    (st : SigState) : Bool × SigState :=
  if signum = cfg.SIGKILL ∨ signum = cfg.SIGSTOP then (false, st)
  else if in_rt_range cfg signum then
    if signum - cfg.SIGRTMIN < cfg.RTSIZE then
      set_trap_slot cfg env signum command (TrapSlot.rt (signum - cfg.SIGRTMIN)) st
    else (false, st)
  else set_trap_slot cfg env signum command (TrapSlot.plain (cfg.sigindex signum)) st

/-- The test `command && command[0]`. -/
def command_nonempty : Option (List Char) → Bool
  | some (_ :: _) => true
  | _ => false

/-- One round of the loops of `clear_traps` over `trap_command`: the trap of
`signum` is reset if it is a non-empty command, and the received flag is
cleared. -/
def clear_trap_plain (cfg : SigConfig) (env : SigEnv) (st : SigState) (signum : Nat) :
    SigState :=
  let index := cfg.sigindex signum
  let st :=
    if command_nonempty (st.trap_command index) then (set_trap cfg env signum none st).2
    else st
  { st with signal_received := Function.update st.signal_received index false }

/-- One round of the loop of `clear_traps` over `rttrap_command`. -/
def clear_trap_rt (cfg : SigConfig) (env : SigEnv) (st : SigState) (i : Nat) : SigState :=
  let st :=
    if command_nonempty (st.rttrap_command i) then
      (set_trap cfg env (cfg.SIGRTMIN + i) none st).2
    else st
  { st with rtsignal_received := Function.update st.rtsignal_received i false }

/-- Embedding of `clear_traps`. -/
def clear_traps (cfg : SigConfig) (env : SigEnv) (st : SigState) : SigState :=
  if st.any_trap_set = false ∧ st.any_signal_received = false then st
  else
    let st := clear_trap_plain cfg env st 0
    let st := (cfg.signals.map Prod.fst).foldl (clear_trap_plain cfg env) st
    let st := if cfg.has_rt then (List.range cfg.RTSIZE).foldl (clear_trap_rt cfg env) st else st
    { st with any_trap_set := false, any_signal_received := false }

/-- A call of `set_trap` or `clear_traps`, with what the call finds around it. -/
inductive TrapCall where
  | set_trap (env : SigEnv) (signum : Nat) (command : Option (List Char))
  | clear_traps (env : SigEnv)

/-- The state after one call. -/
def run_trap_call (cfg : SigConfig) (st : SigState) : TrapCall → SigState
  | TrapCall.set_trap env signum command => (set_trap cfg env signum command st).2
  | TrapCall.clear_traps env => clear_traps cfg env st

/-- The state after a sequence of calls. -/
def run_trap_calls (cfg : SigConfig) (calls : List TrapCall) (st : SigState) : SigState :=
  calls.foldl (run_trap_call cfg) st

/-- The trap command entry of `signum`: its slot of `rttrap_command` for a
real-time signal (none beyond `RTSIZE`), its slot of `trap_command`
otherwise. -/
def trap_entry (cfg : SigConfig) (st : SigState) (signum : Nat) : Option (List Char) :=
  if in_rt_range cfg signum then
    if signum - cfg.SIGRTMIN < cfg.RTSIZE then st.rttrap_command (signum - cfg.SIGRTMIN)
    else none
  else st.trap_command (cfg.sigindex signum)

/-- The numbers `sigindex` is defined on: 0 (the EXIT condition) and the
numbers of the table `signals`. -/
def in_signal_table (cfg : SigConfig) (signum : Nat) : Prop :=
  signum = 0 ∨ signum ∈ cfg.signals.map Prod.fst

/-- The numbers `set_trap` is called with: those of `in_signal_table` and the
real-time signals. -/
def known_signal (cfg : SigConfig) (signum : Nat) : Prop :=
  in_signal_table cfg signum ∨ in_rt_range cfg signum = true

/-- A call of `set_trap` names a known signal. -/
def known_call (cfg : SigConfig) : TrapCall → Prop
  | TrapCall.set_trap _ signum _ => known_signal cfg signum
  | TrapCall.clear_traps _ => True

/-- The function `sigindex` sends different numbers to different indices, as
far as it is defined. -/
def sigindex_injective (cfg : SigConfig) : Prop :=
  ∀ a b, in_signal_table cfg a → in_signal_table cfg b → cfg.sigindex a = cfg.sigindex b → a = b

/-- The signal numbers of Linux on x86-64, with `sigindex` the identity. -/
def linux_config : SigConfig :=
  { SIGKILL := 9, SIGSTOP := 19, SIGCHLD := 17, SIGINT := 2, SIGWINCH := 28, SIGTSTP := 20
    SIGTERM := 15, SIGQUIT := 3, has_rt := true, SIGRTMIN := 34, SIGRTMAX := 64, RTSIZE := 31
    sigindex := fun n => n
    signals := [(1, "HUP".toList), (2, "INT".toList), (3, "QUIT".toList), (9, "KILL".toList),
      (10, "USR1".toList), (15, "TERM".toList), (17, "CHLD".toList), (19, "STOP".toList),
      (20, "TSTP".toList), (28, "WINCH".toList)]
    FIXED_SIGNAL_AS_ERROR := false, has_sigwinch := true }

/-- A non-interactive environment in which `sigaction` always succeeds. -/
def plain_env : SigEnv :=
  { is_interactive := false, is_interactive_now := false, doing_job_control_now := false
    sigaction_ok := fun _ => true }

/-- The Linux configuration built with room for 8 real-time signals only:
the real-time signals from `SIGRTMIN + 8` on have no slot in `rttrap_command`
and `rtsignal_received`. -/
def small_rt_config : SigConfig := { linux_config with RTSIZE := 8 }

/-- Three calls for examples: a trap on `SIGINT`, `clear_traps`, and a trap
on `SIGUSR1`. -/
def sample_calls : List TrapCall :=
  [TrapCall.set_trap plain_env 2 (some "echo int".toList),
   TrapCall.clear_traps plain_env,
   TrapCall.set_trap plain_env 10 (some "echo usr1".toList)]

/-! ## Auxiliary notions of the proofs -/

/-- A state whose current line is the snapshot at `undo_index`. -/
def Saved (t : EditState) : Prop :=
  t.undo_history_entry = t.main_history_entry ∧
  t.undo_index < t.undo_history.length ∧
  t.undo_history.getD t.undo_index ⟨0, []⟩ = ⟨t.le_main_index, t.le_main_buffer⟩

/-- The three variables the trap-mask invariant is about. -/
def trap_view (st : SigState) :
    (Nat → Option (List Char)) × (Nat → Option (List Char)) × SigSet :=
  (st.trap_command, st.rttrap_command, st.trapped_signals)

/-- The tables and the set after `set_trap` has stored `command` in `slot`. -/
def trap_view_after (signum : Nat) (command : Option (List Char)) (slot : TrapSlot)
    (st : SigState) : (Nat → Option (List Char)) × (Nat → Option (List Char)) × SigSet :=
  (match slot with
    | TrapSlot.plain i => Function.update st.trap_command i command
    | TrapSlot.rt _ => st.trap_command,
   match slot with
    | TrapSlot.plain _ => st.rttrap_command
    | TrapSlot.rt i => Function.update st.rttrap_command i command,
   if signum = 0 then st.trapped_signals
   else fun x => if x = signum then command_nonempty command else st.trapped_signals x)

/-- The invariant behind the trap mask, on the three variables of `trap_view`:
for signals from 1 up, membership in the set agrees with a non-empty entry,
and a non-empty real-time entry belongs to a real-time signal. -/
def TrapInv (cfg : SigConfig)
    (v : (Nat → Option (List Char)) × (Nat → Option (List Char)) × SigSet) : Prop :=
  (∀ x, 1 ≤ x → in_signal_table cfg x → in_rt_range cfg x = false →
    (v.2.2 x = true ↔ command_nonempty (v.1 (cfg.sigindex x)) = true)) ∧
  (∀ x, 1 ≤ x → in_rt_range cfg x = true →
    (v.2.2 x = true ↔
      (x - cfg.SIGRTMIN < cfg.RTSIZE ∧ command_nonempty (v.2.1 (x - cfg.SIGRTMIN)) = true))) ∧
  (∀ i, command_nonempty (v.2.1 i) = true →
    i < cfg.RTSIZE ∧ in_rt_range cfg (cfg.SIGRTMIN + i) = true)

/-! ## lineedit/editing.c: runs of keystrokes -/

/-- A run of keystrokes given to `cmd_digit_argument`, first keystroke first. -/
def type_digits (ds : List Char) (s : EditState) : EditState :=
  ds.foldl (fun s c => cmd_digit_argument c s) s

/-- The emacs-mode editor after `le_editing_init`, in which no count is set,
after the ten keystrokes `1234567890` have been given to
`cmd_digit_argument`. -/
def ten_digits_state : EditState :=
  type_digits "1234567890".toList (le_editing_init false startup_state)

/-! ## lineedit/editing.c: cmd_put_pop -/

/-- The loop `do index = (index - 1) % KILL_RING_SIZE; while
(kill_ring[index] == NULL);` of `cmd_put_pop`, for at most `fuel` rounds;
`none` when the rounds are used up. -/
def prev_kill_index (ring : Nat → Option (List Char)) : Nat → Nat → Option Nat
  | 0, _ => none
  | fuel + 1, index =>
    if ring (size_sub index 1 % KILL_RING_SIZE) = none then
      prev_kill_index ring fuel (size_sub index 1 % KILL_RING_SIZE)
    else some (size_sub index 1 % KILL_RING_SIZE)

/-- The end of `cmd_put_pop`: the text just inserted is removed and entry
`index` of the kill ring is inserted in its place. -/
def put_pop_replace (index : Nat) (s : EditState) : EditState :=
  let s := c_assert (decide (s.last_put_range_start ≤ s.le_main_buffer.length)) s
  let s := { s with
    le_main_buffer :=
      wb_remove s.le_main_buffer s.last_put_range_start s.last_put_range_length }
  let s := { s with le_main_index := s.last_put_range_start }
  insert_killed_string false false index true s

/-- Embedding of `cmd_put_pop`; `none` when its loop does not end within
`fuel` rounds. -/
def cmd_put_pop (fuel : Nat) (_c : Char) (s : EditState) : Option EditState :=
  if s.state.pending_command_motion ≠ MEC.MEC_NONE then some (cmd_alert s)
  else if (s.last_command.func ≠ some Cmd.cmd_put_left ∧
      s.last_command.func ≠ some Cmd.cmd_put ∧
      s.last_command.func ≠ some Cmd.cmd_put_before ∧
      (s.last_command.func ≠ some Cmd.cmd_put_pop ∨ s.last_success = false)) ∨
      s.kill_ring s.last_put_elem = none then
    some (cmd_alert { s with last_success := false })
  else
    let s := { s with last_success := true }
    let s := save_current_edit_command s
    let s := maybe_save_undo_history s
    match prev_kill_index s.kill_ring fuel s.last_put_elem with
    | none => none
    | some index => some (put_pop_replace index s)

/-- The end of `le_invoke_command`, after the command has returned. -/
def le_invoke_command_end (s : EditState) : EditState :=
  let s := { s with last_command := s.current_command }
  if s.le_current_mode = LeMode.LE_MODE_VI_COMMAND ∧ s.le_main_index > 0 ∧
      s.le_main_index = s.le_main_buffer.length then
    { s with le_main_index := s.le_main_index - 1 }
  else s

/-- Embedding of `le_invoke_command(cmd, arg)` for a command whose embedding
may not return. -/
def le_invoke_command_opt (func : Cmd) (cmd : Char → EditState → Option EditState)
    (arg : Char) (s : EditState) : Option EditState :=
  (cmd arg { s with current_command := ⟨some func, arg⟩ }).map le_invoke_command_end

/-- Embedding of `sig_handler`. -/
def sig_handler (cfg : SigConfig) (signum : Nat) (st : SigState) : SigState :=
  let st := { st with any_signal_received := true }
  if in_rt_range cfg signum then
    if signum - cfg.SIGRTMIN < cfg.RTSIZE then
      { st with
        rtsignal_received := Function.update st.rtsignal_received (signum - cfg.SIGRTMIN) true }
    else st
  else
    let st := { st with
      signal_received := Function.update st.signal_received (cfg.sigindex signum) true }
    if signum = cfg.SIGCHLD then { st with sigchld_received := true }
    else if signum = cfg.SIGINT then { st with sigint_received := true }
    else if cfg.has_sigwinch ∧ signum = cfg.SIGWINCH then { st with sigwinch_received := true }
    else st

/-- Embedding of `set_special_handler`. -/
def set_special_handler (cfg : SigConfig) (env : SigEnv) (signum : Nat) (handler : Handler)
    (st : SigState) : SigState :=
  if command_nonempty (st.trap_command (cfg.sigindex signum)) then st
  else if env.sigaction_ok signum then
    let oldhandler := st.disposition signum
    let st := { st with disposition := Function.update st.disposition signum handler }
    if oldhandler = Handler.SIG_IGN then
      { st with ignored_signals := sigaddset st.ignored_signals signum }
    else st
  else st

/-- Embedding of `set_signals`; the local set `block` is threaded through. -/
def set_signals (cfg : SigConfig) (env : SigEnv) (st : SigState) : SigState :=
  let block := st.trapped_signals
  let st :=
    if st.job_handler_set = false ∧ env.doing_job_control_now = true then
      set_special_handler cfg env cfg.SIGTSTP Handler.SIG_IGN { st with job_handler_set := true }
    else st
  let (block, st) :=
    if st.interactive_handlers_set = false ∧ env.is_interactive_now = true then
      let st := { st with interactive_handlers_set := true }
      let block := sigaddset block cfg.SIGINT
      let st := set_special_handler cfg env cfg.SIGINT Handler.sig_handler st
      let st := set_special_handler cfg env cfg.SIGTERM Handler.SIG_IGN st
      let st := set_special_handler cfg env cfg.SIGQUIT Handler.SIG_IGN st
      if cfg.has_sigwinch then
        (sigaddset block cfg.SIGWINCH,
          set_special_handler cfg env cfg.SIGWINCH Handler.sig_handler st)
      else (block, st)
    else (block, st)
  let (block, st) :=
    if st.main_handler_set = false then
      (sigaddset block cfg.SIGCHLD,
        set_special_handler cfg env cfg.SIGCHLD Handler.sig_handler
          { st with main_handler_set := true })
    else (block, st)
  { st with blocked := fun x => st.blocked x || block x }

/-- The variables `handle_traps` works on: those of `sig.c`, and `laststatus`
and `savelaststatus` of the executing module. -/
structure TrapWorld where
  sig : SigState
  laststatus : Int
  savelaststatus : Int

/-- One round of the loop of `handle_traps` over the table `signals`: `acc`
holds the local `signum` and the variables, `signo` is `s->no`, and `exec` is
what `exec_wcs` does with a trap command. -/
def handle_traps_plain (cfg : SigConfig) (exec : List Char → TrapWorld → TrapWorld)
    (acc : Int × TrapWorld) (signo : Nat) : Int × TrapWorld :=
  let i := cfg.sigindex signo
  if acc.2.sig.signal_received i = true then
    let w : TrapWorld := { acc.2 with
      sig := { acc.2.sig with
        signal_received := Function.update acc.2.sig.signal_received i false } }
    match w.sig.trap_command i with
    | some (c :: cs) =>
      let w : TrapWorld := { w with sig := { w.sig with handled_signal := (signo : Int) } }
      let w := exec (c :: cs) w
      ((signo : Int), { w with laststatus := w.savelaststatus })
    | _ => (acc.1, w)
  else acc

/-- One round of the loop of `handle_traps` over the real-time signals. -/
def handle_traps_rt (cfg : SigConfig) (exec : List Char → TrapWorld → TrapWorld)
    (acc : Int × TrapWorld) (i : Nat) : Int × TrapWorld :=
  if acc.2.sig.rtsignal_received i = true then
    let w : TrapWorld := { acc.2 with
      sig := { acc.2.sig with
        rtsignal_received := Function.update acc.2.sig.rtsignal_received i false } }
    match w.sig.rttrap_command i with
    | some (c :: cs) =>
      let w : TrapWorld :=
        { w with sig := { w.sig with handled_signal := ((cfg.SIGRTMIN + i : Nat) : Int) } }
      let w := exec (c :: cs) w
      (((cfg.SIGRTMIN + i : Nat) : Int), { w with laststatus := w.savelaststatus })
    | _ => (acc.1, w)
  else acc

/-- The body of the `do` loop of `handle_traps`, run once. -/
def handle_traps_round (cfg : SigConfig) (exec : List Char → TrapWorld → TrapWorld)
    (acc : Int × TrapWorld) : Int × TrapWorld :=
  let w : TrapWorld := { acc.2 with sig := { acc.2.sig with any_signal_received := false } }
  let acc := (cfg.signals.map Prod.fst).foldl (handle_traps_plain cfg exec) (acc.1, w)
  if cfg.has_rt then
    (List.range (min (cfg.SIGRTMAX + 1 - cfg.SIGRTMIN) cfg.RTSIZE)).foldl
      (handle_traps_rt cfg exec) acc
  else acc

/-- The `do` loop of `handle_traps`, for at most `fuel` rounds; `none` when the
rounds are used up with `any_signal_received` still set. -/
def handle_traps_loop (cfg : SigConfig) (exec : List Char → TrapWorld → TrapWorld) :
    Nat → Int × TrapWorld → Option (Int × TrapWorld)
  | 0, _ => none
  | fuel + 1, acc =>
    let acc := handle_traps_round cfg exec acc
    if acc.2.sig.any_signal_received = true then handle_traps_loop cfg exec fuel acc
    else some acc

/-- Embedding of `handle_traps`: the returned signal number and the variables
it leaves, or `none` when `fuel` rounds do not end the loop. -/
def handle_traps (cfg : SigConfig) (exec : List Char → TrapWorld → TrapWorld) (fuel : Nat)
    (w : TrapWorld) : Option (Int × TrapWorld) :=
  if w.sig.any_trap_set = false ∨ w.sig.any_signal_received = false ∨
      0 ≤ w.sig.handled_signal then some (0, w)
  else
    match handle_traps_loop cfg exec fuel (0, { w with savelaststatus := w.laststatus }) with
    | none => none
    | some (signum, w) =>
      some (signum, { w with savelaststatus := -1, sig := { w.sig with handled_signal := -1 } })

/-- The value of `*receivedp`. -/
def slot_received (st : SigState) : TrapSlot → Bool
  | TrapSlot.plain i => st.signal_received i
  | TrapSlot.rt i => st.rtsignal_received i

/-- The received flag of `signum`: its slot of `rtsignal_received` for a
real-time signal, its slot of `signal_received` otherwise. -/
def received_flag (cfg : SigConfig) (st : SigState) (signum : Nat) : Bool :=
  if in_rt_range cfg signum then st.rtsignal_received (signum - cfg.SIGRTMIN)
  else st.signal_received (cfg.sigindex signum)

/-- What `is_ignored` answers, spelled out: for `SIGTSTP` under job control the
membership in `ignored_signals`, otherwise that `sigaction` succeeds and
reports the action `SIG_IGN`. -/
def ignored_now (cfg : SigConfig) (env : SigEnv) (st : SigState) (signum : Nat) : Prop :=
  if env.doing_job_control_now = true ∧ signum = cfg.SIGTSTP then
    st.ignored_signals signum = true
  else env.sigaction_ok signum = true ∧ st.disposition signum = Handler.SIG_IGN

instance (cfg : SigConfig) (env : SigEnv) (st : SigState) (signum : Nat) :
    Decidable (ignored_now cfg env st signum) := by
  unfold ignored_now; infer_instance

/-- A non-interactive environment with job control, in which `sigaction`
always succeeds. -/
def job_control_env : SigEnv :=
  { is_interactive := false, is_interactive_now := false, doing_job_control_now := true
    sigaction_ok := fun _ => true }

/-- The state of a non-interactive shell with job control on Linux after
`init_signal` and `set_signals`, all signal actions inherited as default. -/
def job_control_state : SigState :=
  set_signals linux_config job_control_env
    (init_signal (sig_startup_state sigemptyset fun _ => Handler.SIG_DFL))

/-- A world for examples: a trap on `SIGINT` is set and `SIGINT` has been
received. -/
def int_trapped_world : TrapWorld :=
  { sig := sig_handler linux_config 2
      (set_trap linux_config plain_env 2 (some "echo int".toList)
        (init_signal (sig_startup_state sigemptyset fun _ => Handler.SIG_DFL))).2
    laststatus := 0
    savelaststatus := -1 }

/-- The world `int_trapped_world` while the trap command of `SIGINT` runs. -/
def running_world : TrapWorld :=
  { int_trapped_world with sig := { int_trapped_world.sig with handled_signal := 2 } }

/-! ## sig.c: get_signal_number -/

/-- Largest value of `int`. -/
def INT_MAX : Int := 2147483647

/-- Smallest value of `int`. -/
def INT_MIN : Int := -2147483648

/-- Modelled from the spec: `xstrtoi(s, 10, &result)` of `util.c`, which the
given sources call but do not define.  The spec accepts a signal given as a
"numeric decimal": the whole of a non-empty string must convert with `strtol`
to a value of `int`, which is then the result; otherwise the call fails. -/
def xstrtoi (s : List Char) : Option Int :=
  if s = [] then none
  else if (strtol s).erange = true then none
  else if (strtol s).strend ≠ [] then none
  else if (strtol s).value < INT_MIN ∨ INT_MAX < (strtol s).value then none
  else some (strtol s).value

/-- The branch of `get_signal_number` for a name that starts with a digit. -/
def get_signal_number_decimal (cfg : SigConfig) (name : List Char) : Int :=
  match xstrtoi name with
  | none => -1
  | some signum =>
    if signum < 0 then -1
    else if signum = 0 then 0
    else if cfg.has_rt = true ∧ (cfg.SIGRTMIN : Int) ≤ signum ∧ signum ≤ (cfg.SIGRTMAX : Int) then
      signum
    else if (cfg.signals.any fun s => decide ((s.1 : Int) = signum)) = true then signum
    else -1

/-- The part of `get_signal_number` for the names of real-time signals, `name`
being what the search of the table was made with. -/
def get_signal_number_rt (cfg : SigConfig) (name : List Char) : Int :=
  if strncmp name "RTMIN".toList 5 = 0 then
    match name.drop 5 with
    | [] => (cfg.SIGRTMIN : Int)
    | '+' :: rest =>
      match xstrtoi ('+' :: rest) with
      | none => -1
      | some num =>
        if num < 0 ∨ (cfg.SIGRTMAX : Int) - (cfg.SIGRTMIN : Int) < num then -1
        else (cfg.SIGRTMIN : Int) + num
    | _ => -1
  else if strncmp name "RTMAX".toList 5 = 0 then
    match name.drop 5 with
    | [] => (cfg.SIGRTMAX : Int)
    | '-' :: rest =>
      match xstrtoi ('-' :: rest) with
      | none => -1
      | some num =>
        if num > 0 ∨ (cfg.SIGRTMIN : Int) - (cfg.SIGRTMAX : Int) > num then -1
        else (cfg.SIGRTMAX : Int) + num
    | _ => -1
  else -1

/-- The end of `get_signal_number`: the search of the table `signals`, from
its first entry, for `name` with any leading `SIG` taken off, and then the
names of the real-time signals; `strcmp(a, b) == 0` is equality of the
strings. -/
def get_signal_number_name (cfg : SigConfig) (name : List Char) : Int :=
  match cfg.signals.find? fun s => decide (name = s.2) with
  | some s => (s.1 : Int)
  | none => if cfg.has_rt = true then get_signal_number_rt cfg name else -1

/-- Embedding of `get_signal_number`. -/
def get_signal_number (cfg : SigConfig) (name : List Char) : Int :=
  if isdigit (name.headD NUL) = true then get_signal_number_decimal cfg name
  else if name = "EXIT".toList then 0
  else
    get_signal_number_name cfg
      (if strncmp name "SIG".toList 3 = 0 then name.drop 3 else name)

/-- What the table `signals` of `siglist.h` is taken to satisfy: the numbers
are positive values of `int`, and no name starts with a digit, is `EXIT`, or
starts with `SIG`. -/
def signal_table_ok (cfg : SigConfig) : Prop :=
  ∀ s ∈ cfg.signals, 1 ≤ s.1 ∧ s.1 < 2147483648 ∧ isdigit (s.2.headD NUL) = false ∧
    s.2 ≠ "EXIT".toList ∧ "SIG".toList.isPrefixOf s.2 = false

instance (cfg : SigConfig) : Decidable (signal_table_ok cfg) := by
  unfold signal_table_ok; infer_instance

/-! ## sig.c: sequences of calls and the invariant of the trap table -/

/-- A call of `set_trap`, `clear_traps` or `sig_handler`, with what the call
finds around it. -/
inductive SigCall where
  | set_trap (env : SigEnv) (signum : Nat) (command : Option (List Char))
  | clear_traps (env : SigEnv)
  | sig_handler (signum : Nat)

/-- The state after one call of `SigCall`. -/
def run_sig_call (cfg : SigConfig) (st : SigState) : SigCall → SigState
  | SigCall.set_trap env signum command => (set_trap cfg env signum command st).2
  | SigCall.clear_traps env => clear_traps cfg env st
  | SigCall.sig_handler signum => sig_handler cfg signum st

/-- The state after a sequence of calls of `SigCall`. -/
def run_sig_calls (cfg : SigConfig) (calls : List SigCall) (st : SigState) : SigState :=
  calls.foldl (run_sig_call cfg) st

/-- A call names a known signal: `set_trap` is called with 0 or a signal, and
a signal is delivered to `sig_handler`. -/
def known_sig_call (cfg : SigConfig) : SigCall → Prop
  | SigCall.set_trap _ signum _ => known_signal cfg signum
  | SigCall.clear_traps _ => True
  | SigCall.sig_handler signum => 1 ≤ signum ∧ known_signal cfg signum

/-- Where non-empty trap commands can be: in `trap_command` at the index of 0
or of a signal of the table other than `SIGKILL` and `SIGSTOP`, and in
`rttrap_command` at the index of a real-time signal other than these two. -/
def EntriesOk (cfg : SigConfig) (st : SigState) : Prop :=
  (∀ i, command_nonempty (st.trap_command i) = true →
    ∃ x, in_signal_table cfg x ∧ in_rt_range cfg x = false ∧ x ≠ cfg.SIGKILL ∧
      x ≠ cfg.SIGSTOP ∧ i = cfg.sigindex x) ∧
  (∀ i, command_nonempty (st.rttrap_command i) = true →
    i < cfg.RTSIZE ∧ in_rt_range cfg (cfg.SIGRTMIN + i) = true ∧
      cfg.SIGRTMIN + i ≠ cfg.SIGKILL ∧ cfg.SIGRTMIN + i ≠ cfg.SIGSTOP)

/-- The invariant of the trap table that `set_trap`, `clear_traps` and
`sig_handler` keep: `TrapInv`; no non-empty command while `any_trap_set` is
false; no received flag while `any_trap_set` and `any_signal_received` are
false; only signals in `trapped_signals`; `EntriesOk`; and received flags
only at the index of a number of the table or of a real-time signal. -/
def TableInv (cfg : SigConfig) (st : SigState) : Prop :=
  TrapInv cfg (trap_view st) ∧
  (st.any_trap_set = false →
    ∀ i, command_nonempty (st.trap_command i) = false ∧
      command_nonempty (st.rttrap_command i) = false) ∧
  (st.any_trap_set = false → st.any_signal_received = false →
    ∀ i, st.signal_received i = false ∧ st.rtsignal_received i = false) ∧
  (∀ x, st.trapped_signals x = true → 1 ≤ x ∧ known_signal cfg x) ∧
  EntriesOk cfg st ∧
  (∀ i, st.signal_received i = true → ∃ x, in_signal_table cfg x ∧ i = cfg.sigindex x) ∧
  (∀ i, st.rtsignal_received i = true → i < cfg.RTSIZE ∧ cfg.has_rt = true)

/-- What the rounds of `clear_traps` do between two states: a trap command
is kept or, if non-empty, reset; no received flag and no member of
`trapped_signals` is added. -/
def Cleared (st st' : SigState) : Prop :=
  (∀ i, st'.trap_command i = st.trap_command i ∨
    (command_nonempty (st.trap_command i) = true ∧ st'.trap_command i = none)) ∧
  (∀ i, st'.rttrap_command i = st.rttrap_command i ∨
    (command_nonempty (st.rttrap_command i) = true ∧ st'.rttrap_command i = none)) ∧
  (∀ i, st'.signal_received i = true → st.signal_received i = true) ∧
  (∀ i, st'.rtsignal_received i = true → st.rtsignal_received i = true) ∧
  (∀ x, st'.trapped_signals x = true → st.trapped_signals x = true)

/-- What `exec_wcs` does to the variables of `sig.c` when the trap command
`c`, run in the world `v`, makes the calls `prog c v` one after the other. -/
def exec_calls (cfg : SigConfig) (prog : List Char → TrapWorld → List SigCall)
    (c : List Char) (v : TrapWorld) : TrapWorld :=
  { v with sig := run_sig_calls cfg (prog c v) v.sig }

/-- A call on the trap table in the main flow of the shell: one of `SigCall`,
or `handle_traps` with `laststatus` and the calls `prog` its trap commands
make. -/
inductive TableCall where
  | call (c : SigCall)
  | handle_traps (prog : List Char → TrapWorld → List SigCall) (fuel : Nat) (laststatus : Int)

/-- The state after one call of `TableCall`; `none` when `handle_traps` does
not return within its rounds. -/
def run_table_call (cfg : SigConfig) (st : SigState) : TableCall → Option SigState
  | TableCall.call c => some (run_sig_call cfg st c)
  | TableCall.handle_traps prog fuel laststatus =>
    (handle_traps cfg (exec_calls cfg prog) fuel
      { sig := st, laststatus := laststatus, savelaststatus := -1 }).map fun r => r.2.sig

/-- The state after a sequence of calls of `TableCall`. -/
def run_table_calls (cfg : SigConfig) : List TableCall → SigState → Option SigState
  | [], st => some st
  | c :: cs, st => (run_table_call cfg st c).bind (run_table_calls cfg cs)

/-- A call made by a trap command in the process that runs `handle_traps`:
`set_trap` or `sig_handler` on a known signal (`clear_traps` is called by a
child process after `fork`). -/
def known_trap_call (cfg : SigConfig) : SigCall → Prop
  | SigCall.set_trap _ signum _ => known_signal cfg signum
  | SigCall.clear_traps _ => False
  | SigCall.sig_handler signum => 1 ≤ signum ∧ known_signal cfg signum

/-- The calls of a sequence name known signals. -/
def known_table_call (cfg : SigConfig) : TableCall → Prop
  | TableCall.call c => known_sig_call cfg c
  | TableCall.handle_traps prog _ _ => ∀ c v, ∀ call ∈ prog c v, known_trap_call cfg call

/-- Calls for examples: an ignored `SIGQUIT`, a trap on `SIGINT`, a trap on
the real-time signal 35, the EXIT trap, `SIGINT` and `SIGHUP` delivered,
`handle_traps` whose trap command sets a trap on `SIGHUP`, and `SIGINT`
delivered again. -/
def sample_table_calls : List TableCall :=
  [TableCall.call (SigCall.set_trap plain_env 3 (some [])),
   TableCall.call (SigCall.set_trap plain_env 2 (some "trap echo HUP".toList)),
   TableCall.call (SigCall.set_trap plain_env 35 (some "echo rt".toList)),
   TableCall.call (SigCall.set_trap plain_env 0 (some "echo bye".toList)),
   TableCall.call (SigCall.sig_handler 2),
   TableCall.call (SigCall.sig_handler 1),
   TableCall.handle_traps
     (fun _ _ => [SigCall.set_trap plain_env 1 (some "echo hup".toList)]) 1 0,
   TableCall.call (SigCall.sig_handler 2)]

/-! ## Auxiliary notions of the proofs about clear_traps -/

/-- The variables the postcondition of `clear_traps` is about: the two trap
tables, the two tables of received flags, `trapped_signals`, `any_trap_set`
and `any_signal_received`. -/
def trap_core (st : SigState) :
    (Nat → Option (List Char)) × (Nat → Option (List Char)) × (Nat → Bool) × (Nat → Bool) ×
      SigSet × Bool × Bool :=
  (st.trap_command, st.rttrap_command, st.signal_received, st.rtsignal_received,
    st.trapped_signals, st.any_trap_set, st.any_signal_received)

/-- The variables of `trap_core` after `set_trap` has stored `command` in
`slot`. -/
def trap_core_after (signum : Nat) (command : Option (List Char)) (slot : TrapSlot)
    (st : SigState) :
    (Nat → Option (List Char)) × (Nat → Option (List Char)) × (Nat → Bool) × (Nat → Bool) ×
      SigSet × Bool × Bool :=
  (match slot with
    | TrapSlot.plain i => Function.update st.trap_command i command
    | TrapSlot.rt _ => st.trap_command,
   match slot with
    | TrapSlot.plain _ => st.rttrap_command
    | TrapSlot.rt i => Function.update st.rttrap_command i command,
   match slot with
    | TrapSlot.plain i => Function.update st.signal_received i false
    | TrapSlot.rt _ => st.signal_received,
   match slot with
    | TrapSlot.plain _ => st.rtsignal_received
    | TrapSlot.rt i => Function.update st.rtsignal_received i false,
   if signum = 0 then st.trapped_signals
   else fun x => if x = signum then command_nonempty command else st.trapped_signals x,
   st.any_trap_set || command_nonempty command,
   st.any_signal_received)

/-! ## Auxiliary notions of the proofs about the kill ring -/

/-- The constant `EXIT_SUCCESS` of `stdlib.h`. -/
def EXIT_SUCCESS : Int := 0

/-- The constant `EXIT_FAILURE` of `stdlib.h`. -/
def EXIT_FAILURE : Int := 1

/-- What a builtin of `builtin.c` has written: the messages given to `error`
and the text given to `printf`. -/
structure Streams where
  stderr : List String
  stdout : List String
deriving DecidableEq, Repr

/-- Embedding of `builtin_wait`.  All statements before the label `usage` are
commented out in the source, so every call runs the three statements after
it; `error` with status 0 returns to its caller. -/
def builtin_wait (_argc : Int) (_argv : List (List Char)) (io : Streams) : Int × Streams :=
  (EXIT_FAILURE,
   { stderr := io.stderr ++ ["NOT IMPLEMENTED"]
     stdout := io.stdout ++ ["Usage:  wait [jobspec/pid]\n"] })

/-! ## sig.c: trap_builtin -/

/-- Modelled from the spec: the exit status `Exit_SUCCESS` of `exec.h`, zero. -/
def Exit_SUCCESS : Int := 0

/-- Modelled from the spec: the exit status `Exit_FAILURE` of `exec.h`, which
is not zero. -/
def Exit_FAILURE : Int := 1

/-- Modelled from the spec: the exit status `Exit_ERROR` of `exec.h`, returned
for a usage error; it is not zero. -/
def Exit_ERROR : Int := 2

/-- The library function `towupper` in the C locale. -/
def towupper (c : Char) : Char := c.toUpper

/-- Modelled from the spec: `malloc_wcstombs` of `strbuf.c` converts a wide
string to a multibyte string and returns a null pointer when a character
cannot be converted.  In the C locale the characters below 128 convert to
themselves and no other character converts. -/
def malloc_wcstombs (s : List Char) : Option (List Char) :=
  if s.all (fun c => decide (c.toNat < 128)) = true then some s else none

/-- Embedding of `get_signal_number_w`. -/
def get_signal_number_w (cfg : SigConfig) (name : List Char) : Int :=
  match malloc_wcstombs (name.map towupper) with
  | none => -1
  | some mname => get_signal_number cfg mname

/-- Embedding of `get_signal_name`; `malloc_printf` with `%d` writes the
decimal digits of the number. -/
def get_signal_name (cfg : SigConfig) (signum : Int) : List Char :=
  if signum = 0 then "EXIT".toList
  else if cfg.has_rt = true ∧ (cfg.SIGRTMIN : Int) ≤ signum ∧ signum ≤ (cfg.SIGRTMAX : Int) then
    if signum = (cfg.SIGRTMIN : Int) then "RTMIN".toList
    else if signum = (cfg.SIGRTMAX : Int) then "RTMAX".toList
    else
      let range : Int := (cfg.SIGRTMAX : Int) - (cfg.SIGRTMIN : Int)
      let diff : Int := signum - (cfg.SIGRTMIN : Int)
      if diff ≤ Int.tdiv range 2 then "RTMIN+".toList ++ (Nat.repr diff.toNat).toList
      else "RTMAX-".toList ++ (Nat.repr ((cfg.SIGRTMAX : Int) - signum).toNat).toList
  else
    match cfg.signals.find? fun s => decide ((s.1 : Int) = signum) with
    | some s => s.2
    | none => "?".toList

/-- What `trap_builtin` works on: the variables of `sig.c`, the operands for
which `xerror` has reported `no such signal`, the lines written with `printf`
(the command, which the source quotes with `quote_sq`, and the signal name),
and the number of calls of `printf` so far. -/
structure TrapBuiltinWorld where
  st : SigState
  no_such_signal : List (List Char)
  printed : List (List Char × List Char)
  printf_calls : Nat

/-- Embedding of `print_trap`; `printf_ok n` tells whether the call of
`printf` after `n` earlier ones succeeds. -/
def print_trap (printf_ok : Nat → Bool) (signame : List Char) (command : Option (List Char))
    (w : TrapBuiltinWorld) : Bool × TrapBuiltinWorld :=
  match command with
  | none => (true, w)
  | some c =>
    if printf_ok w.printf_calls = true then
      (true, { w with printed := w.printed ++ [(c, signame)], printf_calls := w.printf_calls + 1 })
    else (false, { w with printf_calls := w.printf_calls + 1 })

/-- The loop of `trap_builtin` over the table `signals` when all traps are
printed; `ss` holds the signal numbers met so far.  The result is false when
the function returns `Exit_FAILURE` from inside the loop. -/
def print_all_plain (cfg : SigConfig) (printf_ok : Nat → Bool) :
    List (Nat × List Char) → SigSet → TrapBuiltinWorld → Bool × TrapBuiltinWorld
  | [], _, w => (true, w)
  | s :: rest, ss, w =>
    if ss s.1 = false then
      let r := print_trap printf_ok s.2 (w.st.trap_command (cfg.sigindex s.1)) w
      if r.1 = true then print_all_plain cfg printf_ok rest (sigaddset ss s.1) r.2
      else (false, r.2)
    else print_all_plain cfg printf_ok rest ss w

/-- The loop of `trap_builtin` over the real-time signals when all traps are
printed, for the indices `i` yet to come. -/
def print_all_rt (cfg : SigConfig) (printf_ok : Nat → Bool) :
    List Nat → TrapBuiltinWorld → Bool × TrapBuiltinWorld
  | [], w => (true, w)
  | i :: rest, w =>
    if cfg.SIGRTMIN + i > cfg.SIGRTMAX then (true, w)
    else
      let r := print_trap printf_ok (get_signal_name cfg ((cfg.SIGRTMIN + i : Nat) : Int))
        (w.st.rttrap_command i) w
      if r.1 = true then print_all_rt cfg printf_ok rest r.2 else (false, r.2)

/-- The branch of `trap_builtin` without operands: all traps are printed. -/
def print_all_traps (cfg : SigConfig) (printf_ok : Nat → Bool) (w : TrapBuiltinWorld) :
    Int × TrapBuiltinWorld :=
  let w := (print_trap printf_ok "EXIT".toList (w.st.trap_command (cfg.sigindex 0)) w).2
  let r := print_all_plain cfg printf_ok cfg.signals sigemptyset w
  if r.1 = false then (Exit_FAILURE, r.2)
  else if cfg.has_rt = true then
    let r := print_all_rt cfg printf_ok (List.range cfg.RTSIZE) r.2
    if r.1 = false then (Exit_FAILURE, r.2) else (Exit_SUCCESS, r.2)
  else (Exit_SUCCESS, r.2)

/-- The loop of `trap_builtin` that prints the traps of the operands still to
come; the result is the variable `ok`. -/
def print_specified_traps (cfg : SigConfig) (printf_ok : Nat → Bool) :
    List (List Char) → TrapBuiltinWorld → Bool × TrapBuiltinWorld
  | [], w => (true, w)
  | operand :: rest, w =>
    let wname := operand.map towupper
    let name := (malloc_wcstombs wname).getD []
    let signum := get_signal_number cfg name
    let r : Bool × TrapBuiltinWorld :=
      if signum < 0 then (true, { w with no_such_signal := w.no_such_signal ++ [wname] })
      else if cfg.has_rt = true ∧ (cfg.SIGRTMIN : Int) ≤ signum ∧ signum ≤ (cfg.SIGRTMAX : Int)
      then
        if signum - (cfg.SIGRTMIN : Int) < (cfg.RTSIZE : Int) then
          print_trap printf_ok (get_signal_name cfg signum)
            (w.st.rttrap_command (signum - (cfg.SIGRTMIN : Int)).toNat) w
        else (true, w)
      else print_trap printf_ok name (w.st.trap_command (cfg.sigindex signum.toNat)) w
    if r.1 = true then print_specified_traps cfg printf_ok rest r.2 else (false, r.2)

/-- The loop of `trap_builtin` after the label `set_traps`, for the operands
still to come; `err` is the variable of that name, and the result is its
final value. -/
def set_traps (cfg : SigConfig) (env : SigEnv) (command : Option (List Char)) :
    List (List Char) → Bool → TrapBuiltinWorld → Bool × TrapBuiltinWorld
  | [], err, w => (err, w)
  | name :: rest, err, w =>
    let signum := get_signal_number_w cfg name
    if signum < 0 then
      set_traps cfg env command rest err
        { w with no_such_signal := w.no_such_signal ++ [name.map towupper] }
    else
      let r := set_trap cfg env signum.toNat command w.st
      set_traps cfg env command rest (err || !r.1) { w with st := r.2 }

/-- Where `wcstoul(s, &end, 10)` leaves `end`: `wcstoul` takes the same
subject sequence as `strtol` (white space, an optional sign, digits). -/
def wcstoul_end (s : List Char) : List Char := (strtol s).strend

/-- Embedding of `trap_builtin`.  The options are read by `xgetopt_long`,
which is outside the given sources: `options` is `none` when it reports an
option the builtin does not take and `some print` otherwise, and `operands`
are the arguments from `xoptind` on.  The result `Exit_ERROR` stands for the
code after the label `print_usage`. -/
def trap_builtin (cfg : SigConfig) (env : SigEnv) (printf_ok : Nat → Bool)
    (options : Option Bool) (operands : List (List Char)) (w : TrapBuiltinWorld) :
    Int × TrapBuiltinWorld :=
  match options with
  | none => (Exit_ERROR, w)
  | some print =>
    match operands with
    | [] => print_all_traps cfg printf_ok w
    | first :: rest =>
      if print = true then
        let r := print_specified_traps cfg printf_ok (first :: rest) w
        (if r.1 = true then Exit_SUCCESS else Exit_FAILURE, r.2)
      else if first ≠ [] ∧ wcstoul_end first = [] then
        let r := set_traps cfg env none (first :: rest) false w
        (if r.1 = true then Exit_FAILURE else Exit_SUCCESS, r.2)
      else
        match rest with
        | [] => (Exit_ERROR, w)
        | _ :: _ =>
          let r := set_traps cfg env (if first = "-".toList then none else some first) rest
            false w
          (if r.1 = true then Exit_FAILURE else Exit_SUCCESS, r.2)

/-- A world for examples: the variables of `sig.c` after `init_signal` in a
process that starts with no signal blocked and all actions default. -/
def trap_builtin_start : TrapBuiltinWorld :=
  { st := init_signal (sig_startup_state sigemptyset fun _ => Handler.SIG_DFL)
    no_such_signal := [], printed := [], printf_calls := 0 }

/-! ## lineedit/editing.c: cmd_backward_delete_char and cmd_redo -/

/-- Embedding of `alert_if_first`: the result and the state it leaves. -/
def alert_if_first (s : EditState) : Bool × EditState :=
  if s.le_main_index > 0 then (false, s) else (true, cmd_alert s)

/-- Embedding of `alert_if_last`: the result and the state it leaves. -/
def alert_if_last (s : EditState) : Bool × EditState :=
  if s.le_current_mode = LeMode.LE_MODE_VI_COMMAND then
    if s.state.pending_command_motion ≠ MEC.MEC_NONE then (false, s)
    else if s.le_main_buffer.length > 0 ∧
        s.le_main_index < size_sub s.le_main_buffer.length 1 then (false, s)
    else (true, cmd_alert s)
  else if s.le_main_index < s.le_main_buffer.length then (false, s)
  else (true, cmd_alert s)

/-- Embedding of `move_cursor_forward_char`, where `COUNT_ABS_MAX` is not above
`SIZE_MAX`; `(size_t) offset` is `offset` modulo `SIZE_MOD`. -/
def move_cursor_forward_char (offset : Int) (s : EditState) : EditState :=
  let s := c_assert (decide (offset ≥ 0)) s
  let r := alert_if_last s
  if r.1 = true then r.2
  else
    let s := r.2
    let new_index :=
      if size_sub s.le_main_buffer.length s.le_main_index < (offset % (SIZE_MOD : Int)).toNat
      then s.le_main_buffer.length
      else (s.le_main_index + (offset % (SIZE_MOD : Int)).toNat) % SIZE_MOD
    exec_motion_command new_index false s

/-- Embedding of `move_cursor_backward_char`, where `COUNT_ABS_MAX` is not
above `SIZE_MAX`. -/
def move_cursor_backward_char (offset : Int) (s : EditState) : EditState :=
  let s := c_assert (decide (offset ≥ 0)) s
  let r := alert_if_first s
  if r.1 = true then r.2
  else
    let s := r.2
    let new_index :=
      if s.le_main_index ≤ (offset % (SIZE_MOD : Int)).toNat then 0
      else size_sub s.le_main_index (offset % (SIZE_MOD : Int)).toNat
    exec_motion_command new_index false s

/-- Embedding of `cmd_backward_char`. -/
def cmd_backward_char (_c : Char) (s : EditState) : EditState :=
  if get_count s 1 ≥ 0 then move_cursor_backward_char (get_count s 1) s
  else move_cursor_forward_char (-get_count s 1) s

/-- Embedding of `cmd_backward_kill_char`. -/
def cmd_backward_kill_char (_c : Char) (s : EditState) : EditState :=
  if s.current_command.func ≠ some Cmd.cmd_redo ∧
      s.state.pending_command_motion ≠ MEC.MEC_NONE then cmd_alert s
  else
    cmd_backward_char NUL
      { s with state := { s.state with pending_command_motion := MEC.MEC_KILL } }

/-- Embedding of `cmd_backward_delete_char`. -/
def cmd_backward_delete_char (_c : Char) (s : EditState) : EditState :=
  if s.state.count.sign = 0 then
    alert_and_return_if_pending (fun s =>
      let s := save_current_edit_command s
      let s := maybe_save_undo_history s
      let s :=
        if s.le_main_index > 0 then
          { s with
            le_main_index := s.le_main_index - 1
            le_main_buffer := wb_remove s.le_main_buffer (s.le_main_index - 1) 1 }
        else { s with alerts := s.alerts + 1 }
      reset_state s) s
  else cmd_backward_kill_char NUL s

/-- The functions a pointer saved in `last_edit_command` is followed to, as
far as they are embedded here; `fuel` bounds the loop of `cmd_put_pop`. -/
def edit_command (fuel : Nat) : Cmd → Option (Char → EditState → Option EditState)
  | Cmd.cmd_backward_delete_char => some fun c s => some (cmd_backward_delete_char c s)
  | Cmd.cmd_backward_kill_char => some fun c s => some (cmd_backward_kill_char c s)
  | Cmd.cmd_backward_char => some fun c s => some (cmd_backward_char c s)
  | Cmd.cmd_backward_kill_line => some fun c s => some (cmd_backward_kill_line c s)
  | Cmd.cmd_put_before => some fun c s => some (cmd_put_before c s)
  | Cmd.cmd_put => some fun c s => some (cmd_put c s)
  | Cmd.cmd_put_left => some fun c s => some (cmd_put_left c s)
  | Cmd.cmd_put_pop => some (cmd_put_pop fuel)
  | _ => none

/-- Embedding of `cmd_redo`; `none` when the saved command is not among those
of `edit_command` or does not return within `fuel`. -/
def cmd_redo (fuel : Nat) (_c : Char) (s : EditState) : Option EditState :=
  if s.state.pending_command_motion ≠ MEC.MEC_NONE then some (cmd_alert s)
  else
    match s.last_edit_command.1.func with
    | none => some (cmd_alert s)
    | some func =>
      let s :=
        if s.state.count.sign ≠ 0 then
          { s with last_edit_command :=
              (s.last_edit_command.1, { s.last_edit_command.2 with count := s.state.count }) }
        else s
      let s := { s with state := s.last_edit_command.2 }
      match edit_command fuel func with
      | none => none
      | some cmd => cmd s.last_edit_command.1.arg s

/-- A run of keystrokes bound to `cmd_self_insert`, first keystroke first. -/
def type_chars (cs : List Char) (s : EditState) : EditState :=
  cs.foldl (fun s c => le_invoke_command Cmd.cmd_self_insert cmd_self_insert c s) s

/-- The editor after `le_editing_init` (vi or emacs), in which `abc` has been
typed and `cmd_backward_delete_char` has then been invoked twice. -/
def abc_deleted_state (vi : Bool) : EditState :=
  le_invoke_command Cmd.cmd_backward_delete_char cmd_backward_delete_char NUL
    (le_invoke_command Cmd.cmd_backward_delete_char cmd_backward_delete_char NUL
      (type_chars "abc".toList (le_editing_init vi startup_state)))

/-! ## lineedit/complete.c: contexts, candidates and quote -/

/-- The apostrophe. -/
def APOSTROPHE : Char := Char.ofNat 39

/-- The double-quote character. -/
def DOUBLE_QUOTE : Char := Char.ofNat 34

/-- The backslash. -/
def BACKSLASH : Char := Char.ofNat 92

/-- The backquote character. -/
def BACKQUOTE : Char := Char.ofNat 96

/-- The type `le_quote_T` of `complete.h`. -/
inductive le_quote_T where
  | QUOTE_NONE | QUOTE_NORMAL | QUOTE_SINGLE | QUOTE_DOUBLE
deriving DecidableEq, Repr

/-- The values of `ctxt->type & CTXT_MASK`. -/
inductive CtxtKind where
  | CTXT_NORMAL | CTXT_COMMAND | CTXT_ARGUMENT | CTXT_TILDE | CTXT_VAR | CTXT_ARITH
  | CTXT_ASSIGN | CTXT_REDIR | CTXT_REDIR_FD | CTXT_FOR_IN | CTXT_FOR_DO | CTXT_CASE_IN
  | CTXT_FUNCTION
deriving DecidableEq, Repr

/-- The type `le_contexttype_T` of `complete.h`: a value of `CTXT_MASK` and
the three flag bits `complete.c` tests. -/
structure le_contexttype_T where
  kind : CtxtKind
  CTXT_EBRACED : Bool
  CTXT_VBRACED : Bool
  CTXT_QUOTED : Bool
deriving DecidableEq, Repr

/-- The members of `le_context_T` (`complete.h`) read by the functions embedded
here.  `src` is the source word, `srcindex` the index of its first character
in the edit line, and `origindex` the value of `le_main_index` when the
context was made, which is where the source word ends. -/
structure le_context_T where
  quote : le_quote_T
  type : le_contexttype_T
  src : List Char
  srcindex : Nat
  origindex : Nat
  substsrc : Bool
deriving DecidableEq, Repr

/-- The members of `le_candidate_T` (`complete.h`) read by the functions
embedded here. -/
structure le_candidate_T where
  origvalue : List Char
  terminate : Bool
deriving DecidableEq, Repr

/-- The wide string a pointer to the characters `s` followed by a terminating
NUL points at: it ends before the first NUL. -/
def wcs (s : List Char) : List Char := s.takeWhile fun c => decide (c ≠ NUL)

/-- The library function `wcslen`. -/
def wcslen (s : List Char) : Nat := (wcs s).length

/-- The library function `iswspace` in the C locale. -/
def iswspace (c : Char) : Bool := isspace c

/-- The string `quotechars` of `quote`; `ctxt->type == CTXT_COMMAND` holds
when the kind is `CTXT_COMMAND` and no flag bit is set. -/
def quotechars (ctxt : le_context_T) : List Char :=
  let rest : List Char :=
    "|&;<>()$".toList ++ [BACKQUOTE, BACKSLASH, DOUBLE_QUOTE, APOSTROPHE] ++ "*?[]#~".toList ++
      [Char.ofNat 123, Char.ofNat 125]
  if ctxt.type = ⟨CtxtKind.CTXT_COMMAND, false, false, false⟩ then '=' :: rest else rest

/-- Modelled from the spec: the string `CHARS_ESCAPABLE` of `parser.h`, the
characters a backslash escapes inside double quotes ("double-quote
specials"). -/
def CHARS_ESCAPABLE : List Char := ['$', BACKQUOTE, DOUBLE_QUOTE, BACKSLASH]

/-- The loop of `quote` for `QUOTE_NORMAL`, over the characters of the string
`s`, appending to `buf`. -/
def quote_normal (qc : List Char) (buf : List Char) : List Char → List Char
  | [] => buf
  | c :: s =>
    if c = '\n' then quote_normal qc (buf ++ [APOSTROPHE, '\n', APOSTROPHE]) s
    else if c ∈ qc ∨ iswspace c = true then quote_normal qc (buf ++ [BACKSLASH] ++ [c]) s
    else quote_normal qc (buf ++ [c]) s

/-- The loop of `quote` for `QUOTE_SINGLE`. -/
def quote_single (buf : List Char) : List Char → List Char
  | [] => buf
  | c :: s =>
    if c ≠ APOSTROPHE then quote_single (buf ++ [c]) s
    else quote_single (buf ++ [APOSTROPHE, BACKSLASH, APOSTROPHE, APOSTROPHE]) s

/-- The loop of `quote` for `QUOTE_DOUBLE`. -/
def quote_double (buf : List Char) : List Char → List Char
  | [] => buf
  | c :: s =>
    if c ∈ CHARS_ESCAPABLE then quote_double (buf ++ [BACKSLASH] ++ [c]) s
    else quote_double (buf ++ [c]) s

/-- Embedding of `quote(buf, s, quotetype)`: the contents of `buf` afterwards. -/
def quote (ctxt : le_context_T) (buf : List Char) (s : List Char) (quotetype : le_quote_T) :
    List Char :=
  match quotetype with
  | le_quote_T.QUOTE_NONE => buf ++ wcs s
  | le_quote_T.QUOTE_NORMAL => quote_normal (quotechars ctxt) buf (wcs s)
  | le_quote_T.QUOTE_SINGLE => quote_single buf (wcs s)
  | le_quote_T.QUOTE_DOUBLE => quote_double buf (wcs s)

/-- Where the shell is in a word while it removes the quoting: in plain text,
right after a backslash, or between two apostrophes. -/
inductive QuoteMode where
  | plain | escaped | single
deriving DecidableEq, Repr

/-- What the shell makes of a word in which characters are quoted by a
backslash or by a pair of apostrophes: a backslash in plain text is dropped
and the character after it is taken as it is (a newline after it is dropped
too), an apostrophe is dropped and the characters up to the next apostrophe
are taken as they are. -/
def shell_unquote : QuoteMode → List Char → List Char
  | _, [] => []
  | QuoteMode.single, c :: rest =>
    if c = APOSTROPHE then shell_unquote QuoteMode.plain rest
    else c :: shell_unquote QuoteMode.single rest
  | QuoteMode.escaped, c :: rest =>
    if c = '\n' then shell_unquote QuoteMode.plain rest
    else c :: shell_unquote QuoteMode.plain rest
  | QuoteMode.plain, c :: rest =>
    if c = APOSTROPHE then shell_unquote QuoteMode.single rest
    else if c = BACKSLASH then shell_unquote QuoteMode.escaped rest
    else c :: shell_unquote QuoteMode.plain rest

/-- What `quote` writes for one character in the state `QUOTE_NORMAL`. -/
def quoted_char (qc : List Char) (c : Char) : List Char :=
  if c = '\n' then [APOSTROPHE, '\n', APOSTROPHE]
  else if c ∈ qc ∨ iswspace c = true then [BACKSLASH, c]
  else [c]

/-- What `quote` writes for one character in the state `QUOTE_SINGLE`. -/
def single_quoted_char (c : Char) : List Char :=
  if c = APOSTROPHE then [APOSTROPHE, BACKSLASH, APOSTROPHE, APOSTROPHE] else [c]

/-- A context for examples: an argument word, not quoted. -/
def argument_context (src : List Char) (srcindex : Nat) : le_context_T :=
  { quote := le_quote_T.QUOTE_NORMAL
    type := ⟨CtxtKind.CTXT_ARGUMENT, false, false, false⟩
    src := src, srcindex := srcindex, origindex := srcindex + src.length, substsrc := false }

/-! ## lineedit/complete.c: the candidate list and the edit line -/

/-- The variables of `complete.c` and the two variables of `editing.c` it
writes.  A null `ctxt` and a null `le_candidates.contents` are `none`;
`common_prefix_length` is `SIZE_MAX` while it is not computed;
`assert_failed` records that the condition of an `assert` was false. -/
structure CompleteState where
  ctxt : Option le_context_T
  le_candidates : Option (List le_candidate_T)
  le_selected_candidate_index : Nat
  common_prefix_length : Nat
  le_main_buffer : List Char
  le_main_index : Nat
  assert_failed : Bool
deriving DecidableEq, Repr

/-- The macro `assert` in `complete.c`. -/
def complete_assert (cond : Bool) (s : CompleteState) : CompleteState :=
  if cond then s else { s with assert_failed := true }

/-- The character `s[j]` of a wide string: a character of the string or its
terminating NUL; `none` past the terminating NUL. -/
def wcs_read (s : List Char) (j : Nat) : Option Char :=
  if j < wcslen s then (wcs s).get? j else if j = wcslen s then some NUL else none

/-- The loop `for (j = 0; j < cpl; j++) if (value[j] != value2[j]) cpl = j;`
of `get_common_prefix_length` from index `j` on, for at most `fuel` rounds:
the final `cpl`, or `none` when a character past a terminating NUL is read or
the rounds are used up. -/
def common_prefix_scan (value value2 : List Char) : Nat → Nat → Nat → Option Nat
  | 0, j, cpl => if j < cpl then none else some cpl
  | fuel + 1, j, cpl =>
    if j < cpl then
      match wcs_read value j with
      | none => none
      | some a =>
        match wcs_read value2 j with
        | none => none
        | some b =>
          if a ≠ b then common_prefix_scan value value2 fuel (j + 1) j
          else common_prefix_scan value value2 fuel (j + 1) cpl
    else some cpl

/-- The loop of `get_common_prefix_length` over the candidates from the second
on; the inner loop makes at most `cpl` rounds. -/
def common_prefix_candidates (value : List Char) : List le_candidate_T → Nat → Option Nat
  | [], cpl => some cpl
  | cand :: rest, cpl =>
    match common_prefix_scan value cand.origvalue cpl 0 cpl with
    | none => none
    | some cpl2 => common_prefix_candidates value rest cpl2

/-- Embedding of `get_common_prefix_length`: the result and the state it
leaves; `none` when the list is null or empty and the first candidate is
read, or when a character past the end of a string is read. -/
def get_common_prefix_length (s : CompleteState) : Option (Nat × CompleteState) :=
  let s := complete_assert s.le_candidates.isSome s
  let s := complete_assert (decide (0 < (s.le_candidates.getD []).length)) s
  if s.common_prefix_length ≠ SIZE_MAX then some (s.common_prefix_length, s)
  else
    match s.le_candidates with
    | none => none
    | some [] => none
    | some (cand :: rest) =>
      match common_prefix_candidates cand.origvalue rest (wcslen cand.origvalue) with
      | none => none
      | some cpl => some (cpl, { s with common_prefix_length := cpl })

/-- Modelled from the spec: `wb_replace_force(buf, i, bn, s, sn)` of
`strbuf.c` replaces the `bn` characters at position `i` of the buffer by the
first `sn` characters of `s`. -/
def wb_replace_force (buf : List Char) (i bn : Nat) (s : List Char) (sn : Nat) : List Char :=
  buf.take i ++ s.take sn ++ buf.drop (i + bn)

/-- Modelled from the spec: `wb_ninsert_force(buf, i, s, n)` of `strbuf.c`
inserts the first `n` characters of `s` before position `i` of the buffer. -/
def wb_ninsert_force (buf : List Char) (i : Nat) (s : List Char) (n : Nat) : List Char :=
  buf.take i ++ s.take n ++ buf.drop i

/-- The two statements `wb_ninsert_force(&le_main_buffer, le_main_index, c, 1);
le_main_index += 1;` of `update_main_buffer`. -/
def insert_at_cursor (c : Char) (s : CompleteState) : CompleteState :=
  { s with
    le_main_buffer := wb_ninsert_force s.le_main_buffer s.le_main_index [c] 1
    le_main_index := s.le_main_index + 1 }

/-- The end of `update_main_buffer`, for a selected candidate whose
`terminate` member is true: the word is closed. -/
def close_word (ctxt : le_context_T) (quotetype : le_quote_T) (finish : Bool)
    (s : CompleteState) : CompleteState :=
  let s :=
    match quotetype with
    | le_quote_T.QUOTE_NONE => s
    | le_quote_T.QUOTE_NORMAL => s
    | le_quote_T.QUOTE_SINGLE => insert_at_cursor APOSTROPHE s
    | le_quote_T.QUOTE_DOUBLE => insert_at_cursor DOUBLE_QUOTE s
  if finish = true then
    let s :=
      if ctxt.type.CTXT_VBRACED = true then insert_at_cursor (Char.ofNat 125) s
      else if ctxt.type.CTXT_EBRACED = true then insert_at_cursor ',' s
      else s
    let s := if ctxt.type.CTXT_QUOTED = true then insert_at_cursor DOUBLE_QUOTE s else s
    match ctxt.type.kind with
    | CtxtKind.CTXT_TILDE => insert_at_cursor '/' s
    | _ =>
      if ctxt.type.CTXT_EBRACED = true ∨ ctxt.type.CTXT_VBRACED = true then s
      else insert_at_cursor ' ' s
  else s

/-- The text `update_main_buffer` puts into `buf`, with the candidate `cand`
it is taken from and the state after the assertions; `none` when a null
pointer or an element outside the list is read. -/
def update_main_buffer_text (ctxt : le_context_T) (cands : List le_candidate_T)
    (srclen : Nat) (quotetype : le_quote_T) (s : CompleteState) :
    Option (List Char × le_candidate_T × CompleteState) :=
  if s.le_selected_candidate_index ≥ cands.length then
    match get_common_prefix_length s with
    | none => none
    | some (cpl, s) =>
      let s := complete_assert (decide (srclen ≤ cpl)) s
      match cands.head? with
      | none => none
      | some cand =>
        let valuelen := size_sub cpl srclen
        let value := (wcs (cand.origvalue.drop srclen)).take valuelen
        some (quote ctxt [] value quotetype, cand, s)
  else
    match cands.get? s.le_selected_candidate_index with
    | none => none
    | some cand =>
      let s := complete_assert (decide (srclen ≤ wcslen cand.origvalue)) s
      if wcs cand.origvalue = [] ∧ quotetype = le_quote_T.QUOTE_NORMAL then
        some ([DOUBLE_QUOTE, DOUBLE_QUOTE], cand, s)
      else some (quote ctxt [] (cand.origvalue.drop srclen) quotetype, cand, s)

/-- Embedding of `update_main_buffer`; `none` when a null pointer or an
element outside the candidate list is read. -/
def update_main_buffer (subst finish : Bool) (s : CompleteState) : Option CompleteState :=
  match s.ctxt, s.le_candidates with
  | some ctxt, some cands =>
    let srclen := if subst = true then 0 else wcslen ctxt.src
    let substindex := if subst = true then ctxt.srcindex else ctxt.origindex
    let quotetype := if subst = true then le_quote_T.QUOTE_NORMAL else ctxt.quote
    match update_main_buffer_text ctxt cands srclen quotetype s with
    | none => none
    | some (buf, cand, s) =>
      let s := complete_assert (decide (s.le_main_index ≥ substindex)) s
      let s := { s with
        le_main_buffer :=
          wb_replace_force s.le_main_buffer substindex (size_sub s.le_main_index substindex)
            buf buf.length
        le_main_index := substindex + buf.length }
      if s.le_selected_candidate_index ≥ cands.length then some s
      else if cand.terminate = false then some s
      else some (close_word ctxt quotetype finish s)
  | _, _ => none

/-- Modelled from the spec: `matchwcsprefix(s, t)` of `util.c` is not null
when the string `s` begins with the string `t`. -/
def matchwcsprefix (s t : List Char) : Bool := (wcs t).isPrefixOf (wcs s)

/-- Embedding of `need_subst`. -/
def need_subst (ctxt : le_context_T) (cands : List le_candidate_T) : Bool :=
  cands.any fun cand => !( matchwcsprefix cand.origvalue ctxt.src)

/-- Embedding of `le_complete_cleanup`. -/
def le_complete_cleanup (s : CompleteState) : CompleteState :=
  { s with le_candidates := none, ctxt := none }

/-- Embedding of `substitute_source_word_all`. -/
def substitute_source_word_all (s : CompleteState) : Option CompleteState :=
  match s.ctxt, s.le_candidates with
  | some ctxt, some cands =>
    let s := { s with
      le_main_buffer :=
        wb_remove s.le_main_buffer ctxt.srcindex (size_sub s.le_main_index ctxt.srcindex)
      le_main_index := ctxt.srcindex }
    some (cands.foldl (fun s cand =>
      let buf := quote ctxt [] cand.origvalue le_quote_T.QUOTE_NORMAL ++ [' ']
      { s with
        le_main_buffer := wb_ninsert_force s.le_main_buffer s.le_main_index buf buf.length
        le_main_index := s.le_main_index + buf.length }) s)
  | _, _ => none

/-- Embedding of `lecr_normal`; `le_display_make_rawvalues` only prepares the
display. -/
def lecr_normal (s : CompleteState) : Option CompleteState :=
  match s.le_candidates with
  | none => none
  | some cands =>
    if cands.length = 0 then some { s with le_selected_candidate_index := 0 }
    else
      match s.ctxt with
      | none => none
      | some ctxt =>
        if ctxt.substsrc = true ∨ need_subst ctxt cands = true then
          (substitute_source_word_all { s with le_selected_candidate_index := 0 }).map
            le_complete_cleanup
        else if cands.length = 1 then
          (update_main_buffer false true { s with le_selected_candidate_index := 0 }).map
            le_complete_cleanup
        else update_main_buffer false false { s with le_selected_candidate_index := cands.length }

/-- The new value of `le_selected_candidate_index` in
`le_complete_select_candidate`, for `n` candidates, the old index `i` and the
argument `offset`, with `int` of 32 and `size_t` of 64 bits: an `int` meeting
a `size_t` is converted to `size_t`, and the result is converted back when it
is stored in `offset`. -/
def select_candidate_index (n i : Nat) (offset : Int) : Nat :=
  if offset ≥ 0 then
    let offset := to_int (((offset % (SIZE_MOD : Int)).toNat % ((n + 1) % SIZE_MOD) : Nat) : Int)
    let i := (i + (offset % (SIZE_MOD : Int)).toNat) % SIZE_MOD
    i % ((n + 1) % SIZE_MOD)
  else
    let offset :=
      to_int (((to_int (-offset) % (SIZE_MOD : Int)).toNat % ((n + 1) % SIZE_MOD) : Nat) : Int)
    if (offset % (SIZE_MOD : Int)).toNat ≤ i then size_sub i (offset % (SIZE_MOD : Int)).toNat
    else (i + (size_sub n (offset % (SIZE_MOD : Int)).toNat + 1) % SIZE_MOD) % SIZE_MOD

/-! ## lineedit/complete.c: sort_candidates and le_complete -/

/-- The library function `towlower` in the C locale. -/
def towlower (c : Char) : Char := c.toLower

/-- The library function `wcscoll` in the C locale, where it compares the
strings character by character as `wcscmp` does, on the characters of the two
strings.  The C standard fixes only the sign of the result, which is what is
returned here. -/
def wcscoll : List Char → List Char → Int
  | [], [] => 0
  | [], _ :: _ => -1
  | _ :: _, [] => 1
  | a :: s, b :: t => if a = b then wcscoll s t else if a < b then -1 else 1

/-- The library function `wcscasecmp` in the C locale: `wcscmp` on the
characters mapped by `towlower`; the sign of the result. -/
def wcscasecmp : List Char → List Char → Int
  | [], [] => 0
  | [], _ :: _ => -1
  | _ :: _, [] => 1
  | a :: s, b :: t =>
    if towlower a = towlower b then wcscasecmp s t
    else if towlower a < towlower b then -1 else 1

/-- The loop `while (*v1 == L'-' && *v2 == L'-') v1++, v2++;` of
`sort_candidates_cmp`: the strings `v1` and `v2` point at afterwards. -/
def skip_hyphens : List Char → List Char → List Char × List Char
  | a :: s, b :: t => if a = '-' ∧ b = '-' then skip_hyphens s t else (a :: s, b :: t)
  | [], t => ([], t)
  | s, [] => (s, [])

/-- The function `sort_candidates_cmp` on the characters of the two origin
values; `HAVE_WCSCASECMP` tells whether the configuration has defined the
macro of this name. -/
def sort_candidates_cmp_values (HAVE_WCSCASECMP : Bool) (v1 v2 : List Char) : Int :=
  if v1.head? = some '-' ∨ v2.head? = some '-' then
    let p := skip_hyphens v1 v2
    if p.1.head? = some '-' then 1
    else if p.2.head? = some '-' then -1
    else if HAVE_WCSCASECMP = true ∧ wcscasecmp p.1 p.2 ≠ 0 then wcscasecmp p.1 p.2
    else wcscoll p.1 p.2
  else wcscoll v1 v2

/-- Embedding of `sort_candidates_cmp`. -/
def sort_candidates_cmp (HAVE_WCSCASECMP : Bool) (cand1 cand2 : le_candidate_T) : Int :=
  sort_candidates_cmp_values HAVE_WCSCASECMP (wcs cand1.origvalue) (wcs cand2.origvalue)

/-- The loop `for (i = le_candidates.length - 1; i > 0; i--)` of
`sort_candidates`, from the round of index `i` on; `pl_remove(list, i, 1)`
takes element `i` out of the list. -/
def remove_duplicates : Nat → List le_candidate_T → List le_candidate_T
  | 0, l => l
  | i + 1, l =>
    match l.get? (i + 1), l.get? i with
    | some cand1, some cand2 =>
      if wcscoll (wcs cand1.origvalue) (wcs cand2.origvalue) = 0 then
        remove_duplicates i (l.eraseIdx (i + 1))
      else remove_duplicates i l
    | _, _ => l

/-- What `sort_candidates` makes of the candidate list `l`.  The library
function `qsort` is a parameter: it is given the comparison function and the
elements of the array and returns the elements the array holds afterwards. -/
def sort_candidates_list
    (qsort : (le_candidate_T → le_candidate_T → Int) → List le_candidate_T → List le_candidate_T)
    (HAVE_WCSCASECMP : Bool) (l : List le_candidate_T) : List le_candidate_T :=
  let l := qsort (sort_candidates_cmp HAVE_WCSCASECMP) l
  if l.length ≥ 2 then remove_duplicates (l.length - 1) l else l

/-- What `complete.c` takes from outside the given sources: the library
function `qsort`, whether `HAVE_WCSCASECMP` is defined, the context
`le_get_context` of `compparse.c` finds for an edit line and a cursor, and
the candidates `execute_completion_function` adds to the empty list for a
context. -/
structure CompleteEnv where
  qsort : (le_candidate_T → le_candidate_T → Int) → List le_candidate_T → List le_candidate_T
  HAVE_WCSCASECMP : Bool
  le_get_context : List Char → Nat → le_context_T
  execute_completion_function : le_context_T → List le_candidate_T

/-- Embedding of `sort_candidates`. -/
def sort_candidates (env : CompleteEnv) (s : CompleteState) : CompleteState :=
  match s.le_candidates with
  | none => s
  | some l =>
    { s with le_candidates := some (sort_candidates_list env.qsort env.HAVE_WCSCASECMP l) }

/-- Embedding of `le_complete(lecr)`, without the steps that only concern
the terminal and the debugging output. -/
def le_complete (env : CompleteEnv) (lecr : CompleteState → Option CompleteState)
    (s : CompleteState) : Option CompleteState :=
  let s := le_complete_cleanup s
  let s := { s with le_candidates := some [], common_prefix_length := SIZE_MAX }
  let ctxt := env.le_get_context s.le_main_buffer s.le_main_index
  let s := { s with ctxt := some ctxt }
  let s := { s with le_candidates := some (env.execute_completion_function ctxt) }
  let s := sort_candidates env s
  lecr s

/-- Embedding of `le_complete_select_candidate`. -/
def le_complete_select_candidate (env : CompleteEnv) (offset : Int) (s : CompleteState) :
    Option CompleteState :=
  match s.le_candidates with
  | none => le_complete env lecr_normal s
  | some cands =>
    if cands.length = 0 then some s
    else
      let s := complete_assert (decide (s.le_selected_candidate_index ≤ cands.length)) s
      let s := { s with le_selected_candidate_index :=
        select_candidate_index cands.length s.le_selected_candidate_index offset }
      let s := complete_assert (decide (s.le_selected_candidate_index ≤ cands.length)) s
      update_main_buffer false false s

/-- An insertion sort by the comparison function `cmp`, one of the functions
that do what the C standard asks of `qsort`; it stands for `qsort` in
examples. -/
def insertion_qsort (cmp : le_candidate_T → le_candidate_T → Int) (l : List le_candidate_T) :
    List le_candidate_T :=
  l.insertionSort fun a b => cmp a b ≤ 0

/-- An environment for examples: the word before the cursor is the source
word of an argument, and the candidates are the names `beta`, `alpha2` and
`alpha1` of a directory that begin with the source word. -/
def directory_env : CompleteEnv :=
  { qsort := insertion_qsort
    HAVE_WCSCASECMP := true
    le_get_context := fun buf index => argument_context (buf.take index) 0
    execute_completion_function := fun ctxt =>
      (["beta".toList, "alpha2".toList, "alpha1".toList].filter
        fun name => ctxt.src.isPrefixOf name).map fun name => ⟨name, true⟩ }

/-- The edit line `al` with the cursor at its end and no completion going
on. -/
def typed_al_state : CompleteState :=
  { ctxt := none, le_candidates := none, le_selected_candidate_index := 0
    common_prefix_length := SIZE_MAX, le_main_buffer := "al".toList, le_main_index := 2
    assert_failed := false }

/-- The number of hyphens a string starts with. -/
def leading_hyphens (v : List Char) : Nat := (v.takeWhile fun c => decide (c = '-')).length

/-- Whether `L` characters at the start of every candidate's origin value are
the same: each value has `L` characters, and its first `L` characters are
those of the first candidate. -/
def common_prefix_length_ok (cands : List le_candidate_T) (L : Nat) : Prop :=
  ∀ c ∈ cands, L ≤ wcslen c.origvalue ∧
    (wcs c.origvalue).take L = (wcs ((cands.headD c).origvalue)).take L

/-- The candidate list of `sort_candidates` without the elements whose origin
value is that of the element before: `dedup_after x l` is what is left of `l`
when `x` is the element before it. -/
def dedup_after (x : le_candidate_T) : List le_candidate_T → List le_candidate_T
  | [] => []
  | y :: rest =>
    if wcscoll (wcs y.origvalue) (wcs x.origvalue) = 0 then dedup_after y rest
    else y :: dedup_after y rest

/-- The list `l` without the elements whose origin value is that of the
element before. -/
def dedup_adjacent : List le_candidate_T → List le_candidate_T
  | [] => []
  | x :: rest => x :: dedup_after x rest

/-- The state `lecr_normal` finds after `le_complete` has listed the
candidates `alpha1` and `alpha2` for the edit line `al`. -/
def alpha_listed_state : CompleteState :=
  { ctxt := some (argument_context "al".toList 0)
    le_candidates := some [⟨"alpha1".toList, true⟩, ⟨"alpha2".toList, true⟩]
    le_selected_candidate_index := 0
    common_prefix_length := SIZE_MAX, le_main_buffer := "al".toList, le_main_index := 2
    assert_failed := false }

/-- The state `lecr_normal` leaves for `alpha_listed_state`: the edit line is
`alpha` and no candidate is selected. -/
def alpha_prefix_state : CompleteState :=
  { alpha_listed_state with
    le_selected_candidate_index := 2, common_prefix_length := 5
    le_main_buffer := "alpha".toList, le_main_index := 5 }

/-- The state `alpha_listed_state` with a context that asks for the source
word to be substituted (`substsrc` set). -/
def alpha_subst_state : CompleteState :=
  { alpha_listed_state with
    ctxt := some { argument_context "al".toList 0 with substsrc := true } }

/-- The order `sort_candidates_cmp` puts on what is left of two values after
the same number of hyphens: by `wcscasecmp` and then `wcscoll` when `fold` is
true, by `wcscoll` otherwise. -/
def rest_le (fold : Bool) (r1 r2 : List Char) : Prop :=
  if fold = true then wcscasecmp r1 r2 < 0 ∨ (wcscasecmp r1 r2 = 0 ∧ wcscoll r1 r2 ≤ 0)
  else wcscoll r1 r2 ≤ 0

/-- The order `sort_candidates_cmp` puts on two values: by the number of
hyphens they start with, and for the same number by `rest_le` on what follows
the hyphens, case being folded when there are hyphens and `wcscasecmp` is
there. -/
def cand_le (HAVE_WCSCASECMP : Bool) (v1 v2 : List Char) : Prop :=
  leading_hyphens v1 < leading_hyphens v2 ∨
    (leading_hyphens v1 = leading_hyphens v2 ∧
      rest_le (HAVE_WCSCASECMP && decide (0 < leading_hyphens v1))
        (v1.drop (leading_hyphens v1)) (v2.drop (leading_hyphens v2)))

/-- An environment for examples with the candidates `--all`, `b`, `-a`, `-A`
and `b` again, whatever the context. -/
def option_env : CompleteEnv :=
  { qsort := insertion_qsort
    HAVE_WCSCASECMP := true
    le_get_context := fun buf index => argument_context (buf.take index) 0
    execute_completion_function := fun _ =>
      ["--all".toList, "b".toList, "-a".toList, "-A".toList, "b".toList].map
        fun name => ⟨name, true⟩ }

/-- A state in which `execute_completion_function` of `option_env` has just
made the candidate list. -/
def option_listed_state : CompleteState :=
  { ctxt := some (argument_context [] 0)
    le_candidates := some (option_env.execute_completion_function (argument_context [] 0))
    le_selected_candidate_index := 0
    common_prefix_length := SIZE_MAX, le_main_buffer := [], le_main_index := 0
    assert_failed := false }

/-! ## lineedit/editing.c: history search -/

/-- Modelled from the spec: the history list of `history.c`, by the values of
its entries, oldest entry first.  Entry number `i`, from 1 on, is the `i`-th
of them, and `Histlist`, which is 0, is the list itself, the sentinel that
stands before the oldest and after the newest entry. -/
abbrev History := List (List Char)

/-- Modelled from the spec: the member `Prev` of an entry, the entry recorded
just before it; `Histlist` comes before the oldest entry, and before
`Histlist` comes the newest entry. -/
def hist_prev (hist : History) (e : Nat) : Nat := if e = Histlist then hist.length else e - 1

/-- Modelled from the spec: the member `Next` of an entry, the entry recorded
just after it; `Histlist` comes after the newest entry. -/
def hist_next (hist : History) (e : Nat) : Nat := if e = hist.length then Histlist else e + 1

/-- Modelled from the spec: the member `value` of entry `e`. -/
def hist_value (hist : History) (e : Nat) : List Char := hist.getD (e - 1) []

/-- The type `enum le_search_direction`. -/
inductive SearchDirection where
  | FORWARD | BACKWARD
deriving DecidableEq, Repr

/-- What `wfnmatchl` returns: `WFNM_NOMATCH`, `WFNM_ERROR`, or the length of
a match. -/
inductive WfnmResult where
  | WFNM_NOMATCH | WFNM_ERROR | matched (n : Nat)
deriving DecidableEq, Repr

/-- What the history search takes from `xfnmatch.c`, `util.c` and `strbuf.c`,
which are outside the given sources. -/
structure SearchEnv where
  pattern_has_special_char : List Char → Bool
  shortest_match_length : List Char → Nat
  unescape : List Char → List Char
  realloc_wcstombs : List Char → Option (List Char)
  malloc_mbstowcs : List Char → Option (List Char)
  wfnmatchl : List Char → List Char → Nat → WfnmResult

/-- The variables of the history search in `editing.c`, next to the other
variables of the editor; a null `le_search_buffer.contents` and a null
`last_search.value` are `none`. -/
structure SearchState where
  edit : EditState
  le_search_direction : SearchDirection
  le_search_buffer : Option (List Char)
  le_search_result : Nat
  last_search_direction : SearchDirection
  last_search_value : Option (List Char)

/-- The library function `strstr`, as far as its result is tested: whether
`needle` occurs in `haystack`. -/
def strstr (haystack needle : List Char) : Bool :=
  haystack.tails.any fun t => needle.isPrefixOf t

/-- Modelled from the spec: `matchstrprefix(s, t)` of `util.c` is not null
when the string `s` begins with the string `t`. -/
def matchstrprefix (s t : List Char) : Bool := t.isPrefixOf s

/-- The loop `do ... while (*++w != L'\0')` of `perform_search` over the ends
`w` of an entry's value: the last result of `wfnmatchl`. -/
def search_from_each (env : SearchEnv) (pattern : List Char) (minlen : Nat) :
    List Char → WfnmResult
  | [] => env.wfnmatchl pattern [] minlen
  | c :: w =>
    match env.wfnmatchl pattern (c :: w) minlen with
    | WfnmResult.WFNM_NOMATCH =>
      if w = [] then WfnmResult.WFNM_NOMATCH else search_from_each env pattern minlen w
    | r => r

/-- How the test of one entry ends in the loop of `perform_search`: the entry
is the result, the search is given up, or the loop goes on. -/
inductive EntryTest where
  | found | error | next
deriving DecidableEq, Repr

/-- The body of the loop of `perform_search` after `e` has been moved, for an
entry with the value `value`; the second component tells whether the
assertion held. -/
def test_entry (env : SearchEnv) (lpattern : Option (List Char)) (pattern : List Char)
    (minlen : Nat) (beginning : Bool) (value : List Char) : EntryTest × Bool :=
  match lpattern with
  | some lp =>
    if (if beginning = true then matchstrprefix value lp else strstr value lp) = true then
      (EntryTest.found, true)
    else (EntryTest.next, true)
  | none =>
    match env.malloc_mbstowcs value with
    | none => (EntryTest.next, true)
    | some wvalue =>
      let r :=
        if beginning = true then env.wfnmatchl pattern wvalue minlen
        else search_from_each env pattern minlen wvalue
      let ok := beginning || decide (wvalue ≠ [])
      match r with
      | WfnmResult.WFNM_NOMATCH => (EntryTest.next, ok)
      | WfnmResult.WFNM_ERROR => (EntryTest.error, ok)
      | WfnmResult.matched _ => (EntryTest.found, ok)

/-- The loop `for (;;)` of `perform_search`, for at most `fuel` rounds: the
final `e` and whether an assertion failed; `none` when the rounds are used
up. -/
def perform_search_loop (env : SearchEnv) (hist : History) (lpattern : Option (List Char))
    (pattern : List Char) (minlen : Nat) (beginning : Bool) (dir : SearchDirection) :
    Nat → Nat → Bool → Option (Nat × Bool)
  | 0, _, _ => none
  | fuel + 1, e, failed =>
    let e :=
      match dir with
      | SearchDirection.FORWARD => hist_next hist e
      | SearchDirection.BACKWARD => hist_prev hist e
    if e = Histlist then some (e, failed)
    else
      match test_entry env lpattern pattern minlen beginning (hist_value hist e) with
      | (EntryTest.found, ok) => some (e, failed || !ok)
      | (EntryTest.error, ok) => some (Histlist, failed || !ok)
      | (EntryTest.next, ok) =>
        perform_search_loop env hist lpattern pattern minlen beginning dir fuel e
          (failed || !ok)

/-- The end of `perform_search`, from the label `done` on. -/
def perform_search_done (r : Nat × Bool) (s : SearchState) : SearchState :=
  { s with
    le_search_result := r.1
    edit := if r.2 = true then { s.edit with assert_failed := true } else s.edit }

/-- Embedding of `perform_search`; `none` when the loop does not end within
`fuel` rounds. -/
def perform_search (env : SearchEnv) (hist : History) (fuel : Nat) (pattern : List Char)
    (dir : SearchDirection) (s : SearchState) : Option SearchState :=
  let e := s.edit.main_history_entry
  if dir = SearchDirection.FORWARD ∧ e = Histlist then some (perform_search_done (e, false) s)
  else
    let beginning : Bool := decide (pattern.head? = some '^')
    let pattern := if beginning = true then pattern.tail else pattern
    if beginning = true ∧ pattern = [] then some (perform_search_done (Histlist, false) s)
    else if env.pattern_has_special_char pattern = true then
      (perform_search_loop env hist none pattern (env.shortest_match_length pattern) beginning
        dir fuel e false).map fun r => perform_search_done r s
    else
      match env.realloc_wcstombs (env.unescape pattern) with
      | none => some (perform_search_done (e, false) s)
      | some lpattern =>
        (perform_search_loop env hist (some lpattern) pattern 0 beginning dir fuel e false).map
          fun r => perform_search_done r s

/-- Embedding of `go_to_history`. -/
def go_to_history (hist : History) (e : Nat) (cursorend : Bool) (s : EditState) : EditState :=
  let s := maybe_save_undo_history s
  let s := { s with le_main_buffer := [] }
  let s :=
    if e = s.undo_history_entry ∧ s.undo_index < s.undo_history.length then
      let h := s.undo_history.getD s.undo_index ⟨0, []⟩
      let s := { s with le_main_buffer := s.le_main_buffer ++ h.contents }
      let s := c_assert (decide (h.index ≤ s.le_main_buffer.length)) s
      { s with le_main_index := h.index }
    else if e ≠ Histlist then
      let s := { s with le_main_buffer := s.le_main_buffer ++ hist_value hist e }
      { s with le_main_index := if cursorend = true then s.le_main_buffer.length else 0 }
    else { s with le_main_index := 0 }
  let s := { s with
    main_history_entry := e
    main_history_value := s.le_main_buffer
    undo_save_index := s.le_main_index }
  reset_state s

/-- Embedding of `search_again`. -/
def search_again (env : SearchEnv) (hist : History) (fuel : Nat) (dir : SearchDirection)
    (s : SearchState) : Option SearchState :=
  if s.edit.state.pending_command_motion ≠ MEC.MEC_NONE then
    some { s with edit := cmd_alert s.edit }
  else
    match s.last_search_value with
    | none => some { s with edit := cmd_alert s.edit }
    | some value =>
      match perform_search env hist fuel value dir s with
      | none => none
      | some s =>
        if s.le_search_result = Histlist then some { s with edit := cmd_alert s.edit }
        else some { s with edit := go_to_history hist s.le_search_result false s.edit }

/-- Embedding of `cmd_search_again`. -/
def cmd_search_again (env : SearchEnv) (hist : History) (fuel : Nat) (_c : Char)
    (s : SearchState) : Option SearchState :=
  search_again env hist fuel s.last_search_direction s

/-- Embedding of `update_search`. -/
def update_search (env : SearchEnv) (hist : History) (fuel : Nat) (s : SearchState) :
    Option SearchState :=
  let finish := fun (s : SearchState) => { s with edit := reset_state s.edit }
  match s.le_search_buffer with
  | none => none
  | some buffer =>
    if buffer = [] then
      match s.last_search_value with
      | none => some (finish { s with le_search_result := Histlist })
      | some pattern => (perform_search env hist fuel pattern s.le_search_direction s).map finish
    else (perform_search env hist fuel buffer s.le_search_direction s).map finish

/-- Embedding of `cmd_vi_search_backward`. -/
def cmd_vi_search_backward (env : SearchEnv) (hist : History) (fuel : Nat) (_c : Char)
    (s : SearchState) : Option SearchState :=
  if s.edit.state.pending_command_motion ≠ MEC.MEC_NONE then
    some { s with edit := cmd_alert s.edit }
  else
    update_search env hist fuel
      { s with
        le_search_direction := SearchDirection.BACKWARD
        le_search_buffer := some []
        edit := le_set_mode LeMode.LE_MODE_VI_SEARCH s.edit }

/-- Embedding of `cmd_srch_self_insert`. -/
def cmd_srch_self_insert (env : SearchEnv) (hist : History) (fuel : Nat) (c : Char)
    (s : SearchState) : Option SearchState :=
  match s.le_search_buffer with
  | none => some { s with edit := cmd_alert s.edit }
  | some buffer =>
    if c = NUL then some { s with edit := cmd_alert s.edit }
    else update_search env hist fuel { s with le_search_buffer := some (buffer ++ [c]) }

/-- Embedding of `update_last_search_value`, for the search buffer
`buffer`. -/
def update_last_search_value (buffer : List Char) : Bool :=
  if buffer = [] then false
  else if buffer = ['^'] then false
  else true

/-- Embedding of `cmd_srch_accept_search`. -/
def cmd_srch_accept_search (hist : History) (_c : Char) (s : SearchState) : SearchState :=
  match s.le_search_buffer with
  | none => s
  | some buffer =>
    let s := { s with last_search_direction := s.le_search_direction }
    let s :=
      if update_last_search_value buffer = true then { s with last_search_value := some buffer }
      else s
    let s := { s with le_search_buffer := none }
    let s := { s with edit := le_set_mode LeMode.LE_MODE_VI_COMMAND s.edit }
    if s.le_search_result = Histlist then { s with edit := cmd_alert s.edit }
    else { s with edit := go_to_history hist s.le_search_result false s.edit }

/-- The entries `k`, `k - 1`, ..., 1 of the history, in this order. -/
def walk_back : Nat → List Nat
  | 0 => []
  | k + 1 => (k + 1) :: walk_back k

/-- The `count` entries after entry `e`, in their order. -/
def walk_forth : Nat → Nat → List Nat
  | 0, _ => []
  | count + 1, e => (e + 1) :: walk_forth count (e + 1)

/-- The entries met when the history is walked from entry `e` (`Histlist` for
the line being edited) in the direction `dir` up to the end of the list, `e`
itself left out: toward older entries for `BACKWARD`, toward newer entries for
`FORWARD`. -/
def search_walk (hist : History) (e : Nat) : SearchDirection → List Nat
  | SearchDirection.BACKWARD => walk_back (if e = Histlist then hist.length else e - 1)
  | SearchDirection.FORWARD => if e = Histlist then [] else walk_forth (hist.length - e) e

/-- Whether the text `value` contains the literal pattern `p`, or begins with
it when the pattern is anchored. -/
def entry_matches (anchored : Bool) (p value : List Char) : Prop :=
  if anchored = true then p <+: value else p <:+: value

instance (anchored : Bool) (p value : List Char) : Decidable (entry_matches anchored p value) := by
  unfold entry_matches; infer_instance

/-- The C locale's helpers of the history search for literal patterns:
a pattern is special when it holds `*`, `?` or `[`, `unescape` drops the
backslashes, and the conversions between wide and multibyte strings keep the
characters below 128 and fail on others; `wfnmatchl` is not looked at. -/
def literal_search_env : SearchEnv :=
  { pattern_has_special_char := fun p => p.any fun c => c = '*' || c = '?' || c = '['
    shortest_match_length := fun _ => 0
    unescape := fun p => p.filter fun c => c ≠ BACKSLASH
    realloc_wcstombs := malloc_wcstombs
    malloc_mbstowcs := malloc_wcstombs
    wfnmatchl := fun _ _ _ => WfnmResult.WFNM_ERROR }

/-- The history `ls`, `cat foo`, `ls -la`, in the order of insertion. -/
def sample_history : History := ["ls".toList, "cat foo".toList, "ls -la".toList]

/-- The vi-mode editor in command mode on an empty line, with no search
made yet. -/
def search_start_state : SearchState :=
  { edit := le_set_mode LeMode.LE_MODE_VI_COMMAND (le_editing_init true startup_state)
    le_search_direction := SearchDirection.FORWARD
    le_search_buffer := none
    le_search_result := Histlist
    last_search_direction := SearchDirection.FORWARD
    last_search_value := none }

/-- The keystrokes `?`, `^`, `l`, `s` and Enter of vi command mode, given to
`cmd_vi_search_backward`, `cmd_srch_self_insert` and `cmd_srch_accept_search`,
with the history `sample_history`. -/
def search_accepted_state : Option SearchState :=
  ((((cmd_vi_search_backward literal_search_env sample_history 4 NUL search_start_state).bind
    (cmd_srch_self_insert literal_search_env sample_history 4 '^')).bind
    (cmd_srch_self_insert literal_search_env sample_history 4 'l')).bind
    (cmd_srch_self_insert literal_search_env sample_history 4 's')).map
    (cmd_srch_accept_search sample_history NUL)

/-! ## lineedit/editing.c: cmd_end_of_line -/

/-- Embedding of `cmd_end_of_line`, an inclusive motion to the end of the
line. -/
def cmd_end_of_line (_c : Char) (s : EditState) : EditState :=
  exec_motion_command s.le_main_buffer.length true s

/-! ## lineedit/editing.c: the undo history after a put with count 0 -/

/-- What the assertions of `maybe_save_undo_history`, `cancel_undo` and
`go_to_history` rely on: `undo_index` is at most the number of snapshots, there
is a snapshot, and the cursor index of every snapshot is at most the length of
its contents. -/
def undo_stack_ok (s : EditState) : Prop :=
  s.undo_index ≤ s.undo_history.length ∧ s.undo_history ≠ [] ∧
  ∀ e ∈ s.undo_history, e.index ≤ e.contents.length

instance (s : EditState) : Decidable (undo_stack_ok s) := by
  unfold undo_stack_ok; infer_instance

/-- The editor after `x` has been typed and killed, the count `0` typed and
`cmd_put_before` and `cmd_undo` run, each by `le_invoke_command`. -/
def put_zero_undone_state : EditState :=
  le_invoke_command Cmd.cmd_undo cmd_undo NUL
    (le_invoke_command Cmd.cmd_put_before cmd_put_before NUL killed_x_count_zero_state)

/-! ## builtin.c: builtin_kill -/

/-- The type `SIGDATA`: a signal number and its name. -/
structure SIGDATA where
  s_signal : Int
  s_name : List Char
deriving DecidableEq, Repr

/-- The ways a call of `builtin_kill` can leave defined behaviour: `get_signal`
is handed a null pointer (its `assert(name != NULL)` fails), a character is
read through a null pointer, `argv` is read beyond the terminating null
pointer `argv[argc]`, or the null result of `get_job` is dereferenced. -/
inductive KillFault where
  | null_name | null_string | argv_outside | null_job
deriving DecidableEq, Repr

/-- The platform and the shell as `builtin_kill` sees them: the entries of
`sigdata` before the terminating one, the constant `SIGTERM`, the job table,
the system call `kill` (its `errno`, 0 for success) and `strerror`. -/
structure KillEnv where
  sigdata : List SIGDATA
  SIGTERM : Int
  jobs : JobTable
  kill : Int → Int → Int
  strerror : Int → List Char

/-- What `builtin_kill` has done: its output and the calls of `kill` as pairs
of target and signal. -/
structure KillWorld where
  io : Streams
  kills : List (Int × Int)
deriving DecidableEq, Repr

/-- The pointer `argv[i]`: one of the `argc` argument strings, the null
pointer at index `argc`, and no element of the array beyond. -/
def argv_at (argv : List (List Char)) (i : Nat) : Except KillFault (Option (List Char)) :=
  if i < argv.length then Except.ok (some (argv.getD i []))
  else if i = argv.length then Except.ok none
  else Except.error KillFault.argv_outside

/-- The character `s[i]` of a string, the terminator included. -/
def char_at (s : List Char) (i : Nat) : Char := s.getD i NUL

/-- The library function `isupper` in the C locale. -/
def isupper (c : Char) : Bool := decide ('A' ≤ c) && decide (c ≤ 'Z')

/-- The loop of `get_signal` over `sigdata`. -/
def get_signal_lookup (name : List Char) : List SIGDATA → Int
  | [] => 0
  | sd :: rest => if name = sd.s_name then sd.s_signal else get_signal_lookup name rest

/-- Embedding of `get_signal` of `builtin.c`; `none` is the null pointer. -/
def get_signal (sigdata : List SIGDATA) : Option (List Char) → Except KillFault Int
  | none => Except.error KillFault.null_name
  | some name =>
    if '0' ≤ char_at name 0 ∧ char_at name 0 ≤ '9' then
      let r := strtol name
      if r.erange ∨ r.strend ≠ [] then Except.ok 0 else Except.ok (to_int r.value)
    else
      let name := if strncmp name "SIG".toList 3 = 0 then name.drop 3 else name
      Except.ok (get_signal_lookup name sigdata)

/-- Embedding of `get_signal_name` of `builtin.c`; the loop ends at the first
entry whose number is 0. -/
def builtin_get_signal_name (signal : Int) : List SIGDATA → Option (List Char)
  | [] => none
  | sd :: rest =>
    if sd.s_signal = 0 then none
    else if sd.s_signal = signal then some sd.s_name
    else builtin_get_signal_name signal rest

/-- The function `error` called with status 0: one message on standard
error. -/
def kill_error (msg : List Char) (w : KillWorld) : KillWorld :=
  { w with io := { w.io with stderr := w.io.stderr ++ [String.mk msg] } }

/-- The function `printf`. -/
def kill_printf (text : List Char) (w : KillWorld) : KillWorld :=
  { w with io := { w.io with stdout := w.io.stdout ++ [String.mk text] } }

/-- The message `a: b: text`. -/
def kill_message (a b text : List Char) : List Char :=
  a ++ ": ".toList ++ b ++ ": ".toList ++ text

/-- The loop `while (++i < argc)` of `builtin_kill` over the targets still to
come. -/
def kill_targets (env : KillEnv) (sig : Int) (argv0 : List Char) :
    List (List Char) → Bool → KillWorld → Except KillFault (Bool × KillWorld)
  | [], err, w => Except.ok (err, w)
  | target :: rest, err, w =>
    if char_at target 0 = '%' then
      let targetnum := parse_jobspec env.jobs target true
      if targetnum < 0 then
        let text :=
          if targetnum = -2 then "no such job".toList
          else if targetnum = -3 then "ambiguous job spec".toList
          else "invalid job spec".toList
        kill_targets env sig argv0 rest true (kill_error (kill_message argv0 target text) w)
      else
        match get_job env.jobs targetnum.toNat with
        | none => Except.error KillFault.null_job
        | some job =>
          let targetpid : Int := -(job.j_pgid : Int)
          let w := { w with kills := w.kills ++ [(targetpid, sig)] }
          if env.kill targetpid sig ≠ 0 then
            kill_targets env sig argv0 rest true
              (kill_error (argv0 ++ ": ".toList ++ target ++ ": ".toList ++
                env.strerror (env.kill targetpid sig)) w)
          else kill_targets env sig argv0 rest err w
    else
      let r := strtol target
      let targetnum : Int := if target = [] then 0 else to_int r.value
      let strend := if target = [] then [] else r.strend
      if (target ≠ [] ∧ r.erange) ∨ strend ≠ [] then
        kill_targets env sig argv0 rest true
          (kill_error (kill_message argv0 target "invalid target".toList) w)
      else
        let w := { w with kills := w.kills ++ [(targetnum, sig)] }
        if env.kill targetnum sig ≠ 0 then
          kill_targets env sig argv0 rest true
            (kill_error (argv0 ++ ": ".toList ++ target ++ ": ".toList ++
              env.strerror (env.kill targetnum sig)) w)
        else kill_targets env sig argv0 rest err w

/-- The conversion `%2d` of `printf`. -/
def printf_2d (n : Int) : List Char :=
  List.replicate (2 - (toString n).length) ' ' ++ (toString n).toList

/-- The loop under the label `list` that prints the whole of `sigdata`, `i`
being the index of the next entry. -/
def kill_list_all : List SIGDATA → Nat → KillWorld → KillWorld
  | [], _, w => w
  | sd :: rest, i, w =>
    if sd.s_signal = 0 then w
    else
      let w := kill_printf (printf_2d sd.s_signal ++ ": ".toList ++ sd.s_name ++
        List.replicate (8 - sd.s_name.length) ' ' ++ "    ".toList) w
      let w := if i % 4 = 3 then kill_printf ['\n'] w else w
      kill_list_all rest (i + 1) w

/-- The loop under the label `list` over the signals named by the
arguments. -/
def kill_list_some (env : KillEnv) (argv0 : List Char) :
    List (List Char) → Bool → KillWorld → Except KillFault (Bool × KillWorld)
  | [], err, w => Except.ok (err, w)
  | arg :: rest, err, w =>
    match get_signal env.sigdata (some arg) with
    | Except.error f => Except.error f
    | Except.ok sig =>
      match builtin_get_signal_name sig env.sigdata with
      | some name =>
        if sig = 0 then
          kill_list_some env argv0 rest true
            (kill_error (kill_message argv0 arg "invalid signal".toList) w)
        else
          kill_list_some env argv0 rest err
            (kill_printf (printf_2d sig ++ ": ".toList ++ name ++ ['\n']) w)
      | none =>
        kill_list_some env argv0 rest true
          (kill_error (kill_message argv0 arg "invalid signal".toList) w)

/-- The exit status of `builtin_kill` for the flag `err`. -/
def kill_status (r : Bool × KillWorld) : Int × KillWorld :=
  (if r.1 then EXIT_FAILURE else EXIT_SUCCESS, r.2)

/-- The statements of `builtin_kill` under the label `usage`. -/
def kill_usage (w : KillWorld) : Int × KillWorld :=
  (EXIT_FAILURE,
    kill_printf "    or  kill -l [signals]\n".toList
      (kill_printf "Usage:  kill [-s signal] pid/jobspec ...\n".toList w))

/-- The end of the branches of `builtin_kill` that read a signal: signal 0
is reported as invalid, any other is sent to the targets. -/
def kill_with_signal (env : KillEnv) (argv0 shown : List Char) (targets : List (List Char))
    (w : KillWorld) : Except KillFault Int → Except KillFault (Int × KillWorld)
  | Except.error f => Except.error f
  | Except.ok sig =>
    if sig = 0 then
      Except.ok (EXIT_FAILURE, kill_error (kill_message argv0 shown "invalid signal".toList) w)
    else (kill_targets env sig argv0 targets false w).map kill_status

/-- Embedding of `builtin_kill`; `argc` is the length of `argv`. -/
def builtin_kill (env : KillEnv) (argv : List (List Char)) (w : KillWorld) :
    Except KillFault (Int × KillWorld) :=
  let argv0 := argv.getD 0 []
  if argv.length = 1 then Except.ok (kill_usage w)
  else
    match argv_at argv 1 with
    | Except.error f => Except.error f
    | Except.ok none => Except.error KillFault.null_string
    | Except.ok (some a1) =>
      if char_at a1 0 = '-' then
        if char_at a1 1 = 's' then
          if char_at a1 2 ≠ NUL then
            kill_with_signal env argv0 (a1.drop 2) (argv.drop 2) w
              (get_signal env.sigdata (some (a1.drop 2)))
          else
            match argv_at argv 2 with
            | Except.error f => Except.error f
            | Except.ok a2 =>
              kill_with_signal env argv0 (a1.drop 2) (argv.drop 3) w
                (get_signal env.sigdata a2)
        else if isupper (char_at a1 1) then
          kill_with_signal env argv0 (a1.drop 1) (argv.drop 2) w
            (get_signal env.sigdata (some (a1.drop 1)))
        else if char_at a1 1 = 'l' then
          if argv.length ≤ 2 then
            Except.ok (EXIT_SUCCESS, kill_printf ['\n'] (kill_list_all env.sigdata 0 w))
          else (kill_list_some env argv0 (argv.drop 2) false w).map kill_status
        else Except.ok (kill_usage w)
      else (kill_targets env env.SIGTERM argv0 (argv.drop 1) false w).map kill_status

/-- The signals of `sigdata` with their Linux numbers. -/
def linux_sigdata : List SIGDATA :=
  [⟨1, "HUP".toList⟩, ⟨2, "INT".toList⟩, ⟨3, "QUIT".toList⟩, ⟨4, "ILL".toList⟩,
   ⟨6, "ABRT".toList⟩, ⟨8, "FPE".toList⟩, ⟨9, "KILL".toList⟩, ⟨11, "SEGV".toList⟩,
   ⟨13, "PIPE".toList⟩, ⟨14, "ALRM".toList⟩, ⟨15, "TERM".toList⟩, ⟨10, "USR1".toList⟩,
   ⟨12, "USR2".toList⟩, ⟨17, "CHLD".toList⟩, ⟨18, "CONT".toList⟩, ⟨19, "STOP".toList⟩,
   ⟨20, "TSTP".toList⟩, ⟨21, "TTIN".toList⟩, ⟨22, "TTOU".toList⟩, ⟨7, "BUS".toList⟩,
   ⟨29, "POLL".toList⟩, ⟨27, "PROF".toList⟩, ⟨31, "SYS".toList⟩, ⟨5, "TRAP".toList⟩,
   ⟨23, "URG".toList⟩, ⟨26, "VTALRM".toList⟩, ⟨24, "XCPU".toList⟩, ⟨25, "XFSZ".toList⟩,
   ⟨6, "IOT".toList⟩, ⟨16, "STKFLT".toList⟩, ⟨29, "IO".toList⟩, ⟨17, "CLD".toList⟩,
   ⟨30, "PWR".toList⟩, ⟨28, "WINCH".toList⟩, ⟨31, "UNUSED".toList⟩]

/-- A Linux shell with the jobs of `sample_jobs` in which every `kill`
succeeds. -/
def linux_kill_env : KillEnv :=
  { sigdata := linux_sigdata, SIGTERM := 15, jobs := sample_jobs
    kill := fun _ _ => 0, strerror := fun _ => [] }

/-- Nothing written and no signal sent yet. -/
def kill_start : KillWorld := { io := ⟨[], []⟩, kills := [] }

/-! ## lineedit/editing.c: delete_semiword_backward and vi_replace_char -/

/-- The library function `iswblank` in the C locale: space and tab. -/
def iswblank (c : Char) : Bool := c = ' ' || c = '\t'

/-- The library function `iswalnum` in the C locale: the ASCII letters and
digits. -/
def iswalnum (c : Char) : Bool := c.isAlphanum

/-- The library function `iswpunct` in the C locale: the printing ASCII
characters that are neither a space nor a letter nor a digit. -/
def iswpunct (c : Char) : Bool := decide (33 ≤ c.toNat) && decide (c.toNat ≤ 126) && !c.isAlphanum

/-- Embedding of `is_blank_or_punct`. -/
def is_blank_or_punct (c : Char) : Bool := iswblank c || iswpunct c

/-- The loop `do { if (bound == 0) goto done; } while (cond(contents[--bound]))`
of `delete_semiword_backward`: the final `bound`, and whether the loop was left
by the `goto`. -/
def semiword_scan (cond : Char → Bool) (contents : List Char) : Nat → Nat × Bool
  | 0 => (0, true)
  | bound + 1 =>
    if cond (char_at contents bound) then semiword_scan cond contents bound else (bound, false)

/-- The `for` loop of `delete_semiword_backward`, `count` being the value the
test `--count >= 0` decrements: the final `bound`, and whether the loop was
left by a `goto done`. -/
def semiword_bound (contents : List Char) : Nat → Nat → Nat × Bool
  | 0, bound => (bound, false)
  | count + 1, bound =>
    let r1 := semiword_scan is_blank_or_punct contents bound
    if r1.2 then r1
    else
      let r2 := semiword_scan (fun c => !is_blank_or_punct c) contents r1.1
      if r2.2 then r2 else semiword_bound contents count r2.1

/-- Embedding of `delete_semiword_backward`. -/
def delete_semiword_backward (kill : Bool) (s : EditState) : EditState :=
  alert_and_return_if_pending (fun s =>
    let s := save_current_edit_command s
    let s := maybe_save_undo_history s
    if s.le_main_index = 0 then cmd_alert s
    else
      let r := semiword_bound s.le_main_buffer (get_count s 1).toNat s.le_main_index
      let bound := if r.2 then r.1 else (r.1 + 1) % SIZE_MOD
      let s :=
        if bound < s.le_main_index then
          let length := size_sub s.le_main_buffer.length bound
          let s := if kill then add_to_kill_ring (s.le_main_buffer.drop bound) length s else s
          { s with le_main_buffer := wb_remove s.le_main_buffer bound length
                   le_main_index := bound }
        else s
      reset_state s) s

/-- Embedding of `cmd_backward_delete_semiword`. -/
def cmd_backward_delete_semiword (_c : Char) (s : EditState) : EditState :=
  delete_semiword_backward false s

/-- The loop `while (--count >= 0 && le_main_index < le_main_buffer.length)
contents[++le_main_index] = c` of `vi_replace_char` on the cells
`contents[0 .. length]`, the last of which holds the terminating NUL; `count`
is the value the test decrements.  The cells and the cursor it leaves. -/
def vi_replace_loop (c : Char) (length : Nat) : Nat → List Char → Nat → List Char × Nat
  | 0, cells, index => (cells, index)
  | count + 1, cells, index =>
    if index < length then
      vi_replace_loop c length count (cells.set (index + 1) c) (index + 1)
    else (cells, index)

/-- Embedding of `vi_replace_char`: the state it leaves, the edit line being
the cells `contents[0 .. length - 1]`, and the character in the cell
`contents[length]`, which holds the terminating NUL of the line when the
function is entered. -/
def vi_replace_char (c : Char) (s : EditState) : EditState × Char :=
  let s := save_current_edit_command s
  let s := le_set_mode LeMode.LE_MODE_VI_COMMAND s
  if c ≠ NUL then
    let count := get_count s 1
    if count - 1 ≥ 0 ∧ s.le_main_index < s.le_main_buffer.length then
      let cells := (s.le_main_buffer ++ [NUL]).set s.le_main_index c
      let r := vi_replace_loop c s.le_main_buffer.length (count - 1).toNat cells s.le_main_index
      (reset_state { s with
          le_main_buffer := r.1.take s.le_main_buffer.length
          le_main_index := r.2 },
        char_at r.1 s.le_main_buffer.length)
    else (reset_state s, NUL)
  else (cmd_alert s, NUL)

/-- An editor in vi-command mode holding `ab cd` with the cursor on the
blank. -/
def ab_cd_state : EditState :=
  { le_editing_init true startup_state with
    le_main_buffer := "ab cd".toList
    le_main_index := 2
    le_current_mode := LeMode.LE_MODE_VI_COMMAND }

/-! ## lineedit/editing.c: the word index functions -/

/-- The loop `while (cond(s[i])) i++` over a NUL-terminated string, for at
most `fuel` tests: the index it stops at, or `none` when a character past the
terminating NUL is read or the tests are used up. -/
def skip_while (cond : Char → Bool) (s : List Char) : Nat → Nat → Option Nat
  | 0, _ => none
  | fuel + 1, i =>
    match wcs_read s i with
    | none => none
    | some c => if cond c then skip_while cond s fuel (i + 1) else some i

/-- Embedding of `next_bigword_index`; each loop makes at most `fuel` tests. -/
def next_bigword_index (s : List Char) (i : Nat) (fuel : Nat) : Option Nat :=
  match skip_while (fun c => decide (c ≠ NUL) && !iswblank c) s fuel i with
  | none => none
  | some i => skip_while (fun c => decide (c ≠ NUL) && iswblank c) s fuel i

/-- The body of `next_end_of_bigword_index` from the label `start` on, the
index being `i`: each loop makes at most `fuel` tests and the label is passed
at most `rounds` times. -/
def next_end_of_bigword_index_start (s : List Char) (init : Nat) (progress : Bool)
    (fuel : Nat) : Nat → Nat → Option Nat
  | 0, _ => none
  | rounds + 1, i =>
    match wcs_read s i with
    | none => none
    | some c =>
      if c = NUL then some i
      else
        match skip_while (fun c => decide (c ≠ NUL) && iswblank c) s fuel i with
        | none => none
        | some i =>
          match skip_while (fun c => decide (c ≠ NUL) && !iswblank c) s fuel i with
          | none => none
          | some i =>
            let i := size_sub i 1
            if i > init ∨ progress = false then some i
            else next_end_of_bigword_index_start s init progress fuel rounds ((i + 1) % SIZE_MOD)

/-- Embedding of `next_end_of_bigword_index`. -/
def next_end_of_bigword_index (s : List Char) (i : Nat) (progress : Bool) (fuel : Nat) :
    Option Nat :=
  next_end_of_bigword_index_start s i progress fuel fuel i

/-- The test `s[i] == L'_' || iswalnum(s[i])` of the viword functions. -/
def is_viword_char (c : Char) : Bool := c = '_' || iswalnum c

/-- The `for (;;)` loop of `next_viword_index`, for at most `fuel` rounds: the
index it leaves, and whether it was left by `break` rather than `return`. -/
def next_viword_index_loop (s : List Char) : Nat → Nat → Option (Nat × Bool)
  | 0, _ => none
  | fuel + 1, i =>
    match wcs_read s i with
    | none => none
    | some c =>
      if c = NUL then some (i, false)
      else
        match wcs_read s (i + 1) with
        | none => none
        | some d =>
          if is_viword_char d then some (i + 1, false)
          else if iswblank d then some (i + 1, true)
          else next_viword_index_loop s fuel (i + 1)

/-- Embedding of `next_viword_index`; each loop makes at most `fuel` tests. -/
def next_viword_index (s : List Char) (i : Nat) (fuel : Nat) : Option Nat :=
  match wcs_read s i with
  | none => none
  | some c =>
    if is_viword_char c then
      match skip_while is_viword_char s fuel (i + 1) with
      | none => none
      | some i =>
        match wcs_read s i with
        | none => none
        | some d => if !iswblank d then some i else skip_while iswblank s fuel (i + 1)
    else if !iswblank c then
      match next_viword_index_loop s fuel i with
      | none => none
      | some (i, false) => some i
      | some (i, true) => skip_while iswblank s fuel (i + 1)
    else skip_while iswblank s fuel (i + 1)

/-- The body of `next_end_of_viword_index` from the label `start` on. -/
def next_end_of_viword_index_start (s : List Char) (init : Nat) (progress : Bool)
    (fuel : Nat) : Nat → Nat → Option Nat
  | 0, _ => none
  | rounds + 1, i =>
    match skip_while iswblank s fuel i with
    | none => none
    | some i =>
      match wcs_read s i with
      | none => none
      | some c =>
        if c = NUL then some i
        else
          match
            (if is_viword_char c then skip_while is_viword_char s fuel (i + 1)
             else skip_while (fun c => decide (c ≠ NUL) && decide (c ≠ '_') && !iswblank c &&
               !iswalnum c) s fuel (i + 1)) with
          | none => none
          | some i =>
            let i := size_sub i 1
            if i > init ∨ progress = false then some i
            else next_end_of_viword_index_start s init progress fuel rounds ((i + 1) % SIZE_MOD)

/-- Embedding of `next_end_of_viword_index`. -/
def next_end_of_viword_index (s : List Char) (i : Nat) (progress : Bool) (fuel : Nat) :
    Option Nat :=
  next_end_of_viword_index_start s i progress fuel fuel i

/-- Embedding of `next_nonword_index`; each loop makes at most `fuel` tests. -/
def next_nonword_index (s : List Char) (i : Nat) (fuel : Nat) : Option Nat :=
  match skip_while (fun c => decide (c ≠ NUL) && !iswalnum c) s fuel i with
  | none => none
  | some i => skip_while (fun c => decide (c ≠ NUL) && iswalnum c) s fuel i

/-- The result `r` of an index function called at `i` is past `i` and at most
the length when `i` is inside the string, and is the length when `i` is. -/
def index_advances (s : List Char) (i r : Nat) : Prop :=
  (i < s.length → i < r ∧ r ≤ s.length) ∧ (i = s.length → r = s.length)

instance (s : List Char) (i r : Nat) : Decidable (index_advances s i r) := by
  unfold index_advances; infer_instance

/-- Index `r` holds the last character of a maximal run of non-blank
characters of `s`. -/
def bigword_end (s : List Char) (r : Nat) : Prop :=
  r < s.length ∧ iswblank (char_at s r) = false ∧
    (r + 1 = s.length ∨ iswblank (char_at s (r + 1)) = true)

instance (s : List Char) (r : Nat) : Decidable (bigword_end s r) := by
  unfold bigword_end; infer_instance

/-! ## builtin.c: builtin_disown -/

/-- What the `getopt` loop of `builtin_disown` has set: `all` for `-a`,
`runningonly` for `-r` and `nohup` for `-h`. -/
structure DisownFlags where
  all : Bool
  runningonly : Bool
  nohup : Bool
deriving DecidableEq, Repr

/-- The store through the pointer `get_job(i)` returned: slot `i` of the job
table holds `job` afterwards. -/
def set_job (jt : JobTable) (i : Nat) (job : JOB) : JobTable :=
  { joblist := jt.joblist.set i (some job)
    currentjobnumber := jt.currentjobnumber
    length_lt := by rw [List.length_set]; exact jt.length_lt }

/-- The assignment `job->j_flags |= JF_NOHUP`. -/
def mark_nohup (JF_NOHUP : Nat) (job : JOB) : JOB :=
  { job with j_flags := job.j_flags ||| JF_NOHUP }

/-- The statements that both loops of `builtin_disown` run for job number `i`:
a missing job, and with `-r` a job that is not running, is skipped; the job is
flagged with `-h` and removed otherwise.  `remove_job` of `exec.c` and the
constant `JF_NOHUP` of `exec.h` are parameters. -/
def disown_job (remove_job : JobTable → Nat → JobTable) (JF_NOHUP : Nat)
    (runningonly nohup : Bool) (jt : JobTable) (i : Nat) : JobTable :=
  match get_job jt i with
  | none => jt
  | some job =>
    if runningonly = true ∧ job.j_status ≠ JobStatus.JS_RUNNING then jt
    else if nohup = true then set_job jt i (mark_nohup JF_NOHUP job)
    else remove_job jt i

/-- The loop `for (size_t i = joblist.length; i > 0; i--)` of
`builtin_disown` from `i` down. -/
def disown_all (remove_job : JobTable → Nat → JobTable) (JF_NOHUP : Nat)
    (runningonly nohup : Bool) : Nat → JobTable → JobTable
  | 0, jt => jt
  | i + 1, jt =>
    disown_all remove_job JF_NOHUP runningonly nohup i
      (disown_job remove_job JF_NOHUP runningonly nohup jt (i + 1))

/-- The loop `for (; optind < argc; optind++)` of `builtin_disown` over the
operands still to come: the job table, the output and the flag `err`. -/
def disown_operands (remove_job : JobTable → Nat → JobTable) (JF_NOHUP : Nat)
    (runningonly nohup : Bool) (argv0 : List Char) :
    List (List Char) → JobTable → Streams → Bool → JobTable × Streams × Bool
  | [], jt, io, err => (jt, io, err)
  | target :: rest, jt, io, err =>
    let jobnumber := parse_jobspec jt target false
    if jobnumber < 0 then
      let text :=
        if jobnumber = -2 then "no such job".toList
        else if jobnumber = -3 then "ambiguous job spec".toList
        else "invalid job spec".toList
      disown_operands remove_job JF_NOHUP runningonly nohup argv0 rest jt
        { io with stderr := io.stderr ++ [String.mk (kill_message argv0 target text)] } true
    else
      disown_operands remove_job JF_NOHUP runningonly nohup argv0 rest
        (disown_job remove_job JF_NOHUP runningonly nohup jt jobnumber.toNat) io err

/-- Embedding of `builtin_disown`.  `options` is what the `getopt` loop has
set, `none` when it met an unknown option, and `operands` are the arguments
from `argv[optind]` on. -/
def builtin_disown (remove_job : JobTable → Nat → JobTable) (JF_NOHUP : Nat)
    (options : Option DisownFlags) (argv0 : List Char) (operands : List (List Char))
    (jt : JobTable) (io : Streams) : Int × JobTable × Streams :=
  match options with
  | none =>
    (EXIT_FAILURE, jt,
      { io with stdout := io.stdout ++ ["Usage:  disown [-ar] [-h] [jobspecs...]\n"] })
  | some o =>
    if o.all = true ∨ operands = [] then
      (EXIT_SUCCESS,
        disown_all remove_job JF_NOHUP o.runningonly o.nohup jt.joblist.length jt, io)
    else
      let r := disown_operands remove_job JF_NOHUP o.runningonly o.nohup argv0 operands jt io
        false
      (if r.2.2 = true then EXIT_FAILURE else EXIT_SUCCESS, r.1, r.2.1)

/-- Modelled from the spec: `remove(index)` takes the job out of the table;
the job numbers of the other jobs stay.  What becomes the current job is left
open here, the table keeps its current job number. -/
def sample_remove_job (jt : JobTable) (i : Nat) : JobTable :=
  { joblist := jt.joblist.set i none
    currentjobnumber := jt.currentjobnumber
    length_lt := by rw [List.length_set]; exact jt.length_lt }

/-- A job table with a running job 1, a stopped job 2 and a running job 3
that is the current job. -/
def three_jobs : JobTable :=
  { joblist := [none,
      some { j_pgid := 100, j_pids := [100], j_name := "sleep 30".toList },
      some { j_pgid := 200, j_pids := [200], j_name := "vi notes".toList
             j_status := JobStatus.JS_STOPPED },
      some { j_pgid := 300, j_pids := [300, 301], j_name := "make all".toList }]
    currentjobnumber := 3
    length_lt := by decide }

/-- Two job tables agree in what `parse_jobspec` looks at: the number of
slots, the current job number, and which jobs exist under which name. -/
def same_names (a b : JobTable) : Prop :=
  a.joblist.length = b.joblist.length ∧ a.currentjobnumber = b.currentjobnumber ∧
  ∀ k, (get_job a k).map JOB.j_name = (get_job b k).map JOB.j_name

/-- What `builtin_disown` with `-h` does to a job that one of its loops
reaches: with `-r` a job that is not running is left as it is, any other job
gets the flag. -/
def disown_mark (JF_NOHUP : Nat) (runningonly : Bool) (job : JOB) : JOB :=
  if runningonly = true ∧ job.j_status ≠ JobStatus.JS_RUNNING then job
  else mark_nohup JF_NOHUP job

/-! ## Auxiliary notions of the proofs about the undo history -/

/-- What holds of the undo history whenever a command starts with the cursor
inside the line: `undo_index` names a snapshot, the cursor index of every
snapshot is at most the length of its contents, and while the history belongs
to another history entry than the line, `undo_save_index` is at most the
length of `main_history_value`. -/
def undo_inv (s : EditState) : Prop :=
  s.undo_index < s.undo_history.length ∧
  (∀ e ∈ s.undo_history, e.index ≤ e.contents.length) ∧
  (s.undo_history_entry ≠ s.main_history_entry →
    s.undo_save_index ≤ s.main_history_value.length)

instance (s : EditState) : Decidable (undo_inv s) := by
  unfold undo_inv; infer_instance

/-! ## Theorems on parse_jobspec -/

theorem to_int_of_small (n : Int) (h0 : 0 ≤ n) (h1 : n < 2147483648) : to_int n = n := by
  unfold to_int; omega

theorem strncmp_zero_iff_starts (s t : List Char) :
    strncmp s t s.length = 0 ↔ s.isPrefixOf t = true := by
  induction s generalizing t with
  | nil => simp [strncmp]
  | cons a as ih =>
    cases t with
    | nil => simp [strncmp]
    | cons b bs =>
      by_cases hab : a = b
      · subst hab
        simp [strncmp, ih]
      · have : (if a < b then (-1 : Int) else 1) ≠ 0 := by split <;> decide
        simp [strncmp, hab, this]

theorem job_indices_ne_zero (jt : JobTable) : ∀ i ∈ job_indices jt, i ≠ 0 := by
  intro i hi
  unfold job_indices at hi
  cases hn : jt.joblist.length with
  | zero => rw [hn] at hi; simp at hi
  | succ n =>
    rw [hn, List.range_succ_eq_map] at hi
    simp at hi
    obtain ⟨a, _, rfl⟩ := hi
    omega

theorem job_indices_lt (jt : JobTable) : ∀ i ∈ job_indices jt, i < jt.joblist.length := by
  intro i hi
  unfold job_indices at hi
  have := List.mem_of_mem_tail hi
  simpa using this

/-- The loop of `parse_jobspec` in closed form: what it returns from the match
found so far and the matches still ahead. -/
theorem parse_jobspec_loop_eq (jt : JobTable) (str : List Char) (is : List Nat)
    (h : ∀ i ∈ is, i ≠ 0) (acc : Int) :
    parse_jobspec_loop jt str is acc =
      if acc = 0 then
        match_outcome (is.filter fun i =>
          match get_job jt i with
          | some job => str.isPrefixOf job.j_name
          | none => false)
      else if (is.filter fun i =>
          match get_job jt i with
          | some job => str.isPrefixOf job.j_name
          | none => false) = [] then acc
      else -3 := by
  induction is generalizing acc with
  | nil => simp [parse_jobspec_loop, match_outcome]
  | cons i rest ih =>
    have hi : (i : Int) ≠ 0 := by
      have := h i (List.mem_cons_self _ _); omega
    have hrest : ∀ j ∈ rest, j ≠ 0 := fun j hj => h j (List.mem_cons_of_mem _ hj)
    unfold parse_jobspec_loop
    cases hg : get_job jt i with
    | none =>
      simp only [List.filter_cons, hg]
      simpa using ih hrest acc
    | some job =>
      by_cases hp : str.isPrefixOf job.j_name = true
      · have hz : strncmp str job.j_name str.length = 0 := (strncmp_zero_iff_starts _ _).2 hp
        simp only [hz, if_true, List.filter_cons, hg, hp]
        by_cases hacc : acc = 0
        · simp only [hacc, if_true]
          rw [ih hrest]
          simp only [hi, if_false]
          split <;> rename_i hf
          · simp [hf, match_outcome]
          · cases hf2 : List.filter (fun i =>
                match get_job jt i with
                | some job => str.isPrefixOf job.j_name
                | none => false) rest with
            | nil => exact absurd hf2 hf
            | cons x xs => simp [match_outcome]
        · simp [hacc]
      · have hz : strncmp str job.j_name str.length ≠ 0 := fun hz =>
          hp ((strncmp_zero_iff_starts _ _).1 hz)
        simp only [hz, if_false, List.filter_cons, hg, hp]
        simpa using ih hrest acc

theorem parse_jobspec_loop_names (jt : JobTable) (name : List Char) :
    parse_jobspec_loop jt name (job_indices jt) 0 =
      match_outcome (name_matches jt name) := by
  rw [parse_jobspec_loop_eq jt name _ (job_indices_ne_zero jt) 0]
  simp [name_matches]

theorem get_job_some_bounds (jt : JobTable) (n : Nat) (h : (get_job jt n).isSome = true) :
    1 ≤ n ∧ n < jt.joblist.length := by
  unfold get_job at h
  by_cases h0 : n = 0
  · simp [h0] at h
  · simp only [h0, if_false] at h
    refine ⟨by omega, ?_⟩
    by_contra hlt
    have : jt.joblist.getD n none = none := by
      simp [List.getD_eq_getElem?_getD, List.getElem?_eq_none (by omega : jt.joblist.length ≤ n)]
    rw [this] at h
    exact absurd h (by simp)

theorem parse_jobspec_loop_valid (jt : JobTable) (str : List Char) (is : List Nat)
    (h : ∀ i ∈ is, i ≠ 0) (acc : Int)
    (hacc : acc = 0 ∨ (1 ≤ acc ∧ (get_job jt acc.toNat).isSome = true)) :
    parse_jobspec_loop jt str is acc = -2 ∨ parse_jobspec_loop jt str is acc = -3 ∨
      (1 ≤ parse_jobspec_loop jt str is acc ∧
        (get_job jt (parse_jobspec_loop jt str is acc).toNat).isSome = true) := by
  induction is generalizing acc with
  | nil =>
    unfold parse_jobspec_loop
    rcases hacc with h0 | h1
    · simp [h0]
    · have : acc ≠ 0 := by omega
      simp [this, h1]
  | cons i rest ih =>
    have hrest : ∀ j ∈ rest, j ≠ 0 := fun j hj => h j (List.mem_cons_of_mem _ hj)
    unfold parse_jobspec_loop
    cases hg : get_job jt i with
    | none => exact ih hrest acc hacc
    | some job =>
      simp only
      split
      · split
        · apply ih hrest
          right
          have := h i (List.mem_cons_self _ _)
          refine ⟨by omega, ?_⟩
          simp [hg]
        · simp
      · exact ih hrest acc hacc

theorem parse_jobspec_by_name (jt : JobTable) (name : List Char) (forcePercent : Bool)
    (hne : name ≠ []) (herr : (strtol name).erange = false)
    (hnum : reads_as_jobnumber name = false) :
    parse_jobspec jt ('%' :: name) forcePercent = match_outcome (name_matches jt name) := by
  have hcond : ¬ (name ≠ (strtol name).strend ∧ (strtol name).strend = [] ∧
      0 < to_int (strtol name).value) := by
    intro hc
    simp [reads_as_jobnumber, hc.2.1, hc.2.2] at hnum
    exact hne hnum
  simp only [parse_jobspec, List.head?_cons, List.tail_cons, if_true, hne, if_false,
    parse_jobspec_body, herr, hcond, Bool.false_eq_true]
  exact parse_jobspec_loop_names jt name

/-- C7 (amended): a job specification `%name` whose `name` is non-empty, on
which `strtol` reports no overflow and which `strtol` does not read entirely
as a number with a positive `int` value, is looked up as a prefix of the job
names: no match gives -2, one match that job number, more matches -3. -/
theorem parse_jobspec_percent_name (jt : JobTable) (name : List Char) (forcePercent : Bool)
    (hne : name ≠ []) (herr : (strtol name).erange = false)
    (hnum : reads_as_jobnumber name = false) :
    parse_jobspec jt ('%' :: name) forcePercent = match_outcome (name_matches jt name) :=
  parse_jobspec_by_name jt name forcePercent hne herr hnum

/-- Witness for `parse_jobspec_percent_name`: `%sl` names job 1 of the sample
table. -/
theorem parse_jobspec_percent_name_witness :
    parse_jobspec sample_jobs ('%' :: "sl".toList) true =
      match_outcome (name_matches sample_jobs "sl".toList) ∧
    match_outcome (name_matches sample_jobs "sl".toList) = 1 :=
  ⟨parse_jobspec_percent_name sample_jobs "sl".toList true (by decide) (by decide) (by decide),
    by decide⟩

/-- C7 (counterexample): ` 1` and `99999999999999999999x` are not positive
decimal integers, and in each table exactly one job name starts with them, yet
`% 1` yields job 1 (named `sleep 30`) instead of job 2, and
`%99999999999999999999x` yields -2 instead of job 1. -/
theorem parse_jobspec_percent_name_counterexample :
    name_matches sample_jobs " 1".toList = [2] ∧
    parse_jobspec sample_jobs "% 1".toList true = 1 ∧
    name_matches overflow_jobs "99999999999999999999x".toList = [1] ∧
    parse_jobspec overflow_jobs "%99999999999999999999x".toList true = -2 := by
  decide

/-- C8 (amended): `%` alone yields the current job number when the current
job exists and -2 otherwise; `%+`, `%%` and `%-` get no special treatment and
are looked up as the job-name prefixes `+`, `%` and `-`. -/
theorem parse_jobspec_current (jt : JobTable) (forcePercent : Bool) :
    parse_jobspec jt ['%'] forcePercent =
      (if (get_job jt jt.currentjobnumber).isSome then (jt.currentjobnumber : Int) else -2) ∧
    parse_jobspec jt ['%', '+'] forcePercent = match_outcome (name_matches jt ['+']) ∧
    parse_jobspec jt ['%', '%'] forcePercent = match_outcome (name_matches jt ['%']) ∧
    parse_jobspec jt ['%', '-'] forcePercent = match_outcome (name_matches jt ['-']) := by
  refine ⟨?_, ?_, ?_, ?_⟩
  · simp only [parse_jobspec, List.head?_cons, List.tail_cons, if_true]
    split
    · rename_i h
      have hb := get_job_some_bounds jt _ h
      have := jt.length_lt
      exact to_int_of_small _ (by omega) (by omega)
    · rfl
  · exact parse_jobspec_by_name jt ['+'] forcePercent (by decide) (by decide) (by decide)
  · exact parse_jobspec_by_name jt ['%'] forcePercent (by decide) (by decide) (by decide)
  · exact parse_jobspec_by_name jt ['-'] forcePercent (by decide) (by decide) (by decide)

/-- C8 (counterexample): job 1 is the current job of the sample table, yet
`%+`, `%%` and `%-` all yield -2, no job name starting with `+`, `%` or `-`. -/
theorem parse_jobspec_current_counterexample :
    (get_job sample_jobs sample_jobs.currentjobnumber).isSome = true ∧
    sample_jobs.currentjobnumber = 1 ∧
    parse_jobspec sample_jobs "%+".toList true = -2 ∧
    parse_jobspec sample_jobs "%%".toList true = -2 ∧
    parse_jobspec sample_jobs "%-".toList true = -2 := by
  decide

theorem isdigit_not_special (c : Char) (h : isdigit c = true) :
    isspace c = false ∧ c ≠ '-' ∧ c ≠ '+' ∧ c ≠ '%' := by
  refine ⟨?_, ?_, ?_, ?_⟩
  · unfold isspace
    simp only [Bool.or_eq_false_iff, decide_eq_false_iff_not]
    refine ⟨⟨⟨⟨⟨?_, ?_⟩, ?_⟩, ?_⟩, ?_⟩, ?_⟩ <;> (rintro rfl; revert h; decide)
  all_goals (rintro rfl; revert h; decide)

theorem takeWhile_all {α : Type} (p : α → Bool) (l : List α) (h : ∀ x ∈ l, p x = true) :
    l.takeWhile p = l ∧ l.dropWhile p = [] := by
  induction l with
  | nil => simp
  | cons a as ih =>
    have ha := h a (List.mem_cons_self _ _)
    have := ih (fun x hx => h x (List.mem_cons_of_mem _ hx))
    simp [List.takeWhile_cons, List.dropWhile_cons, ha, this]

theorem strtol_digits (str : List Char) (hne : str ≠ []) (hd : ∀ c ∈ str, isdigit c = true)
    (hmax : (decimal_value str : Int) ≤ LONG_MAX) :
    strtol str = ⟨(decimal_value str : Int), [], false⟩ := by
  cases str with
  | nil => exact absurd rfl hne
  | cons c cs =>
    obtain ⟨hsp, hminus, hplus, _⟩ := isdigit_not_special c (hd c (List.mem_cons_self _ _))
    obtain ⟨htake, hdrop⟩ := takeWhile_all isdigit (c :: cs) hd
    have h1 : (c :: cs).dropWhile isspace = c :: cs := by
      simp [List.dropWhile_cons, hsp]
    have hmin : ¬ ((decimal_value (c :: cs) : Int) < LONG_MIN) := by
      unfold LONG_MIN; omega
    unfold strtol
    simp only [h1, List.head?_cons, Option.some.injEq, hminus, hplus, or_self, if_false,
      htake, hdrop, decide_False, Bool.false_eq_true]
    simp [hmax, hmin]

/-- C9 (amended): a string of decimal digits without a leading percent sign,
whose value `n` satisfies `0 < n < 2^31`, is taken by `parse_jobspec` (with
`forcePercent` false) for the job number `n`: the result is `n` when job `n`
exists and -2 otherwise.  No process id is looked up. -/
theorem parse_jobspec_bare_digits (jt : JobTable) (str : List Char) (hne : str ≠ [])
    (hd : ∀ c ∈ str, isdigit c = true) (hpos : 0 < decimal_value str)
    (hmax : decimal_value str < 2147483648) :
    parse_jobspec jt str false =
      if (get_job jt (decimal_value str)).isSome then (decimal_value str : Int) else -2 := by
  have hs := strtol_digits str hne hd (by unfold LONG_MAX; omega)
  have hto : to_int (decimal_value str : Int) = (decimal_value str : Int) :=
    to_int_of_small _ (by omega) (by omega)
  cases str with
  | nil => exact absurd rfl hne
  | cons c cs =>
    obtain ⟨_, _, _, hpc⟩ := isdigit_not_special c (hd c (List.mem_cons_self _ _))
    have hpos2 : (0 : Int) < (decimal_value (c :: cs) : Int) := by omega
    simp only [parse_jobspec, List.head?_cons, Option.some.injEq, hpc, if_false,
      Bool.false_eq_true, parse_jobspec_body, hs, hto, hne, ne_eq, not_false_eq_true,
      hpos2, and_self, if_true, Int.toNat_ofNat]

/-- Witness for `parse_jobspec_bare_digits`: `2` names job 2 of the sample
table. -/
theorem parse_jobspec_bare_digits_witness :
    parse_jobspec sample_jobs ['2'] false =
      (if (get_job sample_jobs (decimal_value ['2'])).isSome
        then (decimal_value ['2'] : Int) else -2) ∧
    decimal_value ['2'] = 2 ∧ (get_job sample_jobs 2).isSome = true :=
  ⟨parse_jobspec_bare_digits sample_jobs ['2'] (by decide) (by decide) (by decide) (by decide),
    by decide, by decide⟩

/-- C9 (counterexample): process 4242 belongs to job 1 of the sample table,
yet the bare digits `4242` yield -2 (there is no job number 4242); and no job
contains process 1, yet the bare digit `1` yields job 1. -/
theorem parse_jobspec_bare_digits_counterexample :
    get_by_pid sample_jobs 4242 = some 1 ∧
    parse_jobspec sample_jobs "4242".toList false = -2 ∧
    get_by_pid sample_jobs 1 = none ∧
    parse_jobspec sample_jobs "1".toList false = 1 := by
  decide

theorem parse_jobspec_body_valid (jt : JobTable) (str : List Char) :
    parse_jobspec_body jt str = -1 ∨ parse_jobspec_body jt str = -2 ∨
    parse_jobspec_body jt str = -3 ∨
    (1 ≤ parse_jobspec_body jt str ∧
      (get_job jt (parse_jobspec_body jt str).toNat).isSome = true) := by
  unfold parse_jobspec_body
  split
  · simp
  · simp only
    split
    · simp
    · split
      · rename_i hc
        split
        · rename_i hj
          right; right; right
          exact ⟨by omega, hj⟩
        · simp
      · right
        exact parse_jobspec_loop_valid jt str _ (job_indices_ne_zero jt) 0 (Or.inl rfl)

/-- C10: for every string, every `forcePercent` and every job table,
`parse_jobspec` returns -1, -2 or -3, or a job number `n ≥ 1` for which
`get_job` finds a job; it never returns 0 or the number of a missing job. -/
theorem parse_jobspec_result_valid (jt : JobTable) (str : List Char) (forcePercent : Bool) :
    parse_jobspec jt str forcePercent = -1 ∨ parse_jobspec jt str forcePercent = -2 ∨
    parse_jobspec jt str forcePercent = -3 ∨
    (1 ≤ parse_jobspec jt str forcePercent ∧
      (get_job jt (parse_jobspec jt str forcePercent).toNat).isSome = true) := by
  unfold parse_jobspec
  split
  · split
    · split
      · rename_i h
        have hb := get_job_some_bounds jt _ h
        have := jt.length_lt
        have hto : to_int (jt.currentjobnumber : Int) = (jt.currentjobnumber : Int) :=
          to_int_of_small _ (by omega) (by omega)
        right; right; right
        rw [hto]
        exact ⟨by omega, by simpa using h⟩
      · simp
    · exact parse_jobspec_body_valid jt _
  · split
    · simp
    · exact parse_jobspec_body_valid jt _

/-! ## Theorems on the line editor -/

theorem c_assert_of_true (b : Bool) (s : EditState) (h : b = true) : c_assert b s = s := by
  simp [c_assert, h]

theorem c_assert_eq (b : Bool) (s : EditState) :
    c_assert b s = { s with assert_failed := s.assert_failed || !b } := by
  cases b <;> simp [c_assert]

theorem c_assert_undo_fields (b : Bool) (s : EditState) :
    (c_assert b s).le_main_buffer = s.le_main_buffer ∧
    (c_assert b s).le_main_index = s.le_main_index ∧
    (c_assert b s).undo_history = s.undo_history ∧
    (c_assert b s).undo_index = s.undo_index ∧
    (c_assert b s).undo_history_entry = s.undo_history_entry ∧
    (c_assert b s).main_history_entry = s.main_history_entry ∧
    (c_assert b s).main_history_value = s.main_history_value ∧
    (c_assert b s).undo_save_index = s.undo_save_index := by
  unfold c_assert; split <;> simp

theorem getD_take_append_self (h : List UndoEntry) (i : Nat) (e d : UndoEntry)
    (hi : i ≤ h.length) : (h.take i ++ [e]).getD i d = e := by
  have hl : (h.take i).length = i := by simp [List.length_take, hi]
  rw [List.getD_eq_getElem?_getD, List.getElem?_append_right (by omega)]
  simp [hl]

theorem save_undo_history_saved (s : EditState) (hinv : s.undo_index ≤ s.undo_history.length) :
    (save_undo_history s).le_main_buffer = s.le_main_buffer ∧
    (save_undo_history s).le_main_index = s.le_main_index ∧
    Saved (save_undo_history s) := by
  have hlen : (List.take s.undo_index s.undo_history ++
      [(⟨s.le_main_index, s.le_main_buffer⟩ : UndoEntry)]).length = s.undo_index + 1 := by
    simp [List.length_take, hinv]
  unfold save_undo_history
  simp only
  rw [c_assert_of_true _ _ (by rw [hlen]; simp)]
  refine ⟨rfl, rfl, rfl, ?_, ?_⟩
  · simp only [hlen]; omega
  · exact getD_take_append_self _ _ _ _ hinv

theorem maybe_save_saved (s : EditState) (hinv : s.undo_index ≤ s.undo_history.length)
    (hsame : (maybe_save_undo_history s).undo_history_entry =
      (maybe_save_undo_history s).main_history_entry) :
    (maybe_save_undo_history s).le_main_buffer = s.le_main_buffer ∧
    (maybe_save_undo_history s).le_main_index = s.le_main_index ∧
    Saved (maybe_save_undo_history s) := by
  have hca := c_assert_of_true (decide (s.undo_index ≤ s.undo_history.length)) s
    (decide_eq_true hinv)
  unfold maybe_save_undo_history at hsame ⊢
  simp only [hca] at hsame ⊢
  by_cases he : s.undo_history_entry = s.main_history_entry
  · simp only [he, if_true] at hsame ⊢
    by_cases hi : s.undo_index < s.undo_history.length
    · simp only [hi, if_true] at hsame ⊢
      by_cases hc : s.le_main_buffer = (s.undo_history.getD s.undo_index ⟨0, []⟩).contents
      · rw [if_pos hc]
        clear hsame
        refine ⟨rfl, rfl, rfl, ?_, ?_⟩
        · simpa using hi
        · simp only [List.getD_eq_getElem?_getD, List.getElem?_set, hi, if_true,
            List.getElem?_eq_getElem, Option.getD_some] at hc ⊢
          simp [hc]
      · rw [if_neg hc]
        exact save_undo_history_saved _ (by simp only; omega)
    · simp only [hi, if_false] at hsame ⊢
      exact save_undo_history_saved _ hinv
  · simp only [he, if_false] at hsame ⊢
    by_cases hv : s.le_main_buffer = s.main_history_value
    · rw [if_pos hv] at hsame
      exact absurd hsame he
    · rw [if_neg hv]
      clear hsame
      simp only [c_assert_eq]
      exact save_undo_history_saved _ (by simp)

theorem list_set_self {α : Type} (l : List α) (i : Nat) (h : i < l.length) :
    l.set i (l.get ⟨i, h⟩) = l := by
  induction l generalizing i with
  | nil => simp at h
  | cons a as ih =>
    cases i with
    | zero => rfl
    | succ j =>
      have := ih j (by simpa using h)
      simpa [List.set] using this

theorem maybe_save_of_saved (t : EditState) (h : Saved t) :
    (maybe_save_undo_history t).le_main_buffer = t.le_main_buffer ∧
    (maybe_save_undo_history t).le_main_index = t.le_main_index ∧
    (maybe_save_undo_history t).undo_history = t.undo_history ∧
    (maybe_save_undo_history t).undo_index = t.undo_index := by
  obtain ⟨he, hi, hg⟩ := h
  have hc : t.le_main_buffer = (t.undo_history.getD t.undo_index ⟨0, []⟩).contents := by
    rw [hg]
  unfold maybe_save_undo_history
  simp only [c_assert_eq, he, if_true, hi]
  rw [if_pos hc]
  refine ⟨rfl, rfl, ?_, rfl⟩
  simp only
  rw [← hc]
  rw [List.getD_eq_getElem _ _ hi] at hg
  rw [← hg]
  exact list_set_self _ _ hi

theorem restore_undo_entry_fields (j : Nat) (t : EditState) :
    (restore_undo_entry j t).le_main_buffer = (t.undo_history.getD j ⟨0, []⟩).contents ∧
    (restore_undo_entry j t).le_main_index = (t.undo_history.getD j ⟨0, []⟩).index ∧
    (restore_undo_entry j t).undo_history = t.undo_history ∧
    (restore_undo_entry j t).undo_index = j ∧
    (restore_undo_entry j t).undo_history_entry = t.undo_history_entry ∧
    (restore_undo_entry j t).main_history_entry = t.main_history_entry := by
  unfold restore_undo_entry
  simp [c_assert_eq, reset_state]

theorem restore_undo_entry_saved (j : Nat) (t : EditState)
    (he : t.undo_history_entry = t.main_history_entry) (hj : j < t.undo_history.length) :
    Saved (restore_undo_entry j t) := by
  obtain ⟨r1, r2, r3, r4, r5, r6⟩ := restore_undo_entry_fields j t
  unfold Saved
  rw [r1, r2, r3, r4, r5, r6]
  exact ⟨he, hj, rfl⟩

theorem cancel_undo_neg (s : EditState) (k : Nat) (hk : 1 ≤ k)
    (hi : (maybe_save_undo_history s).undo_index ≠ 0) :
    cancel_undo (-(k : Int)) s =
      restore_undo_entry
        (if k > (maybe_save_undo_history s).undo_index then 0
          else (maybe_save_undo_history s).undo_index - k)
        (maybe_save_undo_history s) := by
  have h1 : (-(k : Int)) < 0 := by omega
  unfold cancel_undo
  simp only [h1, if_true, hi, if_false, neg_neg, Int.toNat_ofNat]
  split <;> rfl

theorem cancel_undo_pos (s : EditState) (k : Nat)
    (hi : ¬ (maybe_save_undo_history s).undo_index + 1 ≥
      (maybe_save_undo_history s).undo_history.length) :
    cancel_undo (k : Int) s =
      restore_undo_entry
        (if k ≥ (maybe_save_undo_history s).undo_history.length -
              (maybe_save_undo_history s).undo_index
          then (maybe_save_undo_history s).undo_history.length - 1
          else (maybe_save_undo_history s).undo_index + k)
        (maybe_save_undo_history s) := by
  have h1 : ¬ ((k : Int) < 0) := by omega
  unfold cancel_undo
  simp only [h1, if_false, hi, Int.toNat_ofNat]
  split <;> rfl

/-- C2 (amended): in a state whose undo index does not exceed the number of
snapshots, and in which saving the pending snapshot leaves the undo history
attached to the line being edited, undo with count `k ≥ 1` immediately followed
by cancel-undo with count `k` gives back the buffer and the cursor index, as
long as the undo can go back `k` snapshots or starts from the newest one. -/
theorem undo_round_trip (s : EditState) (k : Nat) (hk : 1 ≤ k)
    (hinv : s.undo_index ≤ s.undo_history.length)
    (hsame : (maybe_save_undo_history s).undo_history_entry =
      (maybe_save_undo_history s).main_history_entry)
    (hsteps : k ≤ (maybe_save_undo_history s).undo_index ∨
      (1 ≤ (maybe_save_undo_history s).undo_index ∧
        (maybe_save_undo_history s).undo_index + 1 =
          (maybe_save_undo_history s).undo_history.length)) :
    (cancel_undo (k : Int) (cancel_undo (-(k : Int)) s)).le_main_buffer = s.le_main_buffer ∧
    (cancel_undo (k : Int) (cancel_undo (-(k : Int)) s)).le_main_index = s.le_main_index := by
  obtain ⟨hb, hc, hsaved⟩ := maybe_save_saved s hinv hsame
  obtain ⟨he, hlt, hget⟩ := hsaved
  have hi0 : (maybe_save_undo_history s).undo_index ≠ 0 := by omega
  rw [cancel_undo_neg s k hk hi0]
  generalize hj : (if k > (maybe_save_undo_history s).undo_index then 0
      else (maybe_save_undo_history s).undo_index - k) = j
  have hjlt : j < (maybe_save_undo_history s).undo_index := by
    rw [← hj]; split <;> omega
  have hsu := restore_undo_entry_saved j (maybe_save_undo_history s) he (by omega)
  obtain ⟨r1, r2, r3, r4, r5, r6⟩ := restore_undo_entry_fields j (maybe_save_undo_history s)
  obtain ⟨m1, m2, m3, m4⟩ := maybe_save_of_saved _ hsu
  rw [cancel_undo_pos _ k (by rw [m3, m4, r3, r4]; omega)]
  obtain ⟨q1, q2, q3, q4, q5, q6⟩ := restore_undo_entry_fields
    (if k ≥ (maybe_save_undo_history (restore_undo_entry j (maybe_save_undo_history s))).undo_history.length -
          (maybe_save_undo_history (restore_undo_entry j (maybe_save_undo_history s))).undo_index
      then (maybe_save_undo_history (restore_undo_entry j (maybe_save_undo_history s))).undo_history.length - 1
      else (maybe_save_undo_history (restore_undo_entry j (maybe_save_undo_history s))).undo_index + k)
    (maybe_save_undo_history (restore_undo_entry j (maybe_save_undo_history s)))
  rw [q1, q2, m3, m4, r3, r4]
  have hidx : (if k ≥ (maybe_save_undo_history s).undo_history.length - j
      then (maybe_save_undo_history s).undo_history.length - 1 else j + k) =
      (maybe_save_undo_history s).undo_index := by
    rw [← hj]
    rcases hsteps with h | ⟨h1, h2⟩
    · have : ¬ k > (maybe_save_undo_history s).undo_index := by omega
      simp only [this, if_false]
      split <;> omega
    · by_cases hk2 : k > (maybe_save_undo_history s).undo_index
      · simp only [hk2, if_true]
        split <;> omega
      · simp only [hk2, if_false]
        split <;> omega
  rw [hidx, hget]
  exact ⟨hb.symm ▸ rfl, hc.symm ▸ rfl⟩

theorem maybe_save_frame (s : EditState) :
    (maybe_save_undo_history s).le_main_buffer = s.le_main_buffer ∧
    (maybe_save_undo_history s).le_main_index = s.le_main_index ∧
    (maybe_save_undo_history s).state = s.state ∧
    (maybe_save_undo_history s).kill_ring = s.kill_ring ∧
    (maybe_save_undo_history s).next_kill_index = s.next_kill_index ∧
    (maybe_save_undo_history s).current_command = s.current_command ∧
    (maybe_save_undo_history s).le_current_mode = s.le_current_mode := by
  unfold maybe_save_undo_history save_undo_history
  simp only [c_assert_eq]
  split_ifs <;> simp

/-- C5: with a kill operator pending, cursor `p` and motion target `t` inside
the line, `exec_motion_command` removes exactly the characters from
`min p t` up to `e`, where `e` is `max p t` for an exclusive motion and
`min (max p t + 1) length` for an inclusive one, keeps the characters before
and after in order, stores the removed text in the kill ring when it is not
empty (and leaves the ring alone otherwise), puts the cursor at `min p t`, and
resets the pending operator and the count. -/
theorem exec_motion_command_kill (s : EditState) (t : Nat) (inclusive : Bool)
    (hp : s.le_main_index ≤ s.le_main_buffer.length) (ht : t ≤ s.le_main_buffer.length)
    (hpend : s.state.pending_command_motion = MEC.MEC_KILL) :
    (exec_motion_command t inclusive s).le_main_buffer =
      s.le_main_buffer.take (min s.le_main_index t) ++
        s.le_main_buffer.drop
          (if inclusive then min (max s.le_main_index t + 1) s.le_main_buffer.length
            else max s.le_main_index t) ∧
    (exec_motion_command t inclusive s).le_main_index = min s.le_main_index t ∧
    (if min s.le_main_index t <
          (if inclusive then min (max s.le_main_index t + 1) s.le_main_buffer.length
            else max s.le_main_index t)
      then
        (exec_motion_command t inclusive s).kill_ring =
          Function.update s.kill_ring s.next_kill_index
            (some ((s.le_main_buffer.drop (min s.le_main_index t)).take
              ((if inclusive then min (max s.le_main_index t + 1) s.le_main_buffer.length
                else max s.le_main_index t) - min s.le_main_index t))) ∧
        (exec_motion_command t inclusive s).next_kill_index =
          (s.next_kill_index + 1) % KILL_RING_SIZE
      else
        (exec_motion_command t inclusive s).kill_ring = s.kill_ring ∧
        (exec_motion_command t inclusive s).next_kill_index = s.next_kill_index) ∧
    (exec_motion_command t inclusive s).state.pending_command_motion = MEC.MEC_NONE ∧
    (exec_motion_command t inclusive s).state.count = ⟨0, 0, 1⟩ := by
  obtain ⟨f1, f2, f3, f4, f5, f6, f7⟩ := maybe_save_frame
    (c_assert (decide (t ≤ s.le_main_buffer.length)) s)
  rw [c_assert_of_true _ _ (decide_eq_true ht)] at f1 f2 f3 f4 f5 f6 f7
  have hm : (maybe_save_undo_history s).state.pending_command_motion = MEC.MEC_KILL := by
    rw [f3]; exact hpend
  unfold exec_motion_command
  rw [c_assert_of_true _ _ (decide_eq_true ht)]
  simp only [hm]
  generalize maybe_save_undo_history s = m at f1 f2 f3 f4 f5 f6 f7 hm ⊢
  have g : ∀ (x : List Char) (n : Nat) (u : EditState),
      (add_to_kill_ring x n (save_current_edit_command u)).le_main_buffer = u.le_main_buffer := by
    intro x n u
    unfold add_to_kill_ring save_current_edit_command
    split_ifs <;> rfl
  have g2 : ∀ (u : EditState), (save_current_edit_command u).kill_ring = u.kill_ring ∧
      (save_current_edit_command u).next_kill_index = u.next_kill_index ∧
      (save_current_edit_command u).le_main_buffer = u.le_main_buffer := by
    intro u
    unfold save_current_edit_command
    split_ifs <;> exact ⟨rfl, rfl, rfl⟩
  have hlo : (if s.le_main_index ≤ t then s.le_main_index else t) = min s.le_main_index t := by
    split <;> omega
  have hhi : (if s.le_main_index ≤ t then t else s.le_main_index) = max s.le_main_index t := by
    split <;> omega
  have he : (if inclusive = true ∧ max s.le_main_index t < s.le_main_buffer.length
      then max s.le_main_index t + 1 else max s.le_main_index t) =
      (if inclusive = true then min (max s.le_main_index t + 1) s.le_main_buffer.length
        else max s.le_main_index t) := by
    cases inclusive
    · simp
    · simp only [true_and, if_true]
      split <;> omega
  simp only [reset_state, g, f1, f2, wb_remove, initial_keymap_state, hlo, hhi, he,
    (g2 m).2.2]
  generalize hlo2 : min s.le_main_index t = lo
  generalize he2 : (if inclusive = true then min (max s.le_main_index t + 1) s.le_main_buffer.length
        else max s.le_main_index t) = e
  have hle : lo ≤ e := by
    rw [← hlo2, ← he2]; split <;> omega
  have hel : e ≤ s.le_main_buffer.length := by
    rw [← he2]; split <;> omega
  refine ⟨?_, trivial, ?_, trivial, trivial⟩
  · rw [Nat.add_sub_cancel' hle]
  · unfold add_to_kill_ring
    by_cases hlt : lo < e
    · have hn : 0 < e - lo := by omega
      have hx : List.drop lo s.le_main_buffer ≠ [] := by
        intro h0
        have := congrArg List.length h0
        simp at this
        omega
      simp only [hlt, if_true, hn, hx, ne_eq, not_false_eq_true, and_self, (g2 m).1, (g2 m).2.1,
        f4, f5]
    · have hn : ¬ (0 < e - lo) := by omega
      simp only [hlt, if_false, hn, false_and, (g2 m).1, (g2 m).2.1, f4, f5, and_self]

/-- Witness for `undo_round_trip`: after typing `a`, one undo and one
cancel-undo give `a` back. -/
theorem undo_round_trip_witness :
    (cancel_undo ((1 : Nat) : Int) (cancel_undo (-((1 : Nat) : Int)) typed_a_state)).le_main_buffer
        = ['a'] ∧
    (cancel_undo ((1 : Nat) : Int) (cancel_undo (-((1 : Nat) : Int)) typed_a_state)).le_main_index
        = 1 := by
  have h := undo_round_trip typed_a_state 1 (by decide) (by decide) (by decide) (by decide)
  exact ⟨h.1.trans (by decide), h.2.trans (by decide)⟩

/-- C2 (counterexample): `undone_state` is reached by typing `a` and undoing.
There the buffer is empty; undo with count 1 fails (nothing older is saved) and
the following cancel-undo with count 1 succeeds, so the buffer ends as `a`. -/
theorem undo_round_trip_counterexample :
    undone_state.le_main_buffer = [] ∧
    (cancel_undo 1 (cancel_undo (-1) undone_state)).le_main_buffer = ['a'] := by
  decide

/-- C1 (code at the failing input): after `x` has been typed and killed and the
count `0` typed, `cmd_put_before` run by `le_invoke_command` starts from a
cursor within the line, fails the assertion of `insert_killed_string` and
leaves `le_main_index` at `SIZE_MAX`, beyond the end of the empty line. -/
theorem put_before_count_zero_breaks_cursor :
    cursor_in_range killed_x_count_zero_state ∧
    killed_x_count_zero_state.assert_failed = false ∧
    (le_invoke_command Cmd.cmd_put_before cmd_put_before NUL
      killed_x_count_zero_state).le_main_buffer = [] ∧
    (le_invoke_command Cmd.cmd_put_before cmd_put_before NUL
      killed_x_count_zero_state).le_main_index = SIZE_MAX ∧
    (le_invoke_command Cmd.cmd_put_before cmd_put_before NUL
      killed_x_count_zero_state).assert_failed = true ∧
    ¬ cursor_in_range (le_invoke_command Cmd.cmd_put_before cmd_put_before NUL
      killed_x_count_zero_state) := by
  decide

/-- Witness for `exec_motion_command_kill`: with `hello`, the cursor on `e`
and an exclusive motion to index 3, `el` is removed. -/
theorem exec_motion_command_kill_witness :
    (exec_motion_command 3 false kill_pending_state).le_main_buffer = "hlo".toList ∧
    (exec_motion_command 3 false kill_pending_state).le_main_index = 1 ∧
    (exec_motion_command 3 false kill_pending_state).kill_ring 0 = some "el".toList := by
  have h := exec_motion_command_kill kill_pending_state 3 false (by decide) (by decide)
    (by decide)
  refine ⟨h.1.trans (by decide), h.2.1.trans (by decide), ?_⟩
  have h3 := h.2.2.1
  rw [if_pos (by decide)] at h3
  rw [h3.1]
  decide

theorem cmd_digit_argument_abs_le (c : Char) (s : EditState)
    (h : s.state.count.abs ≤ COUNT_ABS_MAX) :
    (cmd_digit_argument c s).state.count.abs ≤ COUNT_ABS_MAX := by
  unfold cmd_digit_argument
  split
  · rename_i hc
    split
    · simp [cmd_alert, reset_state, initial_keymap_state]
    · rename_i hle
      have h9 : c.toNat - '0'.toNat ≤ 9 := by
        have h2 : c.toNat ≤ '9'.toNat := by
          have := hc.2
          exact this
        have : '9'.toNat = 57 := by decide
        have : '0'.toNat = 48 := by decide
        omega
      simp only [COUNT_ABS_MAX] at hle ⊢
      omega
  · split
    · exact h
    · exact h

theorem is_ignored_view (cfg : SigConfig) (env : SigEnv) (signum : Nat) (st : SigState) :
    trap_view (is_ignored cfg env signum st).2 = trap_view st := by
  unfold is_ignored
  simp only
  split_ifs <;> rfl

theorem set_trap_sigaction_view (env : SigEnv) (signum : Nat) (h : Handler) (st : SigState) :
    trap_view (set_trap_sigaction env signum h st).2 = trap_view st := by
  unfold set_trap_sigaction
  simp only
  split_ifs <;> rfl

theorem set_trap_install_view (cfg : SigConfig) (env : SigEnv) (signum : Nat) (h : Handler)
    (st : SigState) : trap_view (set_trap_install cfg env signum h st).2 = trap_view st := by
  unfold set_trap_install
  simp only
  split_ifs <;> first | rfl | exact set_trap_sigaction_view _ _ _ _

theorem trap_handler_eq_sig_handler (command : Option (List Char)) :
    (trap_handler command = Handler.sig_handler) ↔ command_nonempty command = true := by
  cases command with
  | none => simp [trap_handler, command_nonempty]
  | some c => cases c <;> simp [trap_handler, command_nonempty]

theorem set_trap_masks_view (signum : Nat) (command : Option (List Char)) (st : SigState) :
    trap_view (set_trap_masks signum (trap_handler command) st) =
      (st.trap_command, st.rttrap_command,
        fun x => if x = signum then command_nonempty command else st.trapped_signals x) := by
  unfold set_trap_masks trap_view
  by_cases h : command_nonempty command = true
  · have h1 := (trap_handler_eq_sig_handler command).2 h
    simp only [h1, if_true, h]
    split_ifs <;> rfl
  · have h1 : ¬ trap_handler command = Handler.sig_handler :=
      fun hh => h ((trap_handler_eq_sig_handler command).1 hh)
    have h2 : command_nonempty command = false := by simpa using h
    simp only [h1, if_false, h2]
    split_ifs <;> rfl

theorem set_trap_slot_view (cfg : SigConfig) (env : SigEnv) (signum : Nat)
    (command : Option (List Char)) (slot : TrapSlot) (st : SigState) :
    trap_view (set_trap_slot cfg env signum command slot st).2 = trap_view st ∨
    trap_view (set_trap_slot cfg env signum command slot st).2 =
      trap_view_after signum command slot st := by
  unfold set_trap_slot
  split
  · left
    exact is_ignored_view _ _ _ _
  · right
    simp only
    generalize hst1 : (if env.is_interactive = false ∧ slot_command st slot = none then
        (is_ignored cfg env signum st).2 else st) = st1
    have hv1 : trap_view st1 = trap_view st := by
      rw [← hst1]; split
      · exact is_ignored_view _ _ _ _
      · rfl
    generalize hst2 : (match command with
      | some c => if c ≠ [] then { st1 with any_trap_set := true } else st1
      | none => st1) = st2
    have hv2 : trap_view st2 = trap_view st := by
      rw [← hst2, ← hv1]
      cases command with
      | none => rfl
      | some c => simp only; split <;> rfl
    simp only [trap_view, Prod.mk.injEq] at hv2
    obtain ⟨v1, v2, v3⟩ := hv2
    split
    · rename_i h0
      cases slot <;>
        simp [trap_view, trap_view_after, set_slot_command, set_slot_received, h0, v1, v2, v3]
    · rename_i h0
      rw [set_trap_install_view, set_trap_masks_view]
      cases slot <;>
        simp [trap_view_after, set_slot_command, set_slot_received, h0, v1, v2, v3]

theorem in_rt_range_le (cfg : SigConfig) (x : Nat) (h : in_rt_range cfg x = true) :
    cfg.SIGRTMIN ≤ x := by
  unfold in_rt_range at h
  simp only [Bool.and_eq_true, decide_eq_true_eq] at h
  exact h.1.2

theorem trap_inv_after_rt (cfg : SigConfig) (signum : Nat) (command : Option (List Char))
    (st : SigState) (hrt : in_rt_range cfg signum = true)
    (hsz : signum - cfg.SIGRTMIN < cfg.RTSIZE) (hinv : TrapInv cfg (trap_view st)) :
    TrapInv cfg (trap_view_after signum command (TrapSlot.rt (signum - cfg.SIGRTMIN)) st) := by
  obtain ⟨i1, i2, i3⟩ := hinv
  have hle := in_rt_range_le cfg signum hrt
  refine ⟨?_, ?_, ?_⟩
  · intro x hx ht hnrt
    have hne : x ≠ signum := by
      intro h; rw [h, hrt] at hnrt; exact absurd hnrt (by decide)
    have := i1 x hx ht hnrt
    simp only [trap_view, trap_view_after] at this ⊢
    by_cases h0 : signum = 0
    · simpa [h0] using this
    · simpa [h0, hne] using this
  · intro x hx hxrt
    have hxle := in_rt_range_le cfg x hxrt
    have := i2 x hx hxrt
    simp only [trap_view, trap_view_after] at this ⊢
    by_cases hxs : x = signum
    · subst hxs
      have h0 : x ≠ 0 := by omega
      simp [h0, hsz]
    · have hidx : x - cfg.SIGRTMIN ≠ signum - cfg.SIGRTMIN := by omega
      by_cases h0 : signum = 0
      · simpa [h0, Function.update_noteq hidx] using this
      · simpa [h0, hxs, Function.update_noteq hidx] using this
  · intro i hi
    simp only [trap_view_after] at hi
    by_cases hidx : i = signum - cfg.SIGRTMIN
    · subst hidx
      refine ⟨hsz, ?_⟩
      have : cfg.SIGRTMIN + (signum - cfg.SIGRTMIN) = signum := by omega
      rw [this]; exact hrt
    · rw [Function.update_noteq hidx] at hi
      exact i3 i hi

theorem trap_inv_after_plain (cfg : SigConfig) (hinj : sigindex_injective cfg) (signum : Nat)
    (command : Option (List Char)) (st : SigState) (hrt : in_rt_range cfg signum = false)
    (htab : in_signal_table cfg signum) (hinv : TrapInv cfg (trap_view st)) :
    TrapInv cfg (trap_view_after signum command (TrapSlot.plain (cfg.sigindex signum)) st) := by
  obtain ⟨i1, i2, i3⟩ := hinv
  refine ⟨?_, ?_, ?_⟩
  · intro x hx ht hnrt
    have := i1 x hx ht hnrt
    simp only [trap_view, trap_view_after] at this ⊢
    by_cases hxs : x = signum
    · subst hxs
      have h0 : x ≠ 0 := by omega
      simp [h0]
    · have hidx : cfg.sigindex x ≠ cfg.sigindex signum := fun h => hxs (hinj x signum ht htab h)
      by_cases h0 : signum = 0
      · simpa [h0, Function.update_noteq hidx] using this
      · simpa [h0, hxs, Function.update_noteq hidx] using this
  · intro x hx hxrt
    have hne : x ≠ signum := by
      intro h; rw [h, hrt] at hxrt; exact absurd hxrt (by decide)
    have := i2 x hx hxrt
    simp only [trap_view, trap_view_after] at this ⊢
    by_cases h0 : signum = 0
    · simpa [h0] using this
    · simpa [h0, hne] using this
  · intro i hi
    exact i3 i hi

theorem set_trap_inv (cfg : SigConfig) (hinj : sigindex_injective cfg) (env : SigEnv)
    (signum : Nat) (command : Option (List Char)) (st : SigState)
    (hk : known_signal cfg signum) (hinv : TrapInv cfg (trap_view st)) :
    TrapInv cfg (trap_view (set_trap cfg env signum command st).2) := by
  unfold set_trap
  split
  · exact hinv
  · by_cases hrt : in_rt_range cfg signum = true
    · simp only [hrt, if_true]
      split
      · rename_i hsz
        rcases set_trap_slot_view cfg env signum command
          (TrapSlot.rt (signum - cfg.SIGRTMIN)) st with h | h
        · rw [h]; exact hinv
        · rw [h]; exact trap_inv_after_rt cfg signum command st hrt hsz hinv
      · exact hinv
    · have hrt2 : in_rt_range cfg signum = false := by simpa using hrt
      simp only [hrt2, Bool.false_eq_true, if_false]
      have htab : in_signal_table cfg signum := by
        rcases hk with h | h
        · exact h
        · rw [hrt2] at h; exact absurd h (by decide)
      rcases set_trap_slot_view cfg env signum command
        (TrapSlot.plain (cfg.sigindex signum)) st with h | h
      · rw [h]; exact hinv
      · rw [h]; exact trap_inv_after_plain cfg hinj signum command st hrt2 htab hinv

theorem clear_trap_plain_inv (cfg : SigConfig) (hinj : sigindex_injective cfg) (env : SigEnv)
    (st : SigState) (signum : Nat) (hk : in_signal_table cfg signum)
    (hinv : TrapInv cfg (trap_view st)) :
    TrapInv cfg (trap_view (clear_trap_plain cfg env st signum)) := by
  unfold clear_trap_plain
  simp only
  split
  · exact set_trap_inv cfg hinj env signum none st (Or.inl hk) hinv
  · exact hinv

theorem clear_trap_rt_inv (cfg : SigConfig) (hinj : sigindex_injective cfg) (env : SigEnv)
    (st : SigState) (i : Nat) (hinv : TrapInv cfg (trap_view st)) :
    TrapInv cfg (trap_view (clear_trap_rt cfg env st i)) := by
  unfold clear_trap_rt
  simp only
  split
  · rename_i hne
    have := (hinv.2.2 i hne).2
    exact set_trap_inv cfg hinj env _ none st (Or.inr this) hinv
  · exact hinv

theorem foldl_inv {α : Type} (P : SigState → Prop) (f : SigState → α → SigState)
    (l : List α) (Q : α → Prop) (hf : ∀ st a, Q a → P st → P (f st a))
    (hl : ∀ a ∈ l, Q a) (st : SigState) (h : P st) : P (l.foldl f st) := by
  induction l generalizing st with
  | nil => exact h
  | cons a as ih =>
    exact ih (fun b hb => hl b (List.mem_cons_of_mem _ hb)) _
      (hf st a (hl a (List.mem_cons_self _ _)) h)

theorem clear_traps_inv (cfg : SigConfig) (hinj : sigindex_injective cfg) (env : SigEnv)
    (st : SigState) (hinv : TrapInv cfg (trap_view st)) :
    TrapInv cfg (trap_view (clear_traps cfg env st)) := by
  unfold clear_traps
  split
  · exact hinv
  · have h1 := clear_trap_plain_inv cfg hinj env st 0 (Or.inl rfl) hinv
    have h2 := foldl_inv (fun s => TrapInv cfg (trap_view s)) (clear_trap_plain cfg env)
      (cfg.signals.map Prod.fst) (fun a => in_signal_table cfg a)
      (fun s a ha hs => clear_trap_plain_inv cfg hinj env s a ha hs)
      (fun a ha => Or.inr ha) _ h1
    have h3 : TrapInv cfg (trap_view (if cfg.has_rt = true then
        (List.range cfg.RTSIZE).foldl (clear_trap_rt cfg env)
          ((cfg.signals.map Prod.fst).foldl (clear_trap_plain cfg env)
            (clear_trap_plain cfg env st 0))
        else (cfg.signals.map Prod.fst).foldl (clear_trap_plain cfg env)
            (clear_trap_plain cfg env st 0))) := by
      split
      · exact foldl_inv (fun s => TrapInv cfg (trap_view s)) (clear_trap_rt cfg env)
          (List.range cfg.RTSIZE) (fun _ => True)
          (fun s a _ hs => clear_trap_rt_inv cfg hinj env s a hs) (fun _ _ => trivial) _ h2
      · exact h2
    exact h3

theorem init_signal_inv (cfg : SigConfig) (blocked : SigSet) (disposition : Nat → Handler) :
    TrapInv cfg (trap_view (init_signal (sig_startup_state blocked disposition))) := by
  refine ⟨?_, ?_, ?_⟩ <;>
    simp [trap_view, init_signal, sig_startup_state, sigemptyset, command_nonempty]

theorem run_trap_calls_inv (cfg : SigConfig) (hinj : sigindex_injective cfg)
    (calls : List TrapCall) (hcalls : ∀ c ∈ calls, known_call cfg c) (st : SigState)
    (hinv : TrapInv cfg (trap_view st)) :
    TrapInv cfg (trap_view (run_trap_calls cfg calls st)) := by
  unfold run_trap_calls
  refine foldl_inv (fun s => TrapInv cfg (trap_view s)) (run_trap_call cfg) calls
    (known_call cfg) ?_ hcalls st hinv
  intro s c hc hs
  cases c with
  | set_trap env signum command => exact set_trap_inv cfg hinj env signum command s hc hs
  | clear_traps env => exact clear_traps_inv cfg hinj env s hs

/-- C3: starting from `init_signal` and after any sequence of `set_trap` and
`clear_traps` calls on known signals, whatever each call returns, a signal
(a number from 1 up; 0 is the EXIT condition and belongs to no signal set) is
a member of `trapped_signals` exactly when its trap command entry is a
non-null, non-empty string.  `sigindex` is taken to be injective on the
numbers it is defined on. -/
theorem trapped_signals_iff_trap_entry (cfg : SigConfig) (hinj : sigindex_injective cfg)
    (blocked : SigSet) (disposition : Nat → Handler) (calls : List TrapCall)
    (hcalls : ∀ c ∈ calls, known_call cfg c) (signum : Nat) (hpos : 1 ≤ signum)
    (hknown : known_signal cfg signum) :
    (run_trap_calls cfg calls (init_signal (sig_startup_state blocked disposition))).trapped_signals
        signum = true ↔
      command_nonempty (trap_entry cfg
        (run_trap_calls cfg calls (init_signal (sig_startup_state blocked disposition)))
        signum) = true := by
  have hinv := run_trap_calls_inv cfg hinj calls hcalls _
    (init_signal_inv cfg blocked disposition)
  generalize run_trap_calls cfg calls (init_signal (sig_startup_state blocked disposition)) = st
    at hinv ⊢
  obtain ⟨i1, i2, _⟩ := hinv
  unfold trap_entry
  by_cases hrt : in_rt_range cfg signum = true
  · have := i2 signum hpos hrt
    simp only [trap_view] at this
    rw [this]
    simp only [hrt, if_true]
    split
    · rename_i h; simp [h]
    · rename_i h; simp [h, command_nonempty]
  · have hrt2 : in_rt_range cfg signum = false := by simpa using hrt
    have htab : in_signal_table cfg signum := by
      rcases hknown with h | h
      · exact h
      · rw [hrt2] at h; exact absurd h (by decide)
    have := i1 signum hpos htab hrt2
    simp only [trap_view] at this
    rw [this]
    simp [hrt2]

/-- C4: for `SIGKILL` and `SIGSTOP` and every command (null, empty or not),
`set_trap` returns false and leaves every variable of `sig.c` as it was, the
trap tables, the four signal sets and `any_trap_set` among them. -/
theorem set_trap_kill_stop (cfg : SigConfig) (env : SigEnv) (command : Option (List Char))
    (st : SigState) :
    set_trap cfg env cfg.SIGKILL command st = (false, st) ∧
    set_trap cfg env cfg.SIGSTOP command st = (false, st) := by
  constructor <;> simp [set_trap]

set_option maxRecDepth 100000 in
/-- Witness for `trapped_signals_iff_trap_entry`: on Linux, after a trap on
`SIGINT`, `clear_traps` and a trap on `SIGUSR1`, signal 10 is trapped and its
entry is the command, and signal 2 is not trapped. -/
theorem trapped_signals_iff_trap_entry_witness :
    ((run_trap_calls linux_config sample_calls
        (init_signal (sig_startup_state sigemptyset fun _ => Handler.SIG_DFL))).trapped_signals
        10 = true ↔
      command_nonempty (trap_entry linux_config
        (run_trap_calls linux_config sample_calls
          (init_signal (sig_startup_state sigemptyset fun _ => Handler.SIG_DFL))) 10) = true) ∧
    (run_trap_calls linux_config sample_calls
        (init_signal (sig_startup_state sigemptyset fun _ => Handler.SIG_DFL))).trapped_signals
        10 = true ∧
    (run_trap_calls linux_config sample_calls
        (init_signal (sig_startup_state sigemptyset fun _ => Handler.SIG_DFL))).trapped_signals
        2 = false :=
  ⟨trapped_signals_iff_trap_entry linux_config (fun _ _ _ _ h => h) sigemptyset
      (fun _ => Handler.SIG_DFL) sample_calls
      (by
        intro c hc
        simp only [sample_calls, List.mem_cons, List.mem_singleton, List.not_mem_nil,
          or_false] at hc
        rcases hc with rfl | rfl | rfl
        · exact Or.inl (Or.inr (by decide))
        · trivial
        · exact Or.inl (Or.inr (by decide)))
      10 (by decide) (Or.inl (Or.inr (by decide))),
    by decide, by decide⟩

/-! ## Theorems on counts and on the undo history -/

theorem decimal_value_concat (l : List Char) (c : Char) :
    decimal_value (l ++ [c]) = 10 * decimal_value l + (c.toNat - '0'.toNat) := by
  simp [decimal_value, List.foldl_append]

theorem decimal_value_dropLast_le (l : List Char) :
    decimal_value l.dropLast ≤ decimal_value l := by
  induction l using List.reverseRecOn with
  | nil => simp [decimal_value]
  | append_singleton l c _ =>
    rw [List.dropLast_concat, decimal_value_concat]
    omega

theorem type_digits_concat (l : List Char) (c : Char) (s : EditState) :
    type_digits (l ++ [c]) s = cmd_digit_argument c (type_digits l s) := by
  simp [type_digits, List.foldl_append]

theorem cmd_digit_argument_accept (c : Char) (s : EditState) (hc : isdigit c = true)
    (h : s.state.count.abs ≤ COUNT_ABS_MAX / 10) :
    (cmd_digit_argument c s).state.count.abs =
      s.state.count.abs * 10 + (c.toNat - '0'.toNat) ∧
    (cmd_digit_argument c s).state.count.sign =
      (if s.state.count.sign = 0 then 1 else s.state.count.sign) := by
  have hc2 : '0' ≤ c ∧ c ≤ '9' := by
    simpa [isdigit] using hc
  have h2 : ¬ s.state.count.abs > COUNT_ABS_MAX / 10 := by omega
  unfold cmd_digit_argument
  simp only [hc2, and_self, if_true, h2, if_false]

theorem cmd_digit_argument_reject (c : Char) (s : EditState) (hc : isdigit c = true)
    (h : COUNT_ABS_MAX / 10 < s.state.count.abs) :
    cmd_digit_argument c s = cmd_alert s := by
  have hc2 : '0' ≤ c ∧ c ≤ '9' := by
    simpa [isdigit] using hc
  unfold cmd_digit_argument
  simp only [hc2, and_self, if_true, gt_iff_lt, h]

theorem type_digits_value (s : EditState) (ds : List Char)
    (hsign : s.state.count.sign = 0) (habs : s.state.count.abs = 0)
    (hd : ∀ c ∈ ds, isdigit c = true)
    (hfit : decimal_value ds.dropLast ≤ COUNT_ABS_MAX / 10) :
    (type_digits ds s).state.count.abs = decimal_value ds ∧
    (type_digits ds s).state.count.sign = (if ds = [] then 0 else 1) := by
  induction ds using List.reverseRecOn with
  | nil => simpa [type_digits, decimal_value] using ⟨habs, hsign⟩
  | append_singleton l c ih =>
    rw [List.dropLast_concat] at hfit
    obtain ⟨hl, hs⟩ := ih (fun x hx => hd x (List.mem_append_left _ hx))
        (le_trans (decimal_value_dropLast_le l) hfit)
    have hc := hd c (List.mem_append_right _ (List.mem_singleton_self c))
    obtain ⟨e1, e2⟩ := cmd_digit_argument_accept c _ hc (by rw [hl]; exact hfit)
    rw [type_digits_concat, decimal_value_concat, e1, e2, hl, hs]
    refine ⟨by omega, ?_⟩
    by_cases hnil : l = [] <;> simp [hnil]

/-- C20 (amended): starting from an unset count, decimal digits given to
`cmd_digit_argument` leave `count.abs` equal to the value `v` of the digits
typed as long as the value before the last digit is at most 99999999, and then
`v` is at most 999999999; a digit typed while `abs` is above 99999999 is
answered with an alert that resets the count to unset (`abs` 0) instead of
leaving `abs` at the maximum. -/
theorem digit_argument_value (s : EditState) (ds : List Char) (c : Char)
    (hsign : s.state.count.sign = 0) (habs : s.state.count.abs = 0)
    (hd : ∀ x ∈ ds, isdigit x = true) (hc : isdigit c = true)
    (hfit : decimal_value ds.dropLast ≤ COUNT_ABS_MAX / 10) :
    (type_digits ds s).state.count.abs = decimal_value ds ∧
    (type_digits ds s).state.count.sign = (if ds = [] then 0 else 1) ∧
    decimal_value ds ≤ COUNT_ABS_MAX ∧
    (COUNT_ABS_MAX / 10 < decimal_value ds →
      (type_digits (ds ++ [c]) s).state.count = ⟨0, 0, 1⟩ ∧
      (type_digits (ds ++ [c]) s).alerts = (type_digits ds s).alerts + 1) := by
  obtain ⟨hv, hsg⟩ := type_digits_value s ds hsign habs hd hfit
  have hle : decimal_value ds ≤ COUNT_ABS_MAX := by
    induction ds using List.reverseRecOn with
    | nil => simp [decimal_value, COUNT_ABS_MAX]
    | append_singleton l x _ =>
      rw [List.dropLast_concat] at hfit
      have hx := hd x (List.mem_append_right _ (List.mem_singleton_self x))
      have hx2 : '0' ≤ x ∧ x ≤ '9' := by simpa [isdigit] using hx
      have h9 : x.toNat - '0'.toNat ≤ 9 := by
        have h2 : x.toNat ≤ '9'.toNat := hx2.2
        have : '9'.toNat = 57 := by decide
        have : '0'.toNat = 48 := by decide
        omega
      rw [decimal_value_concat]
      simp only [COUNT_ABS_MAX] at hfit ⊢
      omega
  refine ⟨hv, hsg, hle, ?_⟩
  intro hbig
  rw [type_digits_concat, cmd_digit_argument_reject c _ hc (by rw [hv]; exact hbig)]
  exact ⟨rfl, rfl⟩

/-- Witness for `digit_argument_value`: the keystrokes `123456789` give the
count 123456789, and one more digit resets the count. -/
theorem digit_argument_value_witness :
    (type_digits "123456789".toList (le_editing_init false startup_state)).state.count.abs
      = 123456789 ∧
    (type_digits ("123456789".toList ++ ['0'])
      (le_editing_init false startup_state)).state.count = ⟨0, 0, 1⟩ := by
  have h := digit_argument_value (le_editing_init false startup_state) "123456789".toList '0'
    (by decide) (by decide) (by decide) (by decide) (by decide)
  exact ⟨h.1.trans (by decide), (h.2.2.2 (by decide)).1⟩

/-- C20 (counterexample): the ten digits `1234567890` have the value
1234567890, whose minimum with 999999999 is 999999999, yet after they are
typed from an unset count `count.abs` is 0 and the count is unset again. -/
theorem digit_argument_value_counterexample :
    (le_editing_init false startup_state).state.count.sign = 0 ∧
    decimal_value "1234567890".toList = 1234567890 ∧
    ten_digits_state.state.count.abs = 0 ∧
    ten_digits_state.state.count.sign = 0 ∧
    ten_digits_state.state.count.abs ≠ min (decimal_value "1234567890".toList) COUNT_ABS_MAX := by
  decide

theorem maybe_save_alerts (s : EditState) :
    (maybe_save_undo_history s).alerts = s.alerts := by
  unfold maybe_save_undo_history save_undo_history
  simp only [c_assert_eq]
  split_ifs <;> simp

theorem cmd_alert_undo_fields (s : EditState) :
    (cmd_alert s).le_main_buffer = s.le_main_buffer ∧
    (cmd_alert s).le_main_index = s.le_main_index ∧
    (cmd_alert s).undo_history = s.undo_history ∧
    (cmd_alert s).undo_index = s.undo_index ∧
    (cmd_alert s).alerts = s.alerts + 1 :=
  ⟨rfl, rfl, rfl, rfl, rfl⟩

/-- C19: when the undo position `i` is below the newest snapshot, the undo
history belongs to the line being edited and the buffer differs from snapshot
`i`, `maybe_save_undo_history` leaves the snapshots `0..i` followed by one new
snapshot holding the current cursor and contents, with `undo_index = i + 1`;
a cancel-undo that follows (any offset from 0 up) only alerts: the buffer, the
cursor and the undo history stay as they are. -/
theorem undo_truncation (s : EditState) (offset : Int)
    (hsame : s.undo_history_entry = s.main_history_entry)
    (hi : s.undo_index + 1 < s.undo_history.length)
    (hdiff : s.le_main_buffer ≠ (s.undo_history.getD s.undo_index ⟨0, []⟩).contents)
    (hoff : 0 ≤ offset) :
    (maybe_save_undo_history s).undo_history =
      s.undo_history.take (s.undo_index + 1) ++ [⟨s.le_main_index, s.le_main_buffer⟩] ∧
    (maybe_save_undo_history s).undo_index = s.undo_index + 1 ∧
    (cancel_undo offset (maybe_save_undo_history s)).le_main_buffer = s.le_main_buffer ∧
    (cancel_undo offset (maybe_save_undo_history s)).le_main_index = s.le_main_index ∧
    (cancel_undo offset (maybe_save_undo_history s)).undo_history =
      (maybe_save_undo_history s).undo_history ∧
    (cancel_undo offset (maybe_save_undo_history s)).undo_index = s.undo_index + 1 ∧
    (cancel_undo offset (maybe_save_undo_history s)).alerts =
      (maybe_save_undo_history s).alerts + 1 := by
  have hinv : s.undo_index ≤ s.undo_history.length := by omega
  have hlt : s.undo_index < s.undo_history.length := by omega
  have hform : maybe_save_undo_history s =
      save_undo_history { s with undo_save_index := s.le_main_index,
                                 undo_index := s.undo_index + 1 } := by
    unfold maybe_save_undo_history
    simp only [c_assert_of_true _ _ (decide_eq_true hinv), hsame, if_true, hlt]
    rw [if_neg hdiff]
  have hhist : (maybe_save_undo_history s).undo_history =
      s.undo_history.take (s.undo_index + 1) ++ [⟨s.le_main_index, s.le_main_buffer⟩] := by
    rw [hform]; unfold save_undo_history; simp [c_assert_eq]
  have hidx : (maybe_save_undo_history s).undo_index = s.undo_index + 1 := by
    rw [hform]; unfold save_undo_history; simp [c_assert_eq]
  obtain ⟨hb, hc, hsaved⟩ := save_undo_history_saved
    { s with undo_save_index := s.le_main_index, undo_index := s.undo_index + 1 }
    (by simp only; omega)
  rw [← hform] at hb hc hsaved
  obtain ⟨m1, m2, m3, m4⟩ := maybe_save_of_saved _ hsaved
  have hlen : (maybe_save_undo_history s).undo_history.length = s.undo_index + 2 := by
    rw [hhist]; simp [List.length_take]; omega
  have hcu : cancel_undo offset (maybe_save_undo_history s) =
      cmd_alert (maybe_save_undo_history (maybe_save_undo_history s)) := by
    unfold cancel_undo
    have h1 : ¬ offset < 0 := by omega
    have h2 : (maybe_save_undo_history (maybe_save_undo_history s)).undo_index + 1 ≥
        (maybe_save_undo_history (maybe_save_undo_history s)).undo_history.length := by
      rw [m3, m4, hlen, hidx]
    simp only [h1, if_false, h2, if_true]
  obtain ⟨a1, a2, a3, a4, a5⟩ := cmd_alert_undo_fields
    (maybe_save_undo_history (maybe_save_undo_history s))
  refine ⟨hhist, hidx, ?_, ?_, ?_, ?_, ?_⟩
  · rw [hcu, a1, m1]; exact hb
  · rw [hcu, a2, m2]; exact hc
  · rw [hcu, a3, m3]
  · rw [hcu, a4, m4, hidx]
  · rw [hcu, a5, maybe_save_alerts]

/-- Witness for `undo_truncation`: in `undone_state` (the line `a` typed and
undone) the letter `b` is typed; the next save leaves the empty line and `b`,
and cancel-undo changes nothing. -/
theorem undo_truncation_witness :
    (maybe_save_undo_history (cmd_self_insert 'b' undone_state)).undo_history =
      [⟨0, []⟩, ⟨1, ['b']⟩] ∧
    (cancel_undo 1 (maybe_save_undo_history (cmd_self_insert 'b' undone_state))).le_main_buffer
      = ['b'] := by
  have h := undo_truncation (cmd_self_insert 'b' undone_state) 1 (by decide) (by decide)
    (by decide) (by decide)
  exact ⟨h.1.trans (by decide), h.2.2.1.trans (by decide)⟩

/-! ## Theorems on the kill ring -/

theorem size_sub_of_le (a b : Nat) (h : b ≤ a) (ha : a < SIZE_MOD) : size_sub a b = a - b := by
  unfold size_sub SIZE_MOD at *
  omega

theorem wb_insert_length (buf : List Char) (i : Nat) (str : List Char) :
    (wb_insert buf i str).length = buf.length + str.length := by
  unfold wb_insert
  simp only [List.length_append, List.length_take, List.length_drop]
  omega

theorem pop_prelude_frame (s : EditState) :
    (maybe_save_undo_history (save_current_edit_command s)).le_main_buffer =
      s.le_main_buffer ∧
    (maybe_save_undo_history (save_current_edit_command s)).le_main_index = s.le_main_index ∧
    (maybe_save_undo_history (save_current_edit_command s)).state = s.state ∧
    (maybe_save_undo_history (save_current_edit_command s)).kill_ring = s.kill_ring ∧
    (maybe_save_undo_history (save_current_edit_command s)).next_kill_index =
      s.next_kill_index ∧
    (maybe_save_undo_history (save_current_edit_command s)).last_put_elem = s.last_put_elem ∧
    (maybe_save_undo_history (save_current_edit_command s)).last_put_range_start =
      s.last_put_range_start ∧
    (maybe_save_undo_history (save_current_edit_command s)).last_put_range_length =
      s.last_put_range_length ∧
    (maybe_save_undo_history (save_current_edit_command s)).last_command = s.last_command ∧
    (maybe_save_undo_history (save_current_edit_command s)).last_success = s.last_success ∧
    (maybe_save_undo_history (save_current_edit_command s)).current_command =
      s.current_command := by
  unfold maybe_save_undo_history save_undo_history save_current_edit_command
  simp only [c_assert_eq]
  split_ifs <;> simp

theorem set_trap_sigaction_fields (env : SigEnv) (signum : Nat) (h : Handler) (st : SigState) :
    (set_trap_sigaction env signum h st).2.trap_command = st.trap_command ∧
    (set_trap_sigaction env signum h st).2.rttrap_command = st.rttrap_command ∧
    (set_trap_sigaction env signum h st).2.signal_received = st.signal_received ∧
    (set_trap_sigaction env signum h st).2.rtsignal_received = st.rtsignal_received ∧
    (set_trap_sigaction env signum h st).2.ignored_signals = st.ignored_signals ∧
    (set_trap_sigaction env signum h st).2.trapped_signals = st.trapped_signals ∧
    (set_trap_sigaction env signum h st).2.accept_sigmask = st.accept_sigmask := by
  unfold set_trap_sigaction
  simp only
  split_ifs <;> exact ⟨rfl, rfl, rfl, rfl, rfl, rfl, rfl⟩

theorem set_trap_install_fields (cfg : SigConfig) (env : SigEnv) (signum : Nat) (h : Handler)
    (st : SigState) :
    (set_trap_install cfg env signum h st).2.trap_command = st.trap_command ∧
    (set_trap_install cfg env signum h st).2.rttrap_command = st.rttrap_command ∧
    (set_trap_install cfg env signum h st).2.signal_received = st.signal_received ∧
    (set_trap_install cfg env signum h st).2.rtsignal_received = st.rtsignal_received ∧
    (set_trap_install cfg env signum h st).2.ignored_signals = st.ignored_signals ∧
    (set_trap_install cfg env signum h st).2.trapped_signals = st.trapped_signals ∧
    (set_trap_install cfg env signum h st).2.accept_sigmask = st.accept_sigmask := by
  unfold set_trap_install
  simp only
  split_ifs <;> first
    | exact ⟨rfl, rfl, rfl, rfl, rfl, rfl, rfl⟩
    | exact set_trap_sigaction_fields _ _ _ _

theorem set_trap_tail_done (cfg : SigConfig) (env : SigEnv) (signum : Nat)
    (command : Option (List Char)) (slot : TrapSlot) (st2 : SigState) :
    slot_command (set_trap_install cfg env signum (trap_handler command)
      (set_trap_masks signum (trap_handler command)
        (set_slot_received slot false (set_slot_command slot command st2)))).2 slot = command ∧
    (set_trap_install cfg env signum (trap_handler command)
      (set_trap_masks signum (trap_handler command)
        (set_slot_received slot false (set_slot_command slot command st2)))).2.trapped_signals
        signum = command_nonempty command ∧
    (set_trap_install cfg env signum (trap_handler command)
      (set_trap_masks signum (trap_handler command)
        (set_slot_received slot false (set_slot_command slot command st2)))).2.ignored_signals
        signum = decide (command = some []) ∧
    (command_nonempty command = true →
      (set_trap_install cfg env signum (trap_handler command)
        (set_trap_masks signum (trap_handler command)
          (set_slot_received slot false (set_slot_command slot command st2)))).2.accept_sigmask
          signum = false) ∧
    slot_received (set_trap_install cfg env signum (trap_handler command)
      (set_trap_masks signum (trap_handler command)
        (set_slot_received slot false (set_slot_command slot command st2)))).2 slot
      = false := by
  obtain ⟨f1, f2, f3, f4, f5, f6, f7⟩ := set_trap_install_fields cfg env signum
    (trap_handler command)
    (set_trap_masks signum (trap_handler command)
      (set_slot_received slot false (set_slot_command slot command st2)))
  rw [f5, f6, f7]
  refine ⟨?_, ?_, ?_, ?_, ?_⟩
  · cases slot with
    | plain i =>
      simp only [slot_command, f1]
      cases command with
      | none => simp [set_trap_masks, trap_handler, set_slot_received, set_slot_command]
      | some c =>
        cases c <;> simp [set_trap_masks, trap_handler, set_slot_received, set_slot_command]
    | rt i =>
      simp only [slot_command, f2]
      cases command with
      | none => simp [set_trap_masks, trap_handler, set_slot_received, set_slot_command]
      | some c =>
        cases c <;> simp [set_trap_masks, trap_handler, set_slot_received, set_slot_command]
  · cases command with
    | none => simp [set_trap_masks, trap_handler, sigdelset, command_nonempty]
    | some c => cases c <;> simp [set_trap_masks, trap_handler, sigdelset, sigaddset,
        command_nonempty]
  · cases command with
    | none => simp [set_trap_masks, trap_handler, sigdelset]
    | some c => cases c <;> simp [set_trap_masks, trap_handler, sigdelset, sigaddset]
  · intro hne
    cases command with
    | none => simp [command_nonempty] at hne
    | some c =>
      cases c with
      | nil => simp [command_nonempty] at hne
      | cons a as => simp [set_trap_masks, trap_handler, sigdelset]
  · cases slot with
    | plain i =>
      simp only [slot_received, f3]
      cases command with
      | none => simp [set_trap_masks, trap_handler, set_slot_received, set_slot_command]
      | some c =>
        cases c <;> simp [set_trap_masks, trap_handler, set_slot_received, set_slot_command]
    | rt i =>
      simp only [slot_received, f4]
      cases command with
      | none => simp [set_trap_masks, trap_handler, set_slot_received, set_slot_command]
      | some c =>
        cases c <;> simp [set_trap_masks, trap_handler, set_slot_received, set_slot_command]

theorem set_trap_slot_done (cfg : SigConfig) (env : SigEnv) (signum : Nat)
    (command : Option (List Char)) (slot : TrapSlot) (st : SigState) (h0 : signum ≠ 0)
    (hrule : ¬ (env.is_interactive = false ∧ slot_command st slot = none ∧
      (is_ignored cfg env signum st).1 = true)) :
    slot_command (set_trap_slot cfg env signum command slot st).2 slot = command ∧
    (set_trap_slot cfg env signum command slot st).2.trapped_signals signum =
      command_nonempty command ∧
    (set_trap_slot cfg env signum command slot st).2.ignored_signals signum =
      decide (command = some []) ∧
    (command_nonempty command = true →
      (set_trap_slot cfg env signum command slot st).2.accept_sigmask signum = false) ∧
    slot_received (set_trap_slot cfg env signum command slot st).2 slot = false := by
  unfold set_trap_slot
  rw [if_neg hrule]
  simp only [h0, if_false]
  exact set_trap_tail_done cfg env signum command slot _

/-- C13 (amended): for a signal other than 0, `SIGKILL` and `SIGSTOP` that has
a slot in the tables (a real-time signal has one when its index
`signum - SIGRTMIN` is below `RTSIZE`) and is not held back by the rule on
signals ignored on entry to a non-interactive shell, `set_trap` leaves the trap entry equal to the command;
a null command leaves the signal in neither `trapped_signals` nor
`ignored_signals`, an empty command in `ignored_signals` only, a non-empty
command in `trapped_signals` only and out of `accept_sigmask`; the received
flag of the signal is false in every case. -/
theorem set_trap_disposition (cfg : SigConfig) (env : SigEnv) (signum : Nat)
    (command : Option (List Char)) (st : SigState)
    (h0 : signum ≠ 0) (hkill : signum ≠ cfg.SIGKILL) (hstop : signum ≠ cfg.SIGSTOP)
    (hrt : in_rt_range cfg signum = true → signum - cfg.SIGRTMIN < cfg.RTSIZE)
    (hrule : ¬ (env.is_interactive = false ∧ trap_entry cfg st signum = none ∧
      (is_ignored cfg env signum st).1 = true)) :
    trap_entry cfg (set_trap cfg env signum command st).2 signum = command ∧
    (command = none →
      (set_trap cfg env signum command st).2.trapped_signals signum = false ∧
      (set_trap cfg env signum command st).2.ignored_signals signum = false) ∧
    (command = some [] →
      (set_trap cfg env signum command st).2.ignored_signals signum = true ∧
      (set_trap cfg env signum command st).2.trapped_signals signum = false) ∧
    (command_nonempty command = true →
      (set_trap cfg env signum command st).2.trapped_signals signum = true ∧
      (set_trap cfg env signum command st).2.ignored_signals signum = false ∧
      (set_trap cfg env signum command st).2.accept_sigmask signum = false) ∧
    received_flag cfg (set_trap cfg env signum command st).2 signum = false := by
  have hks : ¬ (signum = cfg.SIGKILL ∨ signum = cfg.SIGSTOP) := by
    rintro (h | h)
    · exact hkill h
    · exact hstop h
  unfold set_trap
  rw [if_neg hks]
  by_cases hin : in_rt_range cfg signum = true
  · have hlt := hrt hin
    have hrule2 : ¬ (env.is_interactive = false ∧
        slot_command st (TrapSlot.rt (signum - cfg.SIGRTMIN)) = none ∧
        (is_ignored cfg env signum st).1 = true) := by
      simpa [trap_entry, hin, hlt, slot_command] using hrule
    obtain ⟨g1, g2, g3, g4, g5⟩ := set_trap_slot_done cfg env signum command
      (TrapSlot.rt (signum - cfg.SIGRTMIN)) st h0 hrule2
    simp only [trap_entry, received_flag, if_pos hin, if_pos hlt]
    refine ⟨g1, ?_, ?_, ?_, g5⟩
    · intro hc
      subst hc
      exact ⟨by simpa [command_nonempty] using g2, by simpa using g3⟩
    · intro hc
      subst hc
      exact ⟨by simpa using g3, by simpa [command_nonempty] using g2⟩
    · intro hc
      refine ⟨by rw [g2, hc], ?_, g4 hc⟩
      rw [g3]
      cases command with
      | none => simp [command_nonempty] at hc
      | some c =>
        cases c with
        | nil => simp [command_nonempty] at hc
        | cons a l => simp
  · have hrule2 : ¬ (env.is_interactive = false ∧
        slot_command st (TrapSlot.plain (cfg.sigindex signum)) = none ∧
        (is_ignored cfg env signum st).1 = true) := by
      simpa [trap_entry, hin, slot_command] using hrule
    obtain ⟨g1, g2, g3, g4, g5⟩ := set_trap_slot_done cfg env signum command
      (TrapSlot.plain (cfg.sigindex signum)) st h0 hrule2
    simp only [trap_entry, received_flag, if_neg hin]
    refine ⟨g1, ?_, ?_, ?_, g5⟩
    · intro hc
      subst hc
      exact ⟨by simpa [command_nonempty] using g2, by simpa using g3⟩
    · intro hc
      subst hc
      exact ⟨by simpa using g3, by simpa [command_nonempty] using g2⟩
    · intro hc
      refine ⟨by rw [g2, hc], ?_, g4 hc⟩
      rw [g3]
      cases command with
      | none => simp [command_nonempty] at hc
      | some c =>
        cases c with
        | nil => simp [command_nonempty] at hc
        | cons a l => simp

set_option maxRecDepth 100000 in
/-- A trap on `SIGINT` set in a non-interactive shell on Linux, where the
signal has its default action. -/
theorem set_trap_disposition_witness :
    trap_entry linux_config
      (set_trap linux_config plain_env 2 (some "echo int".toList)
        (init_signal (sig_startup_state sigemptyset fun _ => Handler.SIG_DFL))).2 2
      = some "echo int".toList ∧
    (set_trap linux_config plain_env 2 (some "echo int".toList)
      (init_signal (sig_startup_state sigemptyset fun _ => Handler.SIG_DFL))).2.trapped_signals 2
      = true :=
  have h := set_trap_disposition linux_config plain_env 2 (some "echo int".toList)
    (init_signal (sig_startup_state sigemptyset fun _ => Handler.SIG_DFL))
    (by decide) (by decide) (by decide) (by decide) (by decide)
  ⟨h.1, (h.2.2.2.1 (by decide)).1⟩

/-- For a real-time signal without a slot, `set_trap` reports an unsupported
real-time signal: it returns false and changes nothing, whatever the
command. -/
theorem set_trap_unsupported_rt (cfg : SigConfig) (env : SigEnv) (signum : Nat)
    (command : Option (List Char)) (st : SigState)
    (hkill : signum ≠ cfg.SIGKILL) (hstop : signum ≠ cfg.SIGSTOP)
    (hin : in_rt_range cfg signum = true) (hno : ¬ signum - cfg.SIGRTMIN < cfg.RTSIZE) :
    set_trap cfg env signum command st = (false, st) ∧
    trap_entry cfg (set_trap cfg env signum command st).2 signum = none := by
  have hks : ¬ (signum = cfg.SIGKILL ∨ signum = cfg.SIGSTOP) := by
    rintro (h | h)
    · exact hkill h
    · exact hstop h
  have h : set_trap cfg env signum command st = (false, st) := by
    unfold set_trap
    rw [if_neg hks, if_pos hin, if_neg hno]
  rw [h]
  refine ⟨rfl, ?_⟩
  unfold trap_entry
  rw [if_pos hin, if_neg hno]

set_option maxRecDepth 100000 in
/-- C13 (counterexample): on a platform whose tables have room for 8
real-time signals, signal 50 (`SIGRTMIN + 16`) is not 0, `SIGKILL` or `SIGSTOP`
and is not ignored on entry, yet after `set_trap` with the command `echo rt`
the call has returned false, the trap entry is null and not the command, and
the signal is not in `trapped_signals`. -/
theorem set_trap_disposition_counterexample :
    (50 : Nat) ≠ 0 ∧ 50 ≠ small_rt_config.SIGKILL ∧ 50 ≠ small_rt_config.SIGSTOP ∧
    in_rt_range small_rt_config 50 = true ∧
    (is_ignored small_rt_config plain_env 50
      (init_signal (sig_startup_state sigemptyset fun _ => Handler.SIG_DFL))).1 = false ∧
    (set_trap small_rt_config plain_env 50 (some "echo rt".toList)
      (init_signal (sig_startup_state sigemptyset fun _ => Handler.SIG_DFL))).1 = false ∧
    trap_entry small_rt_config
      (set_trap small_rt_config plain_env 50 (some "echo rt".toList)
        (init_signal (sig_startup_state sigemptyset fun _ => Handler.SIG_DFL))).2 50 = none ∧
    (set_trap small_rt_config plain_env 50 (some "echo rt".toList)
      (init_signal (sig_startup_state sigemptyset fun _ => Handler.SIG_DFL))).2.trapped_signals 50
      = false := by
  decide

theorem sig_handler_eq (cfg : SigConfig) (signum : Nat) (st : SigState) :
    sig_handler cfg signum st =
      { st with
        any_signal_received := true
        signal_received :=
          if in_rt_range cfg signum = true then st.signal_received
          else Function.update st.signal_received (cfg.sigindex signum) true
        rtsignal_received :=
          if in_rt_range cfg signum = true ∧ signum - cfg.SIGRTMIN < cfg.RTSIZE then
            Function.update st.rtsignal_received (signum - cfg.SIGRTMIN) true
          else st.rtsignal_received
        sigchld_received := st.sigchld_received ||
          (!in_rt_range cfg signum && decide (signum = cfg.SIGCHLD))
        sigint_received := st.sigint_received ||
          (!in_rt_range cfg signum && decide (signum ≠ cfg.SIGCHLD) &&
            decide (signum = cfg.SIGINT))
        sigwinch_received := st.sigwinch_received ||
          (!in_rt_range cfg signum && decide (signum ≠ cfg.SIGCHLD) &&
            decide (signum ≠ cfg.SIGINT) && cfg.has_sigwinch &&
            decide (signum = cfg.SIGWINCH)) } := by
  unfold sig_handler
  generalize in_rt_range cfg signum = b
  cases b with
  | true =>
    by_cases hlt : signum - cfg.SIGRTMIN < cfg.RTSIZE
    · simp [hlt]
    · simp [hlt]
  | false =>
    by_cases h1 : signum = cfg.SIGCHLD
    · simp [h1]
    · by_cases h2 : signum = cfg.SIGINT
      · subst h2
        simp [h1]
      · by_cases h3 : cfg.has_sigwinch = true ∧ signum = cfg.SIGWINCH
        · obtain ⟨hw, h3⟩ := h3
          subst h3
          simp [h1, h2, hw]
        · simp [h1, h2, h3]

/-- C15: `sig_handler` sets `any_signal_received`, the received flag of the
signal (the slot of `rtsignal_received` for a real-time signal with a slot,
the slot of `signal_received` otherwise) and, for `SIGCHLD`, `SIGINT` and
`SIGWINCH` outside the real-time range, the flag of that signal; every other
variable keeps its value. -/
theorem sig_handler_frame (cfg : SigConfig) (signum : Nat) (st : SigState) :
    sig_handler cfg signum st =
      { st with
        any_signal_received := true
        signal_received :=
          if in_rt_range cfg signum = true then st.signal_received
          else Function.update st.signal_received (cfg.sigindex signum) true
        rtsignal_received :=
          if in_rt_range cfg signum = true ∧ signum - cfg.SIGRTMIN < cfg.RTSIZE then
            Function.update st.rtsignal_received (signum - cfg.SIGRTMIN) true
          else st.rtsignal_received
        sigchld_received := st.sigchld_received ||
          (!in_rt_range cfg signum && decide (signum = cfg.SIGCHLD))
        sigint_received := st.sigint_received ||
          (!in_rt_range cfg signum && decide (signum ≠ cfg.SIGCHLD) &&
            decide (signum = cfg.SIGINT))
        sigwinch_received := st.sigwinch_received ||
          (!in_rt_range cfg signum && decide (signum ≠ cfg.SIGCHLD) &&
            decide (signum ≠ cfg.SIGINT) && cfg.has_sigwinch &&
            decide (signum = cfg.SIGWINCH)) } :=
  sig_handler_eq cfg signum st

theorem is_ignored_of_ignored_now (cfg : SigConfig) (env : SigEnv) (signum : Nat)
    (st : SigState) (hnow : env.is_interactive_now = false)
    (hign : ignored_now cfg env st signum) :
    is_ignored cfg env signum st = (true, st) := by
  unfold is_ignored
  unfold ignored_now at hign
  simp only [hnow, Bool.false_eq_true, if_false]
  by_cases hj : env.doing_job_control_now = true ∧ signum = cfg.SIGTSTP
  · rw [if_pos hj] at hign
    rw [if_pos hj, hign]
  · rw [if_neg hj] at hign
    rw [if_neg hj, hign.1, hign.2]
    simp

/-- C17, amended: in a non-interactive shell, for a signal with no trap entry
that `is_ignored` reports as ignored (for `SIGTSTP` under job control: it is in
`ignored_signals`; otherwise: `sigaction` succeeds and reports `SIG_IGN`),
`set_trap` with any command leaves every variable unchanged, and for a signal
it accepts the return value is the negation of `FIXED_SIGNAL_AS_ERROR`. -/
theorem set_trap_ignored_on_entry (cfg : SigConfig) (env : SigEnv) (signum : Nat)
    (command : Option (List Char)) (st : SigState)
    (hint : env.is_interactive = false) (hnow : env.is_interactive_now = false)
    (hentry : trap_entry cfg st signum = none)
    (hign : ignored_now cfg env st signum) :
    (set_trap cfg env signum command st).2 = st ∧
    (signum ≠ cfg.SIGKILL → signum ≠ cfg.SIGSTOP →
      (in_rt_range cfg signum = true → signum - cfg.SIGRTMIN < cfg.RTSIZE) →
      (set_trap cfg env signum command st).1 = !cfg.FIXED_SIGNAL_AS_ERROR) := by
  have hi := is_ignored_of_ignored_now cfg env signum st hnow hign
  have hslot : ∀ slot, slot_command st slot = none →
      set_trap_slot cfg env signum command slot st = (!cfg.FIXED_SIGNAL_AS_ERROR, st) := by
    intro slot hs
    unfold set_trap_slot
    rw [if_pos ⟨hint, hs, by rw [hi]⟩, hi]
  unfold set_trap
  by_cases hks : signum = cfg.SIGKILL ∨ signum = cfg.SIGSTOP
  · rw [if_pos hks]
    refine ⟨rfl, ?_⟩
    intro h1 h2
    rcases hks with h | h
    · exact absurd h h1
    · exact absurd h h2
  · rw [if_neg hks]
    by_cases hin : in_rt_range cfg signum = true
    · rw [if_pos hin]
      by_cases hlt : signum - cfg.SIGRTMIN < cfg.RTSIZE
      · rw [if_pos hlt, hslot _ (by simpa [trap_entry, hin, hlt, slot_command] using hentry)]
        exact ⟨rfl, fun _ _ _ => rfl⟩
      · rw [if_neg hlt]
        exact ⟨rfl, fun _ _ h => absurd (h hin) hlt⟩
    · rw [if_neg hin, hslot _ (by simpa [trap_entry, hin, slot_command] using hentry)]
      exact ⟨rfl, fun _ _ _ => rfl⟩

set_option maxRecDepth 100000 in
/-- A signal ignored on entry: `SIGQUIT` with the action `SIG_IGN` in a
non-interactive shell on Linux. -/
theorem set_trap_ignored_on_entry_witness :
    (set_trap linux_config plain_env 3 (some "echo quit".toList)
      (init_signal (sig_startup_state sigemptyset fun _ => Handler.SIG_IGN))).2 =
      init_signal (sig_startup_state sigemptyset fun _ => Handler.SIG_IGN) :=
  (set_trap_ignored_on_entry linux_config plain_env 3 (some "echo quit".toList)
    (init_signal (sig_startup_state sigemptyset fun _ => Handler.SIG_IGN))
    (by decide) (by decide) (by decide) (by decide)).1

set_option maxRecDepth 100000 in
/-- C17 as stated fails: in a non-interactive shell with job control the
shell itself has set the action of `SIGTSTP` to `SIG_IGN`; the signal has no
trap entry and its disposition is ignore, yet `set_trap` traps it. -/
theorem set_trap_ignored_on_entry_counterexample :
    job_control_env.is_interactive = false ∧
    trap_entry linux_config job_control_state 20 = none ∧
    job_control_state.disposition 20 = Handler.SIG_IGN ∧
    trap_entry linux_config
      (set_trap linux_config job_control_env 20 (some "echo tstp".toList)
        job_control_state).2 20 = some "echo tstp".toList ∧
    (set_trap linux_config job_control_env 20 (some "echo tstp".toList)
      job_control_state).2.trapped_signals 20 = true ∧
    job_control_state.trapped_signals 20 = false := by
  decide

theorem foldl_keeps {σ α : Type} (P : σ → Prop) (f : σ → α → σ) (l : List α)
    (hf : ∀ s a, P s → P (f s a)) (s : σ) (h : P s) : P (l.foldl f s) := by
  induction l generalizing s with
  | nil => exact h
  | cons a as ih => exact ih _ (hf s a h)

theorem handle_traps_plain_quiet (cfg : SigConfig) (exec : List Char → TrapWorld → TrapWorld)
    (hexec : ∀ c v, (exec c v).sig.any_signal_received = v.sig.any_signal_received)
    (acc : Int × TrapWorld) (signo : Nat) (h : acc.2.sig.any_signal_received = false) :
    (handle_traps_plain cfg exec acc signo).2.sig.any_signal_received = false := by
  unfold handle_traps_plain
  simp only
  split_ifs
  · split
    · simp only [hexec]
      exact h
    · exact h
  · exact h

theorem handle_traps_rt_quiet (cfg : SigConfig) (exec : List Char → TrapWorld → TrapWorld)
    (hexec : ∀ c v, (exec c v).sig.any_signal_received = v.sig.any_signal_received)
    (acc : Int × TrapWorld) (i : Nat) (h : acc.2.sig.any_signal_received = false) :
    (handle_traps_rt cfg exec acc i).2.sig.any_signal_received = false := by
  unfold handle_traps_rt
  simp only
  split_ifs
  · split
    · simp only [hexec]
      exact h
    · exact h
  · exact h

theorem handle_traps_round_quiet (cfg : SigConfig) (exec : List Char → TrapWorld → TrapWorld)
    (hexec : ∀ c v, (exec c v).sig.any_signal_received = v.sig.any_signal_received)
    (acc : Int × TrapWorld) :
    (handle_traps_round cfg exec acc).2.sig.any_signal_received = false := by
  unfold handle_traps_round
  simp only
  have h1 : ((cfg.signals.map Prod.fst).foldl (handle_traps_plain cfg exec)
      (acc.1, { acc.2 with sig := { acc.2.sig with any_signal_received := false } })).2.sig.any_signal_received
      = false :=
    foldl_keeps (fun a : Int × TrapWorld => a.2.sig.any_signal_received = false) _ _
      (fun s a hs => handle_traps_plain_quiet cfg exec hexec s a hs) _ rfl
  split_ifs
  · exact foldl_keeps (fun a : Int × TrapWorld => a.2.sig.any_signal_received = false) _ _
      (fun s a hs => handle_traps_rt_quiet cfg exec hexec s a hs) _ h1
  · exact h1

/-- C14: entered while a trap command runs (`handled_signal >= 0`),
`handle_traps` returns 0 and leaves every variable as it was, whatever
`exec_wcs` would do: no trap command is executed and no received flag is
cleared. Entered at top level (`handled_signal` is -1), it leaves
`handled_signal` at -1 whenever it returns; and it does return after one round
of its loop when the trap commands do not change `any_signal_received`. -/
theorem handle_traps_not_reentrant (cfg : SigConfig)
    (exec : List Char → TrapWorld → TrapWorld) (fuel : Nat) (w : TrapWorld) :
    (0 ≤ w.sig.handled_signal → handle_traps cfg exec fuel w = some (0, w)) ∧
    (w.sig.handled_signal = -1 → ∀ r v, handle_traps cfg exec fuel w = some (r, v) →
      v.sig.handled_signal = -1) ∧
    ((∀ c v, (exec c v).sig.any_signal_received = v.sig.any_signal_received) →
      (handle_traps cfg exec (fuel + 1) w).isSome = true) := by
  refine ⟨?_, ?_, ?_⟩
  · intro h
    unfold handle_traps
    rw [if_pos (Or.inr (Or.inr h))]
  · intro h r v hv
    unfold handle_traps at hv
    split_ifs at hv
    · simp only [Option.some.injEq, Prod.mk.injEq] at hv
      rw [← hv.2]
      exact h
    · split at hv
      · exact absurd hv (by simp)
      · simp only [Option.some.injEq, Prod.mk.injEq] at hv
        rw [← hv.2]
  · intro hexec
    unfold handle_traps
    split_ifs
    · rfl
    · unfold handle_traps_loop
      simp only [handle_traps_round_quiet cfg exec hexec, Bool.false_eq_true, if_false]
      rfl

set_option maxRecDepth 100000 in
/-- With a trap on `SIGINT` set and `SIGINT` received: entered while the trap
command runs, `handle_traps` returns 0 and changes nothing; entered at top
level it returns and leaves `handled_signal` at -1. -/
theorem handle_traps_not_reentrant_witness :
    handle_traps linux_config (fun _ v => v) 1 running_world = some (0, running_world) ∧
    (∀ r v, handle_traps linux_config (fun _ v => v) 1 int_trapped_world = some (r, v) →
      v.sig.handled_signal = -1) ∧
    (handle_traps linux_config (fun _ v => v) 1 int_trapped_world).isSome = true :=
  ⟨(handle_traps_not_reentrant linux_config (fun _ v => v) 1 running_world).1 (by decide),
   (handle_traps_not_reentrant linux_config (fun _ v => v) 1 int_trapped_world).2.1
     (by decide),
   (handle_traps_not_reentrant linux_config (fun _ v => v) 0 int_trapped_world).2.2
     (fun _ _ => rfl)⟩

/-! ## Theorems on get_signal_number -/

theorem strncmp_zero_iff_starts_right (s t : List Char) :
    strncmp t s s.length = 0 ↔ s.isPrefixOf t = true := by
  induction s generalizing t with
  | nil => simp [strncmp]
  | cons a as ih =>
    cases t with
    | nil => simp [strncmp]
    | cons b bs =>
      by_cases hab : b = a
      · subst hab
        simp [strncmp, ih]
      · have hba : ¬ a = b := fun h => hab h.symm
        simp only [List.length_cons, strncmp, if_neg hab, List.isPrefixOf, beq_iff_eq, hba,
          Bool.and_eq_true, false_and, iff_false, decide_False, Bool.false_eq_true]
        split_ifs <;> decide

theorem strtol_digits_any (str : List Char) (hne : str ≠ [])
    (hd : ∀ c ∈ str, isdigit c = true) :
    strtol str = if (decimal_value str : Int) ≤ LONG_MAX then ⟨(decimal_value str : Int), [], false⟩
      else ⟨LONG_MAX, [], true⟩ := by
  by_cases hmax : (decimal_value str : Int) ≤ LONG_MAX
  · rw [if_pos hmax]
    exact strtol_digits str hne hd hmax
  · rw [if_neg hmax]
    cases str with
    | nil => exact absurd rfl hne
    | cons c cs =>
      obtain ⟨hsp, hminus, hplus, _⟩ := isdigit_not_special c (hd c (List.mem_cons_self _ _))
      obtain ⟨htake, hdrop⟩ := takeWhile_all isdigit (c :: cs) hd
      have h1 : (c :: cs).dropWhile isspace = c :: cs := by
        simp [List.dropWhile_cons, hsp]
      unfold strtol
      simp only [h1, List.head?_cons, Option.some.injEq, hminus, hplus, or_self, if_false,
        htake, hdrop, decide_False, Bool.false_eq_true]
      simp [lt_of_not_le hmax]

theorem strtol_plus_digits (ds : List Char) (hne : ds ≠ [])
    (hd : ∀ c ∈ ds, isdigit c = true) :
    strtol ('+' :: ds) =
      if (decimal_value ds : Int) ≤ LONG_MAX then ⟨(decimal_value ds : Int), [], false⟩
      else ⟨LONG_MAX, [], true⟩ := by
  obtain ⟨htake, hdrop⟩ := takeWhile_all isdigit ds hd
  have h1 : ('+' :: ds).dropWhile isspace = '+' :: ds := by
    simp [List.dropWhile_cons, isspace]
  unfold strtol
  simp only [h1, List.head?_cons, List.tail_cons, htake, hdrop]
  by_cases hmax : (decimal_value ds : Int) ≤ LONG_MAX
  · have hmin : ¬ ((decimal_value ds : Int) < LONG_MIN) := by
      unfold LONG_MIN; omega
    simp [hne, hmax, hmin, htake, hdrop]
  · simp [hne, hmax, lt_of_not_le hmax, htake, hdrop]

theorem strtol_minus_digits (ds : List Char) (hne : ds ≠ [])
    (hd : ∀ c ∈ ds, isdigit c = true) :
    strtol ('-' :: ds) =
      if -(decimal_value ds : Int) < LONG_MIN then ⟨LONG_MIN, [], true⟩
      else ⟨-(decimal_value ds : Int), [], false⟩ := by
  obtain ⟨htake, hdrop⟩ := takeWhile_all isdigit ds hd
  have h1 : ('-' :: ds).dropWhile isspace = '-' :: ds := by
    simp [List.dropWhile_cons, isspace]
  have hmax : ¬ (-(decimal_value ds : Int) > LONG_MAX) := by
    unfold LONG_MAX; omega
  unfold strtol
  simp only [h1, List.head?_cons, List.tail_cons, htake, hdrop]
  by_cases hmin : -(decimal_value ds : Int) < LONG_MIN
  · simp [hne, hmax, hmin, htake, hdrop]
  · simp [hne, hmax, hmin, htake, hdrop]

theorem xstrtoi_digits (ds : List Char) (hne : ds ≠ []) (hd : ∀ c ∈ ds, isdigit c = true) :
    xstrtoi ds = if (decimal_value ds : Int) ≤ INT_MAX then some (decimal_value ds : Int)
      else none := by
  unfold xstrtoi
  rw [if_neg hne, strtol_digits_any ds hne hd]
  unfold INT_MAX INT_MIN LONG_MAX
  split_ifs <;> first | rfl | (exfalso; simp at *; omega) | (simp at *)

theorem xstrtoi_plus_digits (ds : List Char) (hne : ds ≠ [])
    (hd : ∀ c ∈ ds, isdigit c = true) :
    xstrtoi ('+' :: ds) = if (decimal_value ds : Int) ≤ INT_MAX then
      some (decimal_value ds : Int) else none := by
  unfold xstrtoi
  rw [if_neg (List.cons_ne_nil _ _), strtol_plus_digits ds hne hd]
  unfold INT_MAX INT_MIN LONG_MAX
  split_ifs <;> first | rfl | (exfalso; simp at *; omega) | (simp at *)

theorem xstrtoi_minus_digits (ds : List Char) (hne : ds ≠ [])
    (hd : ∀ c ∈ ds, isdigit c = true) :
    xstrtoi ('-' :: ds) = if (decimal_value ds : Int) ≤ 2147483648 then
      some (-(decimal_value ds : Int)) else none := by
  unfold xstrtoi
  rw [if_neg (List.cons_ne_nil _ _), strtol_minus_digits ds hne hd]
  unfold INT_MAX INT_MIN LONG_MIN
  split_ifs <;> first | rfl | (exfalso; simp at *; omega) | (simp at *)

theorem get_signal_number_plain (cfg : SigConfig) (name : List Char)
    (h1 : isdigit (name.headD NUL) = false) (h2 : name ≠ "EXIT".toList)
    (h3 : "SIG".toList.isPrefixOf name = false) :
    get_signal_number cfg name = get_signal_number_name cfg name := by
  have h4 : ¬ strncmp name "SIG".toList 3 = 0 := by
    intro h
    have := (strncmp_zero_iff_starts_right "SIG".toList name).1 h
    rw [h3] at this
    exact absurd this (by decide)
  unfold get_signal_number
  rw [h1, if_neg (by decide), if_neg h2, if_neg h4]

theorem get_signal_number_sig (cfg : SigConfig) (name : List Char) :
    get_signal_number cfg ("SIG".toList ++ name) = get_signal_number_name cfg name := by
  have h4 : strncmp ("SIG".toList ++ name) "SIG".toList 3 = 0 :=
    (strncmp_zero_iff_starts_right "SIG".toList ("SIG".toList ++ name)).2 (by simp)
  have h1 : isdigit (("SIG".toList ++ name).headD NUL) = false := by
    simp [isdigit]
  have h2 : "SIG".toList ++ name ≠ "EXIT".toList := by simp
  unfold get_signal_number
  rw [h1, if_neg (by decide), if_neg h2, if_pos h4]
  simp

theorem get_signal_number_name_found (cfg : SigConfig) (s : Nat × List Char)
    (hs : s ∈ cfg.signals) :
    ∃ t ∈ cfg.signals, t.2 = s.2 ∧ get_signal_number_name cfg s.2 = (t.1 : Int) ∧
      ((cfg.signals.map Prod.snd).Nodup → t = s) := by
  unfold get_signal_number_name
  cases hf : cfg.signals.find? fun x => decide (s.2 = x.2) with
  | none =>
    have := List.find?_eq_none.1 hf s hs
    simp at this
  | some t =>
    have hmem := List.mem_of_find?_eq_some hf
    have hp := List.find?_some hf
    simp only [decide_eq_true_eq] at hp
    refine ⟨t, hmem, hp.symm, rfl, ?_⟩
    intro hnd
    exact List.inj_on_of_nodup_map hnd hmem hs hp.symm

/-- C11: when no name of the table `signals` starts with a digit, is `EXIT`
or starts with `SIG`, and the numbers are positive values of `int`: for every
entry, its name with and without a leading `SIG` gives the same positive
number, that of the first entry with this name, which is the entry itself when
the names of the table are distinct; and a string of decimal digits of value
`d` gives `d` when `d` is 0, a real-time signal number or a number of the
table, and -1 otherwise. -/
theorem get_signal_number_table (cfg : SigConfig) (hok : signal_table_ok cfg)
    (hmax : cfg.SIGRTMAX < 2147483648) :
    (∀ s ∈ cfg.signals,
      get_signal_number cfg s.2 = get_signal_number cfg ("SIG".toList ++ s.2) ∧
      0 < get_signal_number cfg s.2 ∧
      (∃ t ∈ cfg.signals, t.2 = s.2 ∧ get_signal_number cfg s.2 = (t.1 : Int)) ∧
      ((cfg.signals.map Prod.snd).Nodup → get_signal_number cfg s.2 = (s.1 : Int))) ∧
    (∀ ds : List Char, ds ≠ [] → (∀ c ∈ ds, isdigit c = true) →
      get_signal_number cfg ds =
        if decimal_value ds = 0 ∨ in_rt_range cfg (decimal_value ds) = true ∨
            decimal_value ds ∈ cfg.signals.map Prod.fst
        then (decimal_value ds : Int) else -1) := by
  constructor
  · intro s hs
    obtain ⟨_, _, h1, h2, h3⟩ := hok s hs
    obtain ⟨t, ht, hname, hval, hnd⟩ := get_signal_number_name_found cfg s hs
    rw [get_signal_number_sig, get_signal_number_plain cfg s.2 h1 h2 h3]
    refine ⟨rfl, ?_, ⟨t, ht, hname, hval⟩, ?_⟩
    · rw [hval]
      have := (hok t ht).1
      omega
    · intro h
      rw [hval, hnd h]
  · intro ds hne hd
    have hhead : isdigit (ds.headD NUL) = true := by
      cases ds with
      | nil => exact absurd rfl hne
      | cons c cs => exact hd c (List.mem_cons_self _ _)
    unfold get_signal_number
    rw [if_pos hhead]
    unfold get_signal_number_decimal
    rw [xstrtoi_digits ds hne hd]
    have hany : (cfg.signals.any fun s => decide ((s.1 : Int) = (decimal_value ds : Int))) = true
        ↔ decimal_value ds ∈ cfg.signals.map Prod.fst := by
      simp only [List.any_eq_true, decide_eq_true_eq, List.mem_map, Nat.cast_inj]
    have hrt : (cfg.has_rt = true ∧ (cfg.SIGRTMIN : Int) ≤ (decimal_value ds : Int) ∧
        (decimal_value ds : Int) ≤ (cfg.SIGRTMAX : Int)) ↔
        in_rt_range cfg (decimal_value ds) = true := by
      simp [in_rt_range, and_assoc]
    by_cases hint : (decimal_value ds : Int) ≤ INT_MAX
    · rw [if_pos hint]
      simp only
      rw [if_neg (by omega)]
      by_cases h0 : decimal_value ds = 0
      · simp [h0]
      · have h0i : ¬ (decimal_value ds : Int) = 0 := by omega
        rw [if_neg h0i]
        by_cases hr : in_rt_range cfg (decimal_value ds) = true
        · rw [if_pos (hrt.2 hr), if_pos (Or.inr (Or.inl hr))]
        · rw [if_neg (fun h => hr (hrt.1 h))]
          by_cases hm : decimal_value ds ∈ cfg.signals.map Prod.fst
          · rw [if_pos (hany.2 hm), if_pos (Or.inr (Or.inr hm))]
          · rw [if_neg (fun h => hm (hany.1 h)), if_neg]
            rintro (h | h | h)
            · exact h0 h
            · exact hr h
            · exact hm h
    · rw [if_neg hint]
      simp only
      rw [if_neg]
      unfold INT_MAX at hint
      rintro (h | h | h)
      · omega
      · unfold in_rt_range at h
        simp only [Bool.and_eq_true, decide_eq_true_eq] at h
        omega
      · obtain ⟨x, hx, hxe⟩ := List.mem_map.1 h
        have := (hok x hx).2.1
        omega

set_option maxRecDepth 100000 in
/-- On Linux, `INT` and `SIGINT` both give 2, and the digits `17` and `64`
give the numbers of `SIGCHLD` and of the last real-time signal. -/
theorem get_signal_number_table_witness :
    get_signal_number linux_config "INT".toList =
      get_signal_number linux_config "SIGINT".toList ∧
    get_signal_number linux_config "INT".toList = 2 ∧
    get_signal_number linux_config "64".toList = 64 ∧
    get_signal_number linux_config "65".toList = -1 :=
  have h := get_signal_number_table linux_config (by decide) (by decide)
  ⟨(h.1 (2, "INT".toList) (by decide)).1,
   (h.1 (2, "INT".toList) (by decide)).2.2.2 (by decide),
   h.2 "64".toList (by decide) (by decide),
   h.2 "65".toList (by decide) (by decide)⟩

theorem get_signal_number_of_rt_name (cfg : SigConfig) (hrt : cfg.has_rt = true)
    (hnames : ∀ s ∈ cfg.signals, "RT".toList.isPrefixOf s.2 = false) (rest : List Char) :
    get_signal_number cfg ('R' :: 'T' :: rest) = get_signal_number_rt cfg ('R' :: 'T' :: rest) := by
  rw [get_signal_number_plain cfg _ (by simp [isdigit]) (by simp)
    (by simp [List.isPrefixOf])]
  unfold get_signal_number_name
  have hnone : (cfg.signals.find? fun s => decide ('R' :: 'T' :: rest = s.2)) = none := by
    rw [List.find?_eq_none]
    intro x hx hxe
    simp only [decide_eq_true_eq] at hxe
    have := hnames x hx
    rw [← hxe] at this
    simp at this
  rw [hnone]
  simp [hrt]

/-- C12: on a platform with real-time signals, `SIGRTMIN <= SIGRTMAX` values
of `int`, and no name of the table `signals` starting with `RT`: for digits of
value `k`, `RTMIN+k` gives `SIGRTMIN + k` and `RTMAX-k` gives `SIGRTMAX - k`
when `k <= SIGRTMAX - SIGRTMIN`, and both give -1 when `k` is larger; `RTMIN`
and `RTMAX` alone give `SIGRTMIN` and `SIGRTMAX`. -/
theorem get_signal_number_realtime (cfg : SigConfig) (hrt : cfg.has_rt = true)
    (hle : cfg.SIGRTMIN ≤ cfg.SIGRTMAX) (hmax : cfg.SIGRTMAX < 2147483648)
    (hnames : ∀ s ∈ cfg.signals, "RT".toList.isPrefixOf s.2 = false) :
    (∀ ks : List Char, ks ≠ [] → (∀ c ∈ ks, isdigit c = true) →
      get_signal_number cfg ("RTMIN+".toList ++ ks) =
        (if decimal_value ks ≤ cfg.SIGRTMAX - cfg.SIGRTMIN
          then ((cfg.SIGRTMIN + decimal_value ks : Nat) : Int) else -1) ∧
      get_signal_number cfg ("RTMAX-".toList ++ ks) =
        (if decimal_value ks ≤ cfg.SIGRTMAX - cfg.SIGRTMIN
          then ((cfg.SIGRTMAX - decimal_value ks : Nat) : Int) else -1)) ∧
    get_signal_number cfg "RTMIN".toList = (cfg.SIGRTMIN : Int) ∧
    get_signal_number cfg "RTMAX".toList = (cfg.SIGRTMAX : Int) := by
  refine ⟨?_, ?_, ?_⟩
  · intro ks hne hd
    constructor
    · have e : "RTMIN+".toList ++ ks = 'R' :: 'T' :: ("MIN+".toList ++ ks) := rfl
      rw [e, get_signal_number_of_rt_name cfg hrt hnames]
      unfold get_signal_number_rt
      have h5 : strncmp ('R' :: 'T' :: ("MIN+".toList ++ ks)) "RTMIN".toList 5 = 0 :=
        (strncmp_zero_iff_starts_right "RTMIN".toList _).2 (by simp)
      rw [if_pos h5]
      have hdrop : ('R' :: 'T' :: ("MIN+".toList ++ ks)).drop 5 = '+' :: ks := by simp
      rw [hdrop]
      simp only
      rw [xstrtoi_plus_digits ks hne hd]
      unfold INT_MAX
      by_cases hk : decimal_value ks ≤ cfg.SIGRTMAX - cfg.SIGRTMIN
      · rw [if_pos (by omega), if_pos hk]
        simp only
        rw [if_neg (by omega)]
        omega
      · rw [if_neg hk]
        split_ifs <;> simp only
        rw [if_pos (by omega)]
    · have e : "RTMAX-".toList ++ ks = 'R' :: 'T' :: ("MAX-".toList ++ ks) := rfl
      rw [e, get_signal_number_of_rt_name cfg hrt hnames]
      unfold get_signal_number_rt
      have h5 : ¬ strncmp ('R' :: 'T' :: ("MAX-".toList ++ ks)) "RTMIN".toList 5 = 0 := by
        intro h
        have := (strncmp_zero_iff_starts_right "RTMIN".toList _).1 h
        simp at this
      have h6 : strncmp ('R' :: 'T' :: ("MAX-".toList ++ ks)) "RTMAX".toList 5 = 0 :=
        (strncmp_zero_iff_starts_right "RTMAX".toList _).2 (by simp)
      rw [if_neg h5, if_pos h6]
      have hdrop : ('R' :: 'T' :: ("MAX-".toList ++ ks)).drop 5 = '-' :: ks := by simp
      rw [hdrop]
      simp only
      rw [xstrtoi_minus_digits ks hne hd]
      by_cases hk : decimal_value ks ≤ cfg.SIGRTMAX - cfg.SIGRTMIN
      · rw [if_pos (by omega), if_pos hk]
        simp only
        rw [if_neg (by omega)]
        omega
      · rw [if_neg hk]
        split_ifs <;> simp only
        rw [if_pos (by omega)]
  · have e : "RTMIN".toList = 'R' :: 'T' :: "MIN".toList := rfl
    rw [e, get_signal_number_of_rt_name cfg hrt hnames]
    have h5 : strncmp ('R' :: 'T' :: "MIN".toList) "RTMIN".toList 5 = 0 := by decide
    unfold get_signal_number_rt
    rw [if_pos h5]
    rfl
  · have e : "RTMAX".toList = 'R' :: 'T' :: "MAX".toList := rfl
    rw [e, get_signal_number_of_rt_name cfg hrt hnames]
    have h5 : ¬ strncmp ('R' :: 'T' :: "MAX".toList) "RTMIN".toList 5 = 0 := by decide
    have h6 : strncmp ('R' :: 'T' :: "MAX".toList) "RTMAX".toList 5 = 0 := by decide
    unfold get_signal_number_rt
    rw [if_neg h5, if_pos h6]
    rfl

set_option maxRecDepth 100000 in
/-- On Linux, where the real-time signals are 34 to 64: `RTMIN+3` is 37,
`RTMAX-30` is 34, and `RTMIN+31` is not a signal. -/
theorem get_signal_number_realtime_witness :
    get_signal_number linux_config "RTMIN+3".toList = 37 ∧
    get_signal_number linux_config "RTMAX-30".toList = 34 ∧
    get_signal_number linux_config "RTMIN+31".toList = -1 ∧
    get_signal_number linux_config "RTMAX".toList = 64 :=
  have h := get_signal_number_realtime linux_config (by decide) (by decide) (by decide)
    (by decide)
  ⟨((h.1 "3".toList (by decide) (by decide)).1 : _),
   ((h.1 "30".toList (by decide) (by decide)).2 : _),
   ((h.1 "31".toList (by decide) (by decide)).1 : _),
   h.2.2⟩

/-! ## Theorems on clear_traps -/

theorem is_ignored_core (cfg : SigConfig) (env : SigEnv) (signum : Nat) (st : SigState) :
    trap_core (is_ignored cfg env signum st).2 = trap_core st := by
  unfold is_ignored
  simp only
  split_ifs <;> rfl

theorem set_trap_sigaction_core (env : SigEnv) (signum : Nat) (h : Handler) (st : SigState) :
    trap_core (set_trap_sigaction env signum h st).2 = trap_core st := by
  unfold set_trap_sigaction
  simp only
  split_ifs <;> rfl

theorem set_trap_install_core (cfg : SigConfig) (env : SigEnv) (signum : Nat) (h : Handler)
    (st : SigState) : trap_core (set_trap_install cfg env signum h st).2 = trap_core st := by
  unfold set_trap_install
  simp only
  split_ifs <;> first | rfl | exact set_trap_sigaction_core _ _ _ _

theorem set_trap_masks_core (signum : Nat) (command : Option (List Char)) (st : SigState) :
    trap_core (set_trap_masks signum (trap_handler command) st) =
      (st.trap_command, st.rttrap_command, st.signal_received, st.rtsignal_received,
        (fun x => if x = signum then command_nonempty command else st.trapped_signals x),
        st.any_trap_set, st.any_signal_received) := by
  have h := set_trap_masks_view signum command st
  simp only [trap_view, Prod.mk.injEq] at h
  have h2 : (set_trap_masks signum (trap_handler command) st).signal_received =
        st.signal_received ∧
      (set_trap_masks signum (trap_handler command) st).rtsignal_received =
        st.rtsignal_received ∧
      (set_trap_masks signum (trap_handler command) st).any_trap_set = st.any_trap_set ∧
      (set_trap_masks signum (trap_handler command) st).any_signal_received =
        st.any_signal_received := by
    unfold set_trap_masks
    simp only
    split_ifs <;> exact ⟨rfl, rfl, rfl, rfl⟩
  simp only [trap_core, h.1, h.2.1, h.2.2, h2.1, h2.2.1, h2.2.2.1, h2.2.2.2]

theorem set_trap_slot_core (cfg : SigConfig) (env : SigEnv) (signum : Nat)
    (command : Option (List Char)) (slot : TrapSlot) (st : SigState) :
    ((env.is_interactive = false ∧ slot_command st slot = none ∧
        (is_ignored cfg env signum st).1 = true) →
      trap_core (set_trap_slot cfg env signum command slot st).2 = trap_core st) ∧
    (¬ (env.is_interactive = false ∧ slot_command st slot = none ∧
        (is_ignored cfg env signum st).1 = true) →
      trap_core (set_trap_slot cfg env signum command slot st).2 =
        trap_core_after signum command slot st) := by
  constructor
  · intro h
    unfold set_trap_slot
    rw [if_pos h]
    exact is_ignored_core _ _ _ _
  · intro h
    unfold set_trap_slot
    rw [if_neg h]
    simp only
    generalize hst1 : (if env.is_interactive = false ∧ slot_command st slot = none then
        (is_ignored cfg env signum st).2 else st) = st1
    have hv1 : trap_core st1 = trap_core st := by
      rw [← hst1]; split
      · exact is_ignored_core _ _ _ _
      · rfl
    generalize hst2 : (match command with
      | some c => if c ≠ [] then { st1 with any_trap_set := true } else st1
      | none => st1) = st2
    have hv2 : trap_core st2 = (st.trap_command, st.rttrap_command, st.signal_received,
        st.rtsignal_received, st.trapped_signals, st.any_trap_set || command_nonempty command,
        st.any_signal_received) := by
      simp only [trap_core, Prod.mk.injEq] at hv1
      obtain ⟨u1, u2, u3, u4, u5, u6, u7⟩ := hv1
      rw [← hst2, ← u1, ← u2, ← u3, ← u4, ← u5, ← u6, ← u7]
      cases command with
      | none => simp [trap_core, command_nonempty]
      | some c =>
        cases c with
        | nil => simp [trap_core, command_nonempty]
        | cons a l => simp [trap_core, command_nonempty]
    simp only [trap_core, Prod.mk.injEq] at hv2
    obtain ⟨v1, v2, v3, v4, v5, v6, v7⟩ := hv2
    split
    · rename_i h0
      cases slot <;>
        simp [trap_core, trap_core_after, set_slot_command, set_slot_received, h0,
          v1, v2, v3, v4, v5, v6, v7]
    · rename_i h0
      rw [set_trap_install_core, set_trap_masks_core]
      cases slot <;>
        simp [trap_core_after, set_slot_command, set_slot_received, h0,
          v1, v2, v3, v4, v5, v6, v7]

theorem cleared_refl (st : SigState) : Cleared st st :=
  ⟨fun _ => Or.inl rfl, fun _ => Or.inl rfl, fun _ h => h, fun _ h => h, fun _ h => h⟩

theorem cleared_trans (a b c : SigState) (h1 : Cleared a b) (h2 : Cleared b c) :
    Cleared a c := by
  obtain ⟨a1, a2, a3, a4, a5⟩ := h1
  obtain ⟨b1, b2, b3, b4, b5⟩ := h2
  refine ⟨?_, ?_, fun i h => a3 i (b3 i h), fun i h => a4 i (b4 i h),
    fun x h => a5 x (b5 x h)⟩
  · intro i
    rcases b1 i with h | ⟨hn, h⟩
    · rw [h]; exact a1 i
    · rcases a1 i with h' | ⟨hn', h'⟩
      · rw [h'] at hn; exact Or.inr ⟨hn, h⟩
      · rw [h'] at hn; simp [command_nonempty] at hn
  · intro i
    rcases b2 i with h | ⟨hn, h⟩
    · rw [h]; exact a2 i
    · rcases a2 i with h' | ⟨hn', h'⟩
      · rw [h'] at hn; exact Or.inr ⟨hn, h⟩
      · rw [h'] at hn; simp [command_nonempty] at hn

theorem cleared_of_core (st st' : SigState)
    (h : trap_core st' = trap_core st) : Cleared st st' := by
  simp only [trap_core, Prod.mk.injEq] at h
  obtain ⟨h1, h2, h3, h4, h5, _, _⟩ := h
  refine ⟨fun i => Or.inl (by rw [h1]), fun i => Or.inl (by rw [h2]), ?_, ?_, ?_⟩
  · intro i hi; rw [← h3]; exact hi
  · intro i hi; rw [← h4]; exact hi
  · intro i hi; rw [← h5]; exact hi

theorem entries_ok_of_cleared (cfg : SigConfig) (st st' : SigState) (h : Cleared st st')
    (hok : EntriesOk cfg st) : EntriesOk cfg st' := by
  obtain ⟨h1, h2, _, _, _⟩ := h
  constructor
  · intro i hi
    rcases h1 i with e | ⟨_, e⟩
    · rw [e] at hi; exact hok.1 i hi
    · rw [e] at hi; simp [command_nonempty] at hi
  · intro i hi
    rcases h2 i with e | ⟨_, e⟩
    · rw [e] at hi; exact hok.2 i hi
    · rw [e] at hi; simp [command_nonempty] at hi

/-- What `set_trap(signum, NULL)` does when the entry of `signum` is a
non-empty command in the plain table. -/
theorem set_trap_none_plain (cfg : SigConfig) (env : SigEnv) (x : Nat) (st : SigState)
    (hrt : in_rt_range cfg x = false) (hk : x ≠ cfg.SIGKILL) (hs : x ≠ cfg.SIGSTOP)
    (hne : command_nonempty (st.trap_command (cfg.sigindex x)) = true) :
    trap_core (set_trap cfg env x none st).2 =
      trap_core_after x none (TrapSlot.plain (cfg.sigindex x)) st := by
  have hks : ¬ (x = cfg.SIGKILL ∨ x = cfg.SIGSTOP) := by
    rintro (h | h)
    · exact hk h
    · exact hs h
  unfold set_trap
  rw [if_neg hks, hrt, if_neg (by decide)]
  refine (set_trap_slot_core cfg env x none _ st).2 ?_
  rintro ⟨_, h, _⟩
  simp only [slot_command] at h
  rw [h] at hne
  simp [command_nonempty] at hne

/-- What `set_trap(signum, NULL)` does when the entry of `signum` is a
non-empty command in the table of the real-time signals. -/
theorem set_trap_none_rt (cfg : SigConfig) (env : SigEnv) (i : Nat) (st : SigState)
    (hlt : i < cfg.RTSIZE) (hrt : in_rt_range cfg (cfg.SIGRTMIN + i) = true)
    (hk : cfg.SIGRTMIN + i ≠ cfg.SIGKILL) (hs : cfg.SIGRTMIN + i ≠ cfg.SIGSTOP)
    (hne : command_nonempty (st.rttrap_command i) = true) :
    trap_core (set_trap cfg env (cfg.SIGRTMIN + i) none st).2 =
      trap_core_after (cfg.SIGRTMIN + i) none (TrapSlot.rt i) st := by
  have hks : ¬ (cfg.SIGRTMIN + i = cfg.SIGKILL ∨ cfg.SIGRTMIN + i = cfg.SIGSTOP) := by
    rintro (h | h)
    · exact hk h
    · exact hs h
  have hsub : cfg.SIGRTMIN + i - cfg.SIGRTMIN = i := by omega
  unfold set_trap
  rw [if_neg hks, hrt, if_pos rfl, hsub, if_pos hlt]
  refine (set_trap_slot_core cfg env _ none _ st).2 ?_
  rintro ⟨_, h, _⟩
  simp only [slot_command] at h
  rw [h] at hne
  simp [command_nonempty] at hne

theorem clear_trap_plain_step (cfg : SigConfig) (hinj : sigindex_injective cfg) (env : SigEnv)
    (st : SigState) (x : Nat) (hx : in_signal_table cfg x) (hok : EntriesOk cfg st) :
    Cleared st (clear_trap_plain cfg env st x) ∧
    command_nonempty ((clear_trap_plain cfg env st x).trap_command (cfg.sigindex x)) = false ∧
    (clear_trap_plain cfg env st x).signal_received (cfg.sigindex x) = false := by
  unfold clear_trap_plain
  simp only
  by_cases hne : command_nonempty (st.trap_command (cfg.sigindex x)) = true
  · obtain ⟨y, hy, hyrt, hyk, hys, hidx⟩ := hok.1 _ hne
    have hxy : x = y := hinj x y hx hy hidx
    subst hxy
    have hc := set_trap_none_plain cfg env x st hyrt hyk hys hne
    simp only [trap_core, trap_core_after, Prod.mk.injEq] at hc
    obtain ⟨c1, c2, c3, c4, c5, _, _⟩ := hc
    rw [if_pos hne]
    simp only [c1, c2, c3, c4, c5, Function.update_same]
    refine ⟨⟨?_, fun i => Or.inl rfl, ?_, fun i h => h, ?_⟩, by simp [command_nonempty], trivial⟩
    · intro i
      by_cases hi : i = cfg.sigindex x
      · subst hi
        exact Or.inr ⟨hne, Function.update_same _ _ _⟩
      · exact Or.inl (Function.update_noteq hi _ _)
    · intro i hi
      by_cases hii : i = cfg.sigindex x
      · subst hii
        simp at hi
      · simpa [Function.update_noteq hii] using hi
    · intro z hz
      by_cases h0 : x = 0
      · simpa [h0] using hz
      · simp only [h0, if_false] at hz
        by_cases hzx : z = x
        · simp [hzx, command_nonempty] at hz
        · simpa [hzx] using hz
  · rw [if_neg hne]
    simp only [Function.update_same]
    refine ⟨⟨fun i => Or.inl rfl, fun i => Or.inl rfl, ?_, fun i h => h, fun x h => h⟩,
      by simpa using hne, trivial⟩
    intro i hi
    by_cases hii : i = cfg.sigindex x
    · subst hii
      simp at hi
    · simpa [Function.update_noteq hii] using hi

theorem clear_trap_rt_step (cfg : SigConfig) (env : SigEnv) (st : SigState) (i : Nat)
    (hok : EntriesOk cfg st) :
    Cleared st (clear_trap_rt cfg env st i) ∧
    command_nonempty ((clear_trap_rt cfg env st i).rttrap_command i) = false ∧
    (clear_trap_rt cfg env st i).rtsignal_received i = false := by
  unfold clear_trap_rt
  simp only
  by_cases hne : command_nonempty (st.rttrap_command i) = true
  · obtain ⟨hlt, hrt, hk, hs⟩ := hok.2 _ hne
    have hc := set_trap_none_rt cfg env i st hlt hrt hk hs hne
    simp only [trap_core, trap_core_after, Prod.mk.injEq] at hc
    obtain ⟨c1, c2, c3, c4, c5, _, _⟩ := hc
    rw [if_pos hne]
    simp only [c1, c2, c3, c4, c5, Function.update_same]
    refine ⟨⟨fun i => Or.inl rfl, ?_, fun i h => h, ?_, ?_⟩, by simp [command_nonempty], trivial⟩
    · intro j
      by_cases hj : j = i
      · subst hj
        exact Or.inr ⟨hne, Function.update_same _ _ _⟩
      · exact Or.inl (Function.update_noteq hj _ _)
    · intro j hj
      by_cases hji : j = i
      · subst hji
        simp at hj
      · simpa [Function.update_noteq hji] using hj
    · intro z hz
      by_cases h0 : cfg.SIGRTMIN + i = 0
      · simpa [h0] using hz
      · simp only [h0, if_false] at hz
        by_cases hzx : z = cfg.SIGRTMIN + i
        · simp [hzx, command_nonempty] at hz
        · simpa [hzx] using hz
  · rw [if_neg hne]
    simp only [Function.update_same]
    refine ⟨⟨fun i => Or.inl rfl, fun i => Or.inl rfl, fun i h => h, ?_, fun x h => h⟩,
      by simpa using hne, trivial⟩
    intro j hj
    by_cases hji : j = i
    · subst hji
      simp at hj
    · simpa [Function.update_noteq hji] using hj

theorem cleared_keeps_plain (st st' : SigState) (h : Cleared st st') (i : Nat)
    (h1 : command_nonempty (st.trap_command i) = false) (h2 : st.signal_received i = false) :
    command_nonempty (st'.trap_command i) = false ∧ st'.signal_received i = false := by
  obtain ⟨c1, _, c3, _, _⟩ := h
  constructor
  · rcases c1 i with e | ⟨_, e⟩
    · rw [e]; exact h1
    · rw [e]; rfl
  · by_contra hc
    have := c3 i (by simpa using hc)
    rw [h2] at this
    exact absurd this (by decide)

theorem cleared_keeps_rt (st st' : SigState) (h : Cleared st st') (i : Nat)
    (h1 : command_nonempty (st.rttrap_command i) = false)
    (h2 : st.rtsignal_received i = false) :
    command_nonempty (st'.rttrap_command i) = false ∧ st'.rtsignal_received i = false := by
  obtain ⟨_, c2, _, c4, _⟩ := h
  constructor
  · rcases c2 i with e | ⟨_, e⟩
    · rw [e]; exact h1
    · rw [e]; rfl
  · by_contra hc
    have := c4 i (by simpa using hc)
    rw [h2] at this
    exact absurd this (by decide)

theorem clear_plain_fold (cfg : SigConfig) (hinj : sigindex_injective cfg) (env : SigEnv)
    (l : List Nat) (hl : ∀ x ∈ l, in_signal_table cfg x) (st : SigState)
    (hok : EntriesOk cfg st) :
    Cleared st (l.foldl (clear_trap_plain cfg env) st) ∧
    ∀ x ∈ l,
      command_nonempty ((l.foldl (clear_trap_plain cfg env) st).trap_command
        (cfg.sigindex x)) = false ∧
      (l.foldl (clear_trap_plain cfg env) st).signal_received (cfg.sigindex x) = false := by
  induction l generalizing st with
  | nil => exact ⟨cleared_refl st, fun x hx => absurd hx (List.not_mem_nil x)⟩
  | cons a as ih =>
    obtain ⟨s1, s2, s3⟩ := clear_trap_plain_step cfg hinj env st a
      (hl a (List.mem_cons_self _ _)) hok
    obtain ⟨r1, r2⟩ := ih (fun x hx => hl x (List.mem_cons_of_mem _ hx))
      (clear_trap_plain cfg env st a) (entries_ok_of_cleared cfg _ _ s1 hok)
    simp only [List.foldl_cons]
    refine ⟨cleared_trans _ _ _ s1 r1, ?_⟩
    intro x hx
    rcases List.mem_cons.1 hx with rfl | hx
    · exact cleared_keeps_plain _ _ r1 _ s2 s3
    · exact r2 x hx

theorem clear_rt_fold (cfg : SigConfig) (env : SigEnv) (l : List Nat) (st : SigState)
    (hok : EntriesOk cfg st) :
    Cleared st (l.foldl (clear_trap_rt cfg env) st) ∧
    ∀ i ∈ l,
      command_nonempty ((l.foldl (clear_trap_rt cfg env) st).rttrap_command i) = false ∧
      (l.foldl (clear_trap_rt cfg env) st).rtsignal_received i = false := by
  induction l generalizing st with
  | nil => exact ⟨cleared_refl st, fun x hx => absurd hx (List.not_mem_nil x)⟩
  | cons a as ih =>
    obtain ⟨s1, s2, s3⟩ := clear_trap_rt_step cfg env st a hok
    obtain ⟨r1, r2⟩ := ih (clear_trap_rt cfg env st a) (entries_ok_of_cleared cfg _ _ s1 hok)
    simp only [List.foldl_cons]
    refine ⟨cleared_trans _ _ _ s1 r1, ?_⟩
    intro x hx
    rcases List.mem_cons.1 hx with rfl | hx
    · exact cleared_keeps_rt _ _ r1 _ s2 s3
    · exact r2 x hx

theorem not_nonempty_of_reset (old new : Option (List Char))
    (h : new = if old = some [] then some [] else none) : command_nonempty new = false := by
  rw [h]
  split_ifs <;> rfl

theorem cleared_all (cfg : SigConfig) (st s3 : SigState) (hinv : TableInv cfg st)
    (hc : Cleared st s3) (hT : TrapInv cfg (trap_view s3))
    (hp : ∀ x, in_signal_table cfg x →
      command_nonempty (s3.trap_command (cfg.sigindex x)) = false ∧
      s3.signal_received (cfg.sigindex x) = false)
    (hr : cfg.has_rt = true → ∀ i, i < cfg.RTSIZE →
      command_nonempty (s3.rttrap_command i) = false ∧ s3.rtsignal_received i = false) :
    (∀ i, s3.trap_command i = if st.trap_command i = some [] then some [] else none) ∧
    (∀ i, s3.rttrap_command i = if st.rttrap_command i = some [] then some [] else none) ∧
    (∀ x, s3.trapped_signals x = false) ∧
    (∀ i, s3.signal_received i = false) ∧
    (∀ i, s3.rtsignal_received i = false) := by
  obtain ⟨_, _, _, hd, hok, hg1, hg2⟩ := hinv
  obtain ⟨c1, c2, c3, c4, c5⟩ := hc
  have hrt_on : ∀ y, in_rt_range cfg y = true → cfg.has_rt = true := by
    intro y hy
    unfold in_rt_range at hy
    simp only [Bool.and_eq_true] at hy
    exact hy.1.1
  have e1 : ∀ i, s3.trap_command i =
      if st.trap_command i = some [] then some [] else none := by
    intro i
    rcases c1 i with e | ⟨hn, e⟩
    · rw [e]
      cases h : st.trap_command i with
      | none => simp
      | some c =>
        cases c with
        | nil => simp
        | cons a l =>
          exfalso
          have hne : command_nonempty (st.trap_command i) = true := by rw [h]; rfl
          obtain ⟨x, hx, _, _, _, hi⟩ := hok.1 i hne
          have := (hp x hx).1
          rw [← hi, e, hne] at this
          exact absurd this (by decide)
    · rw [e]
      cases h : st.trap_command i with
      | none => simp
      | some c =>
        cases c with
        | nil => rw [h] at hn; simp [command_nonempty] at hn
        | cons a l => simp
  have e2 : ∀ i, s3.rttrap_command i =
      if st.rttrap_command i = some [] then some [] else none := by
    intro i
    rcases c2 i with e | ⟨hn, e⟩
    · rw [e]
      cases h : st.rttrap_command i with
      | none => simp
      | some c =>
        cases c with
        | nil => simp
        | cons a l =>
          exfalso
          have hne : command_nonempty (st.rttrap_command i) = true := by rw [h]; rfl
          obtain ⟨hlt, hin, _, _⟩ := hok.2 i hne
          have := (hr (hrt_on _ hin) i hlt).1
          rw [e, hne] at this
          exact absurd this (by decide)
    · rw [e]
      cases h : st.rttrap_command i with
      | none => simp
      | some c =>
        cases c with
        | nil => rw [h] at hn; simp [command_nonempty] at hn
        | cons a l => simp
  refine ⟨e1, e2, ?_, ?_, ?_⟩
  · intro x
    by_contra hx
    have hx1 : s3.trapped_signals x = true := by simpa using hx
    obtain ⟨hpos, hknown⟩ := hd x (c5 x hx1)
    by_cases hrt : in_rt_range cfg x = true
    · have := ((hT.2.1 x hpos hrt).1 hx1).2
      simp only [trap_view] at this
      rw [not_nonempty_of_reset _ _ (e2 _)] at this
      exact absurd this (by decide)
    · have hrt2 : in_rt_range cfg x = false := by simpa using hrt
      have htab : in_signal_table cfg x := by
        rcases hknown with h | h
        · exact h
        · exact absurd h hrt
      have := (hT.1 x hpos htab hrt2).1 hx1
      simp only [trap_view] at this
      rw [not_nonempty_of_reset _ _ (e1 _)] at this
      exact absurd this (by decide)
  · intro i
    by_contra hi
    have hi1 : s3.signal_received i = true := by simpa using hi
    obtain ⟨x, hx, hix⟩ := hg1 i (c3 i hi1)
    have := (hp x hx).2
    rw [← hix, hi1] at this
    exact absurd this (by decide)
  · intro i
    by_contra hi
    have hi1 : s3.rtsignal_received i = true := by simpa using hi
    obtain ⟨hlt, hon⟩ := hg2 i (c4 i hi1)
    have := (hr hon i hlt).2
    rw [hi1] at this
    exact absurd this (by decide)

theorem clear_traps_post (cfg : SigConfig) (hinj : sigindex_injective cfg) (env : SigEnv)
    (st : SigState) (hinv : TableInv cfg st) :
    (∀ i, (clear_traps cfg env st).trap_command i =
      if st.trap_command i = some [] then some [] else none) ∧
    (∀ i, (clear_traps cfg env st).rttrap_command i =
      if st.rttrap_command i = some [] then some [] else none) ∧
    (∀ x, (clear_traps cfg env st).trapped_signals x = false) ∧
    (∀ i, (clear_traps cfg env st).signal_received i = false) ∧
    (∀ i, (clear_traps cfg env st).rtsignal_received i = false) ∧
    (clear_traps cfg env st).any_signal_received = false ∧
    (clear_traps cfg env st).any_trap_set = false := by
  have hT := clear_traps_inv cfg hinj env st hinv.1
  have hok := hinv.2.2.2.2.1
  unfold clear_traps at hT ⊢
  by_cases hearly : st.any_trap_set = false ∧ st.any_signal_received = false
  · rw [if_pos hearly] at hT ⊢
    obtain ⟨r1, r2, r3, r4, r5⟩ := cleared_all cfg st st hinv (cleared_refl st) hT
      (fun x _ => ⟨(hinv.2.1 hearly.1 _).1, (hinv.2.2.1 hearly.1 hearly.2 _).1⟩)
      (fun _ i _ => ⟨(hinv.2.1 hearly.1 i).2, (hinv.2.2.1 hearly.1 hearly.2 i).2⟩)
    exact ⟨r1, r2, r3, r4, r5, hearly.2, hearly.1⟩
  · rw [if_neg hearly] at hT ⊢
    simp only at hT ⊢
    obtain ⟨a1, a2, a3⟩ := clear_trap_plain_step cfg hinj env st 0 (Or.inl rfl) hok
    have hok1 := entries_ok_of_cleared cfg _ _ a1 hok
    obtain ⟨b1, b2⟩ := clear_plain_fold cfg hinj env (cfg.signals.map Prod.fst)
      (fun x hx => Or.inr hx) (clear_trap_plain cfg env st 0) hok1
    have hok2 := entries_ok_of_cleared cfg _ _ b1 hok1
    generalize hs2 : (cfg.signals.map Prod.fst).foldl (clear_trap_plain cfg env)
      (clear_trap_plain cfg env st 0) = s2 at hT b1 b2 hok2 ⊢
    have hp2 : ∀ x, in_signal_table cfg x →
        command_nonempty (s2.trap_command (cfg.sigindex x)) = false ∧
        s2.signal_received (cfg.sigindex x) = false := by
      intro x hx
      rcases hx with rfl | hx
      · exact cleared_keeps_plain _ _ b1 _ a2 a3
      · exact b2 x hx
    obtain ⟨d1, d2⟩ := clear_rt_fold cfg env (List.range cfg.RTSIZE) s2 hok2
    by_cases hon : cfg.has_rt = true
    · simp only [hon, if_true] at hT ⊢
      generalize hs3 : (List.range cfg.RTSIZE).foldl (clear_trap_rt cfg env) s2 = s3
        at hT d1 d2 ⊢
      obtain ⟨r1, r2, r3, r4, r5⟩ := cleared_all cfg st s3 hinv
        (cleared_trans _ _ _ (cleared_trans _ _ _ a1 b1) d1) hT
        (fun x hx => cleared_keeps_plain _ _ d1 _ (hp2 x hx).1 (hp2 x hx).2)
        (fun _ i hi => d2 i (List.mem_range.2 hi))
      exact ⟨r1, r2, r3, r4, r5, trivial, trivial⟩
    · have hoff : cfg.has_rt = false := by simpa using hon
      simp only [hoff, Bool.false_eq_true, if_false] at hT ⊢
      obtain ⟨r1, r2, r3, r4, r5⟩ := cleared_all cfg st s2 hinv
        (cleared_trans _ _ _ a1 b1) hT hp2 (fun h => absurd h hon)
      exact ⟨r1, r2, r3, r4, r5, trivial, trivial⟩

theorem table_inv_of_core (cfg : SigConfig) (st st' : SigState)
    (h : trap_core st' = trap_core st) (hinv : TableInv cfg st) : TableInv cfg st' := by
  simp only [trap_core, Prod.mk.injEq] at h
  obtain ⟨h1, h2, h3, h4, h5, h6, h7⟩ := h
  unfold TableInv EntriesOk trap_view at *
  rw [h1, h2, h3, h4, h5, h6, h7]
  exact hinv

theorem update_false_of_true (f : Nat → Bool) (i j : Nat)
    (h : Function.update f i false j = true) : f j = true := by
  by_cases hji : j = i
  · subst hji
    simp at h
  · simpa [Function.update_noteq hji] using h

theorem table_inv_after (cfg : SigConfig) (signum : Nat) (command : Option (List Char))
    (slot : TrapSlot) (st st' : SigState)
    (hcore : trap_core st' = trap_core_after signum command slot st)
    (hT : TrapInv cfg (trap_view st'))
    (hslot : (slot = TrapSlot.plain (cfg.sigindex signum) ∧ in_signal_table cfg signum ∧
        in_rt_range cfg signum = false) ∨
      (slot = TrapSlot.rt (signum - cfg.SIGRTMIN) ∧ in_rt_range cfg signum = true ∧
        signum - cfg.SIGRTMIN < cfg.RTSIZE))
    (hk : signum ≠ cfg.SIGKILL) (hs : signum ≠ cfg.SIGSTOP) (hinv : TableInv cfg st) :
    TableInv cfg st' := by
  obtain ⟨_, ib, ic, id, ie, ig1, ig2⟩ := hinv
  simp only [trap_core, trap_core_after, Prod.mk.injEq] at hcore
  obtain ⟨h1, h2, h3, h4, h5, h6, h7⟩ := hcore
  have hknown : known_signal cfg signum := by
    rcases hslot with ⟨_, htab, _⟩ | ⟨_, hrt, _⟩
    · exact Or.inl htab
    · exact Or.inr hrt
  have hflag1 : ∀ i, st'.signal_received i = true → st.signal_received i = true := by
    intro i hi
    rw [h3] at hi
    cases slot with
    | plain j => exact update_false_of_true _ _ _ hi
    | rt j => exact hi
  have hflag2 : ∀ i, st'.rtsignal_received i = true → st.rtsignal_received i = true := by
    intro i hi
    rw [h4] at hi
    cases slot with
    | plain j => exact hi
    | rt j => exact update_false_of_true _ _ _ hi
  have hent1 : ∀ i, command_nonempty (st'.trap_command i) = true →
      command_nonempty (st.trap_command i) = true ∨
      (slot = TrapSlot.plain i ∧ command_nonempty command = true) := by
    intro i hi
    rw [h1] at hi
    cases slot with
    | plain j =>
      dsimp only at hi
      by_cases hij : i = j
      · subst hij
        rw [Function.update_same] at hi
        exact Or.inr ⟨rfl, hi⟩
      · rw [Function.update_noteq hij] at hi
        exact Or.inl hi
    | rt j => exact Or.inl hi
  have hent2 : ∀ i, command_nonempty (st'.rttrap_command i) = true →
      command_nonempty (st.rttrap_command i) = true ∨
      (slot = TrapSlot.rt i ∧ command_nonempty command = true) := by
    intro i hi
    rw [h2] at hi
    cases slot with
    | plain j => exact Or.inl hi
    | rt j =>
      dsimp only at hi
      by_cases hij : i = j
      · subst hij
        rw [Function.update_same] at hi
        exact Or.inr ⟨rfl, hi⟩
      · rw [Function.update_noteq hij] at hi
        exact Or.inl hi
  have hset : st'.any_trap_set = false →
      st.any_trap_set = false ∧ command_nonempty command = false := by
    intro h
    rw [h6] at h
    simpa using h
  refine ⟨hT, ?_, ?_, ?_, ⟨?_, ?_⟩, ?_, ?_⟩
  · intro hoff i
    obtain ⟨o1, o2⟩ := hset hoff
    constructor
    · by_contra hc
      rcases hent1 i (by simpa using hc) with h | ⟨_, h⟩
      · rw [(ib o1 i).1] at h; exact absurd h (by decide)
      · rw [o2] at h; exact absurd h (by decide)
    · by_contra hc
      rcases hent2 i (by simpa using hc) with h | ⟨_, h⟩
      · rw [(ib o1 i).2] at h; exact absurd h (by decide)
      · rw [o2] at h; exact absurd h (by decide)
  · intro hoff hquiet i
    obtain ⟨o1, _⟩ := hset hoff
    rw [h7] at hquiet
    constructor
    · by_contra hc
      have := hflag1 i (by simpa using hc)
      rw [(ic o1 hquiet i).1] at this
      exact absurd this (by decide)
    · by_contra hc
      have := hflag2 i (by simpa using hc)
      rw [(ic o1 hquiet i).2] at this
      exact absurd this (by decide)
  · intro x hx
    rw [h5] at hx
    by_cases h0 : signum = 0
    · rw [if_pos h0] at hx
      exact id x hx
    · rw [if_neg h0] at hx
      by_cases hxs : x = signum
      · subst hxs
        exact ⟨by omega, hknown⟩
      · simp only [if_neg hxs] at hx
        exact id x hx
  · intro i hi
    rcases hent1 i hi with h | ⟨hsl, _⟩
    · exact ie.1 i h
    · rcases hslot with ⟨hp, htab, hrt⟩ | ⟨hp, _, _⟩
      · rw [hp] at hsl
        injection hsl with hsl
        exact ⟨signum, htab, hrt, hk, hs, hsl.symm⟩
      · rw [hp] at hsl
        exact absurd hsl (by simp)
  · intro i hi
    rcases hent2 i hi with h | ⟨hsl, _⟩
    · exact ie.2 i h
    · rcases hslot with ⟨hp, _, _⟩ | ⟨hp, hrt, hlt⟩
      · rw [hp] at hsl
        exact absurd hsl (by simp)
      · rw [hp] at hsl
        injection hsl with hsl
        have hle := in_rt_range_le cfg signum hrt
        have hsum : cfg.SIGRTMIN + i = signum := by omega
        rw [hsum]
        exact ⟨by omega, hrt, hk, hs⟩
  · intro i hi
    exact ig1 i (hflag1 i hi)
  · intro i hi
    exact ig2 i (hflag2 i hi)

theorem set_trap_table_inv (cfg : SigConfig) (hinj : sigindex_injective cfg) (env : SigEnv)
    (signum : Nat) (command : Option (List Char)) (st : SigState)
    (hk : known_signal cfg signum) (hinv : TableInv cfg st) :
    TableInv cfg (set_trap cfg env signum command st).2 := by
  have hT := set_trap_inv cfg hinj env signum command st hk hinv.1
  unfold set_trap at hT ⊢
  by_cases hks : signum = cfg.SIGKILL ∨ signum = cfg.SIGSTOP
  · rw [if_pos hks]
    exact hinv
  · rw [if_neg hks] at hT ⊢
    have hkill : signum ≠ cfg.SIGKILL := fun h => hks (Or.inl h)
    have hstop : signum ≠ cfg.SIGSTOP := fun h => hks (Or.inr h)
    by_cases hrt : in_rt_range cfg signum = true
    · rw [if_pos hrt] at hT ⊢
      by_cases hlt : signum - cfg.SIGRTMIN < cfg.RTSIZE
      · rw [if_pos hlt] at hT ⊢
        by_cases hrule : env.is_interactive = false ∧
            slot_command st (TrapSlot.rt (signum - cfg.SIGRTMIN)) = none ∧
            (is_ignored cfg env signum st).1 = true
        · exact table_inv_of_core cfg _ _ ((set_trap_slot_core cfg env signum command _ st).1 hrule)
            hinv
        · exact table_inv_after cfg signum command _ st _
            ((set_trap_slot_core cfg env signum command _ st).2 hrule) hT
            (Or.inr ⟨rfl, hrt, hlt⟩) hkill hstop hinv
      · rw [if_neg hlt]
        exact hinv
    · rw [if_neg hrt] at hT ⊢
      have hrt2 : in_rt_range cfg signum = false := by simpa using hrt
      have htab : in_signal_table cfg signum := by
        rcases hk with h | h
        · exact h
        · exact absurd h hrt
      by_cases hrule : env.is_interactive = false ∧
          slot_command st (TrapSlot.plain (cfg.sigindex signum)) = none ∧
          (is_ignored cfg env signum st).1 = true
      · exact table_inv_of_core cfg _ _ ((set_trap_slot_core cfg env signum command _ st).1 hrule)
          hinv
      · exact table_inv_after cfg signum command _ st _
          ((set_trap_slot_core cfg env signum command _ st).2 hrule) hT
          (Or.inl ⟨rfl, htab, hrt2⟩) hkill hstop hinv

theorem clear_traps_table_inv (cfg : SigConfig) (hinj : sigindex_injective cfg) (env : SigEnv)
    (st : SigState) (hinv : TableInv cfg st) : TableInv cfg (clear_traps cfg env st) := by
  obtain ⟨r1, r2, r3, r4, r5, _, _⟩ := clear_traps_post cfg hinj env st hinv
  refine ⟨clear_traps_inv cfg hinj env st hinv.1, ?_, ?_, ?_, ⟨?_, ?_⟩, ?_, ?_⟩
  · intro _ i
    exact ⟨not_nonempty_of_reset _ _ (r1 i), not_nonempty_of_reset _ _ (r2 i)⟩
  · intro _ _ i
    exact ⟨r4 i, r5 i⟩
  · intro x hx
    rw [r3 x] at hx
    exact absurd hx (by decide)
  · intro i hi
    rw [not_nonempty_of_reset _ _ (r1 i)] at hi
    exact absurd hi (by decide)
  · intro i hi
    rw [not_nonempty_of_reset _ _ (r2 i)] at hi
    exact absurd hi (by decide)
  · intro i hi
    rw [r4 i] at hi
    exact absurd hi (by decide)
  · intro i hi
    rw [r5 i] at hi
    exact absurd hi (by decide)

theorem sig_handler_table_inv (cfg : SigConfig) (signum : Nat) (st : SigState)
    (hk : known_signal cfg signum) (hinv : TableInv cfg st) :
    TableInv cfg (sig_handler cfg signum st) := by
  obtain ⟨ia, ib, _, id, ie, ig1, ig2⟩ := hinv
  rw [sig_handler_eq]
  refine ⟨ia, ib, ?_, id, ie, ?_, ?_⟩
  · intro _ h
    exact absurd h (by simp)
  · intro i hi
    simp only at hi
    by_cases hrt : in_rt_range cfg signum = true
    · rw [if_pos hrt] at hi
      exact ig1 i hi
    · rw [if_neg hrt] at hi
      by_cases hi2 : i = cfg.sigindex signum
      · have htab : in_signal_table cfg signum := by
          rcases hk with h | h
          · exact h
          · exact absurd h hrt
        exact ⟨signum, htab, hi2⟩
      · rw [Function.update_noteq hi2] at hi
        exact ig1 i hi
  · intro i hi
    simp only at hi
    by_cases hc : in_rt_range cfg signum = true ∧ signum - cfg.SIGRTMIN < cfg.RTSIZE
    · rw [if_pos hc] at hi
      by_cases hi2 : i = signum - cfg.SIGRTMIN
      · have hon : cfg.has_rt = true := by
          have := hc.1
          unfold in_rt_range at this
          simp only [Bool.and_eq_true] at this
          exact this.1.1
        rw [hi2]
        exact ⟨hc.2, hon⟩
      · rw [Function.update_noteq hi2] at hi
        exact ig2 i hi
    · rw [if_neg hc] at hi
      exact ig2 i hi

theorem table_inv_init (cfg : SigConfig) (blocked : SigSet) (disposition : Nat → Handler) :
    TableInv cfg (init_signal (sig_startup_state blocked disposition)) := by
  refine ⟨init_signal_inv cfg blocked disposition, ?_, ?_, ?_, ⟨?_, ?_⟩, ?_, ?_⟩ <;>
    simp [init_signal, sig_startup_state, sigemptyset, command_nonempty]

theorem run_sig_calls_table_inv (cfg : SigConfig) (hinj : sigindex_injective cfg)
    (calls : List SigCall) (hcalls : ∀ c ∈ calls, known_sig_call cfg c) (st : SigState)
    (hinv : TableInv cfg st) : TableInv cfg (run_sig_calls cfg calls st) := by
  unfold run_sig_calls
  refine foldl_inv (fun s => TableInv cfg s) (run_sig_call cfg) calls
    (known_sig_call cfg) ?_ hcalls st hinv
  intro s c hc hs
  cases c with
  | set_trap env signum command => exact set_trap_table_inv cfg hinj env signum command s hc hs
  | clear_traps env => exact clear_traps_table_inv cfg hinj env s hs
  | sig_handler signum => exact sig_handler_table_inv cfg signum s hc.2 hs

theorem table_inv_flags_off (cfg : SigConfig) (st st' : SigState) (hinv : TableInv cfg st)
    (hset : st.any_trap_set = true)
    (h1 : st'.trap_command = st.trap_command) (h2 : st'.rttrap_command = st.rttrap_command)
    (h3 : st'.trapped_signals = st.trapped_signals) (h4 : st'.any_trap_set = st.any_trap_set)
    (h5 : ∀ i, st'.signal_received i = true → st.signal_received i = true)
    (h6 : ∀ i, st'.rtsignal_received i = true → st.rtsignal_received i = true) :
    TableInv cfg st' := by
  obtain ⟨ia, _, _, id, ie, ig1, ig2⟩ := hinv
  have hon : st'.any_trap_set = true := by rw [h4]; exact hset
  unfold TableInv EntriesOk trap_view at *
  rw [h1, h2, h3]
  refine ⟨ia, ?_, ?_, id, ie, fun i hi => ig1 i (h5 i hi), fun i hi => ig2 i (h6 i hi)⟩
  · intro h
    rw [hon] at h
    exact absurd h (by decide)
  · intro h
    rw [hon] at h
    exact absurd h (by decide)

theorem handle_traps_plain_inv (cfg : SigConfig) (exec : List Char → TrapWorld → TrapWorld)
    (hexec : ∀ c v, TableInv cfg v.sig → v.sig.any_trap_set = true →
      TableInv cfg (exec c v).sig ∧ (exec c v).sig.any_trap_set = true)
    (acc : Int × TrapWorld) (signo : Nat)
    (h : TableInv cfg acc.2.sig ∧ acc.2.sig.any_trap_set = true) :
    TableInv cfg (handle_traps_plain cfg exec acc signo).2.sig ∧
      (handle_traps_plain cfg exec acc signo).2.sig.any_trap_set = true := by
  have hoff : TableInv cfg { acc.2.sig with
      signal_received :=
        Function.update acc.2.sig.signal_received (cfg.sigindex signo) false } :=
    table_inv_flags_off cfg acc.2.sig _ h.1 h.2 rfl rfl rfl rfl
      (fun i hi => update_false_of_true _ _ _ hi) (fun i hi => hi)
  unfold handle_traps_plain
  simp only
  split_ifs
  · split
    · exact hexec _ _ (table_inv_of_core cfg _ _ rfl hoff) h.2
    · exact ⟨hoff, h.2⟩
  · exact h

theorem handle_traps_rt_inv (cfg : SigConfig) (exec : List Char → TrapWorld → TrapWorld)
    (hexec : ∀ c v, TableInv cfg v.sig → v.sig.any_trap_set = true →
      TableInv cfg (exec c v).sig ∧ (exec c v).sig.any_trap_set = true)
    (acc : Int × TrapWorld) (i : Nat)
    (h : TableInv cfg acc.2.sig ∧ acc.2.sig.any_trap_set = true) :
    TableInv cfg (handle_traps_rt cfg exec acc i).2.sig ∧
      (handle_traps_rt cfg exec acc i).2.sig.any_trap_set = true := by
  have hoff : TableInv cfg { acc.2.sig with
      rtsignal_received := Function.update acc.2.sig.rtsignal_received i false } :=
    table_inv_flags_off cfg acc.2.sig _ h.1 h.2 rfl rfl rfl rfl
      (fun i hi => hi) (fun i hi => update_false_of_true _ _ _ hi)
  unfold handle_traps_rt
  simp only
  split_ifs
  · split
    · exact hexec _ _ (table_inv_of_core cfg _ _ rfl hoff) h.2
    · exact ⟨hoff, h.2⟩
  · exact h

theorem handle_traps_round_inv (cfg : SigConfig) (exec : List Char → TrapWorld → TrapWorld)
    (hexec : ∀ c v, TableInv cfg v.sig → v.sig.any_trap_set = true →
      TableInv cfg (exec c v).sig ∧ (exec c v).sig.any_trap_set = true)
    (acc : Int × TrapWorld)
    (h : TableInv cfg acc.2.sig ∧ acc.2.sig.any_trap_set = true) :
    TableInv cfg (handle_traps_round cfg exec acc).2.sig ∧
      (handle_traps_round cfg exec acc).2.sig.any_trap_set = true := by
  have hstart : TableInv cfg { acc.2.sig with any_signal_received := false } :=
    table_inv_flags_off cfg acc.2.sig _ h.1 h.2 rfl rfl rfl rfl (fun i hi => hi)
      (fun i hi => hi)
  have h1 := foldl_keeps
    (fun a : Int × TrapWorld => TableInv cfg a.2.sig ∧ a.2.sig.any_trap_set = true)
    (handle_traps_plain cfg exec) (cfg.signals.map Prod.fst)
    (fun s a hs => handle_traps_plain_inv cfg exec hexec s a hs)
    (acc.1, { acc.2 with sig := { acc.2.sig with any_signal_received := false } })
    ⟨hstart, h.2⟩
  unfold handle_traps_round
  simp only
  split_ifs
  · exact foldl_keeps
      (fun a : Int × TrapWorld => TableInv cfg a.2.sig ∧ a.2.sig.any_trap_set = true)
      (handle_traps_rt cfg exec) _
      (fun s a hs => handle_traps_rt_inv cfg exec hexec s a hs) _ h1
  · exact h1

theorem handle_traps_loop_inv (cfg : SigConfig) (exec : List Char → TrapWorld → TrapWorld)
    (hexec : ∀ c v, TableInv cfg v.sig → v.sig.any_trap_set = true →
      TableInv cfg (exec c v).sig ∧ (exec c v).sig.any_trap_set = true) :
    ∀ (fuel : Nat) (acc res : Int × TrapWorld),
      TableInv cfg acc.2.sig ∧ acc.2.sig.any_trap_set = true →
      handle_traps_loop cfg exec fuel acc = some res →
      TableInv cfg res.2.sig ∧ res.2.sig.any_trap_set = true := by
  intro fuel
  induction fuel with
  | zero =>
    intro acc res _ h
    simp [handle_traps_loop] at h
  | succ fuel ih =>
    intro acc res hacc h
    have hr := handle_traps_round_inv cfg exec hexec acc hacc
    unfold handle_traps_loop at h
    simp only at h
    split_ifs at h
    · exact ih _ _ hr h
    · simp only [Option.some.injEq] at h
      rw [← h]
      exact hr

theorem handle_traps_table_inv (cfg : SigConfig) (exec : List Char → TrapWorld → TrapWorld)
    (hexec : ∀ c v, TableInv cfg v.sig → v.sig.any_trap_set = true →
      TableInv cfg (exec c v).sig ∧ (exec c v).sig.any_trap_set = true)
    (fuel : Nat) (w : TrapWorld) (r : Int) (w' : TrapWorld) (hinv : TableInv cfg w.sig)
    (h : handle_traps cfg exec fuel w = some (r, w')) : TableInv cfg w'.sig := by
  unfold handle_traps at h
  split_ifs at h with hearly
  · simp only [Option.some.injEq, Prod.mk.injEq] at h
    rw [← h.2]
    exact hinv
  · have hset : w.sig.any_trap_set = true := by
      by_contra hc
      exact hearly (Or.inl (by simpa using hc))
    split at h
    · exact absurd h (by simp)
    · rename_i signum v hv
      simp only [Option.some.injEq, Prod.mk.injEq] at h
      rw [← h.2]
      have := handle_traps_loop_inv cfg exec hexec fuel _ _
        (show TableInv cfg (0, { w with savelaststatus := w.laststatus }).2.sig ∧
          (0, { w with savelaststatus := w.laststatus }).2.sig.any_trap_set = true from
          ⟨hinv, hset⟩) hv
      exact table_inv_of_core cfg _ _ rfl this.1

theorem set_trap_keeps_any_trap_set (cfg : SigConfig) (env : SigEnv) (signum : Nat)
    (command : Option (List Char)) (st : SigState) (h : st.any_trap_set = true) :
    (set_trap cfg env signum command st).2.any_trap_set = true := by
  have hslot : ∀ slot, (set_trap_slot cfg env signum command slot st).2.any_trap_set = true := by
    intro slot
    by_cases hrule : env.is_interactive = false ∧ slot_command st slot = none ∧
        (is_ignored cfg env signum st).1 = true
    · have hc := (set_trap_slot_core cfg env signum command slot st).1 hrule
      simp only [trap_core, Prod.mk.injEq] at hc
      rw [hc.2.2.2.2.2.1]
      exact h
    · have hc := (set_trap_slot_core cfg env signum command slot st).2 hrule
      simp only [trap_core, trap_core_after, Prod.mk.injEq] at hc
      rw [hc.2.2.2.2.2.1, h]
      rfl
  unfold set_trap
  split_ifs
  · exact h
  · exact hslot _
  · exact h
  · exact hslot _

theorem exec_calls_inv (cfg : SigConfig) (hinj : sigindex_injective cfg)
    (calls : List SigCall) (hcalls : ∀ call ∈ calls, known_trap_call cfg call) (st : SigState)
    (h : TableInv cfg st ∧ st.any_trap_set = true) :
    TableInv cfg (run_sig_calls cfg calls st) ∧
      (run_sig_calls cfg calls st).any_trap_set = true := by
  unfold run_sig_calls
  refine foldl_inv (fun s => TableInv cfg s ∧ s.any_trap_set = true) (run_sig_call cfg) calls
    (known_trap_call cfg) ?_ hcalls st h
  intro s c hc hs
  cases c with
  | set_trap env signum command =>
    exact ⟨set_trap_table_inv cfg hinj env signum command s hc hs.1,
      set_trap_keeps_any_trap_set cfg env signum command s hs.2⟩
  | clear_traps env => exact absurd hc (fun h => h)
  | sig_handler signum =>
    refine ⟨sig_handler_table_inv cfg signum s hc.2 hs.1, ?_⟩
    show (sig_handler cfg signum s).any_trap_set = true
    rw [sig_handler_eq]
    exact hs.2

theorem run_table_call_inv (cfg : SigConfig) (hinj : sigindex_injective cfg)
    (c : TableCall) (hc : known_table_call cfg c) (st st' : SigState)
    (hinv : TableInv cfg st) (h : run_table_call cfg st c = some st') : TableInv cfg st' := by
  cases c with
  | call c =>
    simp only [run_table_call, Option.some.injEq] at h
    rw [← h]
    cases c with
    | set_trap env signum command => exact set_trap_table_inv cfg hinj env signum command st hc hinv
    | clear_traps env => exact clear_traps_table_inv cfg hinj env st hinv
    | sig_handler signum => exact sig_handler_table_inv cfg signum st hc.2 hinv
  | handle_traps prog fuel laststatus =>
    simp only [run_table_call, Option.map_eq_some'] at h
    obtain ⟨⟨r, w'⟩, hr, hst⟩ := h
    simp only at hst
    rw [← hst]
    exact handle_traps_table_inv cfg (exec_calls cfg prog)
      (fun c v h1 h2 => exec_calls_inv cfg hinj (prog c v) (hc c v) v.sig ⟨h1, h2⟩)
      fuel _ r w' hinv hr

theorem run_table_calls_inv (cfg : SigConfig) (hinj : sigindex_injective cfg)
    (calls : List TableCall) (hcalls : ∀ c ∈ calls, known_table_call cfg c) :
    ∀ (st st' : SigState), TableInv cfg st → run_table_calls cfg calls st = some st' →
      TableInv cfg st' := by
  induction calls with
  | nil =>
    intro st st' hinv h
    simp only [run_table_calls, Option.some.injEq] at h
    rw [← h]
    exact hinv
  | cons c cs ih =>
    intro st st' hinv h
    simp only [run_table_calls] at h
    cases h1 : run_table_call cfg st c with
    | none =>
      rw [h1] at h
      exact absurd h (by simp)
    | some s1 =>
      rw [h1] at h
      simp only [Option.some_bind] at h
      exact ih (fun x hx => hcalls x (List.mem_cons_of_mem _ hx)) s1 st'
        (run_table_call_inv cfg hinj c (hcalls c (List.mem_cons_self _ _)) st s1 hinv h1) h

/-- C16: in a state reached from `init_signal` by calls of `set_trap`,
`clear_traps`, `sig_handler` and `handle_traps` on known signals (`sigindex`
being injective on the numbers it is defined on, and the trap commands run by
`handle_traps` calling `set_trap` and `sig_handler`), `clear_traps` leaves
every entry of `trap_command`, that of EXIT included, and of `rttrap_command`
that was the empty string as the empty string and makes every other entry
null; after it `trapped_signals` is empty, no entry of `signal_received` or
`rtsignal_received` is set, and `any_signal_received` is false. -/
theorem clear_traps_postcondition (cfg : SigConfig) (hinj : sigindex_injective cfg)
    (blocked : SigSet) (disposition : Nat → Handler) (calls : List TableCall)
    (hcalls : ∀ c ∈ calls, known_table_call cfg c) (env : SigEnv) (st : SigState)
    (hst : run_table_calls cfg calls (init_signal (sig_startup_state blocked disposition)) =
      some st) :
    (∀ i, (clear_traps cfg env st).trap_command i =
      if st.trap_command i = some [] then some [] else none) ∧
    (∀ i, (clear_traps cfg env st).rttrap_command i =
      if st.rttrap_command i = some [] then some [] else none) ∧
    (∀ x, (clear_traps cfg env st).trapped_signals x = false) ∧
    (∀ i, (clear_traps cfg env st).signal_received i = false) ∧
    (∀ i, (clear_traps cfg env st).rtsignal_received i = false) ∧
    (clear_traps cfg env st).any_signal_received = false := by
  have hinv : TableInv cfg st :=
    run_table_calls_inv cfg hinj calls hcalls _ st (table_inv_init cfg blocked disposition) hst
  obtain ⟨r1, r2, r3, r4, r5, r6, _⟩ := clear_traps_post cfg hinj env st hinv
  exact ⟨r1, r2, r3, r4, r5, r6⟩

set_option maxRecDepth 100000 in
theorem sample_table_calls_run :
    (run_table_calls linux_config sample_table_calls
      (init_signal (sig_startup_state sigemptyset fun _ => Handler.SIG_DFL))).isSome = true := by
  decide

theorem sample_table_calls_known : ∀ c ∈ sample_table_calls, known_table_call linux_config c := by
  intro c hc
  simp only [sample_table_calls, List.mem_cons, List.mem_singleton, List.not_mem_nil,
    or_false] at hc
  rcases hc with rfl | rfl | rfl | rfl | rfl | rfl | rfl | rfl
  · exact Or.inl (Or.inr (by decide))
  · exact Or.inl (Or.inr (by decide))
  · exact Or.inr (by decide)
  · exact Or.inl (Or.inl rfl)
  · exact ⟨by decide, Or.inl (Or.inr (by decide))⟩
  · exact ⟨by decide, Or.inl (Or.inr (by decide))⟩
  · intro c v call hcall
    simp only [List.mem_singleton] at hcall
    rw [hcall]
    exact Or.inl (Or.inr (by decide))
  · exact ⟨by decide, Or.inl (Or.inr (by decide))⟩

set_option maxRecDepth 100000 in
/-- On Linux, with `SIGQUIT` ignored, traps on `SIGINT`, on the real-time
signal 35 and on EXIT, `handle_traps` run for `SIGINT` and `SIGHUP` (its trap
command traps `SIGHUP`) and `SIGINT` received again: the calls give a state
in which `SIGHUP` is trapped and `SIGINT` is received, and after `clear_traps`
the entry of `SIGQUIT` is still the empty string, the entries of `SIGINT`,
EXIT and signal 35 are null, `SIGHUP` is not in `trapped_signals` and the
received flag of `SIGINT` is cleared. -/
theorem clear_traps_postcondition_witness :
    ∃ st, run_table_calls linux_config sample_table_calls
        (init_signal (sig_startup_state sigemptyset fun _ => Handler.SIG_DFL)) = some st ∧
      st.trapped_signals 1 = true ∧ st.signal_received 2 = true ∧
      (clear_traps linux_config plain_env st).trap_command 3 = some [] ∧
      (clear_traps linux_config plain_env st).trap_command 2 = none ∧
      (clear_traps linux_config plain_env st).trap_command 0 = none ∧
      (clear_traps linux_config plain_env st).rttrap_command 1 = none ∧
      (clear_traps linux_config plain_env st).trapped_signals 1 = false ∧
      (clear_traps linux_config plain_env st).signal_received 2 = false :=
  have h := clear_traps_postcondition linux_config (fun _ _ _ _ h => h) sigemptyset
    (fun _ => Handler.SIG_DFL) sample_table_calls sample_table_calls_known plain_env
    (Option.get _ sample_table_calls_run) (Option.some_get sample_table_calls_run).symm
  ⟨Option.get _ sample_table_calls_run, (Option.some_get sample_table_calls_run).symm,
    by decide, by decide, (h.1 3).trans (by decide), (h.1 2).trans (by decide),
    (h.1 0).trans (by decide), (h.2.1 1).trans (by decide), h.2.2.1 1, h.2.2.2.1 2⟩

/-! ## Theorems on the builtins wait and trap -/

/-- C30: `builtin_wait` never returns exit status 0: whatever the arguments
and the output so far, it reports `NOT IMPLEMENTED`, prints its usage line and
returns `EXIT_FAILURE`. -/
theorem builtin_wait_never_succeeds (argc : Int) (argv : List (List Char)) (io : Streams) :
    (builtin_wait argc argv io).1 = EXIT_FAILURE ∧ (builtin_wait argc argv io).1 ≠ 0 ∧
      (builtin_wait argc argv io).2.stderr = io.stderr ++ ["NOT IMPLEMENTED"] := by
  refine ⟨rfl, ?_, rfl⟩
  simp [builtin_wait, EXIT_FAILURE]

theorem set_traps_unknown (cfg : SigConfig) (env : SigEnv) (command : Option (List Char))
    (names : List (List Char)) (hnames : ∀ n ∈ names, get_signal_number_w cfg n < 0)
    (err : Bool) (w : TrapBuiltinWorld) :
    set_traps cfg env command names err w =
      (err, { w with no_such_signal := w.no_such_signal ++ names.map (List.map towupper) }) := by
  induction names generalizing w with
  | nil => simp [set_traps]
  | cons n rest ih =>
    have hn : get_signal_number_w cfg n < 0 := hnames n (List.mem_cons_self _ _)
    have hrest : ∀ m ∈ rest, get_signal_number_w cfg m < 0 :=
      fun m hm => hnames m (List.mem_cons_of_mem _ hm)
    simp only [set_traps, if_pos hn]
    rw [ih hrest]
    simp

theorem print_specified_unknown (cfg : SigConfig) (printf_ok : Nat → Bool)
    (names : List (List Char))
    (hnames : ∀ n ∈ names,
      get_signal_number cfg ((malloc_wcstombs (n.map towupper)).getD []) < 0)
    (w : TrapBuiltinWorld) :
    print_specified_traps cfg printf_ok names w =
      (true, { w with no_such_signal := w.no_such_signal ++ names.map (List.map towupper) }) := by
  induction names generalizing w with
  | nil => simp [print_specified_traps]
  | cons n rest ih =>
    have hn := hnames n (List.mem_cons_self _ _)
    have hrest : ∀ m ∈ rest,
        get_signal_number cfg ((malloc_wcstombs (m.map towupper)).getD []) < 0 :=
      fun m hm => hnames m (List.mem_cons_of_mem _ hm)
    simp only [print_specified_traps, if_pos hn, if_true]
    rw [ih hrest]
    simp

theorem print_form_number (cfg : SigConfig) (hempty : get_signal_number cfg [] < 0)
    (n : List Char) (hn : get_signal_number_w cfg n < 0) :
    get_signal_number cfg ((malloc_wcstombs (n.map towupper)).getD []) < 0 := by
  unfold get_signal_number_w at hn
  cases h : malloc_wcstombs (n.map towupper) with
  | none => simpa using hempty
  | some m => rw [h] at hn; simpa using hn

/-- C29: an operand of `trap` that names no signal does not make the exit
status non-zero.  When every signal operand names no signal, both the setting
form (with an action that is not a number) and the printing form return
`Exit_SUCCESS`, which is 0; each operand is reported, in capitals, and nothing
else changes. -/
theorem trap_builtin_unknown_signal (cfg : SigConfig) (env : SigEnv) (printf_ok : Nat → Bool)
    (action : List Char) (names : List (List Char)) (w : TrapBuiltinWorld)
    (haction : ¬ (action ≠ [] ∧ wcstoul_end action = []))
    (hne : names ≠ [])
    (hnames : ∀ n ∈ names, get_signal_number_w cfg n < 0)
    (hempty : get_signal_number cfg [] < 0) :
    trap_builtin cfg env printf_ok (some false) (action :: names) w =
        (Exit_SUCCESS,
          { w with no_such_signal := w.no_such_signal ++ names.map (List.map towupper) }) ∧
      trap_builtin cfg env printf_ok (some true) names w =
        (Exit_SUCCESS,
          { w with no_such_signal := w.no_such_signal ++ names.map (List.map towupper) }) ∧
      Exit_SUCCESS = 0 := by
  obtain ⟨n, rest, rfl⟩ : ∃ n rest, names = n :: rest := by
    cases names with
    | nil => exact absurd rfl hne
    | cons n rest => exact ⟨n, rest, rfl⟩
  refine ⟨?_, ?_, rfl⟩
  · simp only [trap_builtin, if_neg haction, Bool.false_eq_true, if_false]
    rw [set_traps_unknown cfg env _ _ hnames]
    simp
  · simp only [trap_builtin, if_true]
    rw [print_specified_unknown cfg printf_ok _
      (fun m hm => print_form_number cfg hempty m (hnames m hm))]
    simp

/-- C29, at an instance: on Linux `trap echo NOSUCH` and `trap -p NOSUCH`
return exit status 0. -/
theorem trap_builtin_unknown_signal_witness :
    (trap_builtin linux_config plain_env (fun _ => true) (some false)
        ["echo".toList, "NOSUCH".toList] trap_builtin_start).1 = 0 ∧
      (trap_builtin linux_config plain_env (fun _ => true) (some true)
        ["NOSUCH".toList] trap_builtin_start).1 = 0 := by
  have h := trap_builtin_unknown_signal linux_config plain_env (fun _ => true) "echo".toList
    ["NOSUCH".toList] trap_builtin_start (by decide) (by decide) (by decide) (by decide)
  rw [h.1, h.2.1]
  exact ⟨rfl, rfl⟩

set_option maxRecDepth 100000 in
/-- The neighbouring case in `trap_builtin`: an operand that names a signal
which `set_trap` refuses, as in `trap echo KILL`, makes the exit status
`Exit_FAILURE`. -/
theorem trap_builtin_forbidden_signal :
    (trap_builtin linux_config plain_env (fun _ => true) (some false)
      ["echo".toList, "KILL".toList] trap_builtin_start).1 = Exit_FAILURE := by
  decide

/-! ## Theorems on cmd_redo -/

set_option maxRecDepth 100000 in
/-- C28 (amended): from an empty edit buffer, typing `abc` and invoking
`cmd_backward_delete_char` twice leaves the buffer `a`.  `cmd_redo` then
repeats the last editing command: in emacs mode that is
`cmd_backward_delete_char`, which empties the buffer; in vi insert mode no
editing command has been saved, so `cmd_redo` alerts and the buffer stays `a`.
In neither mode is the buffer `ab`. -/
theorem redo_after_backward_delete (vi : Bool) (fuel : Nat) :
    (abc_deleted_state vi).le_main_buffer = "a".toList ∧
      (le_invoke_command_opt Cmd.cmd_redo (cmd_redo fuel) NUL (abc_deleted_state vi)).map
          (fun s => (s.le_main_buffer, s.alerts)) =
        some (if vi = true then ("a".toList, 1) else ([], 0)) ∧
      (abc_deleted_state vi).last_edit_command.1.func =
        (if vi = true then none else some Cmd.cmd_backward_delete_char) := by
  cases vi
  · refine ⟨by decide, ?_, by decide⟩
    have h : (abc_deleted_state false).last_edit_command.1.func =
        some Cmd.cmd_backward_delete_char := by decide
    have hp : (abc_deleted_state false).state.pending_command_motion = MEC.MEC_NONE := by
      decide
    simp only [le_invoke_command_opt, cmd_redo, hp, h, edit_command, ne_eq, not_true_eq_false,
      if_false, Option.map_some', Bool.false_eq_true]
    decide
  · refine ⟨by decide, ?_, by decide⟩
    have h : (abc_deleted_state true).last_edit_command.1.func = none := by decide
    have hp : (abc_deleted_state true).state.pending_command_motion = MEC.MEC_NONE := by
      decide
    simp only [le_invoke_command_opt, cmd_redo, hp, h, ne_eq, not_true_eq_false,
      if_false, Option.map_some', if_true]
    decide

set_option maxRecDepth 100000 in
/-- C28, the counterexample: in emacs mode the buffer after `abc`, two
`cmd_backward_delete_char` and `cmd_redo` is empty, not `ab`. -/
theorem redo_after_backward_delete_counterexample :
    (le_invoke_command_opt Cmd.cmd_redo (cmd_redo 0) NUL (abc_deleted_state false)).map
        (fun s => s.le_main_buffer) = some [] ∧
      (le_invoke_command_opt Cmd.cmd_redo (cmd_redo 0) NUL (abc_deleted_state false)).map
        (fun s => s.le_main_buffer) ≠ some "ab".toList := by
  decide

/-! ## Theorems on quote -/

theorem wcs_of_no_nul (s : List Char) (hs : NUL ∉ s) : wcs s = s := by
  unfold wcs
  rw [List.takeWhile_eq_self_iff]
  intro x hx
  simp only [ne_eq, decide_eq_true_eq]
  rintro rfl
  exact hs hx

theorem quote_normal_eq (qc : List Char) (s : List Char) (buf : List Char) :
    quote_normal qc buf s = buf ++ (s.map (quoted_char qc)).flatten := by
  induction s generalizing buf with
  | nil => simp [quote_normal]
  | cons c s ih =>
    unfold quote_normal
    by_cases h1 : c = '\n'
    · rw [if_pos h1, ih]; simp [quoted_char, h1]
    · rw [if_neg h1]
      by_cases h2 : c ∈ qc ∨ iswspace c = true
      · rw [if_pos h2, ih]; simp [quoted_char, h1, h2]
      · rw [if_neg h2, ih]; simp [quoted_char, h1, h2]

theorem quote_single_eq (s : List Char) (buf : List Char) :
    quote_single buf s = buf ++ (s.map single_quoted_char).flatten := by
  induction s generalizing buf with
  | nil => simp [quote_single]
  | cons c s ih =>
    unfold quote_single
    by_cases h1 : c = APOSTROPHE
    · rw [if_neg (not_not.mpr h1), ih]; simp [single_quoted_char, h1]
    · rw [if_pos h1, ih]; simp [single_quoted_char, h1]

theorem shell_unquote_quoted_char (qc : List Char) (ha : APOSTROPHE ∈ qc) (hb : BACKSLASH ∈ qc)
    (c : Char) (t : List Char) :
    shell_unquote QuoteMode.plain (quoted_char qc c ++ t) = c :: shell_unquote QuoteMode.plain t := by
  unfold quoted_char
  by_cases h1 : c = '\n'
  · subst h1
    have e1 : ('\n' : Char) ≠ APOSTROPHE := by decide
    simp [shell_unquote, e1]
  · rw [if_neg h1]
    by_cases h2 : c ∈ qc ∨ iswspace c = true
    · rw [if_pos h2]
      have e1 : BACKSLASH ≠ APOSTROPHE := by decide
      simp [shell_unquote, e1, h1]
    · rw [if_neg h2]
      have e1 : c ≠ APOSTROPHE := fun h => h2 (Or.inl (h ▸ ha))
      have e2 : c ≠ BACKSLASH := fun h => h2 (Or.inl (h ▸ hb))
      simp [shell_unquote, e1, e2]

theorem shell_unquote_quoted (qc : List Char) (ha : APOSTROPHE ∈ qc) (hb : BACKSLASH ∈ qc)
    (s : List Char) :
    shell_unquote QuoteMode.plain (s.map (quoted_char qc)).flatten = s := by
  induction s with
  | nil => simp [shell_unquote]
  | cons c s ih =>
    rw [List.map_cons, List.flatten_cons, shell_unquote_quoted_char qc ha hb, ih]

theorem quotechars_special (ctxt : le_context_T) :
    APOSTROPHE ∈ quotechars ctxt ∧ BACKSLASH ∈ quotechars ctxt ∧
      ∀ c ∈ "|&;<>()$*?[]#~".toList ++ [BACKQUOTE, DOUBLE_QUOTE], c ∈ quotechars ctxt := by
  unfold quotechars
  by_cases h : ctxt.type = ⟨CtxtKind.CTXT_COMMAND, false, false, false⟩
  · simp only [if_pos h]; decide
  · simp only [if_neg h]; decide

/-- C26: for a string `s` without a NUL character, `quote` in the state
`QUOTE_NORMAL` appends a text from which shell unquoting recovers `s`; the
text is made character by character, a newline becoming apostrophe, newline,
apostrophe and every other character of `quotechars` (which holds the shell's
operators, `$`, the quoting characters and the pattern characters) or white
space being preceded by a backslash.  In the state `QUOTE_SINGLE` every
apostrophe becomes the four characters apostrophe, backslash, apostrophe,
apostrophe and every other character is copied, and in the state `QUOTE_NONE`
the string is copied. -/
theorem quote_round_trip (ctxt : le_context_T) (buf s : List Char) (hs : NUL ∉ s) :
    shell_unquote QuoteMode.plain (quote ctxt [] s le_quote_T.QUOTE_NORMAL) = s ∧
      quote ctxt buf s le_quote_T.QUOTE_NORMAL =
        buf ++ (s.map (quoted_char (quotechars ctxt))).flatten ∧
      (∀ c, c ∈ quotechars ctxt ∨ iswspace c = true →
        quoted_char (quotechars ctxt) c = [BACKSLASH, c] ∨
          quoted_char (quotechars ctxt) c = [APOSTROPHE, c, APOSTROPHE]) ∧
      (∀ c ∈ "|&;<>()$*?[]#~".toList ++ [BACKQUOTE, DOUBLE_QUOTE, APOSTROPHE, BACKSLASH],
        c ∈ quotechars ctxt) ∧
      quote ctxt buf s le_quote_T.QUOTE_SINGLE = buf ++ (s.map single_quoted_char).flatten ∧
      (∀ c, single_quoted_char c =
        if c = APOSTROPHE then [APOSTROPHE, BACKSLASH, APOSTROPHE, APOSTROPHE] else [c]) ∧
      quote ctxt buf s le_quote_T.QUOTE_NONE = buf ++ s := by
  have hq := quotechars_special ctxt
  refine ⟨?_, ?_, ?_, ?_, ?_, fun c => rfl, ?_⟩
  · simp only [quote, wcs_of_no_nul s hs, quote_normal_eq, List.nil_append]
    exact shell_unquote_quoted _ hq.1 hq.2.1 s
  · simp only [quote, wcs_of_no_nul s hs, quote_normal_eq]
  · intro c hc
    unfold quoted_char
    by_cases h1 : c = '\n'
    · right; simp [h1]
    · left; simp [h1, hc]
  · intro c hc
    simp only [List.mem_append, List.mem_cons, List.mem_singleton] at hc
    rcases hc with hc | hc | hc | hc | hc
    · exact hq.2.2 c (List.mem_append_left _ hc)
    · exact hq.2.2 c (by simp [hc])
    · exact hq.2.2 c (by simp [hc])
    · exact hc ▸ hq.1
    · simp at hc
      exact hc ▸ hq.2.1
  · simp only [quote, wcs_of_no_nul s hs, quote_single_eq]
  · simp only [quote, wcs_of_no_nul s hs]

/-- C26, at an instance: the word `a b` followed by an apostrophe. -/
theorem quote_round_trip_witness :
    shell_unquote QuoteMode.plain
        (quote (argument_context [] 0) [] ['a', ' ', 'b', APOSTROPHE]
          le_quote_T.QUOTE_NORMAL) = ['a', ' ', 'b', APOSTROPHE] ∧
      quote (argument_context [] 0) [] ['a', ' ', 'b', APOSTROPHE] le_quote_T.QUOTE_NORMAL =
        ['a', BACKSLASH, ' ', 'b', BACKSLASH, APOSTROPHE] ∧
      quote (argument_context [] 0) [] ['a', ' ', 'b', APOSTROPHE] le_quote_T.QUOTE_SINGLE =
        ['a', ' ', 'b', APOSTROPHE, BACKSLASH, APOSTROPHE, APOSTROPHE] := by
  have h := quote_round_trip (argument_context [] 0) [] ['a', ' ', 'b', APOSTROPHE] (by decide)
  exact ⟨h.1, by decide, by decide⟩

/-! ## Theorems on the completion candidates -/

theorem wcslen_of_no_nul (s : List Char) (hs : NUL ∉ s) : wcslen s = s.length := by
  unfold wcslen; rw [wcs_of_no_nul s hs]

theorem wcs_read_lt (s : List Char) (hs : NUL ∉ s) (j : Nat) (hj : j < s.length) :
    ∃ a, wcs_read s j = some a ∧ s.get? j = some a ∧ a ≠ NUL := by
  refine ⟨s.get ⟨j, hj⟩, ?_, List.get?_eq_get hj, ?_⟩
  · unfold wcs_read
    rw [wcslen_of_no_nul s hs, wcs_of_no_nul s hs, if_pos hj]
    exact List.get?_eq_get hj
  · intro h
    exact hs (h ▸ List.get_mem s j hj)

theorem wcs_read_end (s : List Char) (hs : NUL ∉ s) : wcs_read s s.length = some NUL := by
  unfold wcs_read
  rw [wcslen_of_no_nul s hs]
  simp

theorem take_succ_eq (a b : List Char) (j : Nat) (x : Char) (h : a.take j = b.take j)
    (ha : a.get? j = some x) (hb : b.get? j = some x) : a.take (j + 1) = b.take (j + 1) := by
  rw [List.get?_eq_getElem?] at ha hb
  rw [List.take_succ, List.take_succ, h, ha, hb]

theorem get_of_take_eq (a b : List Char) (j L : Nat) (hjL : j < L)
    (h : a.take L = b.take L) : a.get? j = b.get? j := by
  have h1 : (a.take L)[j]? = a[j]? := List.getElem?_take_of_lt hjL
  have h2 : (b.take L)[j]? = b[j]? := List.getElem?_take_of_lt hjL
  rw [List.get?_eq_getElem?, List.get?_eq_getElem?, ← h1, ← h2, h]

theorem common_prefix_scan_stop (value value2 : List Char) (fuel j : Nat) :
    common_prefix_scan value value2 fuel (j + 1) j = some j := by
  cases fuel with
  | zero => simp [common_prefix_scan]
  | succ n => simp [common_prefix_scan]

theorem common_prefix_scan_spec (value value2 : List Char) (hv : NUL ∉ value)
    (hv2 : NUL ∉ value2) (fuel : Nat) :
    ∀ j cpl, j ≤ cpl → cpl ≤ value.length → cpl - j ≤ fuel → j ≤ value2.length →
      value.take j = value2.take j →
      ∃ L, common_prefix_scan value value2 fuel j cpl = some L ∧ L ≤ cpl ∧
        L ≤ value2.length ∧ value.take L = value2.take L ∧
        ∀ M, M ≤ cpl → M ≤ value2.length → value.take M = value2.take M → M ≤ L := by
  induction fuel with
  | zero =>
    intro j cpl hj hc hf hj2 ht
    have hjc : j = cpl := by omega
    subst hjc
    exact ⟨j, by simp [common_prefix_scan], le_refl _, hj2, ht, fun M hM _ _ => hM⟩
  | succ n ih =>
    intro j cpl hj hc hf hj2 ht
    by_cases hlt : j < cpl
    · obtain ⟨a, ha, hga, hane⟩ := wcs_read_lt value hv j (by omega)
      have hmax : ∀ b, wcs_read value2 j = some b → a ≠ b →
          ∀ M, M ≤ value2.length → value.take M = value2.take M → M ≤ j := by
        intro b hb hab M hM2 hMt
        by_contra hM
        have hjM : j < M := by omega
        have hg := get_of_take_eq value value2 j M hjM hMt
        obtain ⟨b2, hb2, hgb2, _⟩ := wcs_read_lt value2 hv2 j (by omega)
        rw [hga, hgb2] at hg
        rw [hb] at hb2
        injection hg with hg
        injection hb2 with hb2
        exact hab (hg.trans hb2.symm)
      by_cases hj2lt : j < value2.length
      · obtain ⟨b, hb, hgb, _⟩ := wcs_read_lt value2 hv2 j hj2lt
        by_cases hab : a = b
        · subst hab
          obtain ⟨L, hL, h1, h2, h3, h4⟩ := ih (j + 1) cpl (by omega) hc (by omega) (by omega)
            (take_succ_eq value value2 j a ht hga hgb)
          refine ⟨L, ?_, h1, h2, h3, h4⟩
          simp only [common_prefix_scan, if_pos hlt, ha, hb, ne_eq, not_true_eq_false,
            if_false]
          exact hL
        · refine ⟨j, ?_, hj, hj2, ht, fun M _ hM2 hMt => hmax b hb hab M hM2 hMt⟩
          simp only [common_prefix_scan, if_pos hlt, ha, hb, ne_eq, hab, not_false_eq_true,
            if_true]
          exact common_prefix_scan_stop value value2 n j
      · have hje : j = value2.length := by omega
        have hb : wcs_read value2 j = some NUL := hje ▸ wcs_read_end value2 hv2
        refine ⟨j, ?_, hj, hj2, ht, fun M _ hM2 _ => by omega⟩
        simp only [common_prefix_scan, if_pos hlt, ha, hb, ne_eq, hane, not_false_eq_true,
          if_true]
        exact common_prefix_scan_stop value value2 n j
    · have hjc : j = cpl := by omega
      subst hjc
      exact ⟨j, by simp [common_prefix_scan], le_refl _, hj2, ht, fun M hM _ _ => hM⟩

theorem common_prefix_candidates_spec (value : List Char) (hv : NUL ∉ value)
    (rest : List le_candidate_T) (hrest : ∀ c ∈ rest, NUL ∉ c.origvalue) :
    ∀ cpl, cpl ≤ value.length →
      ∃ L, common_prefix_candidates value rest cpl = some L ∧ L ≤ cpl ∧
        (∀ c ∈ rest, L ≤ c.origvalue.length ∧ c.origvalue.take L = value.take L) ∧
        ∀ M, M ≤ cpl →
          (∀ c ∈ rest, M ≤ c.origvalue.length ∧ c.origvalue.take M = value.take M) →
          M ≤ L := by
  induction rest with
  | nil =>
    intro cpl _
    exact ⟨cpl, rfl, le_refl _, fun c hc => absurd hc (List.not_mem_nil _), fun M hM _ => hM⟩
  | cons cand rest ih =>
    intro cpl hc
    have hcand : NUL ∉ cand.origvalue := hrest cand (List.mem_cons_self _ _)
    obtain ⟨K, hK, hK1, hK2, hK3, hK4⟩ :=
      common_prefix_scan_spec value cand.origvalue hv hcand cpl 0 cpl (Nat.zero_le _) hc
        (by omega) (Nat.zero_le _) (by simp)
    obtain ⟨L, hL, hL1, hL2, hL3⟩ :=
      ih (fun c h => hrest c (List.mem_cons_of_mem _ h)) K (by omega)
    refine ⟨L, ?_, by omega, ?_, ?_⟩
    · simp only [common_prefix_candidates, hK]
      exact hL
    · intro c hcm
      rcases List.mem_cons.mp hcm with h | h
      · subst h
        refine ⟨by omega, ?_⟩
        have := congrArg (List.take L) hK3
        rw [List.take_take, List.take_take, Nat.min_eq_left hL1] at this
        exact this.symm
      · exact hL2 c h
    · intro M hM hall
      have h1 := hall cand (List.mem_cons_self _ _)
      have hMK : M ≤ K := hK4 M hM h1.1 h1.2.symm
      exact hL3 M hMK (fun c h => hall c (List.mem_cons_of_mem _ h))

theorem get_common_prefix_length_spec (s : CompleteState) (cands : List le_candidate_T)
    (hcands : s.le_candidates = some cands) (hne : cands ≠ [])
    (hnul : ∀ c ∈ cands, NUL ∉ c.origvalue) (hcache : s.common_prefix_length = SIZE_MAX) :
    ∃ L, get_common_prefix_length s = some (L, { s with common_prefix_length := L }) ∧
      common_prefix_length_ok cands L ∧ ∀ M, common_prefix_length_ok cands M → M ≤ L := by
  obtain ⟨cand, rest, rfl⟩ : ∃ cand rest, cands = cand :: rest := by
    cases cands with
    | nil => exact absurd rfl hne
    | cons cand rest => exact ⟨cand, rest, rfl⟩
  have hcand : NUL ∉ cand.origvalue := hnul cand (List.mem_cons_self _ _)
  obtain ⟨L, hL, hL1, hL2, hL3⟩ :=
    common_prefix_candidates_spec cand.origvalue hcand rest
      (fun c h => hnul c (List.mem_cons_of_mem _ h)) cand.origvalue.length (le_refl _)
  have hok : ∀ M, common_prefix_length_ok (cand :: rest) M ↔
      M ≤ cand.origvalue.length ∧
        ∀ c ∈ rest, M ≤ c.origvalue.length ∧ c.origvalue.take M = cand.origvalue.take M := by
    intro M
    unfold common_prefix_length_ok
    constructor
    · intro h
      have h0 := h cand (List.mem_cons_self _ _)
      rw [wcslen_of_no_nul _ hcand] at h0
      refine ⟨h0.1, fun c hc => ?_⟩
      have h1 := h c (List.mem_cons_of_mem _ hc)
      have hcn := hnul c (List.mem_cons_of_mem _ hc)
      rw [wcslen_of_no_nul _ hcn, wcs_of_no_nul _ hcn] at h1
      simp only [List.headD_cons] at h1
      rw [wcs_of_no_nul _ hcand] at h1
      exact h1
    · intro h c hc
      have hcn := hnul c hc
      rw [wcslen_of_no_nul _ hcn, wcs_of_no_nul _ hcn]
      simp only [List.headD_cons]
      rw [wcs_of_no_nul _ hcand]
      rcases List.mem_cons.mp hc with h1 | h1
      · subst h1; exact ⟨h.1, rfl⟩
      · exact h.2 c h1
  refine ⟨L, ?_, (hok L).mpr ⟨hL1, hL2⟩, fun M hM => hL3 M ((hok M).mp hM).1 ((hok M).mp hM).2⟩
  unfold get_common_prefix_length
  simp only [hcands, complete_assert, Option.isSome_some, if_true, Option.getD_some,
    List.length_cons, Nat.zero_lt_succ, decide_True, hcache, ne_eq, not_true_eq_false, if_false,
    wcslen_of_no_nul _ hcand, hL]

/-- C23: for a non-empty candidate list whose origin values are strings (they
hold no NUL character) and with no cached value, `get_common_prefix_length`
returns, and stores, the largest `L` such that the first `L` characters of
every candidate's origin value are the same; it returns a value at all, so no
character past the terminating NUL of a value is read. -/
theorem get_common_prefix_length_longest (s : CompleteState) (cands : List le_candidate_T)
    (hcands : s.le_candidates = some cands) (hne : cands ≠ [])
    (hnul : ∀ c ∈ cands, NUL ∉ c.origvalue) (hcache : s.common_prefix_length = SIZE_MAX) :
    ∃ L, get_common_prefix_length s = some (L, { s with common_prefix_length := L }) ∧
      common_prefix_length_ok cands L ∧ ∀ M, common_prefix_length_ok cands M → M ≤ L :=
  get_common_prefix_length_spec s cands hcands hne hnul hcache

set_option maxRecDepth 100000 in
/-- C23, at an instance: for the candidates `alpha1` and `alpha2` the result
is 5. -/
theorem get_common_prefix_length_longest_witness :
    (∃ L, get_common_prefix_length alpha_listed_state =
        some (L, { alpha_listed_state with common_prefix_length := L }) ∧
      common_prefix_length_ok [⟨"alpha1".toList, true⟩, ⟨"alpha2".toList, true⟩] L ∧
      ∀ M, common_prefix_length_ok [⟨"alpha1".toList, true⟩, ⟨"alpha2".toList, true⟩] M →
        M ≤ L) ∧
      (get_common_prefix_length alpha_listed_state).map Prod.fst = some 5 :=
  ⟨get_common_prefix_length_longest alpha_listed_state
    [⟨"alpha1".toList, true⟩, ⟨"alpha2".toList, true⟩] rfl (by decide) (by decide) rfl,
   by decide⟩

theorem need_subst_false (ctxt : le_context_T) (cands : List le_candidate_T)
    (hsrc : ∀ c ∈ cands, ctxt.src.isPrefixOf c.origvalue = true)
    (hnul : ∀ c ∈ cands, NUL ∉ c.origvalue) (hsrcnul : NUL ∉ ctxt.src) :
    need_subst ctxt cands = false := by
  unfold need_subst
  rw [List.any_eq_false]
  intro c hc
  simp only [ matchwcsprefix, wcs_of_no_nul _ (hnul c hc), wcs_of_no_nul _ hsrcnul, hsrc c hc,
    Bool.not_true, Bool.false_eq_true, not_false_eq_true]

theorem source_word_common (src : List Char) (cand : le_candidate_T)
    (rest : List le_candidate_T)
    (hsrc : ∀ c ∈ cand :: rest, src.isPrefixOf c.origvalue = true)
    (hnul : ∀ c ∈ cand :: rest, NUL ∉ c.origvalue) :
    common_prefix_length_ok (cand :: rest) src.length := by
  have key : ∀ c ∈ cand :: rest, src.length ≤ c.origvalue.length ∧
      c.origvalue.take src.length = src := by
    intro c hc
    have h := hsrc c hc
    rw [ List.isPrefixOf_iff_prefix] at h
    obtain ⟨t, ht⟩ := h
    rw [← ht]
    simp
  intro c hc
  rw [wcslen_of_no_nul _ (hnul c hc), wcs_of_no_nul _ (hnul c hc)]
  simp only [List.headD_cons]
  rw [wcs_of_no_nul _ (hnul cand (List.mem_cons_self _ _))]
  exact ⟨(key c hc).1, (key c hc).2.trans (key cand (List.mem_cons_self _ _)).2.symm⟩

theorem lecr_normal_listing (s : CompleteState) (ctxt : le_context_T) (cand : le_candidate_T)
    (rest : List le_candidate_T)
    (hctxt : s.ctxt = some ctxt) (hcands : s.le_candidates = some (cand :: rest))
    (hrest : rest ≠ []) (hsubst : ctxt.substsrc = false)
    (hsrc : ∀ c ∈ cand :: rest, ctxt.src.isPrefixOf c.origvalue = true)
    (hnul : ∀ c ∈ cand :: rest, NUL ∉ c.origvalue) (hsrcnul : NUL ∉ ctxt.src)
    (hcache : s.common_prefix_length = SIZE_MAX)
    (hmem : cand.origvalue.length < SIZE_MOD)
    (hlo : ctxt.origindex ≤ s.le_main_index) (hhi : s.le_main_index < SIZE_MOD) :
    ∃ L, common_prefix_length_ok (cand :: rest) L ∧
      (∀ M, common_prefix_length_ok (cand :: rest) M → M ≤ L) ∧
      lecr_normal s = some
        { s with
          le_selected_candidate_index := (cand :: rest).length
          common_prefix_length := L
          le_main_buffer :=
            s.le_main_buffer.take ctxt.origindex ++
              quote ctxt [] ((cand.origvalue.take L).drop ctxt.src.length) ctxt.quote ++
              s.le_main_buffer.drop s.le_main_index
          le_main_index := ctxt.origindex +
            (quote ctxt [] ((cand.origvalue.take L).drop ctxt.src.length) ctxt.quote).length } := by
  obtain ⟨c0, l0, i0, p0, b0, m0, a0⟩ := s
  simp only at hctxt hcands hcache hlo hhi
  subst hctxt hcands hcache
  obtain ⟨L, hL, hok, hmax⟩ := get_common_prefix_length_spec
    ⟨some ctxt, some (cand :: rest), rest.length + 1, SIZE_MAX, b0, m0, a0⟩ (cand :: rest) rfl
    (List.cons_ne_nil _ _) hnul rfl
  have hsrcL : ctxt.src.length ≤ L := hmax _ (source_word_common ctxt.src cand rest hsrc hnul)
  have hcn : NUL ∉ cand.origvalue := hnul cand (List.mem_cons_self _ _)
  have hdn : NUL ∉ cand.origvalue.drop ctxt.src.length :=
    fun h => hcn (List.mem_of_mem_drop h)
  have hLlen : L ≤ cand.origvalue.length := by
    have h1 := (hok cand (List.mem_cons_self _ _)).1
    rwa [wcslen_of_no_nul _ hcn] at h1
  have hlen1 : ¬ rest.length + 1 = 1 := by
    cases rest with
    | nil => exact absurd rfl hrest
    | cons a b => simp
  refine ⟨L, hok, hmax, ?_⟩
  have hns := need_subst_false ctxt (cand :: rest) hsrc hnul hsrcnul
  simp only [lecr_normal, List.length_cons, Nat.add_one_ne_zero, if_false, hsubst,
    hns, Bool.false_eq_true, or_self, hlen1]
  simp only [update_main_buffer, Bool.false_eq_true, if_false,
    update_main_buffer_text, List.length_cons, ge_iff_le, le_refl, if_true]
  rw [hL]
  simp only [complete_assert, wcslen_of_no_nul _ hsrcnul, hsrcL, decide_True, if_true,
    List.head?_cons, hlo, ge_iff_le, wcs_of_no_nul _ hdn, le_refl]
  rw [size_sub_of_le _ _ hsrcL (lt_of_le_of_lt hLlen hmem), size_sub_of_le _ _ hlo hhi,
    List.drop_take]
  simp only [wb_replace_force, List.take_length, Nat.add_sub_cancel' hlo]

/-- C24 (amended): when the candidate list holds two or more candidates that
are strings beginning with the source word, and the source word is not to be
substituted (`substsrc` of the context is unset), `lecr_normal` returns with no candidate selected (the selected
index is the number of candidates), and the text between `origindex`, where
the source word ends, and the cursor is replaced by the quoted rest of the
longest common prefix `L` of the candidates after the source word; the cursor
is put right after it and the edit line is the same before and after
it. -/
theorem lecr_normal_inserts_common (s : CompleteState) (ctxt : le_context_T)
    (cand : le_candidate_T) (rest : List le_candidate_T)
    (hctxt : s.ctxt = some ctxt) (hcands : s.le_candidates = some (cand :: rest))
    (hrest : rest ≠ []) (hsubst : ctxt.substsrc = false)
    (hsrc : ∀ c ∈ cand :: rest, ctxt.src.isPrefixOf c.origvalue = true)
    (hnul : ∀ c ∈ cand :: rest, NUL ∉ c.origvalue) (hsrcnul : NUL ∉ ctxt.src)
    (hcache : s.common_prefix_length = SIZE_MAX)
    (hmem : cand.origvalue.length < SIZE_MOD)
    (hlo : ctxt.origindex ≤ s.le_main_index) (hhi : s.le_main_index < SIZE_MOD) :
    ∃ L, common_prefix_length_ok (cand :: rest) L ∧
      (∀ M, common_prefix_length_ok (cand :: rest) M → M ≤ L) ∧
      lecr_normal s = some
        { s with
          le_selected_candidate_index := (cand :: rest).length
          common_prefix_length := L
          le_main_buffer :=
            s.le_main_buffer.take ctxt.origindex ++
              quote ctxt [] ((cand.origvalue.take L).drop ctxt.src.length) ctxt.quote ++
              s.le_main_buffer.drop s.le_main_index
          le_main_index := ctxt.origindex +
            (quote ctxt [] ((cand.origvalue.take L).drop ctxt.src.length) ctxt.quote).length } :=
  lecr_normal_listing s ctxt cand rest hctxt hcands hrest hsubst hsrc hnul hsrcnul hcache hmem
    hlo hhi

set_option maxRecDepth 100000 in
/-- C24, at an instance: for the edit line `al` and the candidates `alpha1`
and `alpha2` the edit line becomes `alpha`, also when the candidates come from
`le_complete`. -/
theorem lecr_normal_inserts_common_witness :
    (∃ L, common_prefix_length_ok [⟨"alpha1".toList, true⟩, ⟨"alpha2".toList, true⟩] L ∧
      (∀ M, common_prefix_length_ok [⟨"alpha1".toList, true⟩, ⟨"alpha2".toList, true⟩] M →
        M ≤ L) ∧
      lecr_normal alpha_listed_state = some
        { alpha_listed_state with
          le_selected_candidate_index := 2
          common_prefix_length := L
          le_main_buffer :=
            "al".toList.take 2 ++
              quote (argument_context "al".toList 0) []
                (("alpha1".toList.take L).drop 2) le_quote_T.QUOTE_NORMAL ++
              "al".toList.drop 2
          le_main_index := 2 +
            (quote (argument_context "al".toList 0) []
              (("alpha1".toList.take L).drop 2) le_quote_T.QUOTE_NORMAL).length }) ∧
      (lecr_normal alpha_listed_state).map
          (fun s => (s.le_main_buffer, s.le_main_index, s.le_selected_candidate_index)) =
        some ("alpha".toList, 5, 2) ∧
      (le_complete directory_env lecr_normal typed_al_state).map
          (fun s => (s.le_main_buffer, s.le_main_index, s.le_selected_candidate_index)) =
        some ("alpha".toList, 5, 2) :=
  ⟨lecr_normal_inserts_common alpha_listed_state (argument_context "al".toList 0)
      ⟨"alpha1".toList, true⟩ [⟨"alpha2".toList, true⟩] rfl rfl (by decide) rfl (by decide)
      (by decide) (by decide) rfl (by decide) (by decide) (by decide),
    by decide, by decide⟩

/-- When the context asks for the source word to be substituted and there is
a candidate, `lecr_normal` selects index 0, substitutes all candidates for the
source word and cleans up, whether or not the candidates begin with the source
word. -/
theorem lecr_normal_substitutes (s : CompleteState) (ctxt : le_context_T)
    (cands : List le_candidate_T) (hctxt : s.ctxt = some ctxt)
    (hcands : s.le_candidates = some cands) (hne : cands ≠ [])
    (hsubst : ctxt.substsrc = true) :
    lecr_normal s =
      (substitute_source_word_all { s with le_selected_candidate_index := 0 }).map
        le_complete_cleanup := by
  have hlen : ¬ cands.length = 0 := fun h => hne (List.length_eq_zero.mp h)
  unfold lecr_normal
  rw [hcands]
  simp only [hlen, if_false, hctxt, hsubst, true_or, if_true]

set_option maxRecDepth 100000 in
/-- C24 (counterexample): for the edit line `al` and the candidates `alpha1`
and `alpha2`, which both begin with the source word, under a context with
`substsrc` set, `lecr_normal` selects candidate 0, replaces the source word by
all candidates, which gives the line `alpha1 alpha2 ` with the cursor at its
end, and drops the candidate list. -/
theorem lecr_normal_inserts_common_counterexample :
    need_subst { argument_context "al".toList 0 with substsrc := true }
      [⟨"alpha1".toList, true⟩, ⟨"alpha2".toList, true⟩] = false ∧
    (lecr_normal alpha_subst_state).map
        (fun s => (s.le_main_buffer, s.le_main_index, s.le_selected_candidate_index,
          s.le_candidates)) =
      some ("alpha1 alpha2 ".toList, 14, 0, none) := by
  decide

theorem select_sub (i n r : Nat) (hmem : 8 * n < SIZE_MOD) (hi : i ≤ n) (hri : r ≤ i) :
    size_sub i r = i - r := by
  unfold size_sub SIZE_MOD at *; omega

theorem select_wrap (i n r : Nat) (hmem : 8 * n < SIZE_MOD) (hr : r < n + 1)
    (hri : ¬ r ≤ i) :
    (i + (size_sub n r + 1) % SIZE_MOD) % SIZE_MOD = i + n + 1 - r := by
  unfold size_sub SIZE_MOD at *; omega

theorem select_offset_mod (n k : Nat) (hk : k < 2147483648) :
    (to_int (((((k : Int) % (SIZE_MOD : Int)).toNat % (n + 1) : Nat) : Int)) %
      (SIZE_MOD : Int)).toNat = k % (n + 1) := by
  have e1 : ((k : Int) % (SIZE_MOD : Int)).toNat = k := by unfold SIZE_MOD; omega
  have hrk : k % (n + 1) ≤ k := Nat.mod_le _ _
  rw [e1]
  generalize k % (n + 1) = r at *
  unfold to_int SIZE_MOD
  omega

theorem emod_shift (m x y q : Int) (hy0 : 0 ≤ y) (hym : y < m)
    (h : x = y + m * q) : x % m = y := by
  rw [h, Int.add_mul_emod_self_left]
  exact Int.emod_eq_of_lt hy0 hym

theorem select_candidate_index_eq (n i : Nat) (offset : Int) (hmem : 8 * n < SIZE_MOD)
    (hi : i ≤ n) (hlo : INT_MIN < offset) (hhi : offset ≤ INT_MAX) :
    ((select_candidate_index n i offset : Nat) : Int) = ((i : Int) + offset) % ((n : Int) + 1) := by
  have hm : (n + 1) % SIZE_MOD = n + 1 := by unfold SIZE_MOD at *; omega
  unfold select_candidate_index
  rw [hm]
  by_cases h0 : offset ≥ 0
  · rw [if_pos h0]
    obtain ⟨k, rfl⟩ : ∃ k : Nat, offset = (k : Int) := ⟨offset.toNat, (Int.toNat_of_nonneg h0).symm⟩
    have hk : k < 2147483648 := by unfold INT_MAX at hhi; omega
    simp only [select_offset_mod n k hk]
    have hr : k % (n + 1) < n + 1 := Nat.mod_lt _ (Nat.succ_pos _)
    have e4 : (i + k % (n + 1)) % SIZE_MOD = i + k % (n + 1) := by
      generalize k % (n + 1) = r at *
      unfold SIZE_MOD at *; omega
    rw [e4]
    have e5 : (i + k % (n + 1)) % (n + 1) = (i + k) % (n + 1) := by
      rw [Nat.add_mod, Nat.mod_mod, ← Nat.add_mod]
    rw [e5]
    push_cast
    rfl
  · rw [if_neg h0]
    obtain ⟨k, hk0⟩ : ∃ k : Nat, -offset = (k : Int) :=
      ⟨(-offset).toNat, (Int.toNat_of_nonneg (by omega)).symm⟩
    have hoff : offset = -(k : Int) := by omega
    have hk : k < 2147483648 := by unfold INT_MIN at hlo; omega
    have e0 : to_int (-offset) = (k : Int) := by rw [hk0]; unfold to_int; omega
    rw [e0]
    simp only [select_offset_mod n k hk]
    have hr : k % (n + 1) < n + 1 := Nat.mod_lt _ (Nat.succ_pos _)
    have hdiv : (k : Int) = ((k % (n + 1) : Nat) : Int) +
        ((n : Int) + 1) * ((k / (n + 1) : Nat) : Int) := by
      have := Nat.mod_add_div k (n + 1)
      exact_mod_cast this.symm
    generalize k % (n + 1) = r at *
    generalize ((k / (n + 1) : Nat) : Int) = q at *
    by_cases hri : r ≤ i
    · rw [if_pos hri, select_sub i n r hmem hi hri]
      refine (emod_shift _ _ _ (-q) (by omega) (by omega) ?_).symm
      rw [hoff, hdiv]
      push_cast [Nat.cast_sub hri]
      ring
    · rw [if_neg hri, select_wrap i n r hmem hr hri]
      have hle : r ≤ i + n + 1 := by omega
      refine (emod_shift _ _ _ (-q - 1) (by omega) (by omega) ?_).symm
      rw [hoff, hdiv]
      push_cast [Nat.cast_sub hle]
      ring

theorem get_common_prefix_length_some (s : CompleteState) (cands : List le_candidate_T)
    (hcands : s.le_candidates = some cands) (hne : cands ≠ [])
    (hnul : ∀ c ∈ cands, NUL ∉ c.origvalue) :
    ∃ L, get_common_prefix_length s = some (L, { s with common_prefix_length := L }) := by
  by_cases hcache : s.common_prefix_length = SIZE_MAX
  · obtain ⟨L, hL, _⟩ := get_common_prefix_length_spec s cands hcands hne hnul hcache
    exact ⟨L, hL⟩
  · refine ⟨s.common_prefix_length, ?_⟩
    have hlen : 0 < cands.length := List.length_pos.mpr hne
    obtain ⟨c0, l0, i0, p0, b0, m0, a0⟩ := s
    simp only at hcands hcache
    subst hcands
    simp only [get_common_prefix_length, complete_assert, Option.isSome_some, if_true,
      Option.getD_some, hlen, decide_True, ne_eq, hcache, not_false_eq_true]

theorem complete_assert_fields (c : Bool) (s : CompleteState) :
    (complete_assert c s).le_selected_candidate_index = s.le_selected_candidate_index ∧
      (complete_assert c s).le_candidates = s.le_candidates ∧
      (complete_assert c s).ctxt = s.ctxt ∧
      (complete_assert c s).le_main_buffer = s.le_main_buffer ∧
      (complete_assert c s).le_main_index = s.le_main_index := by
  unfold complete_assert
  cases c <;> simp

theorem close_word_fields (ctxt : le_context_T) (quotetype : le_quote_T) (finish : Bool)
    (s : CompleteState) :
    (close_word ctxt quotetype finish s).le_selected_candidate_index =
        s.le_selected_candidate_index ∧
      (close_word ctxt quotetype finish s).le_candidates = s.le_candidates := by
  unfold close_word
  cases quotetype <;> cases finish <;> cases ctxt.type.CTXT_VBRACED <;>
    cases ctxt.type.CTXT_EBRACED <;> cases ctxt.type.CTXT_QUOTED <;>
    cases ctxt.type.kind <;> simp [insert_at_cursor]

theorem update_main_buffer_text_some (ctxt : le_context_T) (cands : List le_candidate_T)
    (srclen : Nat) (quotetype : le_quote_T) (s : CompleteState)
    (hcands : s.le_candidates = some cands) (hne : cands ≠ [])
    (hnul : ∀ c ∈ cands, NUL ∉ c.origvalue) :
    ∃ buf cand t, update_main_buffer_text ctxt cands srclen quotetype s = some (buf, cand, t) ∧
      t.le_selected_candidate_index = s.le_selected_candidate_index ∧
      t.le_candidates = s.le_candidates := by
  obtain ⟨L, hL⟩ := get_common_prefix_length_some s cands hcands hne hnul
  obtain ⟨cand0, rest, rfl⟩ : ∃ cand rest, cands = cand :: rest := by
    cases cands with
    | nil => exact absurd rfl hne
    | cons cand rest => exact ⟨cand, rest, rfl⟩
  unfold update_main_buffer_text
  by_cases hsel : s.le_selected_candidate_index ≥ (cand0 :: rest).length
  · rw [if_pos hsel, hL]
    exact ⟨_, _, _, rfl, (complete_assert_fields _ _).1, (complete_assert_fields _ _).2.1⟩
  · have hlt : s.le_selected_candidate_index < (cand0 :: rest).length := by omega
    rw [if_neg hsel, List.get?_eq_get hlt]
    dsimp only
    split_ifs
    · exact ⟨_, _, _, rfl, (complete_assert_fields _ _).1, (complete_assert_fields _ _).2.1⟩
    · exact ⟨_, _, _, rfl, (complete_assert_fields _ _).1, (complete_assert_fields _ _).2.1⟩

theorem update_main_buffer_index (subst finish : Bool) (s : CompleteState)
    (ctxt : le_context_T) (cands : List le_candidate_T)
    (hctxt : s.ctxt = some ctxt) (hcands : s.le_candidates = some cands) (hne : cands ≠ [])
    (hnul : ∀ c ∈ cands, NUL ∉ c.origvalue) :
    ∃ t, update_main_buffer subst finish s = some t ∧
      t.le_selected_candidate_index = s.le_selected_candidate_index ∧
      t.le_candidates = some cands := by
  obtain ⟨buf, cand, t, ht, h1, h2⟩ := update_main_buffer_text_some ctxt cands
    (if subst = true then 0 else wcslen ctxt.src)
    (if subst = true then le_quote_T.QUOTE_NORMAL else ctxt.quote) s hcands hne hnul
  unfold update_main_buffer
  rw [hctxt, hcands]
  dsimp only
  rw [ht]
  dsimp only
  generalize (if subst = true then ctxt.srcindex else ctxt.origindex) = si
  generalize (if subst = true then le_quote_T.QUOTE_NORMAL else ctxt.quote) = qt
  have hf := complete_assert_fields (decide (t.le_main_index ≥ si)) t
  split_ifs
  · exact ⟨_, rfl, hf.1.trans h1, hf.2.1.trans (h2.trans hcands)⟩
  · exact ⟨_, rfl, hf.1.trans h1, hf.2.1.trans (h2.trans hcands)⟩
  · refine ⟨_, rfl, ?_, ?_⟩
    · exact (close_word_fields _ _ _ _).1.trans (hf.1.trans h1)
    · exact (close_word_fields _ _ _ _).2.trans (hf.2.1.trans (h2.trans hcands))

/-- C25: with `n >= 1` candidates (the list being in memory), a selected index
`i <= n` and an `int` offset above `INT_MIN`, `le_complete_select_candidate`
returns with the selected index `(i + offset) mod (n + 1)`, which is at most
`n`, and with the same candidates; from no candidate selected (`i = n`) the
offset 1 selects the first candidate. -/
theorem select_candidate_wraps (env : CompleteEnv) (s : CompleteState) (ctxt : le_context_T)
    (cands : List le_candidate_T) (offset : Int)
    (hctxt : s.ctxt = some ctxt) (hcands : s.le_candidates = some cands)
    (hn : 1 ≤ cands.length) (hmem : 8 * cands.length < SIZE_MOD)
    (hi : s.le_selected_candidate_index ≤ cands.length)
    (hnul : ∀ c ∈ cands, NUL ∉ c.origvalue)
    (hlo : INT_MIN < offset) (hhi : offset ≤ INT_MAX) :
    ∃ t, le_complete_select_candidate env offset s = some t ∧
      (t.le_selected_candidate_index : Int) =
        ((s.le_selected_candidate_index : Int) + offset) % ((cands.length : Int) + 1) ∧
      t.le_selected_candidate_index ≤ cands.length ∧
      t.le_candidates = some cands ∧
      (s.le_selected_candidate_index = cands.length → offset = 1 →
        t.le_selected_candidate_index = 0) := by
  have hne : cands ≠ [] := by
    intro h; rw [h] at hn; simp at hn
  have hne0 : ¬ cands.length = 0 := by omega
  have heq := select_candidate_index_eq cands.length s.le_selected_candidate_index offset hmem hi
    hlo hhi
  have hf1 := complete_assert_fields (decide (s.le_selected_candidate_index ≤ cands.length)) s
  obtain ⟨t, ht, ht1, ht2⟩ := update_main_buffer_index false false
    (complete_assert
      (decide (select_candidate_index cands.length s.le_selected_candidate_index offset ≤
        cands.length))
      { complete_assert (decide (s.le_selected_candidate_index ≤ cands.length)) s with
        le_selected_candidate_index :=
          select_candidate_index cands.length s.le_selected_candidate_index offset })
    ctxt cands
    ((complete_assert_fields _ _).2.2.1.trans (hf1.2.2.1.trans hctxt))
    ((complete_assert_fields _ _).2.1.trans (hf1.2.1.trans hcands)) hne hnul
  have hidx : t.le_selected_candidate_index =
      select_candidate_index cands.length s.le_selected_candidate_index offset :=
    ht1.trans (complete_assert_fields _ _).1
  have hnat : ((t.le_selected_candidate_index : Nat) : Int) =
      ((s.le_selected_candidate_index : Int) + offset) % ((cands.length : Int) + 1) := by
    rw [hidx]; exact heq
  have hlt : ((s.le_selected_candidate_index : Int) + offset) % ((cands.length : Int) + 1) <
      (cands.length : Int) + 1 := Int.emod_lt_of_pos _ (by omega)
  refine ⟨t, ?_, hnat, by omega, ht2, ?_⟩
  · unfold le_complete_select_candidate
    rw [hcands]
    simp only [if_neg hne0, hf1.1]
    exact ht
  · intro h1 h2
    rw [h1, h2] at hnat
    have : ((cands.length : Int) + 1) % ((cands.length : Int) + 1) = 0 := Int.emod_self
    omega

set_option maxRecDepth 100000 in
/-- C25, at an instance: with the candidates `alpha1` and `alpha2` listed and
none selected, the offset 1 selects `alpha1`, the offset -1 selects `alpha2`;
and two calls with offset 1 from the edit line `al` leave `alpha1` in the
edit line. -/
theorem select_candidate_wraps_witness :
    (∃ t, le_complete_select_candidate directory_env 1 alpha_prefix_state = some t ∧
      (t.le_selected_candidate_index : Int) = ((2 : Nat) + 1) % (((2 : Nat) : Int) + 1) ∧
      t.le_selected_candidate_index ≤ 2 ∧
      t.le_candidates = some [⟨"alpha1".toList, true⟩, ⟨"alpha2".toList, true⟩] ∧
      ((2 : Nat) = 2 → (1 : Int) = 1 → t.le_selected_candidate_index = 0)) ∧
      (le_complete_select_candidate directory_env (-1) alpha_prefix_state).map
          (fun s => (s.le_main_buffer, s.le_selected_candidate_index)) =
        some ("alpha2".toList, 1) ∧
      ((le_complete_select_candidate directory_env 1 typed_al_state).bind
          (le_complete_select_candidate directory_env 1)).map
          (fun s => (s.le_main_buffer, s.le_selected_candidate_index)) =
        some ("alpha1".toList, 0) :=
  ⟨select_candidate_wraps directory_env alpha_prefix_state (argument_context "al".toList 0)
      [⟨"alpha1".toList, true⟩, ⟨"alpha2".toList, true⟩] 1 rfl rfl (by decide) (by decide)
      (by decide) (by decide) (by decide) (by decide),
    by decide, by decide⟩

/-! ## Theorems on sort_candidates -/

theorem wcscoll_self (x : List Char) : wcscoll x x = 0 := by
  induction x with
  | nil => rfl
  | cons a s ih => simp [wcscoll, ih]

theorem wcscoll_eq_zero (x y : List Char) (h : wcscoll x y = 0) : x = y := by
  induction x generalizing y with
  | nil =>
    cases y with
    | nil => rfl
    | cons b t => simp [wcscoll] at h
  | cons a s ih =>
    cases y with
    | nil => simp [wcscoll] at h
    | cons b t =>
      unfold wcscoll at h
      by_cases hab : a = b
      · rw [if_pos hab] at h
        rw [hab, ih t h]
      · rw [if_neg hab] at h
        split_ifs at h
        omega

theorem wcscoll_swap (x y : List Char) : wcscoll y x = -wcscoll x y := by
  induction x generalizing y with
  | nil =>
    cases y with
    | nil => rfl
    | cons b t => simp [wcscoll]
  | cons a s ih =>
    cases y with
    | nil => simp [wcscoll]
    | cons b t =>
      unfold wcscoll
      by_cases hab : a = b
      · rw [if_pos hab, if_pos hab.symm]
        exact ih t
      · rw [if_neg hab, if_neg (fun h => hab h.symm)]
        rcases lt_or_gt_of_ne hab with h | h
        · rw [if_pos h, if_neg (lt_asymm h)]
          rfl
        · rw [if_neg (lt_asymm h), if_pos h]

theorem wcscoll_trans (x y z : List Char) (h1 : wcscoll x y ≤ 0) (h2 : wcscoll y z ≤ 0) :
    wcscoll x z ≤ 0 := by
  induction x generalizing y z with
  | nil =>
    cases z with
    | nil => simp [wcscoll]
    | cons c u => simp [wcscoll]
  | cons a s ih =>
    cases y with
    | nil => simp [wcscoll] at h1
    | cons b t =>
      cases z with
      | nil => simp [wcscoll] at h2
      | cons c u =>
        unfold wcscoll at h1 h2 ⊢
        by_cases hab : a = b
        · subst hab
          rw [if_pos rfl] at h1
          by_cases hac : a = c
          · subst hac
            rw [if_pos rfl] at h2 ⊢
            exact ih t u h1 h2
          · rw [if_neg hac] at h2 ⊢
            exact h2
        · rw [if_neg hab] at h1
          have hlt : a < b := by
            by_contra hn
            rw [if_neg hn] at h1
            omega
          by_cases hbc : b = c
          · subst hbc
            rw [if_neg hab, if_pos hlt]
            omega
          · rw [if_neg hbc] at h2
            have hlt2 : b < c := by
              by_contra hn
              rw [if_neg hn] at h2
              omega
            have hac : a < c := lt_trans hlt hlt2
            rw [if_neg (ne_of_lt hac), if_pos hac]
            omega

theorem wcscoll_total (x y : List Char) : wcscoll x y ≤ 0 ∨ wcscoll y x ≤ 0 := by
  have h := wcscoll_swap x y
  omega

theorem wcscoll_antisymm (x y : List Char) (h1 : wcscoll x y ≤ 0) (h2 : wcscoll y x ≤ 0) :
    x = y := by
  have h := wcscoll_swap x y
  exact wcscoll_eq_zero x y (by omega)

theorem wcscoll_lt_trans_left (x y z : List Char) (h1 : wcscoll x y < 0)
    (h2 : wcscoll y z ≤ 0) : wcscoll x z < 0 := by
  have h3 := wcscoll_trans x y z (by omega) h2
  by_contra hn
  have h4 : wcscoll x z = 0 := by omega
  have h5 := wcscoll_eq_zero x z h4
  subst h5
  have := wcscoll_swap x y
  omega

theorem wcscoll_lt_trans_right (x y z : List Char) (h1 : wcscoll x y ≤ 0)
    (h2 : wcscoll y z < 0) : wcscoll x z < 0 := by
  have h3 := wcscoll_trans x y z h1 (by omega)
  by_contra hn
  have h4 : wcscoll x z = 0 := by omega
  have h5 := wcscoll_eq_zero x z h4
  subst h5
  have := wcscoll_swap x y
  omega

theorem wcscasecmp_eq (x y : List Char) :
    wcscasecmp x y = wcscoll (x.map towlower) (y.map towlower) := by
  induction x generalizing y with
  | nil =>
    cases y with
    | nil => rfl
    | cons b t => simp [wcscoll, wcscasecmp]
  | cons a s ih =>
    cases y with
    | nil => simp [wcscoll, wcscasecmp]
    | cons b t => simp only [wcscasecmp, List.map_cons, wcscoll, ih]

theorem rest_le_total (fold : Bool) (x y : List Char) : rest_le fold x y ∨ rest_le fold y x := by
  unfold rest_le
  cases fold
  · simp only [Bool.false_eq_true, if_false]
    exact wcscoll_total x y
  · simp only [if_true, wcscasecmp_eq]
    have h1 := wcscoll_swap (x.map towlower) (y.map towlower)
    have h2 := wcscoll_swap x y
    omega

theorem rest_le_trans (fold : Bool) (x y z : List Char) (h1 : rest_le fold x y)
    (h2 : rest_le fold y z) : rest_le fold x z := by
  unfold rest_le at *
  cases fold
  · simp only [Bool.false_eq_true, if_false] at *
    exact wcscoll_trans x y z h1 h2
  · simp only [if_true, wcscasecmp_eq] at *
    rcases h1 with h1 | ⟨h1, h1b⟩
    · rcases h2 with h2 | ⟨h2, _⟩
      · exact Or.inl (wcscoll_lt_trans_left _ _ _ h1 (by omega))
      · exact Or.inl (wcscoll_lt_trans_left _ _ _ h1 (by omega))
    · rcases h2 with h2 | ⟨h2, h2b⟩
      · exact Or.inl (wcscoll_lt_trans_right _ _ _ (by omega) h2)
      · right
        have e1 := wcscoll_eq_zero _ _ h1
        have e2 := wcscoll_eq_zero _ _ h2
        exact ⟨by rw [e1, e2]; exact wcscoll_self _, wcscoll_trans x y z h1b h2b⟩

theorem rest_le_antisymm (fold : Bool) (x y : List Char) (h1 : rest_le fold x y)
    (h2 : rest_le fold y x) : x = y := by
  unfold rest_le at *
  cases fold
  · simp only [Bool.false_eq_true, if_false] at *
    exact wcscoll_antisymm x y h1 h2
  · simp only [if_true, wcscasecmp_eq] at *
    have h3 := wcscoll_swap (x.map towlower) (y.map towlower)
    rcases h1 with h1 | ⟨_, h1b⟩
    · rcases h2 with h2 | ⟨h2, _⟩ <;> omega
    · rcases h2 with h2 | ⟨_, h2b⟩
      · omega
      · exact wcscoll_antisymm x y h1b h2b

theorem leading_hyphens_cons_hyphen (s : List Char) :
    leading_hyphens ('-' :: s) = leading_hyphens s + 1 := by
  simp [leading_hyphens, List.takeWhile]

theorem leading_hyphens_cons_other (a : Char) (s : List Char) (h : a ≠ '-') :
    leading_hyphens (a :: s) = 0 := by
  simp [leading_hyphens, List.takeWhile, h]

theorem leading_hyphens_nil : leading_hyphens [] = 0 := rfl

theorem leading_hyphens_pos_iff (v : List Char) :
    v.head? = some '-' ↔ 0 < leading_hyphens v := by
  cases v with
  | nil => simp [leading_hyphens]
  | cons a s =>
    by_cases h : a = '-'
    · subst h; simp [leading_hyphens_cons_hyphen]
    · simp [leading_hyphens_cons_other a s h, h]

theorem take_leading_hyphens (v : List Char) :
    v.take (leading_hyphens v) = List.replicate (leading_hyphens v) '-' := by
  induction v with
  | nil => rfl
  | cons a s ih =>
    by_cases h : a = '-'
    · subst h
      rw [leading_hyphens_cons_hyphen, List.take_succ_cons, ih, List.replicate_succ]
    · rw [leading_hyphens_cons_other a s h]
      rfl

theorem eq_of_hyphens_rest (v1 v2 : List Char)
    (h : leading_hyphens v1 = leading_hyphens v2)
    (hr : v1.drop (leading_hyphens v1) = v2.drop (leading_hyphens v2)) : v1 = v2 := by
  rw [← List.take_append_drop (leading_hyphens v1) v1,
    ← List.take_append_drop (leading_hyphens v2) v2, take_leading_hyphens, take_leading_hyphens,
    hr, h]

/-- What `sort_candidates_cmp` returns once one of the values is known to
start with a hyphen. -/
theorem hyphen_branch_le_iff (HAVE_WCSCASECMP : Bool) (v1 v2 : List Char) :
    (if (skip_hyphens v1 v2).1.head? = some '-' then (1 : Int)
      else if (skip_hyphens v1 v2).2.head? = some '-' then -1
      else if HAVE_WCSCASECMP = true ∧
          wcscasecmp (skip_hyphens v1 v2).1 (skip_hyphens v1 v2).2 ≠ 0 then
        wcscasecmp (skip_hyphens v1 v2).1 (skip_hyphens v1 v2).2
      else wcscoll (skip_hyphens v1 v2).1 (skip_hyphens v1 v2).2) ≤ 0 ↔
      (leading_hyphens v1 < leading_hyphens v2 ∨
        (leading_hyphens v1 = leading_hyphens v2 ∧
          rest_le HAVE_WCSCASECMP (v1.drop (leading_hyphens v1))
            (v2.drop (leading_hyphens v2)))) := by
  have base : ∀ w1 w2 : List Char, skip_hyphens w1 w2 = (w1, w2) →
      ¬ (w1.head? = some '-' ∧ w2.head? = some '-') →
      ((if (skip_hyphens w1 w2).1.head? = some '-' then (1 : Int)
        else if (skip_hyphens w1 w2).2.head? = some '-' then -1
        else if HAVE_WCSCASECMP = true ∧
            wcscasecmp (skip_hyphens w1 w2).1 (skip_hyphens w1 w2).2 ≠ 0 then
          wcscasecmp (skip_hyphens w1 w2).1 (skip_hyphens w1 w2).2
        else wcscoll (skip_hyphens w1 w2).1 (skip_hyphens w1 w2).2) ≤ 0 ↔
        (leading_hyphens w1 < leading_hyphens w2 ∨
          (leading_hyphens w1 = leading_hyphens w2 ∧
            rest_le HAVE_WCSCASECMP (w1.drop (leading_hyphens w1))
              (w2.drop (leading_hyphens w2))))) := by
    intro w1 w2 hskip hnot
    rw [hskip]
    simp only
    by_cases h1 : w1.head? = some '-'
    · have h2 : ¬ w2.head? = some '-' := fun h => hnot ⟨h1, h⟩
      have p1 := (leading_hyphens_pos_iff w1).mp h1
      have p2 : leading_hyphens w2 = 0 := by
        have := (leading_hyphens_pos_iff w2).not.mp h2
        omega
      rw [if_pos h1]
      constructor
      · intro h; omega
      · intro h; omega
    · have p1 : leading_hyphens w1 = 0 := by
        have := (leading_hyphens_pos_iff w1).not.mp h1
        omega
      rw [if_neg h1]
      by_cases h2 : w2.head? = some '-'
      · have p2 := (leading_hyphens_pos_iff w2).mp h2
        rw [if_pos h2]
        constructor
        · intro _; left; omega
        · intro _; omega
      · have p2 : leading_hyphens w2 = 0 := by
          have := (leading_hyphens_pos_iff w2).not.mp h2
          omega
        rw [if_neg h2, p1, p2]
        simp only [List.drop_zero, lt_self_iff_false, true_and, false_or]
        unfold rest_le
        cases HAVE_WCSCASECMP
        · simp
        · simp only [true_and, if_true, ne_eq]
          by_cases hc : wcscasecmp w1 w2 = 0
          · simp [hc]
          · simp only [hc, not_false_eq_true, if_true, false_and, or_false]
            omega
  induction v1 generalizing v2 with
  | nil =>
    exact base [] v2 (by cases v2 <;> rfl) (by simp)
  | cons a s ih =>
    cases v2 with
    | nil => exact base (a :: s) [] rfl (by simp)
    | cons b t =>
      by_cases hab : a = '-' ∧ b = '-'
      · obtain ⟨ha, hb⟩ := hab
        subst ha hb
        have hs : skip_hyphens ('-' :: s) ('-' :: t) = skip_hyphens s t := by
          simp [skip_hyphens]
        rw [hs, leading_hyphens_cons_hyphen, leading_hyphens_cons_hyphen, List.drop_succ_cons,
          List.drop_succ_cons]
        refine (ih t).trans ?_
        simp only [Nat.add_lt_add_iff_right, Nat.add_right_cancel_iff]
      · refine base (a :: s) (b :: t) (by simp [skip_hyphens, hab]) ?_
        simp only [List.head?_cons, Option.some.injEq]
        exact hab

theorem sort_candidates_cmp_values_le_iff (HAVE_WCSCASECMP : Bool) (v1 v2 : List Char) :
    sort_candidates_cmp_values HAVE_WCSCASECMP v1 v2 ≤ 0 ↔ cand_le HAVE_WCSCASECMP v1 v2 := by
  unfold sort_candidates_cmp_values cand_le
  by_cases hc : v1.head? = some '-' ∨ v2.head? = some '-'
  · rw [if_pos hc]
    simp only
    rw [hyphen_branch_le_iff]
    constructor
    · rintro (h | ⟨h1, h2⟩)
      · exact Or.inl h
      · right
        refine ⟨h1, ?_⟩
        have hp : 0 < leading_hyphens v1 := by
          rcases hc with hc | hc
          · exact (leading_hyphens_pos_iff v1).mp hc
          · have := (leading_hyphens_pos_iff v2).mp hc
            omega
        simpa [hp] using h2
    · rintro (h | ⟨h1, h2⟩)
      · exact Or.inl h
      · right
        refine ⟨h1, ?_⟩
        have hp : 0 < leading_hyphens v1 := by
          rcases hc with hc | hc
          · exact (leading_hyphens_pos_iff v1).mp hc
          · have := (leading_hyphens_pos_iff v2).mp hc
            omega
        simpa [hp] using h2
  · rw [if_neg hc]
    have p1 : leading_hyphens v1 = 0 := by
      have := (leading_hyphens_pos_iff v1).not.mp (fun h => hc (Or.inl h))
      omega
    have p2 : leading_hyphens v2 = 0 := by
      have := (leading_hyphens_pos_iff v2).not.mp (fun h => hc (Or.inr h))
      omega
    rw [p1, p2]
    simp [rest_le]

theorem cand_le_total (hv : Bool) (x y : List Char) : cand_le hv x y ∨ cand_le hv y x := by
  unfold cand_le
  generalize leading_hyphens x = nx
  generalize leading_hyphens y = ny
  rcases Nat.lt_trichotomy nx ny with h | h | h
  · exact Or.inl (Or.inl h)
  · subst h
    rcases rest_le_total (hv && decide (0 < nx)) (x.drop nx) (y.drop nx) with h1 | h1
    · exact Or.inl (Or.inr ⟨rfl, h1⟩)
    · exact Or.inr (Or.inr ⟨rfl, h1⟩)
  · exact Or.inr (Or.inl h)

theorem cand_le_trans (hv : Bool) (x y z : List Char) (h1 : cand_le hv x y)
    (h2 : cand_le hv y z) : cand_le hv x z := by
  unfold cand_le at *
  generalize leading_hyphens x = nx at *
  generalize leading_hyphens y = ny at *
  generalize leading_hyphens z = nz at *
  rcases h1 with h1 | ⟨e1, r1⟩
  · rcases h2 with h2 | ⟨e2, _⟩
    · left; omega
    · left; omega
  · rcases h2 with h2 | ⟨e2, r2⟩
    · left; omega
    · subst e1 e2
      exact Or.inr ⟨rfl, rest_le_trans _ _ _ _ r1 r2⟩

theorem cand_le_antisymm (hv : Bool) (x y : List Char) (h1 : cand_le hv x y)
    (h2 : cand_le hv y x) : x = y := by
  unfold cand_le at *
  refine eq_of_hyphens_rest x y ?_ ?_
  · rcases h1 with h1 | ⟨e1, _⟩
    · rcases h2 with h2 | ⟨e2, _⟩ <;> omega
    · exact e1
  · generalize leading_hyphens x = nx at *
    generalize leading_hyphens y = ny at *
    rcases h1 with h1 | ⟨e1, r1⟩
    · rcases h2 with h2 | ⟨e2, _⟩ <;> omega
    · rcases h2 with h2 | ⟨_, r2⟩
      · omega
      · subst e1
        exact rest_le_antisymm _ _ _ r1 r2

theorem dedup_after_congr (x y : le_candidate_T) (h : wcs x.origvalue = wcs y.origvalue)
    (l : List le_candidate_T) : dedup_after x l = dedup_after y l := by
  cases l with
  | nil => rfl
  | cons z rest => simp only [dedup_after, h]

theorem dedup_after_two (x a b : le_candidate_T) (p : List le_candidate_T) :
    dedup_after x (p ++ [a, b]) =
      if wcscoll (wcs b.origvalue) (wcs a.origvalue) = 0 then dedup_after x (p ++ [a])
      else dedup_after x (p ++ [a]) ++ [b] := by
  induction p generalizing x with
  | nil =>
    simp only [List.nil_append, dedup_after]
    split_ifs <;> simp
  | cons y p ih =>
    have h := ih y
    simp only [List.cons_append, dedup_after, List.append_eq]
    by_cases hb : wcscoll (wcs b.origvalue) (wcs a.origvalue) = 0
    · simp only [hb, if_true] at h ⊢
      rw [h]
    · simp only [hb, if_false] at h ⊢
      rw [h]
      split_ifs <;> simp

theorem dedup_adjacent_two (a b : le_candidate_T) (p : List le_candidate_T) :
    dedup_adjacent (p ++ [a, b]) =
      if wcscoll (wcs b.origvalue) (wcs a.origvalue) = 0 then dedup_adjacent (p ++ [a])
      else dedup_adjacent (p ++ [a]) ++ [b] := by
  cases p with
  | nil =>
    simp only [List.nil_append, dedup_adjacent, dedup_after]
    split_ifs <;> simp
  | cons y p =>
    simp only [List.cons_append, dedup_adjacent, dedup_after_two]
    split_ifs <;> simp

theorem take_two_more (l : List le_candidate_T) (i : Nat) (a b : le_candidate_T)
    (ha : l.get? i = some a) (hb : l.get? (i + 1) = some b) :
    l.take (i + 1) = l.take i ++ [a] ∧ l.take (i + 2) = l.take i ++ [a, b] := by
  rw [List.get?_eq_getElem?] at ha hb
  have h1 : l.take (i + 1) = l.take i ++ [a] := by rw [List.take_succ, ha]; rfl
  refine ⟨h1, ?_⟩
  rw [show i + 2 = (i + 1) + 1 from rfl, List.take_succ, hb, h1]
  simp

theorem remove_duplicates_eq (i : Nat) :
    ∀ l : List le_candidate_T, i < l.length →
      remove_duplicates i l = dedup_adjacent (l.take (i + 1)) ++ l.drop (i + 1) := by
  induction i with
  | zero =>
    intro l hl
    cases l with
    | nil => simp at hl
    | cons x rest => simp [remove_duplicates, dedup_adjacent, dedup_after]
  | succ i ih =>
    intro l hl
    have hi : i < l.length := by omega
    have hb : l.get? (i + 1) = some (l.get ⟨i + 1, hl⟩) := List.get?_eq_get hl
    have ha : l.get? i = some (l.get ⟨i, hi⟩) := List.get?_eq_get hi
    obtain ⟨t1, t2⟩ := take_two_more l i _ _ ha hb
    have hdrop : l.drop (i + 1) = l.get ⟨i + 1, hl⟩ :: l.drop (i + 2) := by
      rw [List.drop_eq_getElem_cons hl]
      rfl
    simp only [remove_duplicates, hb, ha]
    rw [show i + 1 + 1 = i + 2 from rfl, t2, dedup_adjacent_two]
    by_cases hc : wcscoll (wcs (l.get ⟨i + 1, hl⟩).origvalue) (wcs (l.get ⟨i, hi⟩).origvalue) = 0
    · rw [if_pos hc, if_pos hc]
      have he : l.eraseIdx (i + 1) = l.take (i + 1) ++ l.drop (i + 2) :=
        List.eraseIdx_eq_take_drop_succ l (i + 1)
      have hlen : (l.take (i + 1)).length = i + 1 := by
        rw [List.length_take]; omega
      have hl2 : i < (l.eraseIdx (i + 1)).length := by
        rw [he, List.length_append, hlen]; omega
      rw [ih _ hl2, he, List.take_left' hlen, List.drop_left' hlen, t1]
    · rw [if_neg hc, if_neg hc, ih l hi, hdrop, t1]
      simp

theorem sort_candidates_list_eq
    (qsort : (le_candidate_T → le_candidate_T → Int) → List le_candidate_T → List le_candidate_T)
    (hv : Bool) (l : List le_candidate_T) :
    sort_candidates_list qsort hv l = dedup_adjacent (qsort (sort_candidates_cmp hv) l) := by
  unfold sort_candidates_list
  generalize qsort (sort_candidates_cmp hv) l = m
  simp only
  by_cases h : m.length ≥ 2
  · rw [if_pos h, remove_duplicates_eq _ m (by omega)]
    have e : m.length - 1 + 1 = m.length := by omega
    rw [e, List.take_length, List.drop_length, List.append_nil]
  · rw [if_neg h]
    cases m with
    | nil => rfl
    | cons x rest =>
      cases rest with
      | nil => rfl
      | cons y r => simp at h

theorem dedup_after_sublist (x : le_candidate_T) (l : List le_candidate_T) :
    (dedup_after x l).Sublist l := by
  induction l generalizing x with
  | nil => exact List.Sublist.slnil
  | cons y rest ih =>
    unfold dedup_after
    split_ifs
    · exact List.Sublist.cons _ (ih y)
    · exact List.Sublist.cons₂ _ (ih y)

theorem dedup_adjacent_sublist (l : List le_candidate_T) : (dedup_adjacent l).Sublist l := by
  cases l with
  | nil => exact List.Sublist.slnil
  | cons x rest => exact List.Sublist.cons₂ _ (dedup_after_sublist x rest)

theorem dedup_after_values (x : le_candidate_T) (l : List le_candidate_T) (v : List Char) :
    v ∈ (x :: dedup_after x l).map (fun c => wcs c.origvalue) ↔
      v ∈ (x :: l).map (fun c => wcs c.origvalue) := by
  induction l generalizing x with
  | nil => simp [dedup_after]
  | cons y rest ih =>
    have h := ih y
    simp only [List.map_cons, List.mem_cons] at h ⊢
    unfold dedup_after
    by_cases hc : wcscoll (wcs y.origvalue) (wcs x.origvalue) = 0
    · rw [if_pos hc]
      have e := wcscoll_eq_zero _ _ hc
      rw [← e]
      constructor
      · intro h1; exact Or.inr (h.mp h1)
      · rintro (h1 | h1)
        · exact Or.inl h1
        · exact h.mpr h1
    · rw [if_neg hc]
      simp only [List.map_cons, List.mem_cons]
      rw [h]

theorem dedup_adjacent_values (l : List le_candidate_T) (v : List Char) :
    v ∈ (dedup_adjacent l).map (fun c => wcs c.origvalue) ↔
      v ∈ l.map (fun c => wcs c.origvalue) := by
  cases l with
  | nil => simp [dedup_adjacent]
  | cons x rest => exact dedup_after_values x rest v

theorem dedup_after_chain (x : le_candidate_T) (l : List le_candidate_T) :
    List.Chain (fun a b => wcs a.origvalue ≠ wcs b.origvalue) x (dedup_after x l) := by
  induction l generalizing x with
  | nil => exact List.Chain.nil
  | cons y rest ih =>
    unfold dedup_after
    by_cases hc : wcscoll (wcs y.origvalue) (wcs x.origvalue) = 0
    · rw [if_pos hc]
      have e := wcscoll_eq_zero _ _ hc
      rw [dedup_after_congr y x e]
      exact ih x
    · rw [if_neg hc]
      refine List.Chain.cons ?_ (ih y)
      intro e
      exact hc (by rw [e]; exact wcscoll_self _)

theorem dedup_adjacent_chain (l : List le_candidate_T) :
    List.Chain' (fun a b => wcs a.origvalue ≠ wcs b.origvalue) (dedup_adjacent l) := by
  cases l with
  | nil => exact List.chain'_nil
  | cons x rest => exact dedup_after_chain x rest

theorem sort_candidates_cmp_le_iff (hv : Bool) (a b : le_candidate_T) :
    sort_candidates_cmp hv a b ≤ 0 ↔ cand_le hv (wcs a.origvalue) (wcs b.origvalue) := by
  unfold sort_candidates_cmp
  exact sort_candidates_cmp_values_le_iff hv _ _

theorem sort_candidates_cmp_trans (hv : Bool) (a b c : le_candidate_T)
    (h1 : sort_candidates_cmp hv a b ≤ 0) (h2 : sort_candidates_cmp hv b c ≤ 0) :
    sort_candidates_cmp hv a c ≤ 0 := by
  rw [sort_candidates_cmp_le_iff] at *
  exact cand_le_trans hv _ _ _ h1 h2

theorem sort_candidates_cmp_strict_trans (hv : Bool) (a b c : le_candidate_T)
    (h1 : sort_candidates_cmp hv a b ≤ 0 ∧ wcs a.origvalue ≠ wcs b.origvalue)
    (h2 : sort_candidates_cmp hv b c ≤ 0 ∧ wcs b.origvalue ≠ wcs c.origvalue) :
    sort_candidates_cmp hv a c ≤ 0 ∧ wcs a.origvalue ≠ wcs c.origvalue := by
  refine ⟨sort_candidates_cmp_trans hv a b c h1.1 h2.1, ?_⟩
  intro e
  have k1 := (sort_candidates_cmp_le_iff hv a b).mp h1.1
  have k2 := (sort_candidates_cmp_le_iff hv b c).mp h2.1
  rw [← e] at k2
  exact h1.2 (cand_le_antisymm hv _ _ k1 k2)

theorem chain_and {α : Type} (R Q : α → α → Prop) (l : List α) :
    ∀ a, List.Chain R a l → List.Chain Q a l → List.Chain (fun x y => R x y ∧ Q x y) a l := by
  induction l with
  | nil => intro a _ _; exact List.Chain.nil
  | cons b l ih =>
    intro a h1 h2
    rw [List.chain_cons] at h1 h2 ⊢
    exact ⟨⟨h1.1, h2.1⟩, ih b h1.2 h2.2⟩

theorem sort_candidates_core
    (qsort : (le_candidate_T → le_candidate_T → Int) → List le_candidate_T → List le_candidate_T)
    (hv : Bool) (cands : List le_candidate_T)
    (hperm : (qsort (sort_candidates_cmp hv) cands).Perm cands)
    (hsorted : (qsort (sort_candidates_cmp hv) cands).Chain'
      fun a b => sort_candidates_cmp hv a b ≤ 0) :
    (sort_candidates_list qsort hv cands).Pairwise
        (fun a b => sort_candidates_cmp hv a b ≤ 0 ∧ wcs a.origvalue ≠ wcs b.origvalue) ∧
      ∀ v, v ∈ (sort_candidates_list qsort hv cands).map (fun c => wcs c.origvalue) ↔
        v ∈ cands.map (fun c => wcs c.origvalue) := by
  rw [sort_candidates_list_eq]
  generalize qsort (sort_candidates_cmp hv) cands = m at *
  haveI t1 : IsTrans le_candidate_T (fun a b => sort_candidates_cmp hv a b ≤ 0) :=
    ⟨fun a b c => sort_candidates_cmp_trans hv a b c⟩
  haveI t2 : IsTrans le_candidate_T
      (fun a b => sort_candidates_cmp hv a b ≤ 0 ∧ wcs a.origvalue ≠ wcs b.origvalue) :=
    ⟨fun a b c => sort_candidates_cmp_strict_trans hv a b c⟩
  have hpw : m.Pairwise (fun a b => sort_candidates_cmp hv a b ≤ 0) :=
    List.chain'_iff_pairwise.mp hsorted
  have hpw2 := hpw.sublist (dedup_adjacent_sublist m)
  have hc1 := hpw2.chain'
  have hc2 := dedup_adjacent_chain m
  constructor
  · apply List.chain'_iff_pairwise.mp
    generalize dedup_adjacent m = d at hc1 hc2
    cases d with
    | nil => exact List.chain'_nil
    | cons x rest => exact chain_and _ _ rest x hc1 hc2
  · intro v
    rw [dedup_adjacent_values]
    exact (hperm.map _).mem_iff

theorem pairwise_index_lt {α : Type} (S : α → α → Prop) (l : List α) (hp : l.Pairwise S)
    (i j : Nat) (a b : α) (ha : l.get? i = some a) (hb : l.get? j = some b)
    (hne : a ≠ b) (hnot : ¬ S b a) : i < j := by
  rw [List.get?_eq_some] at ha hb
  obtain ⟨hi, rfl⟩ := ha
  obtain ⟨hj, rfl⟩ := hb
  by_contra hlt
  rcases Nat.lt_or_ge j i with h | h
  · exact hnot ((List.pairwise_iff_get.mp hp) ⟨j, hj⟩ ⟨i, hi⟩ h)
  · have : i = j := by omega
    subst this
    exact hne rfl

theorem pairwise_at {α : Type} (S : α → α → Prop) (l : List α) (hp : l.Pairwise S)
    (i j : Nat) (a b : α) (ha : l.get? i = some a) (hb : l.get? j = some b) (hij : i < j) :
    S a b := by
  rw [List.get?_eq_some] at ha hb
  obtain ⟨hi, rfl⟩ := ha
  obtain ⟨hj, rfl⟩ := hb
  exact (List.pairwise_iff_get.mp hp) ⟨i, hi⟩ ⟨j, hj⟩ hij

/-- C22: when `qsort` leaves a permutation of the candidate list in which
each element is not above the next by `sort_candidates_cmp`, the list after
`sort_candidates` is in non-decreasing order of `sort_candidates_cmp`, holds
no two candidates with the same origin value, and has the origin values of the
list before; a candidate `-x` stands before a candidate `--x`. -/
theorem sort_candidates_sorted (env : CompleteEnv) (s : CompleteState)
    (cands : List le_candidate_T) (hcands : s.le_candidates = some cands)
    (hperm : (env.qsort (sort_candidates_cmp env.HAVE_WCSCASECMP) cands).Perm cands)
    (hsorted : (env.qsort (sort_candidates_cmp env.HAVE_WCSCASECMP) cands).Chain'
      fun a b => sort_candidates_cmp env.HAVE_WCSCASECMP a b ≤ 0) :
    ∃ out, (sort_candidates env s).le_candidates = some out ∧
      out.Pairwise (fun a b => sort_candidates_cmp env.HAVE_WCSCASECMP a b ≤ 0) ∧
      out.Pairwise (fun a b => wcs a.origvalue ≠ wcs b.origvalue) ∧
      (∀ v, v ∈ out.map (fun c => wcs c.origvalue) ↔
        v ∈ cands.map (fun c => wcs c.origvalue)) ∧
      ∀ i j a b x, out.get? i = some a → out.get? j = some b →
        wcs a.origvalue = '-' :: x → wcs b.origvalue = '-' :: '-' :: x → i < j := by
  obtain ⟨h1, h2⟩ := sort_candidates_core env.qsort env.HAVE_WCSCASECMP cands hperm hsorted
  refine ⟨sort_candidates_list env.qsort env.HAVE_WCSCASECMP cands, ?_, h1.imp (fun h => h.1),
    h1.imp (fun h => h.2), h2, ?_⟩
  · unfold sort_candidates
    rw [hcands]
  · intro i j a b x ha hb hva hvb
    refine pairwise_index_lt _ _ h1 i j a b ha hb ?_ ?_
    · intro e
      rw [e, hvb] at hva
      have := congrArg List.length hva
      simp at this
    · rintro ⟨h, _⟩
      rw [sort_candidates_cmp_le_iff, hva, hvb] at h
      unfold cand_le at h
      simp only [leading_hyphens_cons_hyphen] at h
      omega

set_option maxRecDepth 100000 in
/-- C22, at an instance: the candidates `--all`, `b`, `-a`, `-A`, `b` are
put in the order `b`, `-A`, `-a`, `--all`. -/
theorem sort_candidates_sorted_witness :
    (∃ out, (sort_candidates option_env option_listed_state).le_candidates = some out ∧
      out.Pairwise (fun a b => sort_candidates_cmp option_env.HAVE_WCSCASECMP a b ≤ 0) ∧
      out.Pairwise (fun a b => wcs a.origvalue ≠ wcs b.origvalue) ∧
      (∀ v, v ∈ out.map (fun c => wcs c.origvalue) ↔
        v ∈ (option_env.execute_completion_function (argument_context [] 0)).map
          (fun c => wcs c.origvalue)) ∧
      ∀ i j a b x, out.get? i = some a → out.get? j = some b →
        wcs a.origvalue = '-' :: x → wcs b.origvalue = '-' :: '-' :: x → i < j) ∧
      ((sort_candidates option_env option_listed_state).le_candidates.getD []).map
          (fun c => c.origvalue) =
        ["b".toList, "-A".toList, "-a".toList, "--all".toList] :=
  ⟨sort_candidates_sorted option_env option_listed_state
      (option_env.execute_completion_function (argument_context [] 0)) rfl (by decide)
      (List.Pairwise.chain' (by decide)),
    by decide⟩

/-- C27 (amended): in the list `sort_candidates` leaves, every candidate whose
origin value does not start with `-` stands before every candidate whose origin
value does; and of two candidates the earlier one starts with no more hyphens
than the later one, and when both start with the same positive number of
hyphens and `wcscasecmp` is there, what follows the hyphens is in
case-insensitive order. -/
theorem sort_candidates_hyphen_order (env : CompleteEnv) (s : CompleteState)
    (cands : List le_candidate_T) (hcands : s.le_candidates = some cands)
    (hperm : (env.qsort (sort_candidates_cmp env.HAVE_WCSCASECMP) cands).Perm cands)
    (hsorted : (env.qsort (sort_candidates_cmp env.HAVE_WCSCASECMP) cands).Chain'
      fun a b => sort_candidates_cmp env.HAVE_WCSCASECMP a b ≤ 0) :
    ∃ out, (sort_candidates env s).le_candidates = some out ∧
      (∀ i j a b, out.get? i = some a → out.get? j = some b →
        (wcs a.origvalue).head? ≠ some '-' → (wcs b.origvalue).head? = some '-' → i < j) ∧
      ∀ i j a b, out.get? i = some a → out.get? j = some b → i < j →
        leading_hyphens (wcs a.origvalue) ≤ leading_hyphens (wcs b.origvalue) ∧
          (leading_hyphens (wcs a.origvalue) = leading_hyphens (wcs b.origvalue) →
            0 < leading_hyphens (wcs a.origvalue) → env.HAVE_WCSCASECMP = true →
            wcscasecmp ((wcs a.origvalue).drop (leading_hyphens (wcs a.origvalue)))
              ((wcs b.origvalue).drop (leading_hyphens (wcs b.origvalue))) ≤ 0) := by
  obtain ⟨h1, _⟩ := sort_candidates_core env.qsort env.HAVE_WCSCASECMP cands hperm hsorted
  refine ⟨sort_candidates_list env.qsort env.HAVE_WCSCASECMP cands, ?_, ?_, ?_⟩
  · unfold sort_candidates
    rw [hcands]
  · intro i j a b ha hb hna hbh
    have pa : leading_hyphens (wcs a.origvalue) = 0 := by
      have := (leading_hyphens_pos_iff (wcs a.origvalue)).not.mp hna
      omega
    have pb := (leading_hyphens_pos_iff (wcs b.origvalue)).mp hbh
    refine pairwise_index_lt _ _ h1 i j a b ha hb ?_ ?_
    · intro e
      rw [e] at pa
      omega
    · rintro ⟨h, _⟩
      rw [sort_candidates_cmp_le_iff] at h
      unfold cand_le at h
      omega
  · intro i j a b ha hb hij
    have h := (pairwise_at _ _ h1 i j a b ha hb hij).1
    rw [sort_candidates_cmp_le_iff] at h
    unfold cand_le at h
    refine ⟨by omega, ?_⟩
    intro he hpos hhave
    rcases h with h | ⟨_, h⟩
    · omega
    · unfold rest_le at h
      simp only [hhave, hpos, decide_True, Bool.and_self, if_true] at h
      omega

set_option maxRecDepth 100000 in
/-- C27, at an instance: the candidates `--all`, `b`, `-a`, `-A`, `b`. -/
theorem sort_candidates_hyphen_order_witness :
    ∃ out, (sort_candidates option_env option_listed_state).le_candidates = some out ∧
      (∀ i j a b, out.get? i = some a → out.get? j = some b →
        (wcs a.origvalue).head? ≠ some '-' → (wcs b.origvalue).head? = some '-' → i < j) ∧
      ∀ i j a b, out.get? i = some a → out.get? j = some b → i < j →
        leading_hyphens (wcs a.origvalue) ≤ leading_hyphens (wcs b.origvalue) ∧
          (leading_hyphens (wcs a.origvalue) = leading_hyphens (wcs b.origvalue) →
            0 < leading_hyphens (wcs a.origvalue) → option_env.HAVE_WCSCASECMP = true →
            wcscasecmp ((wcs a.origvalue).drop (leading_hyphens (wcs a.origvalue)))
              ((wcs b.origvalue).drop (leading_hyphens (wcs b.origvalue))) ≤ 0) :=
  sort_candidates_hyphen_order option_env option_listed_state
    (option_env.execute_completion_function (argument_context [] 0)) rfl (by decide)
    (List.Pairwise.chain' (by decide))

set_option maxRecDepth 100000 in
/-- C27, the counterexample: of the candidates `-a` and `b` the one that
starts with a hyphen is put last, and of `--a` and `-b` the one with one
hyphen is put first, though `--a` is before `-b` when case is ignored. -/
theorem sort_candidates_hyphen_order_counterexample :
    (sort_candidates option_env
        { option_listed_state with
          le_candidates := some [⟨"-a".toList, true⟩, ⟨"b".toList, true⟩] }).le_candidates =
        some [⟨"b".toList, true⟩, ⟨"-a".toList, true⟩] ∧
      (sort_candidates option_env
        { option_listed_state with
          le_candidates := some [⟨"--a".toList, true⟩, ⟨"-b".toList, true⟩] }).le_candidates =
        some [⟨"-b".toList, true⟩, ⟨"--a".toList, true⟩] ∧
      wcscasecmp "--a".toList "-b".toList < 0 ∧
      sort_candidates_cmp true ⟨"-a".toList, true⟩ ⟨"b".toList, true⟩ = 1 := by
  decide

/-! ## Theorems on the history search -/

theorem strstr_iff (haystack needle : List Char) :
    strstr haystack needle = true ↔ needle <:+: haystack := by
  unfold strstr
  rw [List.any_eq_true, List.infix_iff_prefix_suffix]
  constructor
  · rintro ⟨t, ht, hp⟩
    exact ⟨t, List.isPrefixOf_iff_prefix.mp hp, (List.mem_tails _ _).mp ht⟩
  · rintro ⟨t, hp, ht⟩
    exact ⟨t, (List.mem_tails _ _).mpr ht, List.isPrefixOf_iff_prefix.mpr hp⟩

theorem test_entry_literal (env : SearchEnv) (p pattern : List Char) (minlen : Nat)
    (anchored : Bool) (value : List Char) :
    test_entry env (some p) pattern minlen anchored value =
      (if entry_matches anchored p value then EntryTest.found else EntryTest.next, true) := by
  unfold test_entry entry_matches matchstrprefix
  cases anchored
  · simp only [Bool.false_eq_true, if_false]
    by_cases h : p <:+: value
    · rw [if_pos ((strstr_iff value p).mpr h), if_pos h]
    · rw [if_neg (fun k => h ((strstr_iff value p).mp k)), if_neg h]
  · simp only [if_true]
    by_cases h : p <+: value
    · rw [if_pos (List.isPrefixOf_iff_prefix.mpr h), if_pos h]
    · rw [if_neg (fun k => h (List.isPrefixOf_iff_prefix.mp k)), if_neg h]

theorem perform_search_loop_back (env : SearchEnv) (hist : History) (p pattern : List Char)
    (anchored : Bool) (k : Nat) :
    ∀ fuel e failed, hist_prev hist e = k → k < fuel →
      perform_search_loop env hist (some p) pattern 0 anchored SearchDirection.BACKWARD fuel e
          failed =
        some (((walk_back k).find? fun i =>
          decide (entry_matches anchored p (hist_value hist i))).getD Histlist, failed) := by
  induction k with
  | zero =>
    intro fuel e failed he hf
    obtain ⟨f, rfl⟩ : ∃ f, fuel = f + 1 := ⟨fuel - 1, by omega⟩
    simp [perform_search_loop, he, walk_back, Histlist]
  | succ k ih =>
    intro fuel e failed he hf
    obtain ⟨f, rfl⟩ : ∃ f, fuel = f + 1 := ⟨fuel - 1, by omega⟩
    have hne : ¬ k + 1 = Histlist := by unfold Histlist; omega
    have hprev : hist_prev hist (k + 1) = k := by
      unfold hist_prev; rw [if_neg hne]; rfl
    simp only [perform_search_loop, he, if_neg hne, test_entry_literal, walk_back,
      List.find?_cons]
    by_cases hm : entry_matches anchored p (hist_value hist (k + 1))
    · simp [hm]
    · simp only [hm, if_false, decide_False, Bool.not_true, Bool.or_false]
      exact ih f (k + 1) failed hprev (by omega)

theorem perform_search_loop_forth (env : SearchEnv) (hist : History) (p pattern : List Char)
    (anchored : Bool) (count : Nat) :
    ∀ fuel e failed, e ≤ hist.length → hist.length - e = count → count < fuel →
      perform_search_loop env hist (some p) pattern 0 anchored SearchDirection.FORWARD fuel e
          failed =
        some (((walk_forth count e).find? fun i =>
          decide (entry_matches anchored p (hist_value hist i))).getD Histlist, failed) := by
  induction count with
  | zero =>
    intro fuel e failed he hc hf
    obtain ⟨f, rfl⟩ : ∃ f, fuel = f + 1 := ⟨fuel - 1, by omega⟩
    have hen : e = hist.length := by omega
    simp [perform_search_loop, hist_next, hen, walk_forth, Histlist]
  | succ c ih =>
    intro fuel e failed he hc hf
    obtain ⟨f, rfl⟩ : ∃ f, fuel = f + 1 := ⟨fuel - 1, by omega⟩
    have hen : ¬ e = hist.length := by omega
    have hne : ¬ e + 1 = Histlist := by unfold Histlist; omega
    simp only [perform_search_loop, hist_next, if_neg hen, if_neg hne, test_entry_literal,
      walk_forth, List.find?_cons]
    by_cases hm : entry_matches anchored p (hist_value hist (e + 1))
    · simp [hm]
    · simp only [hm, if_false, decide_False, Bool.not_true, Bool.or_false]
      exact ih f (e + 1) failed (by omega) (by omega) (by omega)

theorem perform_search_literal (env : SearchEnv) (hist : History) (fuel : Nat)
    (p : List Char) (anchored : Bool) (dir : SearchDirection) (s : SearchState)
    (hfuel : hist.length < fuel) (he : s.edit.main_history_entry ≤ hist.length)
    (hlit : env.pattern_has_special_char p = false) (hun : env.unescape p = p)
    (hconv : env.realloc_wcstombs p = some p)
    (hp : anchored = false → p.head? ≠ some '^') (hne : anchored = true → p ≠ []) :
    perform_search env hist fuel (if anchored = true then '^' :: p else p) dir s =
      some { s with le_search_result :=
        ((search_walk hist s.edit.main_history_entry dir).find? fun i =>
          decide (entry_matches anchored p (hist_value hist i))).getD Histlist } := by
  have hbeg : decide ((if anchored = true then '^' :: p else p).head? = some '^') = anchored := by
    cases anchored
    · simpa using hp rfl
    · simp
  have hpat : (if anchored = true then (if anchored = true then '^' :: p else p).tail
      else (if anchored = true then '^' :: p else p)) = p := by
    cases anchored <;> simp
  unfold perform_search
  simp only [hbeg, hpat, hlit, hun, hconv, Bool.false_eq_true, if_false]
  have hdone : ∀ r : Nat, perform_search_done (r, false) s = { s with le_search_result := r } := by
    intro r
    simp [perform_search_done]
  cases dir with
  | FORWARD =>
    by_cases h0 : s.edit.main_history_entry = Histlist
    · simp only [h0, and_self, if_true, hdone, search_walk, List.find?_nil, Option.getD_none]
    · have hn : ¬ (anchored = true ∧ p = []) := fun h => hne h.1 h.2
      simp only [h0, and_false, if_false, hn, search_walk]
      rw [perform_search_loop_forth env hist p p anchored _ fuel _ false he rfl (by omega)]
      simp only [Option.map_some', hdone]
  | BACKWARD =>
    have hn : ¬ (anchored = true ∧ p = []) := fun h => hne h.1 h.2
    have hd : ¬ SearchDirection.BACKWARD = SearchDirection.FORWARD := by decide
    simp only [hd, false_and, if_false, hn, search_walk]
    rw [perform_search_loop_back env hist p p anchored _ fuel _ false rfl (by
      unfold hist_prev; split_ifs <;> omega)]
    simp only [Option.map_some', hdone, hist_prev]

/-- C21 (amended): for a literal pattern `p` (no special character, nothing
to unescape, convertible to a multibyte string), given as `p` or, anchored, as
`^` followed by a non-empty `p`, and a current entry `e` of the history list,
`perform_search` returns (with more rounds than the list has entries) and
sets `le_search_result` to the first entry met on the walk from `e` in the
direction `dir`, `e` left out, whose value contains `p`, or begins with `p`
when anchored, and to `Histlist` when there is none. -/
theorem perform_search_first_match (env : SearchEnv) (hist : History) (fuel : Nat)
    (p : List Char) (anchored : Bool) (dir : SearchDirection) (s : SearchState)
    (hfuel : hist.length < fuel) (he : s.edit.main_history_entry ≤ hist.length)
    (hlit : env.pattern_has_special_char p = false) (hun : env.unescape p = p)
    (hconv : env.realloc_wcstombs p = some p)
    (hp : anchored = false → p.head? ≠ some '^') (hne : anchored = true → p ≠ []) :
    perform_search env hist fuel (if anchored = true then '^' :: p else p) dir s =
      some { s with le_search_result :=
        ((search_walk hist s.edit.main_history_entry dir).find? fun i =>
          decide (entry_matches anchored p (hist_value hist i))).getD Histlist } :=
  perform_search_literal env hist fuel p anchored dir s hfuel he hlit hun hconv hp hne

set_option maxRecDepth 100000 in
/-- C21, at an instance: with the history `ls`, `cat foo`, `ls -la` the
search for `^ls` toward older entries from the line being edited finds entry
3, `ls -la`; accepting it makes `ls -la` the edit line, and the same search
again finds entry 1, `ls`. -/
theorem perform_search_first_match_witness :
    perform_search literal_search_env sample_history 4
        (if true = true then '^' :: "ls".toList else "ls".toList) SearchDirection.BACKWARD
        search_start_state =
      some { search_start_state with le_search_result :=
        ((search_walk sample_history search_start_state.edit.main_history_entry
          SearchDirection.BACKWARD).find? fun i =>
            decide (entry_matches true "ls".toList
              (hist_value sample_history i))).getD Histlist } ∧
      ((search_walk sample_history search_start_state.edit.main_history_entry
          SearchDirection.BACKWARD).find? fun i =>
            decide (entry_matches true "ls".toList (hist_value sample_history i))).getD
          Histlist = 3 ∧
      search_accepted_state.map (fun s => (s.edit.le_main_buffer, s.edit.main_history_entry)) =
        some ("ls -la".toList, 3) ∧
      (search_accepted_state.bind (cmd_search_again literal_search_env sample_history 4 NUL)).map
          (fun s => (s.edit.le_main_buffer, s.edit.main_history_entry)) =
        some ("ls".toList, 1) :=
  ⟨perform_search_first_match literal_search_env sample_history 4 "ls".toList true
      SearchDirection.BACKWARD search_start_state (by decide) (by decide) (by decide) (by decide)
      (by decide) (by decide) (by decide),
    by decide, by decide, by decide⟩

set_option maxRecDepth 100000 in
/-- C21, the counterexample: for the pattern `^` alone, which is the empty
pattern anchored, `perform_search` sets `le_search_result` to `Histlist`,
though every entry begins with the empty pattern and the first entry met
toward older entries is entry 3. -/
theorem perform_search_first_match_counterexample :
    (perform_search literal_search_env sample_history 4 ['^'] SearchDirection.BACKWARD
        search_start_state).map (fun s => s.le_search_result) = some Histlist ∧
      ((search_walk sample_history search_start_state.edit.main_history_entry
          SearchDirection.BACKWARD).find? fun i =>
            decide (entry_matches true [] (hist_value sample_history i))).getD Histlist = 3 := by
  decide

/-! ## Theorems on le_invoke_command and on kill followed by put -/

/-- C38: when `le_invoke_command` returns in vi-command mode and the command
it ran left the cursor at or before the end of the line, the cursor is
strictly before the end of a non-empty line and is 0 on an empty line, and the
line is the one the command left. -/
theorem le_invoke_command_vi_cursor (func : Cmd) (cmd : Char → EditState → EditState)
    (arg : Char) (s : EditState)
    (hmode : (le_invoke_command func cmd arg s).le_current_mode = LeMode.LE_MODE_VI_COMMAND)
    (hcur : (cmd arg { s with current_command := ⟨some func, arg⟩ }).le_main_index ≤
      (cmd arg { s with current_command := ⟨some func, arg⟩ }).le_main_buffer.length) :
    (le_invoke_command func cmd arg s).le_main_buffer =
      (cmd arg { s with current_command := ⟨some func, arg⟩ }).le_main_buffer ∧
    ((le_invoke_command func cmd arg s).le_main_buffer ≠ [] →
      (le_invoke_command func cmd arg s).le_main_index <
        (le_invoke_command func cmd arg s).le_main_buffer.length) ∧
    ((le_invoke_command func cmd arg s).le_main_buffer = [] →
      (le_invoke_command func cmd arg s).le_main_index = 0) := by
  have hend : le_invoke_command func cmd arg s =
      le_invoke_command_end (cmd arg { s with current_command := ⟨some func, arg⟩ }) := rfl
  rw [hend] at hmode ⊢
  generalize cmd arg { s with current_command := ⟨some func, arg⟩ } = u at hmode hcur ⊢
  unfold le_invoke_command_end at hmode ⊢
  simp only at hmode ⊢
  split_ifs at hmode ⊢ with h
  · simp only at hmode ⊢
    refine ⟨trivial, fun _ => by omega, fun h0 => ?_⟩
    have := congrArg List.length h0
    simp only [List.length_nil] at this
    omega
  · simp only at hmode ⊢
    rw [hmode] at h
    refine ⟨trivial, fun hne => ?_, fun h0 => ?_⟩
    · have hpos : 0 < u.le_main_buffer.length := List.length_pos.mpr hne
      by_contra hlt
      exact h ⟨rfl, by omega, by omega⟩
    · rw [h0] at hcur
      simpa using hcur

/-- Witness for `le_invoke_command_vi_cursor`: in vi-command mode on `hello`
with the cursor on `e` and a kill operator pending, the motion to the end of
the line leaves `h` with the cursor at index 1, the end of the line, and
`le_invoke_command` moves it back to 0. -/
theorem le_invoke_command_vi_cursor_witness :
    (cmd_end_of_line NUL { kill_pending_state with
      current_command := ⟨some Cmd.cmd_end_of_line, NUL⟩ }).le_main_index = 1 ∧
    (le_invoke_command Cmd.cmd_end_of_line cmd_end_of_line NUL kill_pending_state).le_main_buffer
      = ['h'] ∧
    (le_invoke_command Cmd.cmd_end_of_line cmd_end_of_line NUL kill_pending_state).le_main_index
      = 0 ∧
    ((le_invoke_command Cmd.cmd_end_of_line cmd_end_of_line NUL kill_pending_state).le_main_buffer
        ≠ [] →
      (le_invoke_command Cmd.cmd_end_of_line cmd_end_of_line NUL kill_pending_state).le_main_index
        < (le_invoke_command Cmd.cmd_end_of_line cmd_end_of_line NUL
          kill_pending_state).le_main_buffer.length) :=
  ⟨by decide, by decide, by decide,
    (le_invoke_command_vi_cursor Cmd.cmd_end_of_line cmd_end_of_line NUL kill_pending_state
      (by decide) (by decide)).2.1⟩

theorem kill_ring_last_index (k : Nat) (hk : k < KILL_RING_SIZE) :
    size_sub ((k + 1) % KILL_RING_SIZE) 1 % KILL_RING_SIZE = k := by
  unfold size_sub SIZE_MOD KILL_RING_SIZE at *
  omega

theorem wb_insert_middle (buf : List Char) (lo hi : Nat) (h : lo ≤ hi) :
    wb_insert (buf.take lo ++ buf.drop hi) lo ((buf.drop lo).take (hi - lo)) = buf := by
  unfold wb_insert
  by_cases hl : lo ≤ buf.length
  · have hlen : (buf.take lo).length = lo := by simp [List.length_take]; omega
    rw [List.take_append_of_le_length (by omega), List.drop_append_of_le_length (by omega),
      List.take_take, min_self, List.drop_take, Nat.sub_self, List.take_zero, List.nil_append,
      ← List.take_add, Nat.add_sub_cancel' h, List.take_append_drop]
  · have h1 : buf.take lo = buf := List.take_of_length_le (by omega)
    have h2 : buf.drop hi = [] := List.drop_of_length_le (by omega)
    have h3 : buf.drop lo = [] := List.drop_of_length_le (by omega)
    rw [h1, h2, h3]
    simp only [List.append_nil, List.take_nil]
    rw [List.take_of_length_le (by omega), List.drop_of_length_le (by omega)]
    simp

/-- The state after an exclusive motion with a kill operator pending, for a
motion that is not empty. -/
theorem kill_motion_state (s : EditState) (t : Nat)
    (hp : s.le_main_index ≤ s.le_main_buffer.length) (ht : t ≤ s.le_main_buffer.length)
    (hne : s.le_main_index ≠ t)
    (hpend : s.state.pending_command_motion = MEC.MEC_KILL)
    (hk : s.next_kill_index < KILL_RING_SIZE) :
    (exec_motion_command t false s).le_main_buffer =
      s.le_main_buffer.take (min s.le_main_index t) ++
        s.le_main_buffer.drop (max s.le_main_index t) ∧
    (exec_motion_command t false s).le_main_index = min s.le_main_index t ∧
    (exec_motion_command t false s).kill_ring
        (size_sub (exec_motion_command t false s).next_kill_index 1 % KILL_RING_SIZE) =
      some ((s.le_main_buffer.drop (min s.le_main_index t)).take
        (max s.le_main_index t - min s.le_main_index t)) ∧
    (exec_motion_command t false s).state = initial_keymap_state := by
  obtain ⟨f1, f2, f3, f4, f5, f6, f7⟩ := maybe_save_frame
    (c_assert (decide (t ≤ s.le_main_buffer.length)) s)
  rw [c_assert_of_true _ _ (decide_eq_true ht)] at f1 f2 f3 f4 f5 f6 f7
  have hm : (maybe_save_undo_history s).state.pending_command_motion = MEC.MEC_KILL := by
    rw [f3]; exact hpend
  unfold exec_motion_command
  rw [c_assert_of_true _ _ (decide_eq_true ht)]
  simp only [hm]
  generalize maybe_save_undo_history s = m at f1 f2 f3 f4 f5 f6 f7 hm ⊢
  have g2 : ∀ (u : EditState), (save_current_edit_command u).kill_ring = u.kill_ring ∧
      (save_current_edit_command u).next_kill_index = u.next_kill_index ∧
      (save_current_edit_command u).le_main_buffer = u.le_main_buffer := by
    intro u
    unfold save_current_edit_command
    split_ifs <;> exact ⟨rfl, rfl, rfl⟩
  have hlo : (if s.le_main_index ≤ t then s.le_main_index else t) = min s.le_main_index t := by
    split <;> omega
  have hhi : (if s.le_main_index ≤ t then t else s.le_main_index) = max s.le_main_index t := by
    split <;> omega
  simp only [reset_state, f1, f2, wb_remove, hlo, hhi, (g2 m).2.2, Bool.false_eq_true,
    false_and, if_false]
  generalize hlo2 : min s.le_main_index t = lo
  generalize hhi2 : max s.le_main_index t = hi
  have hlt : lo < hi := by omega
  have hel : hi ≤ s.le_main_buffer.length := by omega
  have hn : 0 < hi - lo := by omega
  have hx : List.drop lo s.le_main_buffer ≠ [] := by
    intro h0
    have := congrArg List.length h0
    simp at this
    omega
  unfold add_to_kill_ring
  simp only [hn, hx, ne_eq, not_false_eq_true, and_self, if_true, (g2 m).1, (g2 m).2.1,
    (g2 m).2.2, f1, f4, f5]
  refine ⟨?_, trivial, ?_, trivial⟩
  · rw [Nat.add_sub_cancel' (by omega)]
  · rw [kill_ring_last_index _ hk]
    simp

/-- The line and the cursor after `put_killed_string` (not after the cursor,
cursor behind the inserted text) with the default count. -/
theorem put_left_state (u : EditState) (str : List Char)
    (hstate : u.state = initial_keymap_state)
    (hring : u.kill_ring (size_sub u.next_kill_index 1 % KILL_RING_SIZE) = some str)
    (hcur : u.le_main_index ≤ u.le_main_buffer.length)
    (hsize : u.le_main_buffer.length + str.length < SIZE_MOD) :
    (put_killed_string false false u).le_main_buffer =
      wb_insert u.le_main_buffer u.le_main_index str ∧
    (put_killed_string false false u).le_main_index = u.le_main_index + str.length := by
  unfold put_killed_string alert_and_return_if_pending
  have hpend : u.state.pending_command_motion = MEC.MEC_NONE := by rw [hstate]; rfl
  simp only [hpend, ne_eq, not_true_eq_false, if_false]
  obtain ⟨f1, f2, f3, f4, f5, f6, f7, f8, f9, f10, f11⟩ := pop_prelude_frame u
  generalize maybe_save_undo_history (save_current_edit_command u) = v at *
  have hring2 : v.kill_ring (size_sub v.next_kill_index 1 % KILL_RING_SIZE) = some str := by
    rw [f4, f5]; exact hring
  have hnone : ¬ v.kill_ring (size_sub v.next_kill_index 1 % KILL_RING_SIZE) = none := by
    rw [hring2]; simp
  rw [if_neg hnone]
  have hc : get_count { v with last_put_elem := size_sub v.next_kill_index 1 % KILL_RING_SIZE } 1
      = 1 := by
    unfold get_count
    simp only [f3, hstate]
    decide
  unfold insert_killed_string
  rw [hring2]
  simp only [c_assert_eq, reset_state, Bool.false_eq_true, false_and, if_false]
  rw [hc]
  have hlen := wb_insert_length v.le_main_buffer v.le_main_index str
  have h1 : size_sub v.le_main_buffer.length v.le_main_index =
      v.le_main_buffer.length - v.le_main_index :=
    size_sub_of_le _ _ (by rw [f1, f2]; exact hcur) (by rw [f1]; omega)
  simp only [Int.toNat_one, Function.iterate_one, h1, hlen]
  simp only [f1, f2]
  refine ⟨trivial, ?_⟩
  rw [size_sub_of_le _ _ (by omega) hsize]
  omega

/-- C36: with the cursor at `p` and an exclusive motion to a different index
`t`, both inside the line, the kill of `exec_motion_command` followed by
`cmd_put_left` with the default count 1 gives the line back, with the cursor at
`max p t`. -/
theorem kill_then_put_left (s : EditState) (t : Nat)
    (hp : s.le_main_index ≤ s.le_main_buffer.length) (ht : t ≤ s.le_main_buffer.length)
    (hne : s.le_main_index ≠ t)
    (hpend : s.state.pending_command_motion = MEC.MEC_KILL)
    (hk : s.next_kill_index < KILL_RING_SIZE)
    (hsize : s.le_main_buffer.length < SIZE_MOD) :
    (cmd_put_left NUL (exec_motion_command t false s)).le_main_buffer = s.le_main_buffer ∧
    (cmd_put_left NUL (exec_motion_command t false s)).le_main_index =
      max s.le_main_index t := by
  obtain ⟨k1, k2, k3, k4⟩ := kill_motion_state s t hp ht hne hpend hk
  have hlen : (exec_motion_command t false s).le_main_buffer.length +
      ((s.le_main_buffer.drop (min s.le_main_index t)).take
        (max s.le_main_index t - min s.le_main_index t)).length = s.le_main_buffer.length := by
    rw [k1]
    simp only [List.length_append, List.length_take, List.length_drop]
    omega
  obtain ⟨p1, p2⟩ := put_left_state (exec_motion_command t false s) _ k4 k3
    (by rw [k1, k2]; simp only [List.length_append, List.length_take, List.length_drop]; omega)
    (by rw [hlen]; exact hsize)
  unfold cmd_put_left
  rw [p1, p2, k1, k2]
  refine ⟨wb_insert_middle _ _ _ (by omega), ?_⟩
  simp only [List.length_take, List.length_drop]
  omega

/-- Witness for `kill_then_put_left`: on `hello` with the cursor on `e`, the
kill up to index 3 followed by put-left gives `hello` with the cursor at 3. -/
theorem kill_then_put_left_witness :
    (exec_motion_command 3 false kill_pending_state).le_main_buffer = "hlo".toList ∧
    (cmd_put_left NUL (exec_motion_command 3 false kill_pending_state)).le_main_buffer =
      "hello".toList ∧
    (cmd_put_left NUL (exec_motion_command 3 false kill_pending_state)).le_main_index = 3 :=
  ⟨by decide,
    kill_then_put_left kill_pending_state 3 (by decide) (by decide) (by decide) (by decide)
      (by decide) (by decide)⟩

/-! ## Theorems on the invariant of the undo history -/

set_option maxRecDepth 100000 in
/-- C39 (code at the failing input): the keys `x`, backward-kill-line, `0`,
put-before and undo, run from `le_editing_init` by `le_invoke_command`, lead
from a state in which the undo history is in order to one whose newest snapshot
has cursor index `SIZE_MAX` for empty contents.  A cancel-undo command run
there, with the record of earlier failures cleared, passes the assertion of
`maybe_save_undo_history`, fails the assertion
`entry->index <= le_main_buffer.length` of `cancel_undo` and puts the cursor at
`SIZE_MAX` on an empty line. -/
theorem undo_stack_broken_after_put_zero :
    undo_stack_ok killed_x_count_zero_state ∧
    cursor_in_range killed_x_count_zero_state ∧
    killed_x_count_zero_state.assert_failed = false ∧
    put_zero_undone_state.undo_history = [⟨0, []⟩, ⟨1, ['x']⟩, ⟨SIZE_MAX, []⟩] ∧
    ¬ undo_stack_ok put_zero_undone_state ∧
    (maybe_save_undo_history
      { put_zero_undone_state with assert_failed := false }).assert_failed = false ∧
    (cancel_undo 1 { put_zero_undone_state with assert_failed := false }).assert_failed = true ∧
    (le_invoke_command Cmd.cmd_cancel_undo cmd_cancel_undo NUL
      { put_zero_undone_state with assert_failed := false }).assert_failed = true ∧
    (le_invoke_command Cmd.cmd_cancel_undo cmd_cancel_undo NUL
      { put_zero_undone_state with assert_failed := false }).le_main_buffer = [] ∧
    (le_invoke_command Cmd.cmd_cancel_undo cmd_cancel_undo NUL
      { put_zero_undone_state with assert_failed := false }).le_main_index = SIZE_MAX := by
  decide

/-! ## Theorems on builtin_kill -/

theorem parse_jobspec_job_found (jt : JobTable) (str : List Char) (forcePercent : Bool)
    (h : ¬ parse_jobspec jt str forcePercent < 0) :
    (get_job jt (parse_jobspec jt str forcePercent).toNat).isSome = true := by
  have hb : ∀ s, ¬ parse_jobspec_body jt s < 0 →
      (get_job jt (parse_jobspec_body jt s).toNat).isSome = true := by
    intro s hs
    rcases parse_jobspec_body_valid jt s with h1 | h1 | h1 | h1
    · omega
    · omega
    · omega
    · exact h1.2
  unfold parse_jobspec at h ⊢
  split at h
  · split at h
    · split at h
      · rename_i _ _ hc
        simp only [*, if_true]
        have hlen := get_job_some_bounds jt _ hc
        have := jt.length_lt
        rw [to_int_of_small _ (by omega) (by omega)]
        simpa using hc
      · omega
    · simp only [*, if_true, if_false]
      exact hb _ h
  · split at h
    · omega
    · simp only [*, if_false]
      exact hb _ h

theorem kill_targets_ok (env : KillEnv) (sig : Int) (argv0 : List Char)
    (targets : List (List Char)) :
    ∀ (err : Bool) (w : KillWorld), ∃ r, kill_targets env sig argv0 targets err w = Except.ok r := by
  induction targets with
  | nil => intro err w; exact ⟨_, rfl⟩
  | cons target rest ih =>
    intro err w
    unfold kill_targets
    simp only
    by_cases h1 : char_at target 0 = '%'
    · rw [if_pos h1]
      by_cases h2 : parse_jobspec env.jobs target true < 0
      · rw [if_pos h2]
        exact ih _ _
      · rw [if_neg h2]
        have hj := parse_jobspec_job_found env.jobs target true h2
        cases hg : get_job env.jobs (parse_jobspec env.jobs target true).toNat with
        | none => rw [hg] at hj; exact absurd hj (by simp)
        | some job =>
          simp only
          split_ifs <;> exact ih _ _
    · rw [if_neg h1]
      split_ifs <;> exact ih _ _

theorem get_signal_some_ok (sigdata : List SIGDATA) (name : List Char) :
    ∃ sig, get_signal sigdata (some name) = Except.ok sig := by
  unfold get_signal
  simp only
  split_ifs <;> exact ⟨_, rfl⟩

theorem kill_list_some_ok (env : KillEnv) (argv0 : List Char) (args : List (List Char)) :
    ∀ (err : Bool) (w : KillWorld), ∃ r, kill_list_some env argv0 args err w = Except.ok r := by
  induction args with
  | nil => intro err w; exact ⟨_, rfl⟩
  | cons arg rest ih =>
    intro err w
    obtain ⟨sig, hs⟩ := get_signal_some_ok env.sigdata arg
    unfold kill_list_some
    rw [hs]
    simp only
    split
    · split_ifs
      · exact ih _ _
      · exact ih _ _
    · exact ih _ _

theorem kill_with_signal_ok (env : KillEnv) (argv0 shown : List Char)
    (targets : List (List Char)) (w : KillWorld) (name : List Char) :
    ∃ r, kill_with_signal env argv0 shown targets w (get_signal env.sigdata (some name)) =
      Except.ok r := by
  obtain ⟨sig, hs⟩ := get_signal_some_ok env.sigdata name
  rw [hs]
  unfold kill_with_signal
  simp only
  split_ifs
  · exact ⟨_, rfl⟩
  · obtain ⟨r, hr⟩ := kill_targets_ok env sig argv0 targets false w
    rw [hr]
    exact ⟨_, rfl⟩

/-- The only call of `builtin_kill` with at least the command name in `argv`
that leaves defined behaviour is the one with two arguments whose second is
`-s`: there `get_signal` receives the null pointer `argv[argc]`. -/
theorem builtin_kill_fault_only (env : KillEnv) (argv : List (List Char)) (w : KillWorld)
    (f : KillFault) (hne : argv ≠ []) (h : builtin_kill env argv w = Except.error f) :
    f = KillFault.null_name ∧ argv.length = 2 ∧ char_at (argv.getD 1 []) 0 = '-' ∧
      char_at (argv.getD 1 []) 1 = 's' ∧ char_at (argv.getD 1 []) 2 = NUL := by
  unfold builtin_kill at h
  simp only at h
  by_cases h1 : argv.length = 1
  · rw [if_pos h1] at h; cases h
  rw [if_neg h1] at h
  have hlen : 1 < argv.length := by
    have : argv.length ≠ 0 := fun h0 => hne (List.length_eq_zero.mp h0)
    omega
  have ha : argv_at argv 1 = Except.ok (some (argv.getD 1 [])) := by
    unfold argv_at; rw [if_pos hlen]
  rw [ha] at h
  simp only at h
  by_cases h2 : char_at (argv.getD 1 []) 0 = '-'
  · rw [if_pos h2] at h
    by_cases h3 : char_at (argv.getD 1 []) 1 = 's'
    · rw [if_pos h3] at h
      by_cases h4 : char_at (argv.getD 1 []) 2 ≠ NUL
      · rw [if_pos h4] at h
        obtain ⟨r, hr⟩ := kill_with_signal_ok env (argv.getD 0 []) ((argv.getD 1 []).drop 2)
          (argv.drop 2) w ((argv.getD 1 []).drop 2)
        rw [hr] at h; cases h
      · rw [if_neg h4] at h
        by_cases h2l : 2 < argv.length
        · have ha2 : argv_at argv 2 = Except.ok (some (argv.getD 2 [])) := by
            unfold argv_at; rw [if_pos h2l]
          rw [ha2] at h
          simp only at h
          obtain ⟨r, hr⟩ := kill_with_signal_ok env (argv.getD 0 [])
            ((argv.getD 1 []).drop 2) (argv.drop 3) w (argv.getD 2 [])
          rw [hr] at h; cases h
        · have hl2 : argv.length = 2 := by omega
          have ha2 : argv_at argv 2 = Except.ok none := by
            unfold argv_at; rw [if_neg h2l, if_pos hl2.symm]
          rw [ha2] at h
          simp only [get_signal, kill_with_signal] at h
          cases h
          exact ⟨rfl, hl2, h2, h3, by simpa using h4⟩
    · rw [if_neg h3] at h
      by_cases h5 : isupper (char_at (argv.getD 1 []) 1) = true
      · rw [if_pos h5] at h
        obtain ⟨r, hr⟩ := kill_with_signal_ok env (argv.getD 0 []) ((argv.getD 1 []).drop 1)
          (argv.drop 2) w ((argv.getD 1 []).drop 1)
        rw [hr] at h; cases h
      · rw [if_neg h5] at h
        by_cases h6 : char_at (argv.getD 1 []) 1 = 'l'
        · rw [if_pos h6] at h
          by_cases h7 : argv.length ≤ 2
          · rw [if_pos h7] at h; cases h
          · rw [if_neg h7] at h
            obtain ⟨r, hr⟩ := kill_list_some_ok env (argv.getD 0 []) (argv.drop 2) false w
            rw [hr] at h
            simp only [Except.map] at h
            cases h
        · rw [if_neg h6] at h; cases h
  · rw [if_neg h2] at h
    obtain ⟨r, hr⟩ := kill_targets_ok env env.SIGTERM (argv.getD 0 []) (argv.drop 1) false w
    rw [hr] at h
    simp only [Except.map] at h
    cases h

/-- C40 (code at the failing input): called as `kill -s` with no further
argument, `builtin_kill` reads `argv[2]`, which is the null pointer `argv[argc]`
and not one of `argv[0..argc-1]`, and passes it to `get_signal`, whose
`assert(name != NULL)` fails: the call ends in a crash, whatever the signal
table, the jobs and the name of the command, and no error is reported. -/
theorem builtin_kill_s_without_name (env : KillEnv) (argv0 : List Char) (w : KillWorld) :
    argv_at [argv0, "-s".toList] 2 = Except.ok none ∧
    get_signal env.sigdata none = Except.error KillFault.null_name ∧
    builtin_kill env [argv0, "-s".toList] w = Except.error KillFault.null_name := by
  refine ⟨rfl, rfl, ?_⟩
  unfold builtin_kill
  have h1 : argv_at [argv0, "-s".toList] 1 = Except.ok (some "-s".toList) := rfl
  have h2 : argv_at [argv0, "-s".toList] 2 = Except.ok none := rfl
  have c0 : char_at "-s".toList 0 = '-' := by decide
  have c1 : char_at "-s".toList 1 = 's' := by decide
  have c2 : ¬ (char_at "-s".toList 2 ≠ NUL) := by decide
  simp only [h1, h2, c0, c1, c2, if_true, if_false, List.length_cons, List.length_nil]
  rfl

/-! ## Theorems on delete_semiword_backward and vi_replace_char -/

theorem semiword_scan_spec (cond : Char → Bool) (contents : List Char) (bound : Nat) :
    ((semiword_scan cond contents bound).2 = true → (semiword_scan cond contents bound).1 = 0) ∧
    ((semiword_scan cond contents bound).2 = false →
      (semiword_scan cond contents bound).1 < bound) := by
  induction bound with
  | zero => simp [semiword_scan]
  | succ b ih =>
    unfold semiword_scan
    split_ifs
    · exact ⟨ih.1, fun h => Nat.lt_succ_of_lt (ih.2 h)⟩
    · simp

theorem semiword_bound_spec (contents : List Char) (count : Nat) :
    ∀ bound, ((semiword_bound contents (count + 1) bound).2 = true →
        (semiword_bound contents (count + 1) bound).1 = 0) ∧
      ((semiword_bound contents (count + 1) bound).2 = false →
        (semiword_bound contents (count + 1) bound).1 + 2 ≤ bound) := by
  induction count with
  | zero =>
    intro bound
    have h1 := semiword_scan_spec is_blank_or_punct contents bound
    have h2 := semiword_scan_spec (fun c => !is_blank_or_punct c) contents
      (semiword_scan is_blank_or_punct contents bound).1
    unfold semiword_bound
    simp only
    split_ifs with ha hb
    · exact ⟨h1.1, fun h => (by rw [ha] at h; cases h)⟩
    · exact ⟨h2.1, fun h => (by rw [hb] at h; cases h)⟩
    · simp only [semiword_bound]
      have h1' := h1.2 (by simpa using ha)
      have h2' := h2.2 (by simpa using hb)
      exact ⟨fun h => (by cases h), fun _ => by omega⟩
  | succ k ih =>
    intro bound
    have h1 := semiword_scan_spec is_blank_or_punct contents bound
    have h2 := semiword_scan_spec (fun c => !is_blank_or_punct c) contents
      (semiword_scan is_blank_or_punct contents bound).1
    rw [semiword_bound]
    simp only
    split_ifs with ha hb
    · exact ⟨h1.1, fun h => (by rw [ha] at h; cases h)⟩
    · exact ⟨h2.1, fun h => (by rw [hb] at h; cases h)⟩
    · have h1' := h1.2 (by simpa using ha)
      have h2' := h2.2 (by simpa using hb)
      have := ih (semiword_scan (fun c => !is_blank_or_punct c) contents
        (semiword_scan is_blank_or_punct contents bound).1).1
      exact ⟨this.1, fun h => by have := this.2 h; omega⟩

theorem add_to_kill_ring_line (str : List Char) (n : Nat) (s : EditState) :
    (add_to_kill_ring str n s).le_main_buffer = s.le_main_buffer ∧
    (add_to_kill_ring str n s).le_main_index = s.le_main_index := by
  unfold add_to_kill_ring
  split_ifs <;> exact ⟨rfl, rfl⟩

/-- C32 (what the code does): with no operator pending, the cursor at `p > 0`
inside the line and a count of at least 1, `delete_semiword_backward` leaves
the line `b[0..q)` for some `q < p` with the cursor at `q`: it removes
everything from `q` to the end of the line, also the characters `b[p..len)`
after the cursor, so that for `p < len` the line is not
`b[0..q) ++ b[p..len)`. -/
theorem delete_semiword_backward_to_end (kill : Bool) (s : EditState)
    (hpend : s.state.pending_command_motion = MEC.MEC_NONE)
    (hp0 : 0 < s.le_main_index) (hp : s.le_main_index ≤ s.le_main_buffer.length)
    (hcount : 1 ≤ get_count s 1) (hsize : s.le_main_buffer.length < SIZE_MOD) :
    ∃ q, q < s.le_main_index ∧
      (delete_semiword_backward kill s).le_main_buffer = s.le_main_buffer.take q ∧
      (delete_semiword_backward kill s).le_main_index = q ∧
      (s.le_main_index < s.le_main_buffer.length →
        (delete_semiword_backward kill s).le_main_buffer ≠
          s.le_main_buffer.take q ++ s.le_main_buffer.drop s.le_main_index) := by
  unfold delete_semiword_backward alert_and_return_if_pending
  simp only [hpend, ne_eq, not_true_eq_false, if_false]
  obtain ⟨f1, f2, f3, -⟩ := pop_prelude_frame s
  generalize maybe_save_undo_history (save_current_edit_command s) = v at *
  have hv0 : ¬ v.le_main_index = 0 := by rw [f2]; omega
  rw [if_neg hv0]
  have hc : get_count v 1 = get_count s 1 := by unfold get_count; rw [f3]
  obtain ⟨k, hk⟩ : ∃ k, (get_count v 1).toNat = k + 1 :=
    ⟨(get_count v 1).toNat - 1, by rw [hc]; omega⟩
  rw [hk]
  have hb := semiword_bound_spec v.le_main_buffer k v.le_main_index
  generalize semiword_bound v.le_main_buffer (k + 1) v.le_main_index = r at hb
  obtain ⟨b, d⟩ := r
  simp only at hb ⊢
  have hq : (if d = true then b else (b + 1) % SIZE_MOD) < v.le_main_index ∧
      (if d = true then b else (b + 1) % SIZE_MOD) ≤ s.le_main_buffer.length := by
    cases d
    · have := hb.2 rfl
      simp only [Bool.false_eq_true, if_false]
      rw [Nat.mod_eq_of_lt (by rw [f2] at this; omega)]
      rw [f2] at this ⊢
      omega
    · have := hb.1 rfl
      simp only [if_true]
      rw [f2]
      omega
  generalize (if d = true then b else (b + 1) % SIZE_MOD) = q at hq
  refine ⟨q, (by rw [← f2]; exact hq.1), ?_⟩
  rw [if_pos hq.1]
  have hrem : wb_remove s.le_main_buffer q (size_sub s.le_main_buffer.length q) =
      s.le_main_buffer.take q := by
    unfold wb_remove
    rw [size_sub_of_le _ _ hq.2 hsize, Nat.add_sub_cancel' hq.2, List.drop_length,
      List.append_nil]
  have hbuf : ∀ u : EditState, u.le_main_buffer = s.le_main_buffer →
      (reset_state { u with
        le_main_buffer := wb_remove u.le_main_buffer q (size_sub v.le_main_buffer.length q)
        le_main_index := q }).le_main_buffer = s.le_main_buffer.take q := by
    intro u hu
    simp only [reset_state, hu, f1, hrem]
  have hfin : ∀ t : EditState, t.le_main_buffer = s.le_main_buffer.take q →
      s.le_main_index < s.le_main_buffer.length →
      t.le_main_buffer ≠ s.le_main_buffer.take q ++ s.le_main_buffer.drop s.le_main_index := by
    intro t ht hlt heq
    rw [ht] at heq
    have := congrArg List.length heq
    simp only [List.length_append, List.length_take, List.length_drop] at this
    omega
  cases kill
  · simp only [Bool.false_eq_true, if_false]
    have h1 := hbuf v f1
    exact ⟨h1, rfl, hfin _ h1⟩
  · simp only [if_true]
    have h1 := hbuf (add_to_kill_ring (List.drop q v.le_main_buffer)
      (size_sub v.le_main_buffer.length q) v) ((add_to_kill_ring_line _ _ v).1.trans f1)
    exact ⟨h1, rfl, hfin _ h1⟩

/-- Witness for `delete_semiword_backward_to_end`: on `ab cd` with the cursor
on the blank the whole line is removed, ` cd` included. -/
theorem delete_semiword_backward_to_end_witness :
    (delete_semiword_backward false ab_cd_state).le_main_buffer = [] ∧
    (delete_semiword_backward false ab_cd_state).le_main_index = 0 ∧
    ∃ q, q < ab_cd_state.le_main_index ∧
      (delete_semiword_backward false ab_cd_state).le_main_buffer =
        ab_cd_state.le_main_buffer.take q ∧
      (delete_semiword_backward false ab_cd_state).le_main_index = q ∧
      (ab_cd_state.le_main_index < ab_cd_state.le_main_buffer.length →
        (delete_semiword_backward false ab_cd_state).le_main_buffer ≠
          ab_cd_state.le_main_buffer.take q ++
            ab_cd_state.le_main_buffer.drop ab_cd_state.le_main_index) :=
  ⟨by decide, by decide,
    delete_semiword_backward_to_end false ab_cd_state (by decide) (by decide) (by decide)
      (by decide) (by decide)⟩

theorem vi_replace_loop_spec (c : Char) (length : Nat) (count : Nat) :
    ∀ (cells : List Char) (index : Nat), index ≤ length → cells.length = length + 1 →
      (vi_replace_loop c length count cells index).1.length = length + 1 ∧
      (vi_replace_loop c length count cells index).2 = index + min count (length - index) ∧
      ∀ j, (vi_replace_loop c length count cells index).1[j]? =
        if index < j ∧ j ≤ index + min count (length - index) then some c else cells[j]? := by
  induction count with
  | zero =>
    intro cells index _ hlen
    simp only [vi_replace_loop, Nat.zero_min, Nat.add_zero]
    refine ⟨hlen, trivial, fun j => ?_⟩
    rw [if_neg (by omega)]
  | succ m ih =>
    intro cells index hi hlen
    unfold vi_replace_loop
    by_cases hlt : index < length
    · rw [if_pos hlt]
      obtain ⟨i1, i2, i3⟩ := ih (cells.set (index + 1) c) (index + 1) (by omega)
        (by rw [List.length_set]; exact hlen)
      have hk : min (m + 1) (length - index) = min m (length - (index + 1)) + 1 := by omega
      refine ⟨i1, by rw [i2, hk]; omega, fun j => ?_⟩
      rw [i3 j, hk, List.getElem?_set]
      by_cases h1 : index + 1 < j ∧ j ≤ index + 1 + min m (length - (index + 1))
      · rw [if_pos h1, if_pos (by omega)]
      · rw [if_neg h1]
        by_cases h2 : index + 1 = j
        · rw [if_pos h2, if_pos (by omega), if_pos (by omega)]
        · rw [if_neg h2, if_neg (by omega)]
    · rw [if_neg hlt]
      have hk : min (m + 1) (length - index) = 0 := by omega
      simp only [hk, Nat.add_zero]
      refine ⟨hlen, trivial, fun j => ?_⟩
      rw [if_neg (by omega)]

/-- C33 (what the code does): with the cursor at `p` inside a line of length
`len`, a character `c` other than NUL and a count `n ≥ 1`, `vi_replace_char`
keeps the length, writes `c` to the positions `p .. min (p + n) len - 1` of
the line and leaves the others, but when `p + n > len` it also writes `c` to
`contents[len]`, the cell of the terminating NUL, so it does write at an index
that is not below the length; the cursor ends at `min (p + n - 1) len`. -/
theorem vi_replace_char_cells (c : Char) (s : EditState) (n : Nat) (hc : c ≠ NUL)
    (hp : s.le_main_index < s.le_main_buffer.length) (hn : 1 ≤ n)
    (hcount : get_count s 1 = (n : Int)) :
    (vi_replace_char c s).1.le_main_buffer.length = s.le_main_buffer.length ∧
    (∀ j, j < s.le_main_buffer.length →
      (vi_replace_char c s).1.le_main_buffer[j]? =
        if s.le_main_index ≤ j ∧ j < s.le_main_index + n then some c
        else s.le_main_buffer[j]?) ∧
    (vi_replace_char c s).2 =
      (if s.le_main_buffer.length < s.le_main_index + n then c else NUL) ∧
    (vi_replace_char c s).1.le_main_index =
      min (s.le_main_index + n - 1) s.le_main_buffer.length := by
  have g : ∀ u : EditState, (save_current_edit_command u).le_main_buffer = u.le_main_buffer ∧
      (save_current_edit_command u).le_main_index = u.le_main_index ∧
      (save_current_edit_command u).state = u.state := by
    intro u
    unfold save_current_edit_command
    split_ifs <;> exact ⟨rfl, rfl, rfl⟩
  obtain ⟨g1, g2, g3⟩ := g s
  unfold vi_replace_char
  simp only [hc, ne_eq, not_false_eq_true, if_true, le_set_mode, get_count, g1, g2, g3]
  unfold get_count at hcount
  rw [hcount]
  have hcond : (n : Int) - 1 ≥ 0 ∧ s.le_main_index < s.le_main_buffer.length :=
    ⟨by omega, hp⟩
  rw [if_pos hcond]
  have hm : ((n : Int) - 1).toNat = n - 1 := by omega
  rw [hm]
  obtain ⟨l1, l2, l3⟩ := vi_replace_loop_spec c s.le_main_buffer.length (n - 1)
    ((s.le_main_buffer ++ [NUL]).set s.le_main_index c) s.le_main_index (by omega)
    (by rw [List.length_set, List.length_append]; rfl)
  generalize vi_replace_loop c s.le_main_buffer.length (n - 1)
    ((s.le_main_buffer ++ [NUL]).set s.le_main_index c) s.le_main_index = r at l1 l2 l3
  simp only [reset_state]
  refine ⟨?_, ?_, ?_, ?_⟩
  · rw [List.length_take, l1]; omega
  · intro j hj
    rw [List.getElem?_take_of_lt hj, l3 j, List.getElem?_set]
    by_cases h1 : s.le_main_index < j ∧
        j ≤ s.le_main_index + min (n - 1) (s.le_main_buffer.length - s.le_main_index)
    · rw [if_pos h1, if_pos (by omega)]
    · rw [if_neg h1]
      by_cases h2 : s.le_main_index = j
      · rw [if_pos h2, if_pos (by rw [List.length_append]; omega), if_pos (by omega)]
      · rw [if_neg h2, if_neg (by omega), List.getElem?_append_left hj]
  · unfold char_at
    rw [List.getD_eq_getElem?_getD, l3, List.getElem?_set]
    by_cases h1 : s.le_main_buffer.length < s.le_main_index + n
    · rw [if_pos (by omega), if_pos h1]
      rfl
    · rw [if_neg (by omega), if_neg h1, if_neg (by omega),
        List.getElem?_append_right (le_refl _)]
      simp
  · rw [l2]; omega

/-- Witness for `vi_replace_char_cells`: on `ab cd` with the cursor on `d`
and the count 2, the character `x` replaces `d` and the terminating NUL. -/
theorem vi_replace_char_cells_witness :
    (vi_replace_char 'x' (set_count 1 2 { ab_cd_state with le_main_index := 4 })).1.le_main_buffer
      = "ab cx".toList ∧
    (vi_replace_char 'x' (set_count 1 2 { ab_cd_state with le_main_index := 4 })).1.le_main_index
      = 5 ∧
    (vi_replace_char 'x' (set_count 1 2 { ab_cd_state with le_main_index := 4 })).2 = 'x' :=
  ⟨by decide, by decide,
    (vi_replace_char_cells 'x' (set_count 1 2 { ab_cd_state with le_main_index := 4 }) 2
      (by decide) (by decide) (by decide) (by decide)).2.2.1.trans (by decide)⟩

/-! ## Theorems on the word index functions -/

theorem char_at_length (s : List Char) : char_at s s.length = NUL := by
  unfold char_at
  rw [List.getD_eq_getElem?_getD, List.getElem?_eq_none (le_refl _)]
  rfl

theorem char_at_ne_nul (s : List Char) (hs : NUL ∉ s) (j : Nat) (hj : j < s.length) :
    char_at s j ≠ NUL := by
  unfold char_at
  rw [List.getD_eq_getElem?_getD, List.getElem?_eq_getElem hj]
  intro h
  exact hs (h ▸ List.getElem_mem hj)

theorem wcs_read_at (s : List Char) (hs : NUL ∉ s) (j : Nat) (hj : j ≤ s.length) :
    wcs_read s j = some (char_at s j) := by
  rcases Nat.lt_or_eq_of_le hj with h | h
  · obtain ⟨a, h1, h2, -⟩ := wcs_read_lt s hs j h
    rw [h1]
    unfold char_at
    rw [List.getD_eq_getElem?_getD, ← List.get?_eq_getElem?, h2]
    rfl
  · rw [h, wcs_read_end s hs, char_at_length]

/-- The loop `while (cond(s[i])) i++` stops, for a test that fails on NUL,
at the first index from `i` on whose character fails the test. -/
theorem skip_while_spec (cond : Char → Bool) (hc : cond NUL = false) (s : List Char)
    (hs : NUL ∉ s) (fuel : Nat) :
    ∀ i, i ≤ s.length → s.length - i < fuel →
      ∃ r, skip_while cond s fuel i = some r ∧ i ≤ r ∧ r ≤ s.length ∧
        cond (char_at s r) = false ∧ (∀ j, i ≤ j → j < r → cond (char_at s j) = true) ∧
        (cond (char_at s i) = true → i < r) ∧ (cond (char_at s i) = false → r = i) := by
  induction fuel with
  | zero => intro i _ h; omega
  | succ k ih =>
    intro i hi hk
    unfold skip_while
    rw [wcs_read_at s hs i hi]
    simp only
    by_cases h : cond (char_at s i) = true
    · rw [if_pos h]
      have hlt : i < s.length := by
        rcases Nat.lt_or_eq_of_le hi with h1 | h1
        · exact h1
        · rw [h1, char_at_length, hc] at h; cases h
      obtain ⟨r, h1, h2, h3, h4, h5, -, -⟩ := ih (i + 1) hlt (by omega)
      refine ⟨r, h1, by omega, h3, h4, fun j hj1 hj2 => ?_, fun _ => by omega, fun h0 => ?_⟩
      · rcases Nat.lt_or_eq_of_le hj1 with h6 | h6
        · exact h5 j h6 hj2
        · rw [← h6]; exact h
      · rw [h0] at h; cases h
    · rw [if_neg h]
      have h' : cond (char_at s i) = false := by simpa using h
      exact ⟨i, rfl, le_refl _, hi, h', fun j hj1 hj2 => by omega,
        fun h0 => absurd h0 h, fun _ => rfl⟩

/-- Two loops in a row, the first skipping the characters that fail a test
and the second those that pass it, advance from any index inside the string. -/
theorem skip_two_advances (p : Char → Bool) (s : List Char) (hs : NUL ∉ s) (i fuel : Nat)
    (hi : i ≤ s.length) (hfuel : s.length < fuel) :
    ∃ r, (match skip_while (fun c => decide (c ≠ NUL) && !p c) s fuel i with
        | none => none
        | some i => skip_while (fun c => decide (c ≠ NUL) && p c) s fuel i) = some r ∧
      index_advances s i r := by
  have hc1 : (fun c => decide (c ≠ NUL) && !p c) NUL = false := by simp
  have hc2 : (fun c => decide (c ≠ NUL) && p c) NUL = false := by simp
  obtain ⟨r1, e1, a1, a2, a3, -, a5, a6⟩ :=
    skip_while_spec (fun c => decide (c ≠ NUL) && !p c) hc1 s hs fuel i hi (by omega)
  obtain ⟨r2, e2, b1, b2, b3, -, b5, b6⟩ :=
    skip_while_spec (fun c => decide (c ≠ NUL) && p c) hc2 s hs fuel r1 a2 (by omega)
  rw [e1]
  simp only
  rw [e2]
  refine ⟨r2, rfl, fun hlt => ⟨?_, b2⟩, fun heq => by omega⟩
  have hne := char_at_ne_nul s hs i hlt
  by_cases hp : p (char_at s i) = true
  · have h6 := a6 (by simp [hp])
    rw [h6] at b5
    exact b5 (by simp [hp, hne])
  · have h5 := a5 (by simp [hp, hne])
    omega

theorem next_bigword_index_advances (s : List Char) (hs : NUL ∉ s) (i fuel : Nat)
    (hi : i ≤ s.length) (hfuel : s.length < fuel) :
    ∃ r, next_bigword_index s i fuel = some r ∧ index_advances s i r :=
  skip_two_advances iswblank s hs i fuel hi hfuel

theorem next_nonword_index_advances (s : List Char) (hs : NUL ∉ s) (i fuel : Nat)
    (hi : i ≤ s.length) (hfuel : s.length < fuel) :
    ∃ r, next_nonword_index s i fuel = some r ∧ index_advances s i r :=
  skip_two_advances iswalnum s hs i fuel hi hfuel

theorem bigword_start_at_end (s : List Char) (hs : NUL ∉ s) (init : Nat) (progress : Bool)
    (fuel rounds : Nat) :
    next_end_of_bigword_index_start s init progress fuel (rounds + 1) s.length =
      some s.length := by
  unfold next_end_of_bigword_index_start
  rw [wcs_read_at s hs _ (le_refl _), char_at_length]
  simp

/-- One pass through the body of `next_end_of_bigword_index` from an index
`i` inside the string: the index `j` reached before the test of `progress` is
the end of a run of non-blank characters, or the last index of the string when
only blank characters follow. -/
theorem bigword_round (s : List Char) (hs : NUL ∉ s) (hn : s.length < SIZE_MOD) (init : Nat)
    (progress : Bool) (fuel rounds i : Nat) (hi : i < s.length) (hfuel : s.length < fuel) :
    ∃ j, i ≤ j ∧ j < s.length ∧
      (bigword_end s j ∨
        (j + 1 = s.length ∧ ∀ k, i ≤ k → k < s.length → iswblank (char_at s k) = true)) ∧
      next_end_of_bigword_index_start s init progress fuel (rounds + 1) i =
        if j > init ∨ progress = false then some j
        else next_end_of_bigword_index_start s init progress fuel rounds (j + 1) := by
  have hc1 : (fun c => decide (c ≠ NUL) && iswblank c) NUL = false := by simp
  have hc2 : (fun c => decide (c ≠ NUL) && !iswblank c) NUL = false := by simp
  obtain ⟨b, e1, a1, a2, a3, a4, a5, a6⟩ :=
    skip_while_spec (fun c => decide (c ≠ NUL) && iswblank c) hc1 s hs fuel i (by omega)
      (by omega)
  obtain ⟨e, e2, b1, b2, b3, b4, b5, b6⟩ :=
    skip_while_spec (fun c => decide (c ≠ NUL) && !iswblank c) hc2 s hs fuel b a2 (by omega)
  have hne := char_at_ne_nul s hs i hi
  have hie : i < e := by
    by_cases hb : iswblank (char_at s i) = true
    · have := a5 (by simp [hb, hne])
      omega
    · have h6 := a6 (by simp [hb])
      rw [h6] at b5
      exact b5 (by simp [hb, hne])
  have hsub : size_sub e 1 = e - 1 := size_sub_of_le _ _ (by omega) (by omega)
  have hadd : (e - 1 + 1) % SIZE_MOD = e - 1 + 1 := Nat.mod_eq_of_lt (by omega)
  refine ⟨e - 1, by omega, by omega, ?_, ?_⟩
  · rcases Nat.lt_or_eq_of_le a2 with hb | hb
    · left
      have hbne := char_at_ne_nul s hs b hb
      have hnb : iswblank (char_at s b) = false := by
        simpa [hbne] using a3
      have hbe : b < e := b5 (by simp [hnb, hbne])
      have hj := b4 (e - 1) (by omega) (by omega)
      have hjn : iswblank (char_at s (e - 1)) = false := by
        simp only [Bool.and_eq_true, Bool.not_eq_true', decide_eq_true_eq] at hj
        exact hj.2
      refine ⟨by omega, hjn, ?_⟩
      rcases Nat.lt_or_eq_of_le b2 with he | he
      · right
        have hene := char_at_ne_nul s hs e he
        have : e - 1 + 1 = e := by omega
        rw [this]
        simpa [hene] using b3
      · left; omega
    · right
      refine ⟨by omega, fun k hk1 hk2 => ?_⟩
      have := a4 k hk1 (by omega)
      simp only [Bool.and_eq_true, decide_eq_true_eq] at this
      exact this.2
  · rw [next_end_of_bigword_index_start, wcs_read_at s hs i (by omega)]
    simp only [hne, if_false, e1, e2, hsub, hadd]

/-- What `next_end_of_bigword_index` with `progress` set returns. -/
theorem next_end_of_bigword_index_spec (s : List Char) (hs : NUL ∉ s)
    (hn : s.length < SIZE_MOD) (i fuel : Nat) (hi : i ≤ s.length)
    (hfuel : s.length + 2 ≤ fuel) :
    ∃ r, next_end_of_bigword_index s i true fuel = some r ∧ index_advances s i r ∧
      (i < s.length → r = s.length ∨ bigword_end s r ∨
        (r + 1 = s.length ∧ ∀ k, i < k → k < s.length → iswblank (char_at s k) = true)) := by
  obtain ⟨m, hm⟩ : ∃ m, fuel = m + 2 := ⟨fuel - 2, by omega⟩
  unfold next_end_of_bigword_index
  rcases Nat.lt_or_eq_of_le hi with hlt | heq
  · obtain ⟨j, j1, j2, j3, j4⟩ := bigword_round s hs hn i true fuel (m + 1) i hlt (by omega)
    rw [hm] at j4 ⊢
    rw [j4]
    simp only [Bool.true_eq_false, or_false]
    by_cases hj : j > i
    · rw [if_pos hj]
      refine ⟨j, rfl, ⟨fun _ => ⟨hj, by omega⟩, fun h => by omega⟩, fun _ => ?_⟩
      rcases j3 with h | ⟨h1, h2⟩
      · exact Or.inr (Or.inl h)
      · exact Or.inr (Or.inr ⟨h1, fun k hk1 hk2 => h2 k (by omega) hk2⟩)
    · rw [if_neg hj]
      have hji : j = i := by omega
      rw [hji]
      rcases Nat.lt_or_eq_of_le (Nat.succ_le_of_lt hlt) with h1 | h1
      · obtain ⟨j', k1, k2, k3, k4⟩ :=
          bigword_round s hs hn i true (m + 2) m (i + 1) h1 (by omega)
        rw [k4]
        simp only [Bool.true_eq_false, or_false]
        rw [if_pos (by omega)]
        refine ⟨j', rfl, ⟨fun _ => ⟨by omega, by omega⟩, fun h => by omega⟩, fun _ => ?_⟩
        rcases k3 with h | ⟨h3, h4⟩
        · exact Or.inr (Or.inl h)
        · exact Or.inr (Or.inr ⟨h3, fun k hk1 hk2 => h4 k (by omega) hk2⟩)
      · have h1' : i + 1 = s.length := h1
        rw [h1', bigword_start_at_end s hs]
        exact ⟨s.length, rfl, ⟨fun _ => ⟨by omega, le_refl _⟩, fun _ => rfl⟩,
          fun _ => Or.inl rfl⟩
  · rw [heq, hm, bigword_start_at_end s hs]
    exact ⟨s.length, rfl, ⟨fun h => by omega, fun _ => rfl⟩, fun h => by omega⟩

theorem char_at_eq_nul (s : List Char) (hs : NUL ∉ s) (j : Nat) (hj : j ≤ s.length)
    (h : char_at s j = NUL) : j = s.length := by
  rcases Nat.lt_or_eq_of_le hj with h1 | h1
  · exact absurd h (char_at_ne_nul s hs j h1)
  · exact h1

theorem next_viword_index_loop_spec (s : List Char) (hs : NUL ∉ s) (fuel : Nat) :
    ∀ i, i ≤ s.length → s.length - i < fuel →
      ∃ j brk, next_viword_index_loop s fuel i = some (j, brk) ∧ i ≤ j ∧ j ≤ s.length ∧
        (i < s.length → i < j) ∧ (brk = true → j < s.length) := by
  induction fuel with
  | zero => intro i _ h; omega
  | succ k ih =>
    intro i hi hk
    unfold next_viword_index_loop
    rw [wcs_read_at s hs i hi]
    simp only
    by_cases h0 : char_at s i = NUL
    · rw [if_pos h0]
      have := char_at_eq_nul s hs i hi h0
      exact ⟨i, false, rfl, le_refl _, hi, fun h => by omega, fun h => by cases h⟩
    · rw [if_neg h0]
      have hlt : i < s.length := by
        rcases Nat.lt_or_eq_of_le hi with h1 | h1
        · exact h1
        · rw [h1, char_at_length] at h0; exact absurd rfl h0
      rw [wcs_read_at s hs (i + 1) hlt]
      simp only
      by_cases h1 : is_viword_char (char_at s (i + 1)) = true
      · rw [if_pos h1]
        exact ⟨i + 1, false, rfl, by omega, hlt, fun _ => by omega, fun h => by cases h⟩
      · rw [if_neg h1]
        by_cases h2 : iswblank (char_at s (i + 1)) = true
        · rw [if_pos h2]
          refine ⟨i + 1, true, rfl, by omega, hlt, fun _ => by omega, fun _ => ?_⟩
          rcases Nat.lt_or_eq_of_le (Nat.succ_le_of_lt hlt) with h3 | h3
          · exact h3
          · have h3' : i + 1 = s.length := h3
            rw [h3', char_at_length] at h2
            exact absurd h2 (by decide)
        · rw [if_neg h2]
          obtain ⟨j, brk, e, a1, a2, -, a4⟩ := ih (i + 1) hlt (by omega)
          exact ⟨j, brk, e, by omega, a2, fun _ => by omega, a4⟩

theorem blank_inside (s : List Char) (j : Nat) (hj : j ≤ s.length)
    (h : iswblank (char_at s j) = true) : j < s.length := by
  rcases Nat.lt_or_eq_of_le hj with h1 | h1
  · exact h1
  · rw [h1, char_at_length] at h
    exact absurd h (by decide)

theorem next_viword_index_advances (s : List Char) (hs : NUL ∉ s) (i fuel : Nat)
    (hi : i ≤ s.length) (hfuel : s.length < fuel) :
    ∃ r, next_viword_index s i fuel = some r ∧ index_advances s i r := by
  have hcw : is_viword_char NUL = false := by decide
  have hcb : iswblank NUL = false := by decide
  unfold next_viword_index
  rw [wcs_read_at s hs i hi]
  simp only
  by_cases h1 : is_viword_char (char_at s i) = true
  · rw [if_pos h1]
    have hlt : i < s.length := by
      rcases Nat.lt_or_eq_of_le hi with h | h
      · exact h
      · rw [h, char_at_length, hcw] at h1; cases h1
    obtain ⟨j, e1, a1, a2, -⟩ := skip_while_spec is_viword_char hcw s hs fuel (i + 1) hlt
      (by omega)
    rw [e1]
    simp only
    rw [wcs_read_at s hs j a2]
    simp only
    by_cases h2 : (!iswblank (char_at s j)) = true
    · rw [if_pos h2]
      exact ⟨j, rfl, fun _ => ⟨by omega, a2⟩, fun h => by omega⟩
    · rw [if_neg h2]
      have hb : iswblank (char_at s j) = true := by simpa using h2
      have hj := blank_inside s j a2 hb
      obtain ⟨r, e2, b1, b2, -⟩ := skip_while_spec iswblank hcb s hs fuel (j + 1) hj (by omega)
      exact ⟨r, e2, fun _ => ⟨by omega, b2⟩, fun h => by omega⟩
  · rw [if_neg h1]
    by_cases h2 : (!iswblank (char_at s i)) = true
    · rw [if_pos h2]
      obtain ⟨j, brk, e, a1, a2, a3, a4⟩ := next_viword_index_loop_spec s hs fuel i hi (by omega)
      rw [e]
      cases brk
      · exact ⟨j, rfl, fun h => ⟨a3 h, a2⟩, fun h => by omega⟩
      · simp only
        obtain ⟨r, e2, b1, b2, -⟩ := skip_while_spec iswblank hcb s hs fuel (j + 1) (a4 rfl)
          (by omega)
        exact ⟨r, e2, fun _ => ⟨by omega, b2⟩, fun h => by omega⟩
    · rw [if_neg h2]
      have hb : iswblank (char_at s i) = true := by simpa using h2
      have hlt := blank_inside s i hi hb
      obtain ⟨r, e2, b1, b2, -⟩ := skip_while_spec iswblank hcb s hs fuel (i + 1) hlt (by omega)
      exact ⟨r, e2, fun _ => ⟨by omega, b2⟩, fun h => by omega⟩

/-- One pass through the body of `next_end_of_viword_index` from an index `i`:
either the end of the string is returned, or an index `j` from `i` on inside
the string is reached before the test of `progress`. -/
theorem viword_round (s : List Char) (hs : NUL ∉ s) (hn : s.length < SIZE_MOD) (init : Nat)
    (progress : Bool) (fuel rounds i : Nat) (hi : i ≤ s.length) (hfuel : s.length < fuel) :
    next_end_of_viword_index_start s init progress fuel (rounds + 1) i = some s.length ∨
    ∃ j, i ≤ j ∧ j < s.length ∧
      next_end_of_viword_index_start s init progress fuel (rounds + 1) i =
        if j > init ∨ progress = false then some j
        else next_end_of_viword_index_start s init progress fuel rounds (j + 1) := by
  have hcw : is_viword_char NUL = false := by decide
  have hcb : iswblank NUL = false := by decide
  have hco : (fun c => decide (c ≠ NUL) && decide (c ≠ '_') && !iswblank c && !iswalnum c) NUL
      = false := by simp
  obtain ⟨b, e1, a1, a2, -⟩ := skip_while_spec iswblank hcb s hs fuel i hi (by omega)
  rw [next_end_of_viword_index_start, e1]
  simp only
  rw [wcs_read_at s hs b a2]
  simp only
  by_cases h0 : char_at s b = NUL
  · left
    rw [if_pos h0, char_at_eq_nul s hs b a2 h0]
  · right
    rw [if_neg h0]
    have hb : b < s.length := by
      rcases Nat.lt_or_eq_of_le a2 with h | h
      · exact h
      · rw [h, char_at_length] at h0; exact absurd rfl h0
    have key : ∀ e, b + 1 ≤ e → e ≤ s.length →
        ∃ j, i ≤ j ∧ j < s.length ∧
          (if size_sub e 1 > init ∨ progress = false then some (size_sub e 1)
            else next_end_of_viword_index_start s init progress fuel rounds
              ((size_sub e 1 + 1) % SIZE_MOD)) =
          if j > init ∨ progress = false then some j
          else next_end_of_viword_index_start s init progress fuel rounds (j + 1) := by
      intro e he1 he2
      have hsub : size_sub e 1 = e - 1 := size_sub_of_le _ _ (by omega) (by omega)
      have hadd : (e - 1 + 1) % SIZE_MOD = e - 1 + 1 := Nat.mod_eq_of_lt (by omega)
      exact ⟨e - 1, by omega, by omega, by rw [hsub, hadd]⟩
    by_cases hw : is_viword_char (char_at s b) = true
    · rw [if_pos hw]
      obtain ⟨e, e2, b1, b2, -⟩ := skip_while_spec is_viword_char hcw s hs fuel (b + 1) hb
        (by omega)
      rw [e2]
      exact key e b1 b2
    · rw [if_neg hw]
      obtain ⟨e, e2, b1, b2, -⟩ := skip_while_spec
        (fun c => decide (c ≠ NUL) && decide (c ≠ '_') && !iswblank c && !iswalnum c) hco s hs
        fuel (b + 1) hb (by omega)
      rw [e2]
      exact key e b1 b2

theorem next_end_of_viword_index_advances (s : List Char) (hs : NUL ∉ s)
    (hn : s.length < SIZE_MOD) (i fuel : Nat) (hi : i ≤ s.length)
    (hfuel : s.length + 2 ≤ fuel) :
    ∃ r, next_end_of_viword_index s i true fuel = some r ∧ index_advances s i r := by
  obtain ⟨m, hm⟩ : ∃ m, fuel = m + 2 := ⟨fuel - 2, by omega⟩
  unfold next_end_of_viword_index
  rw [hm]
  rcases viword_round s hs hn i true (m + 2) (m + 1) i hi (by omega) with h | ⟨j, j1, j2, j3⟩
  · rw [h]
    exact ⟨s.length, rfl, fun h1 => ⟨h1, le_refl _⟩, fun _ => rfl⟩
  · rw [j3]
    simp only [Bool.true_eq_false, or_false]
    by_cases hj : j > i
    · rw [if_pos hj]
      exact ⟨j, rfl, fun _ => ⟨hj, by omega⟩, fun h => by omega⟩
    · rw [if_neg hj]
      rcases viword_round s hs hn i true (m + 2) m (j + 1) (by omega) (by omega) with
        h | ⟨j', k1, k2, k3⟩
      · rw [h]
        exact ⟨s.length, rfl, fun h1 => ⟨h1, le_refl _⟩, fun _ => rfl⟩
      · rw [k3]
        simp only [Bool.true_eq_false, or_false]
        rw [if_pos (by omega)]
        exact ⟨j', rfl, fun _ => ⟨by omega, by omega⟩, fun h => by omega⟩

/-- C34: on a NUL-terminated string `s` of length `n` and an index `i ≤ n`,
each of `next_bigword_index`, `next_viword_index`, `next_nonword_index`,
`next_end_of_bigword_index` and `next_end_of_viword_index` (the last two with
`progress` set) returns, once `fuel` covers the string, an index `r` with
`i < r ≤ n` when `i < n`, and returns `n` when `i = n`; no character past the
terminating NUL is read. -/
theorem word_index_functions_advance (s : List Char) (i fuel : Nat) (hs : NUL ∉ s)
    (hn : s.length < SIZE_MOD) (hi : i ≤ s.length) (hfuel : s.length + 2 ≤ fuel) :
    (∃ r, next_bigword_index s i fuel = some r ∧
      (i < s.length → i < r ∧ r ≤ s.length) ∧ (i = s.length → r = s.length)) ∧
    (∃ r, next_viword_index s i fuel = some r ∧
      (i < s.length → i < r ∧ r ≤ s.length) ∧ (i = s.length → r = s.length)) ∧
    (∃ r, next_nonword_index s i fuel = some r ∧
      (i < s.length → i < r ∧ r ≤ s.length) ∧ (i = s.length → r = s.length)) ∧
    (∃ r, next_end_of_bigword_index s i true fuel = some r ∧
      (i < s.length → i < r ∧ r ≤ s.length) ∧ (i = s.length → r = s.length)) ∧
    (∃ r, next_end_of_viword_index s i true fuel = some r ∧
      (i < s.length → i < r ∧ r ≤ s.length) ∧ (i = s.length → r = s.length)) := by
  obtain ⟨r, h1, h2, -⟩ := next_end_of_bigword_index_spec s hs hn i fuel hi hfuel
  exact ⟨next_bigword_index_advances s hs i fuel hi (by omega),
    next_viword_index_advances s hs i fuel hi (by omega),
    next_nonword_index_advances s hs i fuel hi (by omega),
    ⟨r, h1, h2⟩,
    next_end_of_viword_index_advances s hs hn i fuel hi hfuel⟩

/-- Witness for `word_index_functions_advance`: in `ab, cd` from index 1 the
five functions return 4, 2, 2, 2 and 2. -/
theorem word_index_functions_advance_witness :
    next_bigword_index "ab, cd".toList 1 8 = some 4 ∧
    next_viword_index "ab, cd".toList 1 8 = some 2 ∧
    next_nonword_index "ab, cd".toList 1 8 = some 2 ∧
    next_end_of_bigword_index "ab, cd".toList 1 true 8 = some 2 ∧
    next_end_of_viword_index "ab, cd".toList 1 true 8 = some 2 ∧
    ∃ r, next_bigword_index "ab, cd".toList 1 8 = some r ∧
      (1 < "ab, cd".toList.length → 1 < r ∧ r ≤ "ab, cd".toList.length) ∧
      (1 = "ab, cd".toList.length → r = "ab, cd".toList.length) :=
  ⟨by decide, by decide, by decide, by decide, by decide,
    (word_index_functions_advance "ab, cd".toList 1 8 (by decide) (by decide) (by decide)
      (by decide)).1⟩

/-- C35 (amended): for an index `i < n` of a NUL-terminated string of length
`n`, `next_end_of_bigword_index` with `progress` set returns an index `r > i`
that is `n`, or the last index of a maximal run of non-blank characters, or,
when all characters after index `i` are blank, the index `n - 1` of the last
of these blanks. -/
theorem next_end_of_bigword_index_result (s : List Char) (i fuel : Nat) (hs : NUL ∉ s)
    (hn : s.length < SIZE_MOD) (hi : i < s.length) (hfuel : s.length + 2 ≤ fuel) :
    ∃ r, next_end_of_bigword_index s i true fuel = some r ∧ i < r ∧
      (r = s.length ∨
        (r < s.length ∧ iswblank (char_at s r) = false ∧
          (r + 1 = s.length ∨ iswblank (char_at s (r + 1)) = true)) ∨
        (r + 1 = s.length ∧ ∀ k, i < k → k < s.length → iswblank (char_at s k) = true)) := by
  obtain ⟨r, h1, h2, h3⟩ := next_end_of_bigword_index_spec s hs hn i fuel (by omega) hfuel
  exact ⟨r, h1, (h2.1 hi).1, h3 hi⟩

/-- Witness for `next_end_of_bigword_index_result`: in `ab, cd` from index 1
the result is 2, the index of the comma that ends the run `ab,`. -/
theorem next_end_of_bigword_index_result_witness :
    next_end_of_bigword_index "ab, cd".toList 1 true 8 = some 2 ∧
    ∃ r, next_end_of_bigword_index "ab, cd".toList 1 true 8 = some r ∧ 1 < r ∧
      (r = "ab, cd".toList.length ∨
        (r < "ab, cd".toList.length ∧ iswblank (char_at "ab, cd".toList r) = false ∧
          (r + 1 = "ab, cd".toList.length ∨
            iswblank (char_at "ab, cd".toList (r + 1)) = true)) ∨
        (r + 1 = "ab, cd".toList.length ∧
          ∀ k, 1 < k → k < "ab, cd".toList.length →
            iswblank (char_at "ab, cd".toList k) = true)) :=
  ⟨by decide,
    next_end_of_bigword_index_result "ab, cd".toList 1 8 (by decide) (by decide) (by decide)
      (by decide)⟩

/-- C35 (counterexample): in the string `a` followed by one blank (length 2),
from index 0 the function returns 1, which is not 2 and holds a blank. -/
theorem next_end_of_bigword_index_result_counterexample :
    next_end_of_bigword_index "a ".toList 0 true 4 = some 1 ∧
    (1 : Nat) ≠ "a ".toList.length ∧
    iswblank (char_at "a ".toList 1) = true ∧
    ¬ ((1 : Nat) = "a ".toList.length ∨
      (iswblank (char_at "a ".toList 1) = false ∧
        (1 + 1 = "a ".toList.length ∨ iswblank (char_at "a ".toList (1 + 1)) = true))) := by
  decide

/-! ## Theorems on get_signal_name -/

theorem digitChar_digit : ∀ k, k < 10 →
    isdigit (Nat.digitChar k) = true ∧ (Nat.digitChar k).toNat - '0'.toNat = k := by
  decide

theorem toDigitsCore_decimal (fuel : Nat) :
    ∀ (n : Nat) (ds : List Char), n < fuel →
      ∃ pre, Nat.toDigitsCore 10 fuel n ds = pre ++ ds ∧ pre ≠ [] ∧
        (∀ c ∈ pre, isdigit c = true) ∧ decimal_value pre = n := by
  induction fuel with
  | zero => intro n ds h; omega
  | succ k ih =>
    intro n ds hn
    obtain ⟨d1, d2⟩ := digitChar_digit (n % 10) (Nat.mod_lt _ (by decide))
    unfold Nat.toDigitsCore
    simp only
    by_cases h0 : n / 10 = 0
    · rw [if_pos h0]
      refine ⟨[Nat.digitChar (n % 10)], rfl, by simp, ?_, ?_⟩
      · intro c hc
        rw [List.mem_singleton] at hc
        rw [hc]; exact d1
      · have := decimal_value_concat [] (Nat.digitChar (n % 10))
        simp only [List.nil_append] at this
        rw [this, d2]
        have : decimal_value [] = 0 := rfl
        rw [this]
        omega
    · rw [if_neg h0]
      obtain ⟨pre, e, p1, p2, p3⟩ := ih (n / 10) (Nat.digitChar (n % 10) :: ds) (by omega)
      refine ⟨pre ++ [Nat.digitChar (n % 10)], by rw [e]; simp, by simp, ?_, ?_⟩
      · intro c hc
        rcases List.mem_append.1 hc with h | h
        · exact p2 c h
        · rw [List.mem_singleton] at h
          rw [h]; exact d1
      · rw [decimal_value_concat, p3, d2]
        omega

/-- The decimal digits `%d` writes for a natural number are digits, and they
are read back as that number. -/
theorem repr_decimal (n : Nat) :
    (Nat.repr n).toList ≠ [] ∧ (∀ c ∈ (Nat.repr n).toList, isdigit c = true) ∧
      decimal_value (Nat.repr n).toList = n := by
  obtain ⟨pre, e, p1, p2, p3⟩ := toDigitsCore_decimal (n + 1) n [] (by omega)
  have h : (Nat.repr n).toList = pre := by
    show Nat.toDigits 10 n = pre
    unfold Nat.toDigits
    rw [e, List.append_nil]
  rw [h]
  exact ⟨p1, p2, p3⟩

theorem get_signal_number_rtmin_plus (cfg : SigConfig) (hrt : cfg.has_rt = true)
    (hmax : cfg.SIGRTMAX < 2147483648)
    (hnames : ∀ s ∈ cfg.signals, "RT".toList.isPrefixOf s.2 = false) (ks : List Char)
    (hne : ks ≠ []) (hd : ∀ c ∈ ks, isdigit c = true)
    (hk : decimal_value ks ≤ cfg.SIGRTMAX - cfg.SIGRTMIN) (hle : cfg.SIGRTMIN ≤ cfg.SIGRTMAX) :
    get_signal_number cfg ("RTMIN+".toList ++ ks) =
      (cfg.SIGRTMIN : Int) + (decimal_value ks : Int) := by
  have e : "RTMIN+".toList ++ ks = 'R' :: 'T' :: ("MIN+".toList ++ ks) := rfl
  rw [e, get_signal_number_of_rt_name cfg hrt hnames]
  unfold get_signal_number_rt
  have h5 : strncmp ('R' :: 'T' :: ("MIN+".toList ++ ks)) "RTMIN".toList 5 = 0 :=
    (strncmp_zero_iff_starts_right "RTMIN".toList _).2 (by simp)
  rw [if_pos h5]
  have hdrop : ('R' :: 'T' :: ("MIN+".toList ++ ks)).drop 5 = '+' :: ks := by simp
  rw [hdrop]
  simp only
  rw [xstrtoi_plus_digits ks hne hd]
  unfold INT_MAX
  rw [if_pos (by omega)]
  simp only
  rw [if_neg (by omega)]

theorem get_signal_number_rtmax_minus (cfg : SigConfig) (hrt : cfg.has_rt = true)
    (hmax : cfg.SIGRTMAX < 2147483648)
    (hnames : ∀ s ∈ cfg.signals, "RT".toList.isPrefixOf s.2 = false) (ks : List Char)
    (hne : ks ≠ []) (hd : ∀ c ∈ ks, isdigit c = true)
    (hk : decimal_value ks ≤ cfg.SIGRTMAX - cfg.SIGRTMIN) (hle : cfg.SIGRTMIN ≤ cfg.SIGRTMAX) :
    get_signal_number cfg ("RTMAX-".toList ++ ks) =
      (cfg.SIGRTMAX : Int) - (decimal_value ks : Int) := by
  have e : "RTMAX-".toList ++ ks = 'R' :: 'T' :: ("MAX-".toList ++ ks) := rfl
  rw [e, get_signal_number_of_rt_name cfg hrt hnames]
  unfold get_signal_number_rt
  have h5 : ¬ strncmp ('R' :: 'T' :: ("MAX-".toList ++ ks)) "RTMIN".toList 5 = 0 := by
    intro h
    have := (strncmp_zero_iff_starts_right "RTMIN".toList _).1 h
    simp at this
  have h6 : strncmp ('R' :: 'T' :: ("MAX-".toList ++ ks)) "RTMAX".toList 5 = 0 :=
    (strncmp_zero_iff_starts_right "RTMAX".toList _).2 (by simp)
  rw [if_neg h5, if_pos h6]
  have hdrop : ('R' :: 'T' :: ("MAX-".toList ++ ks)).drop 5 = '-' :: ks := by simp
  rw [hdrop]
  simp only
  rw [xstrtoi_minus_digits ks hne hd]
  rw [if_pos (by omega)]
  simp only
  rw [if_neg (by omega)]
  omega

theorem get_signal_number_rt_plain (cfg : SigConfig) (hrt : cfg.has_rt = true)
    (hnames : ∀ s ∈ cfg.signals, "RT".toList.isPrefixOf s.2 = false) :
    get_signal_number cfg "RTMIN".toList = (cfg.SIGRTMIN : Int) ∧
    get_signal_number cfg "RTMAX".toList = (cfg.SIGRTMAX : Int) := by
  constructor
  · have e : "RTMIN".toList = 'R' :: 'T' :: "MIN".toList := rfl
    rw [e, get_signal_number_of_rt_name cfg hrt hnames]
    have h5 : strncmp ('R' :: 'T' :: "MIN".toList) "RTMIN".toList 5 = 0 := by decide
    unfold get_signal_number_rt
    rw [if_pos h5]
    rfl
  · have e : "RTMAX".toList = 'R' :: 'T' :: "MAX".toList := rfl
    rw [e, get_signal_number_of_rt_name cfg hrt hnames]
    have h5 : ¬ strncmp ('R' :: 'T' :: "MAX".toList) "RTMIN".toList 5 = 0 := by decide
    have h6 : strncmp ('R' :: 'T' :: "MAX".toList) "RTMAX".toList 5 = 0 := by decide
    unfold get_signal_number_rt
    rw [if_neg h5, if_pos h6]
    rfl

/-- C37: when the table `signals` holds positive `int` numbers, none of its
names starts with a digit, is `EXIT` or starts with `SIG` or (on a platform
with real-time signals) with `RT`, and entries with the same name have the
same number: for every number `n` that is 0, a number of the table or within
`SIGRTMIN .. SIGRTMAX`, `get_signal_number (get_signal_name n)` is `n`, and
for any other number `get_signal_name` returns `?`. -/
theorem signal_name_round_trip (cfg : SigConfig) (n : Int) (hok : signal_table_ok cfg)
    (hmax : cfg.SIGRTMAX < 2147483648)
    (hnames : cfg.has_rt = true → ∀ s ∈ cfg.signals, "RT".toList.isPrefixOf s.2 = false)
    (hfun : ∀ s ∈ cfg.signals, ∀ t ∈ cfg.signals, s.2 = t.2 → s.1 = t.1) :
    ((n = 0 ∨ (∃ s ∈ cfg.signals, (s.1 : Int) = n) ∨
        (cfg.has_rt = true ∧ (cfg.SIGRTMIN : Int) ≤ n ∧ n ≤ (cfg.SIGRTMAX : Int))) →
      get_signal_number cfg (get_signal_name cfg n) = n) ∧
    (¬ (n = 0 ∨ (∃ s ∈ cfg.signals, (s.1 : Int) = n) ∨
        (cfg.has_rt = true ∧ (cfg.SIGRTMIN : Int) ≤ n ∧ n ≤ (cfg.SIGRTMAX : Int))) →
      get_signal_name cfg n = "?".toList) := by
  unfold get_signal_name
  by_cases h0 : n = 0
  · rw [if_pos h0]
    refine ⟨fun _ => ?_, fun h => absurd (Or.inl h0) h⟩
    rw [h0]
    unfold get_signal_number
    rw [if_neg (by decide), if_pos rfl]
  rw [if_neg h0]
  by_cases hr : cfg.has_rt = true ∧ (cfg.SIGRTMIN : Int) ≤ n ∧ n ≤ (cfg.SIGRTMAX : Int)
  · rw [if_pos hr]
    refine ⟨fun _ => ?_, fun h => absurd (Or.inr (Or.inr hr)) h⟩
    obtain ⟨hrt, h1, h2⟩ := hr
    have hn := hnames hrt
    by_cases hmin : n = (cfg.SIGRTMIN : Int)
    · rw [if_pos hmin, hmin]
      exact (get_signal_number_rt_plain cfg hrt hn).1
    rw [if_neg hmin]
    by_cases hmx : n = (cfg.SIGRTMAX : Int)
    · rw [if_pos hmx, hmx]
      exact (get_signal_number_rt_plain cfg hrt hn).2
    rw [if_neg hmx]
    simp only
    split_ifs
    · obtain ⟨r1, r2, r3⟩ := repr_decimal (n - (cfg.SIGRTMIN : Int)).toNat
      rw [get_signal_number_rtmin_plus cfg hrt hmax hn _ r1 r2 (by rw [r3]; omega) (by omega),
        r3]
      omega
    · obtain ⟨r1, r2, r3⟩ := repr_decimal ((cfg.SIGRTMAX : Int) - n).toNat
      rw [get_signal_number_rtmax_minus cfg hrt hmax hn _ r1 r2 (by rw [r3]; omega)
        (by omega), r3]
      omega
  · rw [if_neg hr]
    cases hf : cfg.signals.find? (fun s => decide ((s.1 : Int) = n)) with
    | none =>
      simp only
      refine ⟨fun h => ?_, fun _ => trivial⟩
      rcases h with h | ⟨s, hs, hsn⟩ | h
      · exact absurd h h0
      · have := List.find?_eq_none.1 hf s hs
        simp only [decide_eq_true_eq] at this
        exact absurd hsn this
      · exact absurd h hr
    | some s =>
      simp only
      have hs := List.mem_of_find?_eq_some hf
      have hsn := List.find?_some hf
      simp only [decide_eq_true_eq] at hsn
      refine ⟨fun _ => ?_, fun h => absurd (Or.inr (Or.inl ⟨s, hs, hsn⟩)) h⟩
      obtain ⟨-, -, k1, k2, k3⟩ := hok s hs
      obtain ⟨t, ht, hname, hval, -⟩ := get_signal_number_name_found cfg s hs
      rw [get_signal_number_plain cfg s.2 k1 k2 k3, hval, hfun t ht s hs hname, hsn]

set_option maxRecDepth 100000 in
/-- Witness for `signal_name_round_trip`: on Linux, signal 37 is named
`RTMIN+3` and that name gives 37 back, and number 100 has the name `?`. -/
theorem signal_name_round_trip_witness :
    get_signal_name linux_config 37 = "RTMIN+3".toList ∧
    get_signal_number linux_config (get_signal_name linux_config 37) = 37 ∧
    get_signal_name linux_config 100 = "?".toList :=
  ⟨by decide,
    (signal_name_round_trip linux_config 37 (by decide) (by decide) (by decide)
      (by decide)).1 (by decide),
    (signal_name_round_trip linux_config 100 (by decide) (by decide) (by decide)
      (by decide)).2 (by decide)⟩

/-! ## Theorems on builtin_disown -/

theorem get_job_set_job (jt : JobTable) (i : Nat) (job : JOB)
    (hi : (get_job jt i).isSome = true) (j : Nat) :
    get_job (set_job jt i job) j = if j = i then some job else get_job jt j := by
  obtain ⟨h1, h2⟩ := get_job_some_bounds jt i hi
  unfold get_job set_job
  simp only [List.getD_eq_getElem?_getD, List.getElem?_set]
  by_cases hj : j = i
  · subst hj
    have h0 : ¬ j = 0 := by omega
    simp [h0, h2]
  · have hij : ¬ i = j := fun h => hj h.symm
    simp [hj, hij]

theorem parse_jobspec_loop_same (a b : JobTable) (h : same_names a b) (str : List Char)
    (is : List Nat) : ∀ n, parse_jobspec_loop a str is n = parse_jobspec_loop b str is n := by
  induction is with
  | nil => intro n; rfl
  | cons i rest ih =>
    intro n
    have hk := h.2.2 i
    unfold parse_jobspec_loop
    cases ha : get_job a i with
    | none =>
      rw [ha] at hk
      cases hb : get_job b i with
      | none => exact ih n
      | some jb => rw [hb] at hk; cases hk
    | some ja =>
      rw [ha] at hk
      cases hb : get_job b i with
      | none => rw [hb] at hk; cases hk
      | some jb =>
        rw [hb] at hk
        simp only [Option.map_some', Option.some.injEq] at hk
        simp only [hk, ih]

theorem get_job_isSome_same (a b : JobTable) (h : same_names a b) (k : Nat) :
    (get_job a k).isSome = (get_job b k).isSome := by
  have hk := h.2.2 k
  cases ha : get_job a k <;> cases hb : get_job b k <;> rw [ha, hb] at hk <;>
    first | rfl | cases hk

theorem parse_jobspec_same (a b : JobTable) (h : same_names a b) (str : List Char)
    (forcePercent : Bool) : parse_jobspec a str forcePercent = parse_jobspec b str forcePercent := by
  have hbody : ∀ s, parse_jobspec_body a s = parse_jobspec_body b s := by
    intro s
    unfold parse_jobspec_body job_indices
    simp only [get_job_isSome_same a b h, h.1, parse_jobspec_loop_same a b h]
  unfold parse_jobspec
  simp only [hbody, get_job_isSome_same a b h, h.2.1]

theorem disown_job_nohup (remove_job : JobTable → Nat → JobTable) (f : Nat) (r : Bool)
    (jt : JobTable) (i j : Nat) :
    get_job (disown_job remove_job f r true jt i) j =
      if j = i then (get_job jt i).map (disown_mark f r) else get_job jt j := by
  unfold disown_job
  cases hg : get_job jt i with
  | none =>
    simp only [Option.map_none']
    split_ifs with h
    · rw [h, hg]
    · rfl
  | some job =>
    simp only [Option.map_some', disown_mark]
    by_cases hr : r = true ∧ job.j_status ≠ JobStatus.JS_RUNNING
    · rw [if_pos hr, if_pos hr]
      split_ifs with h
      · rw [h, hg]
      · rfl
    · rw [if_neg hr, if_neg hr, if_pos trivial]
      exact get_job_set_job jt i _ (by rw [hg]; rfl) j

theorem disown_mark_name (f : Nat) (r : Bool) (job : JOB) :
    (disown_mark f r job).j_name = job.j_name ∧
    (disown_mark f r job).j_status = job.j_status := by
  unfold disown_mark mark_nohup
  split_ifs <;> exact ⟨rfl, rfl⟩

theorem disown_mark_twice (f : Nat) (r : Bool) (job : JOB) :
    disown_mark f r (disown_mark f r job) = disown_mark f r job := by
  unfold disown_mark
  by_cases hr : r = true ∧ job.j_status ≠ JobStatus.JS_RUNNING
  · simp only [if_pos hr]
  · have h2 : ¬ (r = true ∧ (mark_nohup f job).j_status ≠ JobStatus.JS_RUNNING) := hr
    simp only [if_neg hr, if_neg h2]
    unfold mark_nohup
    simp only [Nat.or_assoc, Nat.or_self]

theorem disown_job_same_names (remove_job : JobTable → Nat → JobTable) (f : Nat) (r : Bool)
    (jt : JobTable) (i : Nat) : same_names (disown_job remove_job f r true jt i) jt := by
  refine ⟨?_, ?_, fun k => ?_⟩
  · unfold disown_job
    split
    · rfl
    · split_ifs
      · rfl
      · simp [set_job]
      · simp at *
  · unfold disown_job
    split
    · rfl
    · split_ifs
      · rfl
      · rfl
      · simp at *
  · rw [disown_job_nohup]
    split_ifs with h
    · rw [h]
      cases get_job jt i with
      | none => rfl
      | some job => simp [(disown_mark_name f r job).1]
    · rfl

theorem same_names_trans (a b c : JobTable) (h1 : same_names a b) (h2 : same_names b c) :
    same_names a c :=
  ⟨h1.1.trans h2.1, h1.2.1.trans h2.2.1, fun k => (h1.2.2 k).trans (h2.2.2 k)⟩

theorem disown_all_nohup (remove_job : JobTable → Nat → JobTable) (f : Nat) (r : Bool)
    (k : Nat) : ∀ (jt : JobTable) (j : Nat),
      get_job (disown_all remove_job f r true k jt) j =
        if j ≤ k then (get_job jt j).map (disown_mark f r) else get_job jt j := by
  induction k with
  | zero =>
    intro jt j
    unfold disown_all
    split_ifs with h
    · have : j = 0 := by omega
      rw [this]
      rfl
    · rfl
  | succ k ih =>
    intro jt j
    unfold disown_all
    rw [ih, disown_job_nohup]
    by_cases h1 : j ≤ k
    · rw [if_pos h1, if_neg (by omega), if_pos (by omega)]
    · rw [if_neg h1]
      by_cases h2 : j = k + 1
      · rw [if_pos h2, if_pos (by omega), h2]
      · rw [if_neg h2, if_neg (by omega)]

theorem get_job_beyond (jt : JobTable) (j : Nat) (h : jt.joblist.length < j) :
    get_job jt j = none := by
  cases hg : get_job jt j with
  | none => rfl
  | some job =>
    have := (get_job_some_bounds jt j (by rw [hg]; rfl)).2
    omega

theorem disown_operands_nohup (remove_job : JobTable → Nat → JobTable) (f : Nat) (r : Bool)
    (argv0 : List Char) (jt0 : JobTable) (targets : List (List Char)) :
    ∀ (jt : JobTable) (io : Streams) (err : Bool), same_names jt jt0 → ∀ j : Nat,
      get_job (disown_operands remove_job f r true argv0 targets jt io err).1 j =
        (get_job jt j).map fun job =>
          if ∃ t ∈ targets, parse_jobspec jt0 t false = (j : Int) then disown_mark f r job
          else job := by
  induction targets with
  | nil =>
    intro jt io err _ j
    simp [disown_operands]
  | cons t rest ih =>
    intro jt io err hs j
    have hp : parse_jobspec jt t false = parse_jobspec jt0 t false :=
      parse_jobspec_same jt jt0 hs t false
    unfold disown_operands
    simp only [hp]
    by_cases hneg : parse_jobspec jt0 t false < 0
    · rw [if_pos hneg, ih jt _ _ hs j]
      have hne : ¬ parse_jobspec jt0 t false = (j : Int) := by omega
      simp only [List.mem_cons, exists_eq_or_imp, hne, false_or]
    · rw [if_neg hneg]
      have hs1 := same_names_trans _ _ _
        (disown_job_same_names remove_job f r jt (parse_jobspec jt0 t false).toNat) hs
      rw [ih _ io err hs1 j, disown_job_nohup]
      by_cases hj : j = (parse_jobspec jt0 t false).toNat
      · have hje : parse_jobspec jt0 t false = (j : Int) := by omega
        rw [if_pos hj, ← hj]
        cases get_job jt j with
        | none => rfl
        | some job =>
          simp only [Option.map_some', List.mem_cons, exists_eq_or_imp, hje, true_or, if_true]
          split_ifs
          · rw [disown_mark_twice]
          · rfl
      · have hje : ¬ parse_jobspec jt0 t false = (j : Int) := by omega
        rw [if_neg hj]
        simp only [List.mem_cons, exists_eq_or_imp, hje, false_or]

theorem disown_job_frame (remove_job : JobTable → Nat → JobTable) (f : Nat) (r nh : Bool)
    (hrem : ∀ t i j, j ≠ i → get_job (remove_job t i) j = get_job t j)
    (jt : JobTable) (i j : Nat) (hj : j ≠ i) :
    get_job (disown_job remove_job f r nh jt i) j = get_job jt j := by
  unfold disown_job
  cases hg : get_job jt i with
  | none => rfl
  | some job =>
    simp only
    split_ifs
    · rfl
    · rw [get_job_set_job jt i _ (by rw [hg]; rfl) j, if_neg hj]
    · exact hrem jt i j hj

theorem disown_job_keeps (remove_job : JobTable → Nat → JobTable) (f : Nat) (nh : Bool)
    (hrem : ∀ t i j, j ≠ i → get_job (remove_job t i) j = get_job t j)
    (jt : JobTable) (i j : Nat) (job : JOB) (hg : get_job jt j = some job)
    (hs : job.j_status ≠ JobStatus.JS_RUNNING) :
    get_job (disown_job remove_job f true nh jt i) j = some job := by
  by_cases hj : j = i
  · subst hj
    unfold disown_job
    rw [hg]
    simp only
    rw [if_pos ⟨trivial, hs⟩, hg]
  · rw [disown_job_frame remove_job f true nh hrem jt i j hj, hg]

theorem disown_all_keeps (remove_job : JobTable → Nat → JobTable) (f : Nat) (nh : Bool)
    (hrem : ∀ t i j, j ≠ i → get_job (remove_job t i) j = get_job t j) (j : Nat) (job : JOB)
    (hs : job.j_status ≠ JobStatus.JS_RUNNING) (k : Nat) :
    ∀ jt : JobTable, get_job jt j = some job →
      get_job (disown_all remove_job f true nh k jt) j = some job := by
  induction k with
  | zero => intro jt hg; exact hg
  | succ k ih =>
    intro jt hg
    unfold disown_all
    exact ih _ (disown_job_keeps remove_job f nh hrem jt (k + 1) j job hg hs)

theorem disown_operands_keeps (remove_job : JobTable → Nat → JobTable) (f : Nat) (nh : Bool)
    (argv0 : List Char)
    (hrem : ∀ t i j, j ≠ i → get_job (remove_job t i) j = get_job t j) (j : Nat) (job : JOB)
    (hs : job.j_status ≠ JobStatus.JS_RUNNING) (targets : List (List Char)) :
    ∀ (jt : JobTable) (io : Streams) (err : Bool), get_job jt j = some job →
      get_job (disown_operands remove_job f true nh argv0 targets jt io err).1 j =
        some job := by
  induction targets with
  | nil => intro jt io err hg; exact hg
  | cons t rest ih =>
    intro jt io err hg
    unfold disown_operands
    simp only
    by_cases hneg : parse_jobspec jt t false < 0
    · rw [if_pos hneg]
      exact ih _ _ _ hg
    · rw [if_neg hneg]
      exact ih _ _ _ (disown_job_keeps remove_job f nh hrem jt _ j job hg hs)

theorem disown_operands_frame (remove_job : JobTable → Nat → JobTable) (f : Nat)
    (r nh : Bool) (argv0 : List Char)
    (hrem : ∀ t i j, j ≠ i → get_job (remove_job t i) j = get_job t j) (j : Nat)
    (targets : List (List Char)) :
    ∀ (jt : JobTable) (io : Streams) (err : Bool),
      (∀ pre t post, targets = pre ++ t :: post →
        parse_jobspec (disown_operands remove_job f r nh argv0 pre jt io err).1 t false ≠
          (j : Int)) →
      get_job (disown_operands remove_job f r nh argv0 targets jt io err).1 j =
        get_job jt j := by
  induction targets with
  | nil => intro jt io err _; rfl
  | cons t rest ih =>
    intro jt io err h
    have h0 : parse_jobspec jt t false ≠ (j : Int) := h [] t rest rfl
    unfold disown_operands
    simp only
    by_cases hneg : parse_jobspec jt t false < 0
    · rw [if_pos hneg]
      rw [ih jt _ true]
      intro pre t' post hsplit
      have := h (t :: pre) t' post (by rw [hsplit]; rfl)
      rw [disown_operands] at this
      simp only [if_pos hneg] at this
      exact this
    · rw [if_neg hneg]
      rw [ih _ io err]
      · exact disown_job_frame remove_job f r nh hrem jt _ j (by omega)
      · intro pre t' post hsplit
        have := h (t :: pre) t' post (by rw [hsplit]; rfl)
        rw [disown_operands] at this
        simp only [if_neg hneg] at this
        exact this

theorem mark_nohup_flag (f : Nat) (job : JOB) :
    (mark_nohup f job).j_flags &&& f = f := by
  unfold mark_nohup
  apply Nat.eq_of_testBit_eq
  intro i
  simp only [Nat.testBit_and, Nat.testBit_or]
  cases Nat.testBit job.j_flags i <;> cases Nat.testBit f i <;> rfl

theorem same_names_refl (jt : JobTable) : same_names jt jt := ⟨rfl, rfl, fun _ => rfl⟩

theorem sample_remove_job_frame (t : JobTable) (i j : Nat) (h : j ≠ i) :
    get_job (sample_remove_job t i) j = get_job t j := by
  have hij : ¬ i = j := fun e => h e.symm
  unfold get_job sample_remove_job
  simp only [List.getD_eq_getElem?_getD, List.getElem?_set, hij, if_false]

/-- C31: for `builtin_disown` run with valid options, `remove_job` being any
function that leaves the jobs under other numbers alone:
with `-h` every job of the table is still there afterwards, flagged with
`JF_NOHUP` when it is selected (any job when `-a` is given or there is no
operand, else a job that an operand resolves to; with `-r` only if it is
running) and unchanged otherwise, and the flagged job has the bit set;
with `-r` a job that is not running stays in the table unchanged;
and with operands and no `-a` a job whose number no operand resolves to, in
the table as it is when that operand is reached, is unchanged. -/
theorem builtin_disown_selected (remove_job : JobTable → Nat → JobTable) (JF_NOHUP : Nat)
    (o : DisownFlags) (argv0 : List Char) (operands : List (List Char)) (jt : JobTable)
    (io : Streams) (hrem : ∀ t i j, j ≠ i → get_job (remove_job t i) j = get_job t j) :
    (o.nohup = true → ∀ j : Nat,
      get_job (builtin_disown remove_job JF_NOHUP (some o) argv0 operands jt io).2.1 j =
        (get_job jt j).map fun job =>
          if o.all = true ∨ operands = [] ∨
              ∃ t ∈ operands, parse_jobspec jt t false = (j : Int)
          then disown_mark JF_NOHUP o.runningonly job else job) ∧
    (∀ job : JOB, (mark_nohup JF_NOHUP job).j_flags &&& JF_NOHUP = JF_NOHUP) ∧
    (o.runningonly = true → ∀ (j : Nat) (job : JOB), get_job jt j = some job →
      job.j_status ≠ JobStatus.JS_RUNNING →
      get_job (builtin_disown remove_job JF_NOHUP (some o) argv0 operands jt io).2.1 j =
        some job) ∧
    (o.all = false → operands ≠ [] → ∀ j : Nat,
      (∀ pre t post, operands = pre ++ t :: post →
        parse_jobspec (disown_operands remove_job JF_NOHUP o.runningonly o.nohup argv0 pre jt
          io false).1 t false ≠ (j : Int)) →
      get_job (builtin_disown remove_job JF_NOHUP (some o) argv0 operands jt io).2.1 j =
        get_job jt j) := by
  refine ⟨fun hnh j => ?_, mark_nohup_flag JF_NOHUP, fun hr j job hg hs => ?_,
    fun ha hne j h => ?_⟩
  · unfold builtin_disown
    simp only [hnh]
    by_cases hall : o.all = true ∨ operands = []
    · rw [if_pos hall]
      simp only
      rw [disown_all_nohup]
      have hsel : (o.all = true ∨ operands = [] ∨
          ∃ t ∈ operands, parse_jobspec jt t false = (j : Int)) := by
        rcases hall with h | h
        · exact Or.inl h
        · exact Or.inr (Or.inl h)
      simp only [hsel, if_true]
      split_ifs with hj
      · rfl
      · rw [get_job_beyond jt j (by omega)]
        rfl
    · rw [if_neg hall]
      simp only
      rw [disown_operands_nohup remove_job JF_NOHUP o.runningonly argv0 jt operands jt io false
        (same_names_refl jt) j]
      have h1 : ¬ o.all = true := fun h => hall (Or.inl h)
      have h2 : ¬ operands = [] := fun h => hall (Or.inr h)
      simp only [h1, h2, false_or, Bool.false_eq_true]
  · unfold builtin_disown
    simp only [hr]
    split_ifs
    · exact disown_all_keeps remove_job JF_NOHUP o.nohup hrem j job hs _ jt hg
    · exact disown_operands_keeps remove_job JF_NOHUP o.nohup argv0 hrem j job hs operands jt
        io false hg
    · exact disown_operands_keeps remove_job JF_NOHUP o.nohup argv0 hrem j job hs operands jt
        io false hg
  · unfold builtin_disown
    have hall : ¬ (o.all = true ∨ operands = []) := by
      rintro (h1 | h1)
      · rw [ha] at h1; cases h1
      · exact hne h1
    simp only [if_neg hall]
    exact disown_operands_frame remove_job JF_NOHUP o.runningonly o.nohup argv0 hrem j operands
      jt io false h

set_option maxRecDepth 100000 in
/-- Witness for `builtin_disown_selected`: `disown -r -h %2 %3` on a table
whose job 2 is stopped and whose jobs 1 and 3 run flags job 3 only, and job 2
is as before. -/
theorem builtin_disown_selected_witness :
    (builtin_disown sample_remove_job 1 (some ⟨false, true, true⟩) "disown".toList
        ["%2".toList, "%3".toList] three_jobs ⟨[], []⟩).2.1.joblist.map
      (Option.map JOB.j_flags) = [none, some 0, some 0, some 1] ∧
    get_job (builtin_disown sample_remove_job 1 (some ⟨false, true, true⟩) "disown".toList
        ["%2".toList, "%3".toList] three_jobs ⟨[], []⟩).2.1 2 =
      some { j_pgid := 200, j_pids := [200], j_name := "vi notes".toList
             j_status := JobStatus.JS_STOPPED } :=
  ⟨by decide,
    (builtin_disown_selected sample_remove_job 1 ⟨false, true, true⟩ "disown".toList
      ["%2".toList, "%3".toList] three_jobs ⟨[], []⟩ sample_remove_job_frame).2.2.1 rfl 2 _
      (by decide) (by decide)⟩

/-! ## Theorems on the undo history while the cursor stays inside the line -/

theorem save_undo_history_inv (s : EditState) (hi : s.undo_index ≤ s.undo_history.length)
    (hsnap : ∀ e ∈ s.undo_history, e.index ≤ e.contents.length)
    (hcur : s.le_main_index ≤ s.le_main_buffer.length) :
    undo_inv (save_undo_history s) ∧
    (save_undo_history s).assert_failed = s.assert_failed ∧
    (save_undo_history s).le_main_buffer = s.le_main_buffer ∧
    (save_undo_history s).le_main_index = s.le_main_index := by
  have hlen : (List.take s.undo_index s.undo_history ++
      [(⟨s.le_main_index, s.le_main_buffer⟩ : UndoEntry)]).length = s.undo_index + 1 := by
    simp only [List.length_append, List.length_take, List.length_singleton]
    omega
  unfold save_undo_history
  simp only
  rw [c_assert_of_true _ _ (by rw [hlen]; simp)]
  refine ⟨⟨?_, ?_, ?_⟩, rfl, rfl, rfl⟩
  · show s.undo_index < _
    rw [hlen]; omega
  · intro e he
    rcases List.mem_append.1 he with h | h
    · exact hsnap e (List.mem_of_mem_take h)
    · rw [List.mem_singleton] at h
      rw [h]; exact hcur
  · intro h
    exact absurd rfl h

/-- Entered with the cursor inside the line and the undo history in order,
`maybe_save_undo_history` passes its assertions and leaves the undo history in
order and the line as it is. -/
theorem maybe_save_undo_history_inv (s : EditState) (hinv : undo_inv s)
    (hcur : cursor_in_range s) :
    undo_inv (maybe_save_undo_history s) ∧
    (maybe_save_undo_history s).assert_failed = s.assert_failed ∧
    (maybe_save_undo_history s).le_main_buffer = s.le_main_buffer ∧
    (maybe_save_undo_history s).le_main_index = s.le_main_index := by
  obtain ⟨h1, h2, h3⟩ := hinv
  unfold cursor_in_range at hcur
  unfold maybe_save_undo_history
  rw [c_assert_of_true _ _ (decide_eq_true (Nat.le_of_lt h1))]
  simp only
  by_cases he : s.undo_history_entry = s.main_history_entry
  · rw [if_pos he, if_pos h1]
    by_cases hb : s.le_main_buffer = (s.undo_history.getD s.undo_index ⟨0, []⟩).contents
    · rw [if_pos hb]
      refine ⟨⟨?_, ?_, ?_⟩, rfl, rfl, rfl⟩
      · show s.undo_index < _
        rw [List.length_set]; exact h1
      · intro e hmem
        rcases List.mem_or_eq_of_mem_set hmem with h | h
        · exact h2 e h
        · rw [h]
          show s.le_main_index ≤ _
          rw [← hb]; exact hcur
      · intro h
        exact absurd he h
    · rw [if_neg hb]
      exact save_undo_history_inv
        { s with undo_save_index := s.le_main_index, undo_index := s.undo_index + 1 }
        (Nat.succ_le_of_lt h1) h2 hcur
  · rw [if_neg he]
    by_cases hb : s.le_main_buffer = s.main_history_value
    · rw [if_pos hb]
      refine ⟨⟨h1, h2, fun _ => ?_⟩, rfl, rfl, rfl⟩
      show s.le_main_index ≤ _
      rw [← hb]; exact hcur
    · rw [if_neg hb, c_assert_of_true _ _ (decide_eq_true (h3 he))]
      exact save_undo_history_inv
        { s with
          undo_save_index := s.le_main_index
          undo_history := [⟨s.undo_save_index, s.main_history_value⟩]
          undo_index := 1 }
        (by simp) (by
          intro e hmem
          rw [List.mem_singleton] at hmem
          rw [hmem]; exact h3 he) hcur

theorem restore_undo_entry_inv (k : Nat) (s : EditState) (hinv : undo_inv s)
    (hk : k < s.undo_history.length) :
    undo_inv (restore_undo_entry k s) ∧
    (restore_undo_entry k s).assert_failed = s.assert_failed ∧
    cursor_in_range (restore_undo_entry k s) := by
  obtain ⟨h1, h2, h3⟩ := hinv
  have hmem : s.undo_history.getD k ⟨0, []⟩ ∈ s.undo_history := by
    rw [List.getD_eq_getElem?_getD, List.getElem?_eq_getElem hk]
    exact List.getElem_mem hk
  have hle := h2 _ hmem
  unfold restore_undo_entry
  simp only
  rw [c_assert_of_true _ _ (decide_eq_true hle)]
  exact ⟨⟨hk, h2, h3⟩, rfl, hle⟩

theorem cmd_alert_inv (s : EditState) (hinv : undo_inv s) (hcur : cursor_in_range s) :
    undo_inv (cmd_alert s) ∧ (cmd_alert s).assert_failed = s.assert_failed ∧
    cursor_in_range (cmd_alert s) :=
  ⟨hinv, rfl, hcur⟩

/-- Entered with the cursor inside the line and the undo history in order,
`cancel_undo` passes its assertions and those of `maybe_save_undo_history`,
and leaves the undo history in order and the cursor inside the line. -/
theorem cancel_undo_inv (offset : Int) (s : EditState) (hinv : undo_inv s)
    (hcur : cursor_in_range s) :
    undo_inv (cancel_undo offset s) ∧
    (cancel_undo offset s).assert_failed = s.assert_failed ∧
    cursor_in_range (cancel_undo offset s) := by
  obtain ⟨m1, m2, m3, m4⟩ := maybe_save_undo_history_inv s hinv hcur
  have mcur : cursor_in_range (maybe_save_undo_history s) := by
    unfold cursor_in_range; rw [m3, m4]; exact hcur
  unfold cancel_undo
  simp only
  generalize maybe_save_undo_history s = u at m1 m2 mcur
  have hlt := m1.1
  rw [← m2]
  split_ifs
  · exact cmd_alert_inv u m1 mcur
  · exact restore_undo_entry_inv 0 u m1 (by omega)
  · exact restore_undo_entry_inv _ u m1 (by omega)
  · exact cmd_alert_inv u m1 mcur
  · exact restore_undo_entry_inv _ u m1 (by omega)
  · exact restore_undo_entry_inv _ u m1 (by omega)

/-- Entered with the cursor inside the line and the undo history in order,
`go_to_history` passes its assertions and those of `maybe_save_undo_history`,
and leaves the undo history in order and the cursor inside the line. -/
theorem go_to_history_inv (hist : History) (e : Nat) (cursorend : Bool) (s : EditState)
    (hinv : undo_inv s) (hcur : cursor_in_range s) :
    undo_inv (go_to_history hist e cursorend s) ∧
    (go_to_history hist e cursorend s).assert_failed = s.assert_failed ∧
    cursor_in_range (go_to_history hist e cursorend s) := by
  obtain ⟨m1, m2, -, -⟩ := maybe_save_undo_history_inv s hinv hcur
  unfold go_to_history
  simp only
  generalize maybe_save_undo_history s = u at m1 m2
  obtain ⟨h1, h2, h3⟩ := m1
  rw [← m2]
  by_cases hb : e = u.undo_history_entry ∧ u.undo_index < u.undo_history.length
  · have hmem : u.undo_history.getD u.undo_index ⟨0, []⟩ ∈ u.undo_history := by
      rw [List.getD_eq_getElem?_getD, List.getElem?_eq_getElem h1]
      exact List.getElem_mem h1
    have hle := h2 _ hmem
    simp only [if_pos hb, List.nil_append]
    rw [c_assert_of_true _ _ (decide_eq_true hle)]
    exact ⟨⟨h1, h2, fun _ => hle⟩, rfl, hle⟩
  · simp only [if_neg hb]
    by_cases h0 : e ≠ Histlist
    · simp only [if_pos h0, List.nil_append, reset_state]
      refine ⟨⟨h1, h2, fun _ => ?_⟩, trivial, ?_⟩
      · show (if cursorend = true then (hist_value hist e).length else 0) ≤ _
        split_ifs <;> simp
      · show (if cursorend = true then (hist_value hist e).length else 0) ≤ _
        split_ifs <;> simp
    · simp only [if_neg h0, reset_state]
      exact ⟨⟨h1, h2, fun _ => Nat.zero_le _⟩, trivial, Nat.zero_le _⟩

/-- The editor satisfies `undo_inv` with the cursor inside the line when
`le_editing_init` returns. -/
theorem le_editing_init_undo_inv (vi : Bool) :
    undo_inv (le_editing_init vi startup_state) ∧
    cursor_in_range (le_editing_init vi startup_state) := by
  cases vi <;> decide

end Yash
